import Mathlib

/-!
# CustomSGL: a verification development

A shallow embedding of the rasteriser half of the SGL library
(`src/src/*.cpp`), and of the ray and primitive intersection functions, the
row bands and the recursion of `traceRay` of its ray tracer, together with
theorems about it.

Conventions of the embedding.

* C `float` values are rationals (`ℚ`).  Where the outcome of an operation
  depends on its rounding, the result is rounded to binary32 (`F32.round`,
  round to nearest, ties to even): the depth test, the way of a vertex to the
  screen (matrix-vector product, perspective division, the entries of the
  viewport matrix), the radius of a circle, `Matrix::Invert`, the edges of
  `fillPolygon`, and the two `IntersectWithRay`.  A function with a parameter
  `fl` is translated once from the source, with `fl` applied to the result of
  every `float` operation; the program is its instance at `F32.round`, and
  the instance at `id` is the same code in exact arithmetic.  Elsewhere
  (matrix products, depth interpolation, shading) the arithmetic is exact.
  NaN and the infinities of an overflow are not represented: `x / 0 = 0` as
  everywhere in Mathlib, and `Matrix::operator/` by zero has no result
  (`none`).  The one infinity the code itself writes, the cleared depth
  `std::numeric_limits<float>::infinity()`, is modelled by `⊤ : WithTop ℚ`,
  the type of depth-buffer entries.
* C `int` values are integers (`ℤ`), `unsigned` and `size_t` naturals (`ℕ`).
  Where an `int` expression of the code can leave the range of `int`
  (`width * height`, the squared length of a line, the decision variable of a
  circle, the differences of an edge) its value is `wrapInt32` of the
  mathematical result; the conversion of a `float` to `int` is `floatToInt`.
* The enumerations of the (absent) header `sgl.h` are integer codes, so that
  an argument outside the enumeration's domain is representable.
* The functions of the C math library that are not rational (square root,
  sine, cosine) are parameters, collected in `Libm`; `RayMath` adds `acos`
  and `pow` for the ray tracer.
* A loop whose exit depends on the data, and the recursion of `traceRay`,
  take a bound on the iterations or nested calls and return `none` when it
  runs out; `traceRay` records the `depth` argument of every call it makes.
* A command returns `none` when the C++ code throws (`vector::at` out of
  range, a negative buffer size) or looks up a context that does not exist.
* `operator[]` on a buffer outside its range is undefined behaviour in C++;
  in `runPlots` such a write is dropped and such a read yields a default
  value, and `runDefinedPlots` has no result (`none`) when a submission
  reaches outside a buffer.
* A reference parameter that a function assigns (`float& tHit`) is passed in
  and its value after the call is returned next to the result; a pointer into
  a vector is modelled by the index of the element it points to.
-/

/-- Mathlib's 4x4 rational matrices, used to state the algebra of `SGL.Matrix`. -/
abbrev Mat4 : Type := Matrix (Fin 4) (Fin 4) ℚ

namespace SGL

/-! ## Enumerations of `sgl.h` -/

/-- Modelled from the spec: `sglEErrorCode` of the absent header `sgl.h`;
the codes in the order of the string table of `sglGetErrorString`. -/
abbrev sglEErrorCode : Type := ℤ

def SGL_NO_ERROR : sglEErrorCode := 0
def SGL_INVALID_VALUE : sglEErrorCode := 1
def SGL_INVALID_ENUM : sglEErrorCode := 2
def SGL_INVALID_OPERATION : sglEErrorCode := 3
def SGL_OUT_OF_RESOURCES : sglEErrorCode := 4
def SGL_INTERNAL_ERROR : sglEErrorCode := 5
def SGL_STACK_OVERFLOW : sglEErrorCode := 6
def SGL_STACK_UNDERFLOW : sglEErrorCode := 7
def SGL_OUT_OF_MEMORY : sglEErrorCode := 8

/-- Modelled from the spec: `sglEMatrixMode` of the absent header `sgl.h`
(`MODELVIEW = 0`, `PROJECTION = 1`). -/
abbrev sglEMatrixMode : Type := ℤ

def SGL_MODELVIEW : sglEMatrixMode := 0
def SGL_PROJECTION : sglEMatrixMode := 1

/-- Modelled from the spec: `sglEElementType` of the absent header `sgl.h`
(`POINTS, LINES, LINE_STRIP, LINE_LOOP, TRIANGLES, POLYGON`, numbered from 1). -/
abbrev sglEElementType : Type := ℤ

def SGL_POINTS : sglEElementType := 1
def SGL_LINES : sglEElementType := 2
def SGL_LINE_STRIP : sglEElementType := 3
def SGL_LINE_LOOP : sglEElementType := 4
def SGL_TRIANGLES : sglEElementType := 5
def SGL_POLYGON : sglEElementType := 6

/-- Modelled from the spec: `sglEAreaMode` of the absent header `sgl.h`
(`POINT, LINE, FILL`). -/
abbrev sglEAreaMode : Type := ℤ

def SGL_POINT : sglEAreaMode := 0
def SGL_LINE : sglEAreaMode := 1
def SGL_FILL : sglEAreaMode := 2

/-- Modelled from the spec: `sglEEnableFlags` of the absent header `sgl.h`
(the single capability `DEPTH_TEST`). -/
abbrev sglEEnableFlags : Type := ℤ

def SGL_DEPTH_TEST : sglEEnableFlags := 1

/-- Modelled from the spec: the clear-mask bit `COLOR_BUFFER_BIT` of `sgl.h`. -/
def SGL_COLOR_BUFFER_BIT : ℕ := 1

/-- Modelled from the spec: the clear-mask bit `DEPTH_BUFFER_BIT` of `sgl.h`. -/
def SGL_DEPTH_BUFFER_BIT : ℕ := 2

/-! ## Machine numbers -/

/-- The value of an `int` expression whose mathematical result is `n`: the
program stores the result modulo `2 ^ 32` in the range of `int` (two's
complement; the C++ standard leaves the overflow undefined). -/
def wrapInt32 (n : ℤ) : ℤ := (n + 2 ^ 31) % 2 ^ 32 - 2 ^ 31

namespace F32

/-- The number of halvings that bring `n` below 2, `⌊log₂ n⌋` for `n > 0`,
at most `fuel` of them. -/
def log2 : ℕ → ℕ → ℕ
  | 0, _ => 0
  | fuel + 1, n => if n < 2 then 0 else log2 fuel (n / 2) + 1

/-- The exponent `⌊log₂ (n / d)⌋` of a positive quotient. -/
def binade (n d : ℕ) : ℤ :=
  let e : ℤ := (log2 n n : ℤ) - (log2 d d : ℤ)
  if n * 2 ^ (-e).toNat < d * 2 ^ e.toNat then e - 1 else e

/-- The integer nearest to the quotient `a / b`, the even one of two equally
near. -/
def nearestEven (a b : ℕ) : ℕ :=
  let k := a / b
  let r := a % b
  if 2 * r < b then k else if b < 2 * r then k + 1 else if k % 2 = 0 then k else k + 1

/-- The binary32 value of a real result: the nearest multiple of
`2 ^ (e - 23)`, where `2 ^ e` is the power of two at or below the magnitude
(and `e - 23` is at least `-149`), ties to the even multiple.  Infinities and
NaN are not represented: a magnitude beyond the largest `float` is rounded the
same way. -/
def round (q : ℚ) : ℚ :=
  let n := q.num.natAbs
  let d := q.den
  if n = 0 then 0
  else
    let e := binade n d
    let p : ℤ := if e - 23 < -149 then -149 else e - 23
    let m := nearestEven (n * 2 ^ (-p).toNat) (d * 2 ^ p.toNat)
    let r : ℚ := ((m * 2 ^ p.toNat : ℕ) : ℚ) / ((2 ^ (-p).toNat : ℕ) : ℚ)
    if q < 0 then -r else r

/-- The `float` sum. -/
def add (a b : ℚ) : ℚ := round (a + b)

/-- The `float` difference. -/
def sub (a b : ℚ) : ℚ := round (a - b)

/-- The `float` product. -/
def mul (a b : ℚ) : ℚ := round (a * b)

/-- The `float` quotient by a divisor that is not zero. -/
def div (a b : ℚ) : ℚ := round (a / b)

/-- The largest `k` below `2 ^ bits` with `k * k ≤ n`, found bit by bit from
the highest. -/
def isqrtBits (n : ℕ) : ℕ → ℕ → ℕ
  | 0, k => k
  | bit + 1, k =>
    isqrtBits n bit (if (k + 2 ^ bit) * (k + 2 ^ bit) ≤ n then k + 2 ^ bit else k)

/-- The binary32 square root `sqrtf` of a positive number: the `float` nearest
to the real square root, as IEEE 754 requires, ties to the even one; 0 for an
argument that is not positive.  With `2 ^ h ≤ √q < 2 ^ (h + 1)` the result is
`m * 2 ^ (h - 23)` for the integer `m` nearest to `√(q / 4 ^ (h - 23))`. -/
def sqrt (q : ℚ) : ℚ :=
  let n := q.num.natAbs
  let d := q.den
  if q ≤ 0 then 0
  else
    let p : ℤ := binade n d / 2 - 23
    let a := n * 4 ^ (-p).toNat
    let b := d * 4 ^ p.toNat
    let k := isqrtBits (a / b) 25 0
    let m :=
      if 4 * a < (4 * k * k + 4 * k + 1) * b then k
      else if (4 * k * k + 4 * k + 1) * b < 4 * a then k + 1
      else if k % 2 = 0 then k else k + 1
    ((m * 2 ^ p.toNat : ℕ) : ℚ) / ((2 ^ (-p).toNat : ℕ) : ℚ)

end F32

/-! ## `structures.h`, `structures.cpp` -/

/-- The non-rational functions of the C math library. -/
structure Libm where
  sqrt : ℚ → ℚ
  cos : ℚ → ℚ
  sin : ℚ → ℚ

structure ScreenVertex where
  x : ℤ
  y : ℤ
  z : ℚ
  deriving DecidableEq, Repr

/-- The default constructor `ScreenVertex()`. -/
instance : Inhabited ScreenVertex := ⟨⟨0, 0, 0⟩⟩

structure Vertex where
  x : ℚ
  y : ℚ
  z : ℚ
  w : ℚ
  deriving DecidableEq, Repr

/-- The default constructor `Vertex()`. -/
instance : Inhabited Vertex := ⟨⟨0, 0, 0, 1⟩⟩

/-- The constructor `Vertex(x, y, z)`, which sets `w = 1`. -/
def Vertex.mk3 (x y z : ℚ) : Vertex := ⟨x, y, z, 1⟩

structure Pixel where
  r : ℚ
  g : ℚ
  b : ℚ
  deriving DecidableEq, Repr

/-- The default constructor `Pixel()`. -/
instance : Inhabited Pixel := ⟨⟨0, 0, 0⟩⟩

/-- A `Matrix` is its flat row-major `vector<float> data`. -/
structure Matrix where
  data : List ℚ
  deriving DecidableEq, Repr

namespace Matrix

/-- The read `data[i]`. -/
def get (m : Matrix) (i : ℕ) : ℚ := m.data.getD i 0

/-- The default constructor `Matrix()`: the identity. -/
def identity : Matrix :=
  ⟨[1, 0, 0, 0,
    0, 1, 0, 0,
    0, 0, 1, 0,
    0, 0, 0, 1]⟩

/-- The constructor `Matrix(const float*)`: `data[i*4 + j] = matrix[j*4 + i]`. -/
def ofColumnMajor (matrix : List ℚ) : Matrix :=
  ⟨[0, 1, 2, 3].flatMap fun i => [0, 1, 2, 3].map fun j => matrix.getD (j * 4 + i) 0⟩

/-- The product `Matrix::operator*(Matrix const&)`. -/
def mul (a b : Matrix) : Matrix :=
  ⟨[0, 1, 2, 3].flatMap fun i => [0, 1, 2, 3].map fun j =>
    [0, 1, 2, 3].foldl (fun sum k => sum + a.get (i * 4 + k) * b.get (k * 4 + j)) 0⟩

/-- The `float` expression `a * x + b * y + c * z + d * w` of a row of
`Matrix::operator*(Vertex const&)`, every product and sum rounded. -/
def rowTimes (a b c d : ℚ) (v : Vertex) : ℚ :=
  F32.add (F32.add (F32.add (F32.mul a v.x) (F32.mul b v.y)) (F32.mul c v.z)) (F32.mul d v.w)

/-- The product `Matrix::operator*(Vertex const&)`, in `float` arithmetic. -/
def mulVertex (m : Matrix) (v : Vertex) : Vertex :=
  ⟨rowTimes (m.get 0) (m.get 1) (m.get 2) (m.get 3) v,
   rowTimes (m.get 4) (m.get 5) (m.get 6) (m.get 7) v,
   rowTimes (m.get 8) (m.get 9) (m.get 10) (m.get 11) v,
   rowTimes (m.get 12) (m.get 13) (m.get 14) (m.get 15) v⟩

/-- The quotient `Matrix::operator/(float)`.  The quotient by 0 consists of
infinities and NaN, which are no numbers of the model: `none`. -/
def divScalar (m : Matrix) (w : ℚ) : Option Matrix :=
  if w = 0 then none else some ⟨m.data.map fun val => val / w⟩

/-! ### `Matrix::Invert` -/

/-- The index computation `Convert2DTo1D(x, y)`. -/
def Convert2DTo1D (x y : ℕ) : ℕ := x + y * 4

/-- The local state of `Invert`: the matrix `data`, the array `ipiv`, the
pairs `(indxr[i], indxc[i])` recorded so far, and the variables `irow`, `icol`. -/
structure InvertState where
  data : List ℚ
  ipiv : List ℤ
  indx : List (ℕ × ℕ)
  irow : ℕ
  icol : ℕ
  deriving DecidableEq, Repr

/-- The variables `big`, `irow`, `icol` of the pivot search. -/
structure PivotSearch where
  big : ℚ
  irow : ℕ
  icol : ℕ
  deriving DecidableEq, Repr

/-- The body of the loop over `k` of the pivot search in row `j`; `none` is
the early `return 1`. -/
def searchCell (data : List ℚ) (ipiv : List ℤ) (j : ℕ) (acc : Option PivotSearch) (k : ℕ) :
    Option PivotSearch :=
  match acc with
  | none => none
  | some ps =>
    if ipiv.getD k 0 = 0 then
      if |data.getD (Convert2DTo1D k j) 0| ≥ ps.big then
        some ⟨|data.getD (Convert2DTo1D k j) 0|, j, k⟩
      else some ps
    else if ipiv.getD k 0 > 1 then none
    else some ps

/-- The loop over `k` of the pivot search in row `j`. -/
def searchRow (data : List ℚ) (ipiv : List ℤ) (j : ℕ) (st : Option PivotSearch) :
    Option PivotSearch :=
  [0, 1, 2, 3].foldl (searchCell data ipiv j) st

/-- The body of the loop over `j` of the pivot search. -/
def searchRows (data : List ℚ) (ipiv : List ℤ) (acc : Option PivotSearch) (j : ℕ) :
    Option PivotSearch :=
  match acc with
  | none => none
  | some ps => if ipiv.getD j 0 ≠ 1 then searchRow data ipiv j (some ps) else some ps

/-- The pivot search: the loop over `j` with `big = 0` at the start. -/
def findPivot (data : List ℚ) (ipiv : List ℤ) (irow icol : ℕ) : Option PivotSearch :=
  [0, 1, 2, 3].foldl (searchRows data ipiv) (some ⟨0, irow, icol⟩)

/-- The loop that exchanges `data[Convert2DTo1D(l, a)]` and
`data[Convert2DTo1D(l, b)]` for every `l`. -/
def swapRows (data : List ℚ) (a b : ℕ) : List ℚ :=
  [0, 1, 2, 3].foldl (fun d l =>
    let temp := d.getD (Convert2DTo1D l a) 0
    let d := d.set (Convert2DTo1D l a) (d.getD (Convert2DTo1D l b) 0)
    d.set (Convert2DTo1D l b) temp) data

/-- The loop that multiplies `data[Convert2DTo1D(l, icol)]` by `pivinv`; `fl`
rounds the result of a `float` operation. -/
def scaleRow (fl : ℚ → ℚ) (data : List ℚ) (icol : ℕ) (pivinv : ℚ) : List ℚ :=
  [0, 1, 2, 3].foldl (fun d l =>
    d.set (Convert2DTo1D l icol) (fl (d.getD (Convert2DTo1D l icol) 0 * pivinv))) data

/-- The loop over `ll` that reduces the other rows: the product is rounded,
then the difference. -/
def reduceRows (fl : ℚ → ℚ) (data : List ℚ) (icol : ℕ) : List ℚ :=
  [0, 1, 2, 3].foldl (fun d ll =>
    if ll ≠ icol then
      let dum := d.getD (Convert2DTo1D icol ll) 0
      let d := d.set (Convert2DTo1D icol ll) 0
      [0, 1, 2, 3].foldl (fun d l =>
        d.set (Convert2DTo1D l ll)
          (fl (d.getD (Convert2DTo1D l ll) 0 - fl (d.getD (Convert2DTo1D l icol) 0 * dum)))) d
    else d) data

/-- The elimination with the pivot `data[Convert2DTo1D(icol, icol)]`: the
pivot row is multiplied by `pivinv = 1.0f / pivot`, the pivot being replaced
by 1 before, and the other rows are reduced. -/
def eliminate (fl : ℚ → ℚ) (data : List ℚ) (icol : ℕ) : List ℚ :=
  let pivinv := fl (1 / data.getD (Convert2DTo1D icol icol) 0)
  let data := data.set (Convert2DTo1D icol icol) 1
  let data := scaleRow fl data icol pivinv
  reduceRows fl data icol

/-- One iteration of the main loop `for (i = 0; i < n; i++)`; `Sum.inl` is an
early `return 1` with the data as it is then. -/
def invertStep (fl : ℚ → ℚ) (st : InvertState) : List ℚ ⊕ InvertState :=
  match findPivot st.data st.ipiv st.irow st.icol with
  | none => .inl st.data
  | some ps =>
    let irow := ps.irow
    let icol := ps.icol
    let ipiv := st.ipiv.set icol (st.ipiv.getD icol 0 + 1)
    let data := if irow ≠ icol then swapRows st.data icol irow else st.data
    let indx := st.indx ++ [(irow, icol)]
    if data.getD (Convert2DTo1D icol icol) 0 = 0 then .inl data
    else .inr ⟨eliminate fl data icol, ipiv, indx, irow, icol⟩

/-- The loop that exchanges `data[Convert2DTo1D(a, k)]` and
`data[Convert2DTo1D(b, k)]` for every `k`. -/
def swapColumns (data : List ℚ) (a b : ℕ) : List ℚ :=
  [0, 1, 2, 3].foldl (fun d k =>
    let temp := d.getD (Convert2DTo1D a k) 0
    let d := d.set (Convert2DTo1D a k) (d.getD (Convert2DTo1D b k) 0)
    d.set (Convert2DTo1D b k) temp) data

/-- The last loop `for (l = n; l--;)`, over the recorded pairs from the last
to the first. -/
def unscramble (data : List ℚ) (indx : List (ℕ × ℕ)) : List ℚ :=
  indx.reverse.foldl (fun d rc => if rc.1 ≠ rc.2 then swapColumns d rc.1 rc.2 else d) data

/-- The main loop of `Invert`, `n` iterations from state `st`. -/
def invertLoop (fl : ℚ → ℚ) : ℕ → InvertState → List ℚ ⊕ InvertState
  | 0, st => .inr st
  | n + 1, st =>
    match invertStep fl st with
    | .inl data => .inl data
    | .inr st1 => invertLoop fl n st1

/-- The body of `Matrix::Invert` with the rounding `fl` of its `float`
operations: the returned flag and the matrix left in place. -/
def invertWith (fl : ℚ → ℚ) (m : Matrix) : ℤ × Matrix :=
  match invertLoop fl 4 ⟨m.data, [0, 0, 0, 0], [], 0, 0⟩ with
  | .inl data => (1, ⟨data⟩)
  | .inr st => (0, ⟨unscramble st.data st.indx⟩)

/-- The method `Matrix::Invert`: every quotient, product and difference is
rounded to binary32. -/
def Invert (m : Matrix) : ℤ × Matrix := invertWith F32.round m

end Matrix

/-! ## `scene.h` -/

structure Material where
  color : Pixel
  KSpecular : ℚ
  KDiffuse : ℚ
  shininess : ℚ
  T : ℚ
  IOR : ℚ
  deriving DecidableEq, Repr

/-- The constructor `Material(r, g, b, kd, ks, shine, T, ior)`. -/
def Material.make (r g b kd ks shine T ior : ℚ) : Material :=
  ⟨⟨r, g, b⟩, ks, kd, shine, T, ior⟩

structure EmissiveMaterial where
  emissiveColor : Pixel
  attenuation : Pixel
  deriving DecidableEq, Repr

structure PointLight where
  center : Vertex
  color : Pixel
  deriving DecidableEq, Repr

structure EnvironmentMap where
  width : ℤ
  height : ℤ
  texels : List ℚ
  deriving DecidableEq, Repr

/-- The two classes derived from `Primitive3D`, each with the base class's
`materialID` and `emissiveMaterialID`. -/
inductive Primitive3D where
  | sphere (center : Vertex) (radius : ℚ) (materialID emissiveMaterialID : ℤ)
  | triangle (points : List Vertex) (materialID emissiveMaterialID : ℤ)
  deriving DecidableEq, Repr

/-- The `Scene`; `emissiveMaterialsList` is `none` while its `unique_ptr` is
null (the constructor `Scene()` does not allocate it). -/
structure Scene where
  primitivesList : List Primitive3D
  lightsList : List PointLight
  materialsList : List Material
  emissiveMaterialsList : Option (List EmissiveMaterial)
  envMap : Option EnvironmentMap
  deriving DecidableEq, Repr

/-- The constructor `Scene()`. -/
def Scene.new : Scene := ⟨[], [], [], none, none⟩

/-- The method `Scene::RestartScene`. -/
def Scene.RestartScene (s : Scene) : Scene :=
  { s with primitivesList := [], lightsList := [], materialsList := [] }

/-! ## `context.h`, `context.cpp` -/

structure SGLContext where
  width : ℤ
  height : ℤ
  colorBuffer : List Pixel
  depthBuffer : List (WithTop ℚ)
  currentPrimitiveMode : sglEElementType
  currentAreaMode : sglEAreaMode
  currentMatrixMode : sglEMatrixMode
  currentColor : Pixel
  clearColor : Pixel
  pointSize : ℚ
  scaleFactor : ℚ
  insideBegin : Bool
  enabledDepthTest : Bool
  transformationStack : List (List Matrix)
  verticesList : List Vertex
  screenVertices : List ScreenVertex
  viewportMatrix : Matrix
  VPMmatrix : Matrix
  scene : Scene
  insideBeginScene : Bool
  deriving DecidableEq

/-- The constructor `SGLContext(width, height)`; the size `width * height`
is an `int` product, and allocating a buffer of negative size throws. -/
def SGLContext.new (width height : ℤ) : Option SGLContext :=
  if wrapInt32 (width * height) < 0 then none
  else some
    { width := width
      height := height
      colorBuffer := List.replicate (wrapInt32 (width * height)).toNat default
      depthBuffer := List.replicate (wrapInt32 (width * height)).toNat ((1 : ℚ) : WithTop ℚ)
      currentPrimitiveMode := SGL_POINTS
      currentAreaMode := SGL_FILL
      currentMatrixMode := SGL_MODELVIEW
      currentColor := default
      clearColor := default
      pointSize := 1
      scaleFactor := 1
      insideBegin := false
      enabledDepthTest := true
      transformationStack := [[Matrix.identity], [Matrix.identity]]
      verticesList := []
      screenVertices := []
      viewportMatrix := Matrix.identity
      VPMmatrix := Matrix.identity
      scene := Scene.new
      insideBeginScene := false }

structure SGLSceneManager where
  currentContextId : ℤ
  contexts : List SGLContext
  errorCode : sglEErrorCode
  deriving DecidableEq

/-- The constructor `SGLSceneManager()`, run by `sglInit`. -/
def sglInit : SGLSceneManager := ⟨-1, [], SGL_NO_ERROR⟩

/-- The lookup `sceneManager->contexts[currentContextId]` behind
`getCurrentContext`; `none` when the index is outside the list. -/
def getCurrentContext (s : SGLSceneManager) : Option SGLContext :=
  if 0 ≤ s.currentContextId then s.contexts.get? s.currentContextId.toNat else none

/-- Writing through the reference `getCurrentContext()` returns. -/
def setCurrentContext (s : SGLSceneManager) (ctx : SGLContext) : SGLSceneManager :=
  { s with contexts := s.contexts.set s.currentContextId.toNat ctx }

/-! ## `error_handling.cpp` -/

def setErrCode (c : sglEErrorCode) (s : SGLSceneManager) : SGLSceneManager :=
  if s.errorCode = SGL_NO_ERROR then { s with errorCode := c } else s

def sglGetError (s : SGLSceneManager) : sglEErrorCode × SGLSceneManager :=
  (s.errorCode, { s with errorCode := SGL_NO_ERROR })

/-! ## Guards (`context.cpp`) -/

/-- A guard returns its verdict and the manager with the error register it
may have written. -/
abbrev Guard : Type := SGLSceneManager → Option (Bool × SGLSceneManager)

/-- The short-circuit disjunction `g1() || g2()` of two guards. -/
def Guard.or (g1 g2 : Guard) : Guard := fun s =>
  match g1 s with
  | none => none
  | some (true, s1) => some (true, s1)
  | some (false, s1) => g2 s1

/-- The guard `contextNotInitialized`: `sceneManager` is never null after
`sglInit`, and no `unique_ptr` in `contexts` is null, so the test reads the
current context and is false. -/
def contextNotInitialized : Guard := fun s =>
  match getCurrentContext s with
  | none => none
  | some _ => some (false, s)

def calledWithinBeginEnd : Guard := fun s =>
  match getCurrentContext s with
  | none => none
  | some ctx =>
    if ctx.insideBegin then some (true, setErrCode SGL_INVALID_OPERATION s)
    else some (false, s)

def calledOutsideBeginEnd : Guard := fun s =>
  match getCurrentContext s with
  | none => none
  | some ctx =>
    if ctx.insideBegin = false then some (true, setErrCode SGL_INVALID_OPERATION s)
    else some (false, s)

def calledWithinBeginSceneEndScene : Guard := fun s =>
  match getCurrentContext s with
  | none => none
  | some ctx =>
    if ctx.insideBeginScene then some (true, setErrCode SGL_INVALID_OPERATION s)
    else some (false, s)

def calledOutsideBeginSceneEndScene : Guard := fun s =>
  match getCurrentContext s with
  | none => none
  | some ctx =>
    if ctx.insideBeginScene = false then some (true, setErrCode SGL_INVALID_OPERATION s)
    else some (false, s)

/-- The template `isInvalidEnumValue<EnumType>`: it tests
`!is_enum<EnumType>::value`, which is false for each of the enumeration types
it is instantiated with, whatever the value. -/
def isInvalidEnumValue (_value : ℤ) : Guard := fun s => some (false, s)

/-- Run `body` on the current context when the guard chain lets the command
through; a guard that fires ends the command. -/
def guarded (g : Guard) (body : SGLSceneManager → Option SGLSceneManager)
    (s : SGLSceneManager) : Option SGLSceneManager :=
  match g s with
  | none => none
  | some (true, s1) => some s1
  | some (false, s1) => body s1

/-- Update the current context in place. -/
def modifyContext (f : SGLContext → Option SGLContext) (s : SGLSceneManager) :
    Option SGLSceneManager :=
  match getCurrentContext s with
  | none => none
  | some ctx =>
    match f ctx with
    | none => none
    | some ctx1 => some (setCurrentContext s ctx1)

/-! ## `attribute_functions.cpp` -/

def sglClearColor (r g b _alpha : ℚ) : SGLSceneManager → Option SGLSceneManager :=
  guarded (contextNotInitialized.or calledWithinBeginEnd)
    (modifyContext fun ctx => some { ctx with clearColor := ⟨r, g, b⟩ })

def sglColor3f (r g b : ℚ) : SGLSceneManager → Option SGLSceneManager :=
  guarded (contextNotInitialized.or calledWithinBeginEnd)
    (modifyContext fun ctx => some { ctx with currentColor := ⟨r, g, b⟩ })

def sglAreaMode (mode : sglEAreaMode) : SGLSceneManager → Option SGLSceneManager :=
  guarded ((contextNotInitialized.or calledWithinBeginEnd).or (isInvalidEnumValue mode))
    (modifyContext fun ctx => some { ctx with currentAreaMode := mode })

def sglPointSize (size : ℚ) : SGLSceneManager → Option SGLSceneManager :=
  guarded (contextNotInitialized.or calledWithinBeginEnd) fun s =>
    if size ≤ 0 then some (setErrCode SGL_INVALID_VALUE s)
    else modifyContext (fun ctx => some { ctx with pointSize := size }) s

def sglEnable (cap : sglEEnableFlags) : SGLSceneManager → Option SGLSceneManager :=
  guarded (contextNotInitialized.or calledWithinBeginEnd) fun s =>
    if cap ≠ SGL_DEPTH_TEST then some (setErrCode SGL_INVALID_ENUM s)
    else modifyContext (fun ctx => some { ctx with enabledDepthTest := true }) s

def sglDisable (cap : sglEEnableFlags) : SGLSceneManager → Option SGLSceneManager :=
  guarded (contextNotInitialized.or calledWithinBeginEnd) fun s =>
    if cap ≠ SGL_DEPTH_TEST then some (setErrCode SGL_INVALID_ENUM s)
    else modifyContext (fun ctx => some { ctx with enabledDepthTest := false }) s

/-! ## `transformation.cpp` -/

/-- The checked access `transformationStack->at(mode)`; `none` when it throws. -/
def stackAt (ctx : SGLContext) (mode : ℤ) : Option (List Matrix) :=
  if 0 ≤ mode then ctx.transformationStack.get? mode.toNat else none

/-- Writing through the reference `transformationStack->at(mode)` returns. -/
def setStackAt (ctx : SGLContext) (mode : ℤ) (stack : List Matrix) : SGLContext :=
  { ctx with transformationStack := ctx.transformationStack.set mode.toNat stack }

/-- The assignment `currentMatrixStack.back() = m`; `back()` of an empty
vector has no defined result. -/
def setBack (stack : List Matrix) (m : Matrix) : Option (List Matrix) :=
  if stack = [] then none else some (stack.dropLast ++ [m])

def sglMatrixMode (mode : sglEMatrixMode) : SGLSceneManager → Option SGLSceneManager :=
  guarded ((contextNotInitialized.or calledWithinBeginEnd).or (isInvalidEnumValue mode))
    (modifyContext fun ctx => some { ctx with currentMatrixMode := mode })

def sglPushMatrix : SGLSceneManager → Option SGLSceneManager :=
  guarded (contextNotInitialized.or calledWithinBeginEnd)
    (modifyContext fun ctx => do
      let currentMatrixStack ← stackAt ctx ctx.currentMatrixMode
      let back ← currentMatrixStack.getLast?
      some (setStackAt ctx ctx.currentMatrixMode (currentMatrixStack ++ [back])))

def sglPopMatrix : SGLSceneManager → Option SGLSceneManager :=
  guarded (contextNotInitialized.or calledWithinBeginEnd) fun s =>
    match getCurrentContext s with
    | none => none
    | some ctx =>
      match stackAt ctx ctx.currentMatrixMode with
      | none => none
      | some currentMatrixStack =>
        if currentMatrixStack.length = 1 then some (setErrCode SGL_STACK_UNDERFLOW s)
        else if currentMatrixStack = [] then none
        else some (setCurrentContext s
          (setStackAt ctx ctx.currentMatrixMode currentMatrixStack.dropLast))

/-- The common body of the commands that assign to the top of the active
stack: `currentMatrixStack.back() = f(currentMatrixStack.back())`. -/
def updateBack (f : Matrix → Matrix) (ctx : SGLContext) : Option SGLContext := do
  let currentMatrixStack ← stackAt ctx ctx.currentMatrixMode
  let back ← currentMatrixStack.getLast?
  let stack1 ← setBack currentMatrixStack (f back)
  some (setStackAt ctx ctx.currentMatrixMode stack1)

def sglLoadIdentity : SGLSceneManager → Option SGLSceneManager :=
  guarded (contextNotInitialized.or calledWithinBeginEnd)
    (modifyContext (updateBack fun _ => Matrix.identity))

def sglLoadMatrix (matrix : List ℚ) : SGLSceneManager → Option SGLSceneManager :=
  guarded (contextNotInitialized.or calledWithinBeginEnd)
    (modifyContext (updateBack fun _ => Matrix.ofColumnMajor matrix))

def multWithCurrentMatrix (other : Matrix) : SGLSceneManager → Option SGLSceneManager :=
  guarded (contextNotInitialized.or calledWithinBeginEnd)
    (modifyContext (updateBack fun back => back.mul other))

def sglMultMatrix (matrix : List ℚ) : SGLSceneManager → Option SGLSceneManager :=
  multWithCurrentMatrix (Matrix.ofColumnMajor matrix)

def sglTranslate (x y z : ℚ) : SGLSceneManager → Option SGLSceneManager :=
  multWithCurrentMatrix
    ⟨[1, 0, 0, x,
      0, 1, 0, y,
      0, 0, 1, z,
      0, 0, 0, 1]⟩

def sglScale (x y z : ℚ) : SGLSceneManager → Option SGLSceneManager :=
  multWithCurrentMatrix
    ⟨[x, 0, 0, 0,
      0, y, 0, 0,
      0, 0, z, 0,
      0, 0, 0, 1]⟩

def sglRotate2D (m : Libm) (angle centerx centery : ℚ) (s : SGLSceneManager) :
    Option SGLSceneManager := do
  let s1 ← sglTranslate centerx centery 0 s
  let cosAngle := m.cos angle
  let sinAngle := m.sin angle
  let s2 ← multWithCurrentMatrix
    ⟨[cosAngle, -sinAngle, 0, 0,
      sinAngle, cosAngle, 0, 0,
      0, 0, 1, 0,
      0, 0, 0, 1]⟩ s1
  sglTranslate (-centerx) (-centery) 0 s2

def sglRotateY (m : Libm) (angle : ℚ) : SGLSceneManager → Option SGLSceneManager :=
  let cosAngle := m.cos angle
  let sinAngle := m.sin angle
  multWithCurrentMatrix
    ⟨[cosAngle, 0, -sinAngle, 0,
      0, 1, 0, 0,
      sinAngle, 0, cosAngle, 0,
      0, 0, 0, 1]⟩

def sglOrtho (l r b t n f : ℚ) (s : SGLSceneManager) : Option SGLSceneManager :=
  if l = r ∨ b = t ∨ n = f then some (setErrCode SGL_INVALID_VALUE s)
  else multWithCurrentMatrix
    ⟨[2 / (r - l), 0, 0, -(r + l) / (r - l),
      0, 2 / (t - b), 0, -(t + b) / (t - b),
      0, 0, -2 / (f - n), -(f + n) / (f - n),
      0, 0, 0, 1]⟩ s

def sglFrustum (l r b t n f : ℚ) (s : SGLSceneManager) : Option SGLSceneManager :=
  if l = r ∨ b = t ∨ n ≤ 0 ∨ f ≤ 0 then some (setErrCode SGL_INVALID_VALUE s)
  else multWithCurrentMatrix
    ⟨[2 * n / (r - l), 0, (r + l) / (r - l), 0,
      0, 2 * n / (t - b), (t + b) / (t - b), 0,
      0, 0, -(f + n) / (f - n), -2 * f * n / (f - n),
      0, 0, -1, 0]⟩ s

/-- The matrix `sglViewport` builds: `float(width) / 2.0f` and
`x + viewportWidth` are `float` results. -/
def viewportOf (x y width height : ℤ) : Matrix :=
  let viewportWidth : ℚ := F32.div (F32.round (width : ℚ)) 2
  let viewportHeight : ℚ := F32.div (F32.round (height : ℚ)) 2
  ⟨[viewportWidth, 0, 0, F32.add (F32.round (x : ℚ)) viewportWidth,
    0, viewportHeight, 0, F32.add (F32.round (y : ℚ)) viewportHeight,
    0, 0, 1, 0,
    0, 0, 0, 1]⟩

def sglViewport (x y width height : ℤ) (s : SGLSceneManager) : Option SGLSceneManager :=
  if width ≤ 0 ∨ height ≤ 0 then some (setErrCode SGL_INVALID_VALUE s)
  else guarded (contextNotInitialized.or calledWithinBeginEnd)
    (modifyContext fun ctx =>
      some { ctx with viewportMatrix := viewportOf x y width height }) s

/-- The function `recalculateVPMMatrix` of `context.cpp`; `none` also when it
divides by an element 15 that is 0 and the composite holds no numbers. -/
def recalculateVPMMatrix (ctx : SGLContext) : Option SGLContext := do
  let projection ← stackAt ctx SGL_PROJECTION
  let modelview ← stackAt ctx SGL_MODELVIEW
  let p ← projection.getLast?
  let mv ← modelview.getLast?
  let PM := p.mul mv
  let w ← PM.data.getLast?
  let PM ← (if w ≠ 1 then PM.divScalar w else some PM)
  some { ctx with VPMmatrix := ctx.viewportMatrix.mul PM }

/-! ## `draw_utils.cpp`

The rasterisers compute which fragments they submit without reading the
buffers, so each is embedded as the list of its submissions, in the order the
code makes them; `runPlots` then performs them on the context. -/

/-- The constant `EPSILON = 0.000004f`: the `float` nearest to `4e-6`. -/
def EPSILON : ℚ := 8796093 / 2199023255552

/-- The function `invZ`, `1.0f / z`, in exact arithmetic.  For `z = 0` the code
yields an infinity, which is not represented: the value here is 0. -/
def invZ (z : ℚ) : ℚ := 1 / z

def coord2DTo1D (x y width : ℤ) : ℤ := x + y * width

def calculateZStep (z1 z2 : ℚ) (x1 x2 : ℤ) : ℚ :=
  if x2 = x1 then 0 else (invZ z2 - invZ z1) / ((x2 - x1 : ℤ) : ℚ)

/-- The read `buffer[index]`. -/
def bufGet {α : Type} (buffer : List α) (index : ℤ) (dflt : α) : α :=
  if 0 ≤ index then buffer.getD index.toNat dflt else dflt

/-- The write `buffer[index] = a`. -/
def bufSet {α : Type} (buffer : List α) (index : ℤ) (a : α) : List α :=
  if 0 ≤ index then buffer.set index.toNat a else buffer

/-- Conversion of a `float` to `int`: truncation toward zero. -/
def truncToInt (q : ℚ) : ℤ := if 0 ≤ q then ⌊q⌋ else ⌈q⌉

/-- The C function `round`, converted to `int`: to the nearest integer, halves
away from zero. -/
def roundToInt (q : ℚ) : ℤ := if 0 ≤ q then ⌊q + 1 / 2⌋ else ⌈q - 1 / 2⌉

/-- The implicit conversion `int size = pointSize` of a `float`: truncation
toward zero when the truncated value is an `int`; beyond that the conversion
is undefined in C++, and the conversion instruction of the x86 returns
`INT_MIN`. -/
def floatToInt (q : ℚ) : ℤ :=
  if -(2 : ℤ) ^ 31 ≤ truncToInt q ∧ truncToInt q < 2 ^ 31 then truncToInt q else -(2 : ℤ) ^ 31

/-- The integers `a, a + 1, ..., b - 1` of a loop `for (i = a; i < b; i++)`. -/
def intRange (a b : ℤ) : List ℤ := (List.range (b - a).toNat).map fun i => a + (i : ℤ)

def depthCheck (point : ScreenVertex) (width : ℤ) (ctx : SGLContext) : Bool × SGLContext :=
  if !ctx.enabledDepthTest then (true, ctx)
  else
    let index := coord2DTo1D point.x point.y width
    if ((F32.sub point.z EPSILON : ℚ) : WithTop ℚ) < bufGet ctx.depthBuffer index 0 then
      (true, { ctx with depthBuffer := bufSet ctx.depthBuffer index ((point.z : ℚ) : WithTop ℚ) })
    else (false, ctx)

def boundsAndDepthCheck (point : ScreenVertex) (width height : ℤ) (ctx : SGLContext) :
    Bool × SGLContext :=
  if point.x < 0 ∨ point.x ≥ width ∨ point.y < 0 ∨ point.y ≥ height then (false, ctx)
  else if !ctx.enabledDepthTest then (true, ctx)
  else depthCheck point width ctx

/-- One submission of a fragment: the test that guards the write of the
current colour at the fragment's pixel. -/
inductive Plot where
  | checked (point : ScreenVertex)
  | unchecked (point : ScreenVertex)
  deriving DecidableEq, Repr

/-- The point a submission tests and writes. -/
def Plot.point : Plot → ScreenVertex
  | .checked p => p
  | .unchecked p => p

/-- The statement `if (boundsAndDepthCheck(p, width, height)) colorBuffer[...] = color`
(`Plot.checked`), respectively `if (depthCheck(p, width)) colorBuffer[...] = color`
(`Plot.unchecked`, in `plotLine`). -/
def Plot.apply (ctx : SGLContext) (pl : Plot) : SGLContext :=
  let r : Bool × SGLContext :=
    match pl with
    | .checked p => boundsAndDepthCheck p ctx.width ctx.height ctx
    | .unchecked p => depthCheck p ctx.width ctx
  if r.1 = true then
    let index := coord2DTo1D pl.point.x pl.point.y ctx.width
    { r.2 with colorBuffer := bufSet r.2.colorBuffer index ctx.currentColor }
  else r.2

/-- Perform a list of submissions in order. -/
def runPlots (ctx : SGLContext) (plots : List Plot) : SGLContext := plots.foldl Plot.apply ctx

/-- The loop of `plotLine` over the columns `xs`. -/
def plotLineLoop (y : ℤ) (invZStep : ℚ) : List ℤ → ℚ → List Plot
  | [], _ => []
  | x :: xs, currentInvZ =>
    .unchecked ⟨x, y, invZ currentInvZ⟩ :: plotLineLoop y invZStep xs (currentInvZ + invZStep)

/-- The submissions of `plotLine`. -/
def plotLine (y x1 x2 : ℤ) (z1 z2 : ℚ) : List Plot :=
  if x1 = x2 then [.unchecked ⟨x1, y, z1⟩]
  else
    let invZStep := calculateZStep z1 z2 x1 x2
    plotLineLoop y invZStep (intRange x1 (x2 + 1)) (invZ z1)

/-- The submissions of `plotLineBoundsChecking`. -/
def plotLineBoundsChecking (width : ℤ) (y x1 x2 : ℤ) (z1 z2 : ℚ) : List Plot :=
  let z1' := if x1 < 0 then 1 / (invZ z1 + calculateZStep z1 z2 x1 x2 * ((-x1 : ℤ) : ℚ)) else z1
  let x1' := if x1 < 0 then 0 else x1
  let x2' := if x2 ≥ width then width - 1 else x2
  if x1' > x2' then [] else plotLine y x1' x2' z1' z2

/-- The submissions of `drawPoints`. -/
def drawPoints (ctx : SGLContext) : List Plot :=
  let size : ℤ := floatToInt ctx.pointSize
  ctx.screenVertices.flatMap fun v =>
    (intRange 0 size).flatMap fun i =>
      (intRange 0 size).map fun j => .checked ⟨v.x + j, v.y + i, v.z⟩

/-- The state of the loop of `drawBresenhamLine`. -/
structure LineState where
  start : ScreenVertex
  error : ℤ
  currentInvZ : ℚ
  deriving DecidableEq, Repr

/-- One iteration of the `while` loop of `drawBresenhamLine` after the plot. -/
def lineStep (dX dY sX sY : ℤ) (invZStep : ℚ) (st : LineState) : LineState :=
  let tmp := st.error
  let st1 : LineState :=
    if tmp > -dX then
      { start := { st.start with x := st.start.x + sX }
        error := st.error - dY
        currentInvZ := st.currentInvZ + invZStep * ((|sX| : ℤ) : ℚ) }
    else st
  if tmp < dY then
    { start := { st1.start with y := st1.start.y + sY }
      error := st1.error + dX
      currentInvZ := st1.currentInvZ + invZStep * ((|sY| : ℤ) : ℚ) }
  else st1

/-- The `while` loop of `drawBresenhamLine` followed by the last plot; `none`
when the loop has not ended after `fuel` iterations. -/
def lineLoop (dX dY sX sY : ℤ) (invZStep : ℚ) (finish : ScreenVertex) :
    ℕ → LineState → Option (List Plot)
  | fuel, st =>
    if st.start.x ≠ finish.x ∨ st.start.y ≠ finish.y then
      match fuel with
      | 0 => none
      | fuel + 1 =>
        (lineLoop dX dY sX sY invZStep finish fuel (lineStep dX dY sX sY invZStep st)).map
          fun rest => .checked st.start :: rest
    else some [.checked ⟨st.start.x, st.start.y, invZ st.currentInvZ⟩]

/-- The submissions of `drawBresenhamLine`, its loop given `fuel` iterations. -/
def drawBresenhamLineFuel (m : Libm) (fuel : ℕ) (start finish : ScreenVertex) :
    Option (List Plot) :=
  let dX : ℤ := |finish.x - start.x|
  let dY : ℤ := |finish.y - start.y|
  let totalDistance : ℚ := m.sqrt ((wrapInt32 (dX * dX + dY * dY) : ℤ) : ℚ)
  if totalDistance < EPSILON then some []
  else
    let invZStep := (invZ finish.z - invZ start.z) / (if totalDistance > 0 then totalDistance else 1)
    let sX : ℤ := if start.x < finish.x then 1 else -1
    let sY : ℤ := if start.y < finish.y then 1 else -1
    let error : ℤ := Int.tdiv (if dX > dY then dX else -dY) 2
    lineLoop dX dY sX sY invZStep finish fuel ⟨start, error, invZ start.z⟩

/-- The submissions of `drawBresenhamLine`: a line takes `max(dX, dY)`
iterations, so `dX + dY` are enough. -/
def drawBresenhamLine (m : Libm) (start finish : ScreenVertex) : Option (List Plot) :=
  drawBresenhamLineFuel m (|finish.x - start.x| + |finish.y - start.y|).toNat start finish

/-- Collect the submissions of a sequence of lines. -/
def drawSegments (m : Libm) : List (ScreenVertex × ScreenVertex) → Option (List Plot)
  | [] => some []
  | (a, b) :: rest => do
    let first ← drawBresenhamLine m a b
    let others ← drawSegments m rest
    some (first ++ others)

/-- The function `drawLines`: the vertex list after `pop_back`, and the
segments drawn; the loop still runs to the size before `pop_back`. -/
def drawLines (screenVertices : List ScreenVertex) :
    List ScreenVertex × List (ScreenVertex × ScreenVertex) :=
  let size := screenVertices.length
  let vs := if size % 2 = 1 then screenVertices.dropLast else screenVertices
  (vs, (List.range ((size + 1) / 2)).map fun k => (vs.getD (2 * k) default, vs.getD (2 * k + 1) default))

/-- The segments of `drawLineStrip`. -/
def drawLineStrip (screenVertices : List ScreenVertex) : List (ScreenVertex × ScreenVertex) :=
  let primitivesCount := screenVertices.length
  if primitivesCount < 2 then []
  else (List.range (primitivesCount - 1)).map fun i =>
    (screenVertices.getD i default, screenVertices.getD (i + 1) default)

/-- The segments of `drawLineLoop`. -/
def drawLineLoop (screenVertices : List ScreenVertex) : List (ScreenVertex × ScreenVertex) :=
  let primitivesCount := screenVertices.length
  if primitivesCount < 2 then []
  else ((List.range (primitivesCount - 1)).map fun i =>
      (screenVertices.getD i default, screenVertices.getD (i + 1) default)) ++
    [(screenVertices.getLastD default, screenVertices.getD 0 default)]

/-- The function `transformPoint`, in `float` arithmetic. -/
def transformPoint (ctx : SGLContext) (v : Vertex) : Vertex :=
  let result := ctx.VPMmatrix.mulVertex v
  let result : Vertex :=
    if result.w ≠ 0 then
      let inv_w := F32.div 1 result.w
      ⟨F32.mul result.x inv_w, F32.mul result.y inv_w, F32.mul result.z inv_w, 1⟩
    else result
  { result with z := F32.mul (F32.add result.z 1) (1 / 2) }

/-- The submission of `plotTransformedPoint`. -/
def plotTransformedPoint (point : ScreenVertex) : List Plot := [.checked point]

def setScaleFactor (m : Libm) (ctx : SGLContext) : SGLContext :=
  let VPM := ctx.VPMmatrix
  { ctx with scaleFactor := m.sqrt (VPM.get 0 * VPM.get 5 - VPM.get 1 * VPM.get 4) }

/-- The lambda `plotCirclePoints` of `drawBresenhamCircle`. -/
def plotCirclePoints (centerX centerY : ℤ) (depth : ℚ) (x y : ℤ) : List Plot :=
  plotTransformedPoint ⟨centerX + x, centerY + y, depth⟩ ++
  plotTransformedPoint ⟨centerX - x, centerY + y, depth⟩ ++
  plotTransformedPoint ⟨centerX + x, centerY - y, depth⟩ ++
  plotTransformedPoint ⟨centerX - x, centerY - y, depth⟩ ++
  plotTransformedPoint ⟨centerX + y, centerY + x, depth⟩ ++
  plotTransformedPoint ⟨centerX - y, centerY + x, depth⟩ ++
  plotTransformedPoint ⟨centerX + y, centerY - x, depth⟩ ++
  plotTransformedPoint ⟨centerX - y, centerY - x, depth⟩

/-- The lambda `plotCircleFilling` of `drawBresenhamCircle`. -/
def plotCircleFilling (width centerX centerY : ℤ) (depth : ℚ) (x y : ℤ) : List Plot :=
  let z := depth
  plotLineBoundsChecking width (centerY + y) (centerX - x) (centerX + x) z z ++
  plotLineBoundsChecking width (centerY - y) (centerX - x) (centerX + x) z z ++
  plotLineBoundsChecking width (centerY + x) (centerX - y) (centerX + y) z z ++
  plotLineBoundsChecking width (centerY - x) (centerX - y) (centerX + y) z z

/-- The loop `while (y >= x)` of `drawBresenhamCircle`; `none` when it has not
ended after `fuel` iterations.  The decision variable `d` is an `int`. -/
def circleLoop (plotFunction : ℤ → ℤ → List Plot) : ℕ → ℤ → ℤ → ℤ → Option (List Plot)
  | fuel, x, y, d =>
    if y ≥ x then
      match fuel with
      | 0 => none
      | fuel + 1 =>
        let rest :=
          if d < 0 then circleLoop plotFunction fuel (x + 1) y (wrapInt32 (d + (4 * x + 6)))
          else
            circleLoop plotFunction fuel (x + 1) (y - 1)
              (wrapInt32 (d + (4 * (x - (y - 1)) + 10)))
        rest.map fun r => plotFunction x y ++ r
    else some []

/-- The submissions of `drawBresenhamCircle`, its loop given `fuel` iterations. -/
def drawBresenhamCircleFuel (fuel : ℕ) (ctx : SGLContext) (cx cy cz radius : ℚ) :
    Option (List Plot) :=
  let transformedCenter := transformPoint ctx (Vertex.mk3 cx cy cz)
  let width := ctx.width
  let centerX := roundToInt transformedCenter.x
  let centerY := roundToInt transformedCenter.y
  let depth := transformedCenter.z
  let r := roundToInt (F32.mul radius ctx.scaleFactor)
  if r = 0 then some (plotTransformedPoint ⟨centerX, centerY, depth⟩)
  else
    let plotFunction :=
      if ctx.currentAreaMode = SGL_LINE then plotCirclePoints centerX centerY depth
      else plotCircleFilling width centerX centerY depth
    circleLoop plotFunction fuel 0 r (wrapInt32 (3 - 2 * r))

/-- The submissions of `drawBresenhamCircle`: `x` grows and `y` does not, so
the loop ends within `r + 1` iterations. -/
def drawBresenhamCircle (ctx : SGLContext) (cx cy cz radius : ℚ) : Option (List Plot) :=
  drawBresenhamCircleFuel (roundToInt (F32.mul radius ctx.scaleFactor) + 1).toNat ctx cx cy cz
    radius

/-! ### Polygon filling -/

structure Edge where
  topY : ℤ
  bottomY : ℤ
  currentX : ℚ
  stepX : ℚ
  currentZ : ℚ
  stepZ : ℚ
  deriving DecidableEq, Repr

/-- The value of a read outside the active edge list. -/
instance : Inhabited Edge := ⟨⟨0, 0, 0, 0, 0, 0⟩⟩

/-- The constructor `Edge(c1, c2)` of `structures.cpp`, with the rounding `fl`
of a `float` result: the `int` differences are converted to `float`, and so
is `c1.x`. -/
def Edge.new (fl : ℚ → ℚ) (c1 c2 : ScreenVertex) : Edge :=
  let topY := c1.y
  let bottomY := c2.y
  let height : ℚ := fl ((wrapInt32 (topY - bottomY) : ℤ) : ℚ)
  { topY := topY
    bottomY := bottomY
    currentX := fl (c1.x : ℚ)
    currentZ := c1.z
    stepX := if height ≠ 0 then fl (fl ((wrapInt32 (c2.x - c1.x) : ℤ) : ℚ) / height) else 0
    stepZ := if height ≠ 0 then fl (fl (c2.z - c1.z) / height) else 0 }

structure FillingStruct where
  edges : List Edge
  activeEdgeList : List Edge
  maxY : ℤ
  minY : ℤ
  deriving DecidableEq, Repr

/-- The constructor `FillingStruct(maxHeight)`. -/
def FillingStruct.new (maxHeight : ℤ) : FillingStruct := ⟨[], [], 0, maxHeight⟩

/-- The function `initFillingStruct`; the last two components are `*maxX`
and `*minX`. -/
def initFillingStruct (fl : ℚ → ℚ) (st : FillingStruct × ℤ × ℤ) (c1 c2 : ScreenVertex) :
    FillingStruct × ℤ × ℤ :=
  let filler := st.1
  let maxX := st.2.1
  let minX := st.2.2
  if c1.y = c2.y then st
  else
    let top := if c1.y > c2.y then c1 else c2
    let bottom := if c1.y > c2.y then c2 else c1
    let edge := Edge.new fl top bottom
    let edge := { edge with bottomY := edge.bottomY + 1 }
    let filler := { filler with edges := filler.edges ++ [edge] }
    let filler := if top.y > filler.maxY then { filler with maxY := top.y } else filler
    let filler := if bottom.y < filler.minY then { filler with minY := bottom.y } else filler
    let maxX := if top.x > maxX ∨ bottom.x > maxX then max top.x bottom.x else maxX
    let minX := if top.x < minX ∨ bottom.x < minX then min top.x bottom.x else minX
    (filler, maxX, minX)

/-- The body of both inner loops of `shakeSort`: swap `edges[i]` and
`edges[i + 1]` when they are out of order. -/
def shakeSwap (st : List Edge × Bool) (i : ℤ) : List Edge × Bool :=
  let edges := st.1
  let a := bufGet edges i default
  let b := bufGet edges (i + 1) default
  if a.currentX > b.currentX then (bufSet (bufSet edges i b) (i + 1) a, true) else st

/-- The `while (swapped)` loop of `shakeSort`; `none` when it has not ended
after `fuel` iterations. -/
def shakeLoop : ℕ → List Edge → ℤ → ℤ → Option (List Edge)
  | 0, _, _, _ => none
  | fuel + 1, edges, start, finish =>
    let fwd := (intRange start finish).foldl shakeSwap (edges, false)
    if fwd.2 = false then some fwd.1
    else
      let finish := finish - 1
      let bwd := ((intRange start finish).reverse).foldl shakeSwap (fwd.1, false)
      if bwd.2 = false then some bwd.1
      else shakeLoop fuel bwd.1 (start + 1) finish

/-- The function `shakeSort`: every round but the last narrows the range
`[start, end]`, so `size + 1` rounds are enough. -/
def shakeSort (edges : List Edge) : Option (List Edge) :=
  shakeLoop (edges.length + 1) edges 0 ((edges.length : ℤ) - 1)

/-- The second loop of `updateActiveEdgeList`, over the pending edges: the
pending edges kept and the edges appended to the active list. -/
def activate (fl : ℚ → ℚ) (y : ℤ) : List Edge → List Edge × List Edge
  | [] => ([], [])
  | e :: rest =>
    let r := activate fl y rest
    let offset := fl (fl ((wrapInt32 (e.topY - y) : ℤ) : ℚ) * e.stepX)
    if y ≤ e.topY then (r.1, { e with currentX := fl (e.currentX + offset) } :: r.2)
    else (e :: r.1, r.2)

def updateActiveEdgeList (fl : ℚ → ℚ) (filler : FillingStruct) (y : ℤ) : FillingStruct :=
  let kept := filler.activeEdgeList.filter fun e => !decide (y < e.bottomY)
  let r := activate fl y filler.edges
  { filler with activeEdgeList := kept ++ r.2, edges := r.1 }

/-- The inner loop of `fillPolygon` over the pairs `i, i + 1` of the active
edge list: the submissions and the advanced edges. -/
def scanPairs (fl : ℚ → ℚ) (plotFunction : ℤ → ℤ → ℤ → ℚ → ℚ → List Plot) (y : ℤ) :
    List ℕ → List Edge → List Plot × List Edge
  | [], ael => ([], ael)
  | i :: rest, ael =>
    let e1 := ael.getD i default
    let e2 := ael.getD (i + 1) default
    let plots := plotFunction y (roundToInt e1.currentX) (roundToInt e2.currentX)
      e1.currentZ e2.currentZ
    let ael := ael.set i
      { e1 with currentX := fl (e1.currentX + e1.stepX), currentZ := fl (e1.currentZ + e1.stepZ) }
    let e2 := ael.getD (i + 1) default
    let ael := ael.set (i + 1)
      { e2 with currentX := fl (e2.currentX + e2.stepX), currentZ := fl (e2.currentZ + e2.stepZ) }
    let r := scanPairs fl plotFunction y rest ael
    (plots ++ r.1, r.2)

/-- The scanline loop of `fillPolygon` over the rows `ys`. -/
def scanLines (fl : ℚ → ℚ) (plotFunction : ℤ → ℤ → ℤ → ℚ → ℚ → List Plot) :
    List ℤ → FillingStruct → Option (List Plot)
  | [], _ => some []
  | y :: ys, filler => do
    let n := filler.activeEdgeList.length
    let r := scanPairs fl plotFunction y ((List.range ((n + 1) / 2)).map fun k => 2 * k)
      filler.activeEdgeList
    let filler := updateActiveEdgeList fl { filler with activeEdgeList := r.2 } (y - 1)
    let sorted ← shakeSort filler.activeEdgeList
    let rest ← scanLines fl plotFunction ys { filler with activeEdgeList := sorted }
    some (r.1 ++ rest)

/-- The submissions of `fillPolygon`, with the rounding `fl` of a `float`
result in the edges.  With no vertex the loop bound `screenVertices.size() - 1`
wraps around and the code reads outside the vector: no result.  `std::sort` is
taken to be stable. -/
def fillPolygonWith (fl : ℚ → ℚ) (ctx : SGLContext) : Option (List Plot) :=
  let width := ctx.width
  let screenVertices := ctx.screenVertices
  if screenVertices = [] then none
  else
    let st0 : FillingStruct × ℤ × ℤ := (FillingStruct.new ctx.height, 0, width)
    let st1 := (List.range (screenVertices.length - 1)).foldl
      (fun st i => initFillingStruct fl st (screenVertices.getD i default)
        (screenVertices.getD (i + 1) default)) st0
    let st2 := initFillingStruct fl st1 (screenVertices.getLastD default)
      (screenVertices.getD 0 default)
    let maxX := st2.2.1
    let minX := st2.2.2
    let filler := updateActiveEdgeList fl st2.1 st2.1.maxY
    let filler := { filler with activeEdgeList :=
      filler.activeEdgeList.insertionSort fun e1 e2 => e1.currentX ≤ e2.currentX }
    let filler := { filler with maxY := min filler.maxY (ctx.height - 1) }
    let filler := { filler with minY := max filler.minY 0 }
    let plotFunction : ℤ → ℤ → ℤ → ℚ → ℚ → List Plot :=
      if minX ≥ 0 ∧ maxX < width then plotLine else plotLineBoundsChecking width
    scanLines fl plotFunction
      ((List.range (filler.maxY - filler.minY).toNat).map fun k => filler.maxY - (k : ℤ))
      filler

/-- The submissions of `fillPolygon`: the edges are stepped in binary32. -/
def fillPolygon (ctx : SGLContext) : Option (List Plot) := fillPolygonWith F32.round ctx

/-! ## `draw.cpp` -/

/-- What the library takes from its surroundings: the C math library, the
value of `std::thread::hardware_concurrency()`, and the colour that
`traceRay(generatePrimaryRay(x + 0.5, y + 0.5, invVPM), 0)` yields for a pixel
(the ray tracer reads the context and writes nothing). -/
structure Env where
  libm : Libm
  hardwareConcurrency : ℕ
  castColor : SGLContext → Matrix → ℤ → ℤ → Pixel

def sglClear (what : ℕ) : SGLSceneManager → Option SGLSceneManager :=
  guarded (contextNotInitialized.or calledWithinBeginEnd) fun s =>
    let clearColor : Bool := what &&& SGL_COLOR_BUFFER_BIT = SGL_COLOR_BUFFER_BIT
    let clearDepth : Bool := what &&& SGL_DEPTH_BUFFER_BIT = SGL_DEPTH_BUFFER_BIT
    if what &&& (4294967295 ^^^ (SGL_COLOR_BUFFER_BIT ||| SGL_DEPTH_BUFFER_BIT)) ≠ 0 then
      some (setErrCode SGL_INVALID_VALUE s)
    else
      modifyContext (fun ctx =>
        let ctx := if clearColor then
          { ctx with colorBuffer := ctx.colorBuffer.map fun _ => ctx.clearColor } else ctx
        let ctx := if clearDepth then
          { ctx with depthBuffer := ctx.depthBuffer.map fun _ => (⊤ : WithTop ℚ) } else ctx
        some ctx) s

def sglBegin (env : Env) (mode : sglEElementType) : SGLSceneManager → Option SGLSceneManager :=
  guarded (calledWithinBeginEnd.or (isInvalidEnumValue mode))
    (modifyContext fun ctx =>
      let ctx := { ctx with
        currentPrimitiveMode := mode
        insideBegin := true
        screenVertices := []
        verticesList := [] }
      if !ctx.insideBeginScene then
        (recalculateVPMMatrix ctx).map (setScaleFactor env.libm)
      else some ctx)

/-- The screen vertex `sglEnd` makes of an accumulated vertex:
`static_cast<int>` of the transformed `x` and `y`. -/
def toScreenVertex (ctx : SGLContext) (v : Vertex) : ScreenVertex :=
  let transformed := transformPoint ctx v
  ⟨floatToInt transformed.x, floatToInt transformed.y, transformed.z⟩

/-- The `switch` of `sglEnd` over the primitive mode and the area mode. -/
def dispatchPrimitive (env : Env) (ctx : SGLContext) : Option SGLContext :=
  if ctx.currentPrimitiveMode = SGL_POINTS then some (runPlots ctx (drawPoints ctx))
  else if ctx.currentPrimitiveMode = SGL_LINES then
    let r := drawLines ctx.screenVertices
    let ctx := { ctx with screenVertices := r.1 }
    (drawSegments env.libm r.2).map (runPlots ctx)
  else if ctx.currentPrimitiveMode = SGL_LINE_STRIP then
    (drawSegments env.libm (drawLineStrip ctx.screenVertices)).map (runPlots ctx)
  else if ctx.currentPrimitiveMode = SGL_LINE_LOOP then
    (drawSegments env.libm (drawLineLoop ctx.screenVertices)).map (runPlots ctx)
  else if ctx.currentPrimitiveMode = SGL_POLYGON then
    if ctx.currentAreaMode = SGL_POINT then some (runPlots ctx (drawPoints ctx))
    else if ctx.currentAreaMode = SGL_LINE then
      (drawSegments env.libm (drawLineLoop ctx.screenVertices)).map (runPlots ctx)
    else if ctx.currentAreaMode = SGL_FILL then (fillPolygon ctx).map (runPlots ctx)
    else some ctx
  else some ctx

def sglEnd (env : Env) : SGLSceneManager → Option SGLSceneManager :=
  guarded calledOutsideBeginEnd
    (modifyContext fun ctx =>
      let vertList := ctx.verticesList
      let ctx := { ctx with insideBegin := false }
      if ctx.insideBeginScene then
        if vertList.length ≥ 3 then
          let v0 := vertList.getD 0 default
          let v1 := vertList.getD 1 default
          let v2 := vertList.getD 2 default
          let tri := Primitive3D.triangle [v0, v1, v2]
            ((ctx.scene.materialsList.length : ℤ) - 1) (-1)
          some { ctx with scene :=
            { ctx.scene with primitivesList := ctx.scene.primitivesList ++ [tri] } }
        else some ctx
      else
        let ctx := { ctx with
          screenVertices := ctx.screenVertices ++ vertList.map (toScreenVertex ctx) }
        dispatchPrimitive env ctx)

/-- The stub `sglVertex4f`. -/
def sglVertex4f (_x _y _z _w : ℚ) (s : SGLSceneManager) : Option SGLSceneManager := some s

def sglVertex3f (x y z : ℚ) (s : SGLSceneManager) : Option SGLSceneManager :=
  match getCurrentContext s with
  | none => none
  | some ctx =>
    if !ctx.insideBegin then some (setErrCode SGL_INVALID_OPERATION s)
    else some (setCurrentContext s
      { ctx with verticesList := ctx.verticesList ++ [Vertex.mk3 x y z] })

def sglVertex2f (x y : ℚ) : SGLSceneManager → Option SGLSceneManager := sglVertex3f x y 0

/-- The three calls `sglBegin(SGL_POINTS); sglVertex3f(x, y, z); sglEnd();` -/
def drawSinglePoint (env : Env) (x y z : ℚ) (s : SGLSceneManager) : Option SGLSceneManager := do
  let s1 ← sglBegin env SGL_POINTS s
  let s2 ← sglVertex3f x y z s1
  sglEnd env s2

def sglCircle (env : Env) (x y z radius : ℚ) : SGLSceneManager → Option SGLSceneManager :=
  guarded contextNotInitialized fun s =>
    if radius ≤ 0 then some (setErrCode SGL_INVALID_VALUE s)
    else
      match getCurrentContext s with
      | none => none
      | some ctx =>
        if ctx.currentAreaMode = SGL_POINT then drawSinglePoint env x y z s
        else
          modifyContext (fun ctx => do
            let ctx1 ← recalculateVPMMatrix ctx
            let ctx2 := setScaleFactor env.libm ctx1
            let plots ← drawBresenhamCircle ctx2 x y z radius
            some (runPlots ctx2 plots)) s

/-- The macro `M_PI` of `context.h`. -/
def M_PI : ℚ := 314159265358979323846 / 100000000000000000000

/-- The C function `fmod`. -/
def fmod (x y : ℚ) : ℚ := x - (truncToInt (x / y) : ℚ) * y

/-- Issue `sglVertex3f` for each vertex of a list, in order. -/
def emitVertices : List Vertex → SGLSceneManager → Option SGLSceneManager
  | [], s => some s
  | v :: rest, s => do
    let s1 ← sglVertex3f v.x v.y v.z s
    emitVertices rest s1

def sglEllipse (env : Env) (cx cy cz a b : ℚ) (s : SGLSceneManager) : Option SGLSceneManager :=
  if a ≤ 0 ∨ b ≤ 0 then some (setErrCode SGL_INVALID_VALUE s)
  else
    guarded (contextNotInitialized.or calledWithinBeginEnd) (fun s =>
      match getCurrentContext s with
      | none => none
      | some ctx =>
        if ctx.currentAreaMode = SGL_POINT then drawSinglePoint env cx cy cz s
        else do
          let numSegments : ℕ := 40
          let angleStep : ℚ := 2 * M_PI / (numSegments : ℚ)
          let s1 ← sglBegin env SGL_POLYGON s
          let s2 ← emitVertices ((List.range numSegments).map fun i =>
            let angle := (i : ℚ) * angleStep
            Vertex.mk3 (cx + a * env.libm.cos angle) (cy + b * env.libm.sin angle) cz) s1
          sglEnd env s2) s

def sglArc (env : Env) (cx cy cz r from_ to_ : ℚ) : SGLSceneManager → Option SGLSceneManager :=
  guarded contextNotInitialized fun s =>
    if r ≤ 0 then some (setErrCode SGL_INVALID_VALUE s)
    else
      match getCurrentContext s with
      | none => none
      | some ctx =>
        let areaMode := ctx.currentAreaMode
        if areaMode = SGL_POINT then drawSinglePoint env cx cy cz s
        else do
          let from1 := fmod from_ (2 * M_PI)
          let from2 := if from1 < 0 then from1 + 2 * M_PI else from1
          let to1 := fmod to_ (2 * M_PI)
          let to2 := if to1 < 0 then to1 + 2 * M_PI else to1
          let to3 := if from2 > to2 then to2 + 2 * M_PI else to2
          let numSegments : ℤ := max 1 (truncToInt (40 * |to3 - from2| / (2 * M_PI)))
          let angleStep : ℚ := (to3 - from2) / (numSegments : ℚ)
          let s1 ←
            if areaMode = SGL_FILL then
              (sglBegin env SGL_POLYGON s).bind (sglVertex3f cx cy cz)
            else sglBegin env SGL_LINE_STRIP s
          let s2 ← emitVertices ((intRange 0 (numSegments + 1)).map fun i =>
            let angle := from2 + (i : ℚ) * angleStep
            let angle := if i % 10 = 0 then fmod angle (2 * M_PI) else angle
            Vertex.mk3 (cx + r * env.libm.cos angle) (cy + r * env.libm.sin angle) cz) s1
          sglEnd env s2

/-! ## `initialize.cpp` -/

def sglFinish (s : SGLSceneManager) : SGLSceneManager := s

def sglCreateContext (width height : ℤ) (s : SGLSceneManager) : Option (ℤ × SGLSceneManager) :=
  (SGLContext.new width height).map fun context =>
    ((s.contexts.length : ℤ), { s with contexts := s.contexts ++ [context] })

/-- The test `isValidContextId(size_t id)`: a negative `int` converts to a
`size_t` beyond every size. -/
def isValidContextId (s : SGLSceneManager) (id : ℤ) : Bool :=
  decide (0 ≤ id ∧ id < (s.contexts.length : ℤ))

def sglDestroyContext (id : ℤ) (s : SGLSceneManager) : SGLSceneManager :=
  if !isValidContextId s id then setErrCode SGL_INVALID_VALUE s
  else if id = s.currentContextId then setErrCode SGL_INVALID_OPERATION s
  else { s with contexts := s.contexts.eraseIdx id.toNat }

def sglSetContext (id : ℤ) (s : SGLSceneManager) : SGLSceneManager :=
  if !isValidContextId s id then setErrCode SGL_INVALID_VALUE s
  else { s with currentContextId := id }

def sglGetContext (s : SGLSceneManager) : ℤ × SGLSceneManager :=
  (s.currentContextId,
    if s.currentContextId = -1 then setErrCode SGL_INVALID_OPERATION s else s)

/-! ## `ray_tracing.cpp` -/

def sglBeginScene : SGLSceneManager → Option SGLSceneManager :=
  guarded (contextNotInitialized.or calledWithinBeginEnd)
    (modifyContext fun ctx =>
      some { ctx with scene := ctx.scene.RestartScene, insideBeginScene := true })

def sglEndScene : SGLSceneManager → Option SGLSceneManager :=
  guarded (contextNotInitialized.or calledWithinBeginEnd)
    (modifyContext fun ctx => some { ctx with insideBeginScene := false })

def sglSphere (x y z radius : ℚ) : SGLSceneManager → Option SGLSceneManager :=
  guarded ((contextNotInitialized.or calledWithinBeginEnd).or calledOutsideBeginSceneEndScene)
    (modifyContext fun ctx =>
      let sphere := Primitive3D.sphere (Vertex.mk3 x y z) radius
        ((ctx.scene.materialsList.length : ℤ) - 1) (-1)
      some { ctx with scene :=
        { ctx.scene with primitivesList := ctx.scene.primitivesList ++ [sphere] } })

def sglMaterial (r g b kd ks shine T ior : ℚ) : SGLSceneManager → Option SGLSceneManager :=
  guarded (contextNotInitialized.or calledWithinBeginEnd)
    (modifyContext fun ctx =>
      let mat := Material.make r g b kd ks shine T ior
      some { ctx with scene :=
        { ctx.scene with materialsList := ctx.scene.materialsList ++ [mat] } })

def sglPointLight (x y z r g b : ℚ) : SGLSceneManager → Option SGLSceneManager :=
  guarded ((contextNotInitialized.or calledWithinBeginEnd).or calledOutsideBeginSceneEndScene)
    (modifyContext fun ctx =>
      let light : PointLight := ⟨Vertex.mk3 x y z, ⟨r, g, b⟩⟩
      some { ctx with scene :=
        { ctx.scene with lightsList := ctx.scene.lightsList ++ [light] } })

/-- The command `sglEmissiveMaterial`; `push_back` through the null
`emissiveMaterialsList` has no defined result. -/
def sglEmissiveMaterial (r g b c0 c1 c2 : ℚ) : SGLSceneManager → Option SGLSceneManager :=
  guarded (contextNotInitialized.or calledWithinBeginEnd)
    (modifyContext fun ctx =>
      match ctx.scene.emissiveMaterialsList with
      | none => none
      | some l =>
        let mat : EmissiveMaterial := ⟨⟨r, g, b⟩, ⟨c0, c1, c2⟩⟩
        some { ctx with scene := { ctx.scene with emissiveMaterialsList := some (l ++ [mat]) } })

/-- The command `sglEnvironmentMap`; `texels = none` is the null pointer, and
the copy reads `width * height * 3` floats. -/
def sglEnvironmentMap (width height : ℤ) (texels : Option (List ℚ)) (s : SGLSceneManager) :
    Option SGLSceneManager :=
  match texels with
  | none => some s
  | some t =>
    guarded (contextNotInitialized.or calledWithinBeginEnd)
      (modifyContext fun ctx =>
        let envMapSize := width * height * 3
        if envMapSize < 0 then none
        else some { ctx with scene := { ctx.scene with
          envMap := some ⟨width, height,
            (List.range envMapSize.toNat).map fun i => t.getD i 0⟩ } }) s

def recalculateRaytracingVPMMatrix (ctx : SGLContext) : Option SGLContext := do
  let projection ← stackAt ctx SGL_PROJECTION
  let modelview ← stackAt ctx SGL_MODELVIEW
  let projectionMatrix ← projection.getLast?
  let modelViewMatrix ← modelview.getLast?
  some { ctx with VPMmatrix := projectionMatrix.mul modelViewMatrix }

/-- The function `castRay`; the checked write `colorBuffer->at(x + y * w)`
throws outside the buffer. -/
def castRay (env : Env) (x y w : ℤ) (invVPM : Matrix) (ctx : SGLContext) : Option SGLContext :=
  let color := env.castColor ctx invVPM x y
  let index := x + y * w
  if 0 ≤ index ∧ index < (ctx.colorBuffer.length : ℤ) then
    some { ctx with colorBuffer := ctx.colorBuffer.set index.toNat color }
  else none

def raycastSegment (env : Env) (startY endY w : ℤ) (invVPM : Matrix) (ctx : SGLContext) :
    Option SGLContext :=
  (intRange startY endY).foldlM (fun ctx y =>
    (intRange 0 w).foldlM (fun ctx x => castRay env x y w invVPM ctx) ctx) ctx

/-- The command `sglRayTraceScene`; the worker threads write disjoint rows
and are run here one after the other.  With `hardware_concurrency() = 0` the
division `height / numThreads` has no defined result. -/
def sglRayTraceScene (env : Env) : SGLSceneManager → Option SGLSceneManager :=
  guarded ((contextNotInitialized.or calledWithinBeginEnd).or calledWithinBeginSceneEndScene)
    (modifyContext fun ctx => do
      let ctx ← recalculateRaytracingVPMMatrix ctx
      let width := ctx.width
      let height := ctx.height
      let inv := ctx.VPMmatrix.Invert
      if inv.1 ≠ 0 then some ctx
      else
        let invVPM := inv.2
        let numThreads := env.hardwareConcurrency
        if numThreads = 0 then none
        else
          let rowsPerThread : ℤ := (height.toNat / numThreads : ℕ)
          (List.range numThreads).foldlM (fun ctx i =>
            let startY : ℤ := (i : ℤ) * rowsPerThread
            let endY : ℤ := if i = numThreads - 1 then height else ((i : ℤ) + 1) * rowsPerThread
            raycastSegment env startY endY width invVPM ctx) ctx)

/-- The stub `sglRasterizeScene`. -/
def sglRasterizeScene (s : SGLSceneManager) : Option SGLSceneManager := some s

/-! ## The command surface -/

/-- The commands of the library, with their arguments. -/
inductive Command where
  | CreateContext (width height : ℤ)
  | DestroyContext (id : ℤ)
  | SetContext (id : ℤ)
  | GetContext
  | GetError
  | Finish
  | ClearColor (r g b alpha : ℚ)
  | Color3f (r g b : ℚ)
  | AreaMode (mode : sglEAreaMode)
  | PointSize (size : ℚ)
  | Enable (cap : sglEEnableFlags)
  | Disable (cap : sglEEnableFlags)
  | Clear (what : ℕ)
  | MatrixMode (mode : sglEMatrixMode)
  | PushMatrix
  | PopMatrix
  | LoadIdentity
  | LoadMatrix (matrix : List ℚ)
  | MultMatrix (matrix : List ℚ)
  | Translate (x y z : ℚ)
  | Scale (x y z : ℚ)
  | Rotate2D (angle centerx centery : ℚ)
  | RotateY (angle : ℚ)
  | Ortho (l r b t n f : ℚ)
  | Frustum (l r b t n f : ℚ)
  | Viewport (x y width height : ℤ)
  | Begin (mode : sglEElementType)
  | End
  | Vertex4f (x y z w : ℚ)
  | Vertex3f (x y z : ℚ)
  | Vertex2f (x y : ℚ)
  | Circle (x y z radius : ℚ)
  | Ellipse (x y z a b : ℚ)
  | Arc (x y z radius from_ to_ : ℚ)
  | BeginScene
  | EndScene
  | Sphere (x y z radius : ℚ)
  | Material (r g b kd ks shine T ior : ℚ)
  | PointLight (x y z r g b : ℚ)
  | EmissiveMaterial (r g b c0 c1 c2 : ℚ)
  | EnvironmentMap (width height : ℤ) (texels : Option (List ℚ))
  | RayTraceScene
  | RasterizeScene

/-- The effect of one command on the library's state. -/
def step (env : Env) : Command → SGLSceneManager → Option SGLSceneManager
  | .CreateContext width height, s => (sglCreateContext width height s).map Prod.snd
  | .DestroyContext id, s => some (sglDestroyContext id s)
  | .SetContext id, s => some (sglSetContext id s)
  | .GetContext, s => some (sglGetContext s).2
  | .GetError, s => some (sglGetError s).2
  | .Finish, s => some (sglFinish s)
  | .ClearColor r g b alpha, s => sglClearColor r g b alpha s
  | .Color3f r g b, s => sglColor3f r g b s
  | .AreaMode mode, s => sglAreaMode mode s
  | .PointSize size, s => sglPointSize size s
  | .Enable cap, s => sglEnable cap s
  | .Disable cap, s => sglDisable cap s
  | .Clear what, s => sglClear what s
  | .MatrixMode mode, s => sglMatrixMode mode s
  | .PushMatrix, s => sglPushMatrix s
  | .PopMatrix, s => sglPopMatrix s
  | .LoadIdentity, s => sglLoadIdentity s
  | .LoadMatrix matrix, s => sglLoadMatrix matrix s
  | .MultMatrix matrix, s => sglMultMatrix matrix s
  | .Translate x y z, s => sglTranslate x y z s
  | .Scale x y z, s => sglScale x y z s
  | .Rotate2D angle centerx centery, s => sglRotate2D env.libm angle centerx centery s
  | .RotateY angle, s => sglRotateY env.libm angle s
  | .Ortho l r b t n f, s => sglOrtho l r b t n f s
  | .Frustum l r b t n f, s => sglFrustum l r b t n f s
  | .Viewport x y width height, s => sglViewport x y width height s
  | .Begin mode, s => sglBegin env mode s
  | .End, s => sglEnd env s
  | .Vertex4f x y z w, s => sglVertex4f x y z w s
  | .Vertex3f x y z, s => sglVertex3f x y z s
  | .Vertex2f x y, s => sglVertex2f x y s
  | .Circle x y z radius, s => sglCircle env x y z radius s
  | .Ellipse x y z a b, s => sglEllipse env x y z a b s
  | .Arc x y z radius from_ to_, s => sglArc env x y z radius from_ to_ s
  | .BeginScene, s => sglBeginScene s
  | .EndScene, s => sglEndScene s
  | .Sphere x y z radius, s => sglSphere x y z radius s
  | .Material r g b kd ks shine T ior, s => sglMaterial r g b kd ks shine T ior s
  | .PointLight x y z r g b, s => sglPointLight x y z r g b s
  | .EmissiveMaterial r g b c0 c1 c2, s => sglEmissiveMaterial r g b c0 c1 c2 s
  | .EnvironmentMap width height texels, s => sglEnvironmentMap width height texels s
  | .RayTraceScene, s => sglRayTraceScene env s
  | .RasterizeScene, s => sglRasterizeScene s

/-- The states the library can be in: those a sequence of commands leads to
from the state `sglInit` leaves. -/
inductive Reachable (env : Env) : SGLSceneManager → Prop where
  | init : Reachable env sglInit
  | step {s s' : SGLSceneManager} (c : Command) :
      Reachable env s → step env c s = some s' → Reachable env s'

/-- Run a sequence of commands; `none` as soon as one of them has no result. -/
def run (env : Env) : List Command → SGLSceneManager → Option SGLSceneManager
  | [], s => some s
  | c :: cs, s => (step env c s).bind (run env cs)

/-- The state commands, each guarded by `calledWithinBeginEnd`. -/
def Command.isStateCommand : Command → Bool
  | .ClearColor .. | .Color3f .. | .AreaMode .. | .PointSize .. | .Enable .. | .Disable ..
  | .Clear .. | .MatrixMode .. | .PushMatrix | .PopMatrix | .LoadIdentity | .LoadMatrix ..
  | .MultMatrix .. | .Translate .. | .Scale .. | .Rotate2D .. | .RotateY .. | .Ortho ..
  | .Frustum .. | .Viewport .. | .BeginScene | .EndScene | .Material .. | .Begin .. => true
  | _ => false

/-- The matrix commands that assign to the top of the active stack. -/
def Command.isTopCommand : Command → Bool
  | .LoadIdentity | .LoadMatrix .. | .MultMatrix .. | .Translate .. | .Scale .. | .Rotate2D ..
  | .RotateY .. | .Ortho .. | .Frustum .. => true
  | _ => false

/-- Sequences of matrix commands in which every `PushMatrix` has its matching
`PopMatrix` and every `PopMatrix` its `PushMatrix`; no command changes the
matrix mode. -/
inductive Balanced : List Command → Prop where
  | nil : Balanced []
  | top (c : Command) (cs : List Command) :
      c.isTopCommand = true → Balanced cs → Balanced (c :: cs)
  | nest (inner rest : List Command) :
      Balanced inner → Balanced rest →
      Balanced (Command.PushMatrix :: (inner ++ Command.PopMatrix :: rest))

/-- What every context the library creates satisfies and every command keeps:
there are two matrix stacks, none of them empty, and the last row of the
viewport matrix is `(0, 0, 0, 1)`. -/
structure WellFormed (ctx : SGLContext) : Prop where
  two : ctx.transformationStack.length = 2
  nonempty : ∀ stack ∈ ctx.transformationStack, stack ≠ []
  row12 : ctx.viewportMatrix.get 12 = 0
  row13 : ctx.viewportMatrix.get 13 = 0
  row14 : ctx.viewportMatrix.get 14 = 0
  row15 : ctx.viewportMatrix.get 15 = 1

/-- The manager `s'` differs from `s` in the error register at most. -/
def ErrOnly (s s' : SGLSceneManager) : Prop :=
  s'.contexts = s.contexts ∧ s'.currentContextId = s.currentContextId

/-- The manager `s` with the active matrix stack of its current context `ctx`
replaced by `stack` and the error register by `e`. -/
def withActiveStack (s : SGLSceneManager) (ctx : SGLContext) (stack : List Matrix)
    (e : sglEErrorCode) : SGLSceneManager :=
  { currentContextId := s.currentContextId
    contexts := s.contexts.set s.currentContextId.toNat
      (setStackAt ctx ctx.currentMatrixMode stack)
    errorCode := e }

/-- The manager `s` has the current context `ctx`, which is outside begin/end
and whose matrix mode selects one of its stacks. -/
structure ActiveStack (s : SGLSceneManager) (ctx : SGLContext) : Prop where
  current : getCurrentContext s = some ctx
  outside : ctx.insideBegin = false
  modeNonneg : 0 ≤ ctx.currentMatrixMode
  modeValid : ctx.currentMatrixMode.toNat < ctx.transformationStack.length

/-- Every context of the manager is well formed. -/
def AllWF (s : SGLSceneManager) : Prop := ∀ ctx ∈ s.contexts, WellFormed ctx

/-- The command `f` keeps every context well formed. -/
def KeepsWF (f : SGLSceneManager → Option SGLSceneManager) : Prop :=
  ∀ s s', f s = some s' → AllWF s → AllWF s'

/-- The context update `f` keeps the context well formed. -/
def CtxKeepsWF (f : SGLContext → Option SGLContext) : Prop :=
  ∀ ctx ctx', f ctx = some ctx' → WellFormed ctx → WellFormed ctx'

/-- The guard `g` writes the error register at most. -/
def GuardFrame (g : Guard) : Prop := ∀ s b s1, g s = some (b, s1) → ErrOnly s s1

/-- The context `b` has the matrix stacks and the viewport matrix of `a`. -/
def SameStacks (a b : SGLContext) : Prop :=
  b.transformationStack = a.transformationStack ∧ b.viewportMatrix = a.viewportMatrix

/-! ## Notions for the proofs about `Matrix::Invert` -/

/-- The flat row-major data of a `Matrix` as a 4x4 matrix. -/
def Matrix.toMat4 (m : Matrix) : Mat4 := Matrix.of fun i j => m.get (i.val * 4 + j.val)

/-- The index `n` of a row or column as an element of `Fin 4`. -/
def toFin4 (n : ℕ) : Fin 4 := ⟨n % 4, Nat.mod_lt _ (by decide)⟩

/-- The matrix `B` with the rows `a` and `b` exchanged. -/
def rowSwap (B : Mat4) (a b : Fin 4) : Mat4 := Matrix.of fun i j => B (Equiv.swap a b i) j

/-- The matrix `B` with the columns `a` and `b` exchanged. -/
def colSwap (B : Mat4) (a b : Fin 4) : Mat4 := Matrix.of fun i j => B i (Equiv.swap a b j)

/-- The in-place Gauss-Jordan step on the pivot `B p p`: what `eliminate` computes. -/
def pivotOp (B : Mat4) (p : Fin 4) : Mat4 :=
  Matrix.of fun i j =>
    if i = p then (if j = p then 1 else B p j) * (1 / B p p)
    else (if j = p then 0 else B i j) - (if j = p then 1 else B p j) * (1 / B p p) * B i p

/-- The permutation matrix that exchanges `a` and `b`. -/
def swapMat (a b : Fin 4) : Mat4 := Matrix.of fun i j => if Equiv.swap a b i = j then 1 else 0

/-- The row operation of the Gauss-Jordan step on the pivot `B p p`, as a matrix. -/
def gaussMat (B : Mat4) (p : Fin 4) : Mat4 :=
  Matrix.of fun i j =>
    if j = p then (if i = p then 1 / B p p else -(B i p / B p p)) else (if i = j then 1 else 0)

/-- The inverse of `gaussMat B p`. -/
def gaussInv (B : Mat4) (p : Fin 4) : Mat4 :=
  Matrix.of fun i j => if j = p then B i p else (if i = j then 1 else 0)

/-- The left half of the augmented matrix that the in-place data `B` stands
for: unit columns where a pivot has been taken (`S`), the columns of `B` elsewhere. -/
def leftPart (B : Mat4) (S : Finset (Fin 4)) : Mat4 :=
  Matrix.of fun i j => if j ∈ S then (if i = j then 1 else 0) else B i j

/-- The right half of the augmented matrix that the in-place data `B` stands
for: the columns of `B` where a pivot has been taken (`S`), unit columns elsewhere. -/
def rightPart (B : Mat4) (S : Finset (Fin 4)) : Mat4 :=
  Matrix.of fun i j => if j ∈ S then B i j else (if i = j then 1 else 0)

/-- The rows and columns in which a pivot has been taken: `ipiv[k] = 1`. -/
def pivoted (ipiv : List ℤ) : Finset (Fin 4) :=
  Finset.univ.filter fun k => ipiv.getD k.val 0 = 1

/-- The product of the row exchanges recorded in `indxr`, `indxc`, the last
one leftmost. -/
def permOf (indx : List (ℕ × ℕ)) : Mat4 :=
  (indx.reverse.map fun rc => swapMat (toFin4 rc.2) (toFin4 rc.1)).prod

/-- The cell `(j, k)` takes part in the pivot search. -/
def IsCandidate (ipiv : List ℤ) (j k : ℕ) : Prop :=
  j < 4 ∧ k < 4 ∧ ipiv.getD j 0 ≠ 1 ∧ ipiv.getD k 0 = 0

/-- The search has settled on a candidate cell and `big` is its magnitude. -/
def Found (data : List ℚ) (ipiv : List ℤ) (ps : Matrix.PivotSearch) : Prop :=
  IsCandidate ipiv ps.irow ps.icol ∧
    ps.big = |data.getD (Matrix.Convert2DTo1D ps.icol ps.irow) 0|

/-- The invariant of the elimination of the matrix `A`: `B` is the data in
place, `S` the pivots taken, `P` the product of the row exchanges. -/
structure GJInv (A B : Mat4) (S : Finset (Fin 4)) (P : Mat4) : Prop where
  left : leftPart B S = rightPart B S * P * A
  back : ∃ Q : Mat4, A = Q * leftPart B S

/-- The invariant of the main loop of `Invert` on the matrix `A` after `n`
iterations. -/
structure InvertInv (A : Mat4) (st : Matrix.InvertState) (n : ℕ) : Prop where
  len : st.data.length = 16
  ipivLen : st.ipiv.length = 4
  binary : ∀ k, k < 4 → st.ipiv.getD k 0 = 0 ∨ st.ipiv.getD k 0 = 1
  card : (pivoted st.ipiv).card = n
  bound : ∀ rc ∈ st.indx, rc.1 < 4 ∧ rc.2 < 4
  gj : GJInv A (Matrix.toMat4 ⟨st.data⟩) (pivoted st.ipiv) (permOf st.indx)

/-- The drawing operations of `draw_utils.cpp`; the loops of the line and of
the circle are given an arbitrary number of iterations. -/
inductive DrawOp where
  | points
  | line (fuel : ℕ) (start finish : ScreenVertex)
  | circle (fuel : ℕ) (cx cy cz radius : ℚ)
  | polygon

/-- The submissions of a drawing operation. -/
def DrawOp.plots (m : Libm) (ctx : SGLContext) : DrawOp → Option (List Plot)
  | .points => some (drawPoints ctx)
  | .line fuel start finish => drawBresenhamLineFuel m fuel start finish
  | .circle fuel cx cy cz radius => drawBresenhamCircleFuel fuel ctx cx cy cz radius
  | .polygon => fillPolygon ctx

/-- A point lies inside the canvas of a context. -/
def inCanvas (ctx : SGLContext) (p : ScreenVertex) : Prop :=
  0 ≤ p.x ∧ p.x < ctx.width ∧ 0 ≤ p.y ∧ p.y < ctx.height

/-- The entry `buffer[index]` when the index lies inside the buffer. -/
def cellAt {α : Type} (buffer : List α) (index : ℤ) : Option α :=
  if 0 ≤ index then buffer.get? index.toNat else none

/-- The colour of the pixel of a point. -/
def pixelAt (ctx : SGLContext) (p : ScreenVertex) : Option Pixel :=
  cellAt ctx.colorBuffer (coord2DTo1D p.x p.y ctx.width)

/-- The context after the write `colorBuffer[coord2DTo1D(p.x, p.y, width)] = color`. -/
def writePixel (ctx : SGLContext) (p : ScreenVertex) : SGLContext :=
  { ctx with colorBuffer := bufSet ctx.colorBuffer (coord2DTo1D p.x p.y ctx.width) ctx.currentColor }

/-- The context `b` differs from `a` in the two buffers at most. -/
def SameButBuffers (a b : SGLContext) : Prop :=
  b = { a with colorBuffer := b.colorBuffer, depthBuffer := b.depthBuffer }

instance (ctx : SGLContext) (p : ScreenVertex) : Decidable (inCanvas ctx p) := by
  unfold inCanvas
  infer_instance

/-- The reference composite of the specification: `viewport · (projection ·
modelview)`, all of it divided by its element 15 when that is not 1. -/
def referenceVPM (viewport projection modelview : Matrix) : Option Matrix :=
  let product := viewport.mul (projection.mul modelview)
  if product.get 15 ≠ 1 then product.divScalar (product.get 15) else some product

/-- A non-singular matrix, of determinant `2 ^ -25`, whose second pivot
`fl(1/3) - fl(fl(1/3) * 1)` is 0 in binary32. -/
def nearSingularDemo : Matrix :=
  ⟨[3, 1, 0, 0, 1, 11184811 / 33554432, 0, 0, 0, 0, 1, 0, 0, 0, 0, 1]⟩

/-- A non-singular matrix close to a singular one; `7340137 / 2 ^ 20` is the
`float` nearest to 7.0001. -/
def illConditionedDemo : Matrix :=
  ⟨[1, 1, 1, 0, 1, 2, 3, 0, 3, 5, 7340137 / 1048576, 0, 0, 0, 0, 1]⟩

/-- A singular matrix: its third row is the first plus twice the second. -/
def singularDemo : Matrix := ⟨[1, 1, 1, 0, 1, 2, 3, 0, 3, 5, 7, 0, 0, 0, 0, 1]⟩

/-- A perspective projection on a fresh 2x2 context. -/
def frustumDemo : List Command :=
  [.CreateContext 2 2, .SetContext 0, .Frustum (-1) 1 (-1) 1 1 10]

/-- An environment for concrete runs: a stand-in square root that is exact on
0 and 1, constant trigonometry, one worker thread, a black ray tracer. -/
def demoEnv : Env :=
  { libm := { sqrt := fun q => q, cos := fun _ => 1, sin := fun _ => 0 }
    hardwareConcurrency := 1
    castColor := fun _ _ _ _ => ⟨0, 0, 0⟩ }

/-- A 2x2 context as `SGLContext(2, 2)` leaves it, with the colour, the
depth-test switch, the two begin/end flags, the accumulated vertices and the
primitive mode as given. -/
def demoContext (color : Pixel) (depthTest inside : Bool) (vertices : List Vertex)
    (mode : sglEElementType) : SGLContext :=
  { width := 2
    height := 2
    colorBuffer := [⟨0, 0, 0⟩, ⟨0, 0, 0⟩, ⟨0, 0, 0⟩, ⟨0, 0, 0⟩]
    depthBuffer := [((1 : ℚ) : WithTop ℚ), ((1 : ℚ) : WithTop ℚ), ((1 : ℚ) : WithTop ℚ),
      ((1 : ℚ) : WithTop ℚ)]
    currentPrimitiveMode := mode
    currentAreaMode := SGL_FILL
    currentMatrixMode := SGL_MODELVIEW
    currentColor := color
    clearColor := ⟨0, 0, 0⟩
    pointSize := 1
    scaleFactor := 1
    insideBegin := inside
    enabledDepthTest := depthTest
    transformationStack := [[Matrix.identity], [Matrix.identity]]
    verticesList := vertices
    screenVertices := []
    viewportMatrix := Matrix.identity
    VPMmatrix := Matrix.identity
    scene := Scene.new
    insideBeginScene := false }

/-- A manager whose only and current context is `ctx`. -/
def demoManager (ctx : SGLContext) : SGLSceneManager := ⟨0, [ctx], SGL_NO_ERROR⟩

/-- The integer square root: the largest `k` with `k * k ≤ n`. -/
def intSqrt (n : ℕ) : ℕ := ((List.range (n + 1)).filter fun k => k * k ≤ n).length - 1

/-- An environment for concrete runs whose square root is exact on the squares
of rationals (and rounds numerator and denominator down elsewhere). -/
def squareEnv : Env :=
  { libm :=
      { sqrt := fun q => if 0 ≤ q then (intSqrt q.num.toNat : ℚ) / (intSqrt q.den : ℚ) else 0
        cos := fun _ => 1
        sin := fun _ => 0 }
    hardwareConcurrency := 1
    castColor := fun _ _ _ _ => ⟨0, 0, 0⟩ }

/-- The current context after a sequence of commands issued after `sglInit`. -/
def finalContext (env : Env) (cs : List Command) : Option SGLContext :=
  (run env cs sglInit).bind getCurrentContext

/-- A white triangle with the vertices `(2, 2)`, `(8, 2)`, `(5, 8)`, filled on a
cleared black 10x10 canvas under identity matrices. -/
def triangleDemo : List Command :=
  [.CreateContext 10 10, .SetContext 0, .Clear 3, .Color3f 1 1 1, .Begin SGL_POLYGON,
    .Vertex3f 2 2 0, .Vertex3f 8 2 0, .Vertex3f 5 8 0, .End]

/-- The pixels of the canvas whose colour is `c`, row by row. -/
def pixelsOf (ctx : SGLContext) (c : Pixel) : List (ℤ × ℤ) :=
  (intRange 0 ctx.height).flatMap fun y =>
    ((intRange 0 ctx.width).filter fun x => pixelAt ctx ⟨x, y, 0⟩ = some c).map fun x => (x, y)

/-- One white point of size `s` at the pixel `(1, 1)` of a black 4x4 canvas,
depth test disabled, identity matrices. -/
def pointSizeDemo (s : ℚ) : List Command :=
  [.CreateContext 4 4, .SetContext 0, .Disable SGL_DEPTH_TEST, .Color3f 1 1 1, .PointSize s,
    .Begin SGL_POINTS, .Vertex3f 1 1 0, .End]

/-- The square of `n` by `n` fragments that `drawPoints` stamps at a vertex,
row by row. -/
def pointSquare (n : ℤ) (v : ScreenVertex) : List Plot :=
  (intRange 0 n).flatMap fun i => (intRange 0 n).map fun j => .checked ⟨v.x + j, v.y + i, v.z⟩

/-- A 2x2 context with point size 1.5 and one screen vertex, depth test disabled. -/
def pointSizeContext : SGLContext :=
  { demoContext ⟨1, 1, 1⟩ false true [] SGL_POINTS with
    pointSize := 3 / 2, screenVertices := [⟨0, 0, 1 / 2⟩] }

/-- A mirror transformation followed by `sglBegin`, which sets the scale factor. -/
def mirrorDemo (x : ℚ) : List Command :=
  [.CreateContext 2 2, .SetContext 0, .Scale x 1 1, .Begin SGL_POINTS]

/-- The context `SGLContext(W, H)` after `sglColor3f` and `sglViewport(0, 0, W, H)`:
identity stacks, depth buffer all 1, depth test enabled, point size 1. -/
def viewportContext (W H : ℤ) (color : Pixel) : SGLContext :=
  { width := W
    height := H
    colorBuffer := List.replicate (W * H).toNat default
    depthBuffer := List.replicate (W * H).toNat ((1 : ℚ) : WithTop ℚ)
    currentPrimitiveMode := SGL_POINTS
    currentAreaMode := SGL_FILL
    currentMatrixMode := SGL_MODELVIEW
    currentColor := color
    clearColor := default
    pointSize := 1
    scaleFactor := 1
    insideBegin := false
    enabledDepthTest := true
    transformationStack := [[Matrix.identity], [Matrix.identity]]
    verticesList := []
    screenVertices := []
    viewportMatrix := viewportOf 0 0 W H
    VPMmatrix := Matrix.identity
    scene := Scene.new
    insideBeginScene := false }

/-- The commands that lead from `sglInit` to `viewportContext W H ⟨r, g, b⟩`. -/
def viewportSetup (W H : ℤ) (r g b : ℚ) : List Command :=
  [.CreateContext W H, .SetContext 0, .Color3f r g b, .Viewport 0 0 W H]

/-- The entry of the depth buffer at the pixel of a point. -/
def depthAt (ctx : SGLContext) (p : ScreenVertex) : Option (WithTop ℚ) :=
  cellAt ctx.depthBuffer (coord2DTo1D p.x p.y ctx.width)

/-- The screen vertex `sglEnd` makes of the vertex `(x, y, z)` when the
composite matrix is the viewport matrix of `Viewport(0, 0, W, H)` (identity
stacks): `x`, `y` scaled to the canvas and truncated, `z` remapped to
`(z + 1) / 2`, all in `float` arithmetic. -/
def viewportPixel (W H : ℤ) (x y z : ℚ) : ScreenVertex :=
  toScreenVertex { viewportContext W H default with VPMmatrix := viewportOf 0 0 W H }
    (Vertex.mk3 x y z)

/-- The fragment at `p` passes the depth test of the context: the test is
disabled, or the stored depth exceeds the `float` difference `p.z - EPSILON`. -/
def fragmentPasses (ctx : SGLContext) (p : ScreenVertex) : Prop :=
  ctx.enabledDepthTest = false ∨
    ((F32.sub p.z EPSILON : ℚ) : WithTop ℚ) <
      bufGet ctx.depthBuffer (coord2DTo1D p.x p.y ctx.width) 0

/-- The fragments of `drawBresenhamLine` on a diagonal of `n` steps from `a`
to `b`: the pixels `(a.x + j * sX, a.y + j * sY)` for `j < n` with the depth of
`a`, then the pixel of `b` with the depth `z`. -/
def diagonalPlots (a b : ScreenVertex) (n : ℤ) (z : ℚ) : List Plot :=
  (List.range n.toNat).map (fun j : ℕ =>
      Plot.checked ⟨a.x + (j : ℤ) * (if a.x < b.x then 1 else -1),
        a.y + (j : ℤ) * (if a.y < b.y then 1 else -1), a.z⟩) ++
    [.checked ⟨b.x, b.y, z⟩]

/-- A white line from the pixel `(0, 0)` to the pixel `(x, y)` on a fresh
10x10 context, identity matrices and the default viewport. -/
def longLineDemo (x y : ℚ) : List Command :=
  [.CreateContext 10 10, .SetContext 0, .Color3f 1 1 1, .Begin SGL_LINES, .Vertex3f 0 0 0,
    .Vertex3f x y 0, .End]

/-- A white diagonal under `Ortho(-1, 1, -1, 1, -1, 1)` and `Viewport(0, 0, 10, 10)`
on a fresh 10x10 context. -/
def diagonalDemo : List Command :=
  [.CreateContext 10 10, .SetContext 0, .Color3f 1 1 1, .Ortho (-1) 1 (-1) 1 (-1) 1,
    .Viewport 0 0 10 10, .Begin SGL_LINES, .Vertex3f (-1) (-1) 0, .Vertex3f 1 1 0, .End]

/-- A scene block with a material, a sphere and a point light on a fresh 2x2
context. -/
def sceneDemo : List Command :=
  [.CreateContext 2 2, .SetContext 0, .BeginScene, .Material 1 0 0 1 0 0 0 1, .Sphere 0 0 0 1,
    .PointLight 0 5 0 1 1 1]

/-- Two consecutive pixels of a rasterised line: each coordinate changes by
at most one, and not both stay. -/
def lineAdjacent (p q : ScreenVertex) : Prop :=
  |q.x - p.x| ≤ 1 ∧ |q.y - p.y| ≤ 1 ∧ (q.x ≠ p.x ∨ q.y ≠ p.y)

/-- What a run of the loop of `drawBresenhamLine` from the pixel `(x, y)` to the
vertex `finish` in exactly `k` iterations submits: `k + 1` fragments, the first
at `(x, y)`, the last at `finish`, consecutive ones adjacent. -/
structure LineRun (k : ℕ) (x y : ℤ) (finish : ScreenVertex) (plots : List Plot) : Prop where
  length : plots.length = k + 1
  first : ∃ (z : ℚ) (rest : List Plot), plots = Plot.checked ⟨x, y, z⟩ :: rest
  last : ∃ z : ℚ, plots.getLast? = some (Plot.checked ⟨finish.x, finish.y, z⟩)
  chain : List.Chain' lineAdjacent (plots.map Plot.point)

/-! ## `structures.cpp`: vectors -/

def DotProd (v1 v2 : Vertex) : ℚ := v1.x * v2.x + v1.y * v2.y + v1.z * v2.z

def CrossProd (v1 v2 : Vertex) : Vertex :=
  ⟨v1.y * v2.z - v1.z * v2.y, v1.z * v2.x - v1.x * v2.z, v1.x * v2.y - v1.y * v2.x, 0⟩

/-- The operator `Vertex::operator+`. -/
def Vertex.add (a v : Vertex) : Vertex := ⟨a.x + v.x, a.y + v.y, a.z + v.z, a.w + v.w⟩

/-- The operator `Vertex::operator-`. -/
def Vertex.sub (a v : Vertex) : Vertex := ⟨a.x - v.x, a.y - v.y, a.z - v.z, a.w - v.w⟩

/-- The operator `Vertex::operator*(float)`. -/
def Vertex.smul (a : Vertex) (scalar : ℚ) : Vertex :=
  ⟨a.x * scalar, a.y * scalar, a.z * scalar, a.w * scalar⟩

def Vertex.Normalize (m : Libm) (v : Vertex) : Vertex :=
  let scale := m.sqrt (v.x * v.x + v.y * v.y + v.z * v.z + v.w * v.w)
  if scale > 0 then
    let invScale := 1 / scale
    ⟨v.x * invScale, v.y * invScale, v.z * invScale, v.w * invScale⟩
  else v

/-- The constant `EPSILON_T = 0.01f` of `structures.h`: the `float` nearest to
0.01. -/
def EPSILON_T : ℚ := 5368709 / 536870912

/-- `DotProd` with the rounding `fl` of each of its `float` operations. -/
def dotProdWith (fl : ℚ → ℚ) (v1 v2 : Vertex) : ℚ :=
  fl (fl (fl (v1.x * v2.x) + fl (v1.y * v2.y)) + fl (v1.z * v2.z))

/-- `CrossProd` with the rounding `fl` of each of its `float` operations. -/
def crossProdWith (fl : ℚ → ℚ) (v1 v2 : Vertex) : Vertex :=
  ⟨fl (fl (v1.y * v2.z) - fl (v1.z * v2.y)), fl (fl (v1.z * v2.x) - fl (v1.x * v2.z)),
    fl (fl (v1.x * v2.y) - fl (v1.y * v2.x)), 0⟩

/-- `Vertex::operator-` with the rounding `fl` of each difference. -/
def Vertex.subWith (fl : ℚ → ℚ) (a v : Vertex) : Vertex :=
  ⟨fl (a.x - v.x), fl (a.y - v.y), fl (a.z - v.z), fl (a.w - v.w)⟩

/-! ## `scene.cpp`: rays and primitives -/

structure Ray where
  center : Vertex
  direction : Vertex
  deriving DecidableEq, Repr

/-- The body of `Triangle::IntersectWithRay` on the triangle's `points`, with
the rounding `fl` of each `float` operation.  The reference parameter `tHit`
is passed in and returned; it is assigned on the last path only. -/
def Triangle.intersectWith (fl : ℚ → ℚ) (points : List Vertex) (ray : Ray) (tHit : ℚ) :
    Bool × ℚ :=
  let p1 := points.getD 0 default
  let p2 := points.getD 1 default
  let p3 := points.getD 2 default
  let e1 := p2.subWith fl p1
  let e2 := p3.subWith fl p1
  let s1 := crossProdWith fl ray.direction e2
  let divisor := dotProdWith fl s1 e1
  if divisor = 0 then (false, tHit)
  else
    let invDivisor := fl (1 / divisor)
    let d := ray.center.subWith fl p1
    let b1 := fl (dotProdWith fl d s1 * invDivisor)
    if b1 < 0 ∨ b1 > 1 then (false, tHit)
    else
      let s2 := crossProdWith fl d e1
      let b2 := fl (dotProdWith fl ray.direction s2 * invDivisor)
      if b2 < 0 ∨ fl (b1 + b2) > 1 then (false, tHit)
      else
        let tHit := fl (dotProdWith fl e2 s2 * invDivisor)
        (decide (tHit > EPSILON_T), tHit)

/-- The method `Triangle::IntersectWithRay`: every operation is rounded to
binary32. -/
def Triangle.IntersectWithRay (points : List Vertex) (ray : Ray) (tHit : ℚ) : Bool × ℚ :=
  Triangle.intersectWith F32.round points ray tHit

/-- The body of `Sphere::IntersectWithRay` with the rounding `fl` of each
`float` operation; `t` is passed in and returned as for the triangle, and is
assigned on the two successful paths only. -/
def Sphere.intersectWith (fl : ℚ → ℚ) (m : Libm) (center : Vertex) (radius : ℚ) (ray : Ray)
    (t : ℚ) : Bool × ℚ :=
  let dst := ray.center.subWith fl center
  let b := dotProdWith fl dst ray.direction
  let c := fl (dotProdWith fl dst dst - fl (radius * radius))
  let d := fl (fl (b * b) - c)
  if d < 0 then (false, t)
  else
    let t1 := fl (-b - m.sqrt d)
    let t2 := fl (-b + m.sqrt d)
    let swapped := if t1 > t2 then (t2, t1) else (t1, t2)
    if swapped.1 ≥ EPSILON_T then (true, swapped.1)
    else if swapped.2 ≥ EPSILON_T then (true, swapped.2)
    else (false, t)

/-- The method `Sphere::IntersectWithRay`: every operation is rounded to
binary32. -/
def Sphere.IntersectWithRay (m : Libm) (center : Vertex) (radius : ℚ) (ray : Ray) (t : ℚ) :
    Bool × ℚ :=
  Sphere.intersectWith F32.round m center radius ray t

/-- The virtual method `Primitive3D::IntersectWithRay`. -/
def Primitive3D.IntersectWithRay (m : Libm) : Primitive3D → Ray → ℚ → Bool × ℚ
  | .sphere center radius _ _, ray, t => Sphere.IntersectWithRay m center radius ray t
  | .triangle points _ _, ray, t => Triangle.IntersectWithRay points ray t

/-- The virtual method `Primitive3D::ComputeNormal`. -/
def Primitive3D.ComputeNormal (m : Libm) : Primitive3D → Vertex → Vertex
  | .sphere center _ _ _, point => (point.sub center).Normalize m
  | .triangle points _ _, _ =>
    let v1 := (points.getD 1 default).sub (points.getD 0 default)
    let v2 := (points.getD 2 default).sub (points.getD 0 default)
    (CrossProd v1 v2).Normalize m

/-- The field `materialID` of the base class. -/
def Primitive3D.materialID : Primitive3D → ℤ
  | .sphere _ _ materialID _ => materialID
  | .triangle _ materialID _ => materialID

/-! ## `ray_tracing_utils.cpp`: the closest intersection -/

/-- The call `materialsList->at(id)`: the `int` index converts to `size_t`, so
a negative one is out of range like a too large one, and `at` throws. -/
def materialAt (materials : List Material) (id : ℤ) : Option Material :=
  if 0 ≤ id then materials.get? id.toNat else none

/-- The loop of `FindClosestIntersection` over the primitives from index `i`
on.  The state is `closestPrimitive` (the index of the primitive pointed to,
`none` for `nullptr`) and `closestT` (`⊤` for infinity). -/
def closestLoop (m : Libm) (materials : List Material) (ray : Ray) :
    List Primitive3D → ℕ → Option ℕ × WithTop ℚ → Option (Option ℕ × WithTop ℚ)
  | [], _, st => some st
  | primitive :: rest, i, st =>
    let hit := primitive.IntersectWithRay m ray 0
    if hit.1 = true ∧ (hit.2 : WithTop ℚ) < st.2 then
      let normal := primitive.ComputeNormal m (ray.center.add (ray.direction.smul hit.2))
      let dotProduct := DotProd normal ray.direction
      match materialAt materials primitive.materialID with
      | none => none
      | some mat =>
        if mat.T ≤ 0 ∧ dotProduct > 0 then closestLoop m materials ray rest (i + 1) st
        else closestLoop m materials ray rest (i + 1) (some i, (hit.2 : WithTop ℚ))
    else closestLoop m materials ray rest (i + 1) st

/-- The function `FindClosestIntersection`: the returned pointer (as an index
into `primitivesList`) and the final `closestT`; `none` when `at` throws. -/
def FindClosestIntersection (m : Libm) (scene : Scene) (ray : Ray) :
    Option (Option ℕ × WithTop ℚ) :=
  closestLoop m scene.materialsList ray scene.primitivesList 0 (none, ⊤)

/-- A triangle with a vertex at the origin, `p2 = (191/256, 641/1024,
-871/1024)` and `p3 = (603/512, -675/256, -1357/512)`. -/
def inPlaneTriangle : List Vertex :=
  [⟨0, 0, 0, 1⟩, ⟨191 / 256, 641 / 1024, -871 / 1024, 1⟩,
    ⟨603 / 512, -675 / 256, -1357 / 512, 1⟩]

/-- A ray inside the plane of `inPlaneTriangle`: its direction is `3 p2 + p3`
and its origin `-(3 p2 + p3)`. -/
def inPlaneRay : Ray :=
  ⟨⟨-1749 / 512, 777 / 1024, 5327 / 1024, 1⟩, ⟨1749 / 512, -777 / 1024, -5327 / 1024, 0⟩⟩

/-- A ray along the `z` axis that passes the centre of the unit sphere at the
distance `1 + 2 ^ -23`. -/
def grazingRay : Ray := ⟨⟨8388609 / 8388608, 0, 3, 1⟩, ⟨0, 0, -1, 0⟩⟩

/-- A ray along the `z` axis that passes the centre of the unit sphere at the
distance `1 / 2`. -/
def chordRay : Ray := ⟨⟨0, 1 / 2, 3, 1⟩, ⟨0, 0, -1, 0⟩⟩

/-- A math library whose square root has the value `v` everywhere. -/
def constLibm (v : ℚ) : Libm := ⟨fun _ => v, fun _ => 1, fun _ => 0⟩
/-- The triple `(t, b1, b2)` solves `o + t·d = p1 + b1·(p2 - p1) + b2·(p3 - p1)`
in the three space coordinates. -/
def triangleSolution (p1 p2 p3 : Vertex) (ray : Ray) (t b1 b2 : ℚ) : Prop :=
  ray.center.x + t * ray.direction.x = p1.x + b1 * (p2.x - p1.x) + b2 * (p3.x - p1.x) ∧
  ray.center.y + t * ray.direction.y = p1.y + b1 * (p2.y - p1.y) + b2 * (p3.y - p1.y) ∧
  ray.center.z + t * ray.direction.z = p1.z + b1 * (p2.z - p1.z) + b2 * (p3.z - p1.z)

/-- The point `o + t·d` of the ray, for a real parameter `t`, lies on the
sphere: `|o + t·d - c|² = r²`. -/
def onSphere (center : Vertex) (radius : ℚ) (ray : Ray) (t : ℝ) : Prop :=
  ((ray.center.x : ℝ) + t * (ray.direction.x : ℝ) - (center.x : ℝ)) ^ 2 +
  ((ray.center.y : ℝ) + t * (ray.direction.y : ℝ) - (center.y : ℝ)) ^ 2 +
  ((ray.center.z : ℝ) + t * (ray.direction.z : ℝ) - (center.z : ℝ)) ^ 2 = (radius : ℝ) ^ 2

/-- The discriminant `d = b * b - c` that `Sphere::IntersectWithRay` computes. -/
def sphereDiscriminant (center : Vertex) (radius : ℚ) (ray : Ray) : ℚ :=
  DotProd (ray.center.sub center) ray.direction * DotProd (ray.center.sub center) ray.direction -
    (DotProd (ray.center.sub center) (ray.center.sub center) - radius * radius)

/-- The point `o + t·d` of the ray, for a real parameter `t`, lies on the
sphere about `center` whose squared radius is `radius² + e`. -/
def onSphereOff (center : Vertex) (radius e : ℚ) (ray : Ray) (t : ℝ) : Prop :=
  ((ray.center.x : ℝ) + t * (ray.direction.x : ℝ) - (center.x : ℝ)) ^ 2 +
  ((ray.center.y : ℝ) + t * (ray.direction.y : ℝ) - (center.y : ℝ)) ^ 2 +
  ((ray.center.z : ℝ) + t * (ray.direction.z : ℝ) - (center.z : ℝ)) ^ 2 =
    (radius : ℝ) ^ 2 + (e : ℝ)

/-- The error of the square root at the discriminant: `sqrt(d)² - d`. -/
def sqrtError (m : Libm) (center : Vertex) (radius : ℚ) (ray : Ray) : ℚ :=
  m.sqrt (sphereDiscriminant center radius ray) * m.sqrt (sphereDiscriminant center radius ray) -
    sphereDiscriminant center radius ray
/-- The discriminant `d` of `Sphere::IntersectWithRay` with the rounding `fl`
of each `float` operation. -/
def sphereDiscriminantWith (fl : ℚ → ℚ) (center : Vertex) (radius : ℚ) (ray : Ray) : ℚ :=
  let dst := ray.center.subWith fl center
  let b := dotProdWith fl dst ray.direction
  let c := fl (dotProdWith fl dst dst - fl (radius * radius))
  fl (fl (b * b) - c)

/-- A hit that `FindClosestIntersection` accepts: `IntersectWithRay` returns
true with `t`, and not both the material's `T` is at most 0 and the normal at
the hit point has a positive dot product with the ray direction. -/
def acceptedHit (m : Libm) (materials : List Material) (ray : Ray) (primitive : Primitive3D)
    (t : ℚ) : Prop :=
  primitive.IntersectWithRay m ray 0 = (true, t) ∧
  ∃ mat : Material, materialAt materials primitive.materialID = some mat ∧
    ¬ (mat.T ≤ 0 ∧
      DotProd (primitive.ComputeNormal m (ray.center.add (ray.direction.smul t)))
        ray.direction > 0)

/-- What the loop over `ps` (whose first element has index `i`) makes of the
state `st`: it keeps `st` when no accepted hit of `ps` is below `st.2`, and
otherwise ends at the first primitive that attains the least accepted hit. -/
def ClosestSpec (m : Libm) (materials : List Material) (ray : Ray) (ps : List Primitive3D)
    (i : ℕ) (st res : Option ℕ × WithTop ℚ) : Prop :=
  (res = st ∧ ∀ (k : ℕ) (p : Primitive3D) (t : ℚ), ps[k]? = some p →
    acceptedHit m materials ray p t → st.2 ≤ (t : WithTop ℚ)) ∨
  (∃ (k : ℕ) (p : Primitive3D) (t : ℚ), ps[k]? = some p ∧ acceptedHit m materials ray p t ∧
    res = (some (i + k), (t : WithTop ℚ)) ∧ (t : WithTop ℚ) < st.2 ∧
    ∀ (j : ℕ) (q : Primitive3D) (u : ℚ), ps[j]? = some q → acceptedHit m materials ray q u →
      t ≤ u ∧ (j < k → t < u))

/-- A scene of one material, a unit sphere at the origin and a triangle in the
plane `z = 2`. -/
def rayDemoScene : Scene :=
  { Scene.new with
    materialsList := [Material.make 1 0 0 1 0 0 0 1]
    primitivesList :=
      [Primitive3D.sphere ⟨0, 0, 0, 1⟩ 1 0 (-1),
        Primitive3D.triangle [⟨-1, -1, 2, 1⟩, ⟨1, -1, 2, 1⟩, ⟨0, 1, 2, 1⟩] 0 (-1)] }

/-- The order `shakeSort` sorts by. -/
def edgeLe (a b : Edge) : Prop := a.currentX ≤ b.currentX

/-- One forward pass of `shakeSort` over `x :: rest`, as a function on lists:
of the two elements compared the larger moves on to the right. -/
def bubbleUp : Edge → List Edge → List Edge
  | x, [] => [x]
  | x, y :: rest =>
    if x.currentX > y.currentX then y :: bubbleUp x rest else x :: bubbleUp y rest

/-- One backward pass of `shakeSort`, as a function on lists: the comparisons
run from the right end to the left. -/
def sinkDown : List Edge → List Edge
  | [] => []
  | x :: rest =>
    match sinkDown rest with
    | [] => [x]
    | m :: r => if x.currentX > m.currentX then m :: x :: r else x :: m :: r

/-- The list `out` is a rearrangement of `inp` that keeps edges of equal
`currentX` in their order: a permutation, and for every value the edges with
that `currentX` are the same sublist, in the same order. -/
def Rearranged (out inp : List Edge) : Prop :=
  out.Perm inp ∧
  ∀ x : ℚ, out.filter (fun e => decide (e.currentX = x)) =
    inp.filter (fun e => decide (e.currentX = x))

/-- The list `out` is `inp` sorted stably by `currentX`. -/
def StableSorted (out inp : List Edge) : Prop :=
  List.Pairwise edgeLe out ∧ Rearranged out inp

/-- Three edges with `currentX` 3, 1, 1; the two with `currentX = 1` differ in
`currentZ`. -/
def shakeDemo : List Edge :=
  [⟨0, 0, 3, 0, 0, 0⟩, ⟨0, 0, 1, 0, 1, 0⟩, ⟨0, 0, 1, 0, 2, 0⟩]

instance : IsTrans Edge edgeLe := ⟨fun _ _ _ h1 h2 => le_trans h1 h2⟩

/-- One row of the scanline loop of `fillPolygon`: the scanline, the active edge
list at its start, and the submissions of the row. -/
structure ScanRow where
  y : ℤ
  activeEdgeList : List Edge
  plots : List Plot

/-- The inner loop of one row of `scanLines`: the submissions and the
advanced edges. -/
def rowPairs (fl : ℚ → ℚ) (plotFunction : ℤ → ℤ → ℤ → ℚ → ℚ → List Plot) (y : ℤ)
    (filler : FillingStruct) : List Plot × List Edge :=
  scanPairs fl plotFunction y
    ((List.range ((filler.activeEdgeList.length + 1) / 2)).map fun k => 2 * k)
    filler.activeEdgeList

/-- The filling structure of one row of `scanLines` after
`updateActiveEdgeList(filler, y - 1)`. -/
def rowNext (fl : ℚ → ℚ) (plotFunction : ℤ → ℤ → ℤ → ℚ → ℚ → List Plot) (y : ℤ)
    (filler : FillingStruct) : FillingStruct :=
  updateActiveEdgeList fl
    { filler with activeEdgeList := (rowPairs fl plotFunction y filler).2 } (y - 1)

/-- The loop of `scanLines`, recording a `ScanRow` for every scanline visited. -/
def scanLinesTrace (fl : ℚ → ℚ) (plotFunction : ℤ → ℤ → ℤ → ℚ → ℚ → List Plot) :
    List ℤ → FillingStruct → Option (List ScanRow)
  | [], _ => some []
  | y :: ys, filler =>
    (shakeSort (rowNext fl plotFunction y filler).activeEdgeList).bind fun sorted =>
      (scanLinesTrace fl plotFunction ys
        { rowNext fl plotFunction y filler with activeEdgeList := sorted }).bind fun rest =>
        some (⟨y, filler.activeEdgeList, (rowPairs fl plotFunction y filler).1⟩ :: rest)

/-- The init phase of `fillPolygon`: the filling structure, `maxX` and `minX`
after the calls of `initFillingStruct` on the edges of the closed polygon. -/
def fillInit (fl : ℚ → ℚ) (ctx : SGLContext) : FillingStruct × ℤ × ℤ :=
  initFillingStruct fl
    ((List.range (ctx.screenVertices.length - 1)).foldl
      (fun st i => initFillingStruct fl st (ctx.screenVertices.getD i default)
        (ctx.screenVertices.getD (i + 1) default)) (FillingStruct.new ctx.height, 0, ctx.width))
    (ctx.screenVertices.getLastD default) (ctx.screenVertices.getD 0 default)

/-- The function `fillPolygon` with the rounding `fl`, recording a `ScanRow`
for every scanline visited. -/
def fillPolygonTraceWith (fl : ℚ → ℚ) (ctx : SGLContext) : Option (List ScanRow) :=
  if ctx.screenVertices = [] then none
  else
    let st2 := fillInit fl ctx
    let filler := updateActiveEdgeList fl st2.1 st2.1.maxY
    let filler := { filler with activeEdgeList :=
      filler.activeEdgeList.insertionSort fun e1 e2 => e1.currentX ≤ e2.currentX }
    let filler := { filler with maxY := min filler.maxY (ctx.height - 1) }
    let filler := { filler with minY := max filler.minY 0 }
    let plotFunction : ℤ → ℤ → ℤ → ℚ → ℚ → List Plot :=
      if st2.2.2 ≥ 0 ∧ st2.2.1 < ctx.width then plotLine else plotLineBoundsChecking ctx.width
    scanLinesTrace fl plotFunction
      ((List.range (filler.maxY - filler.minY).toNat).map fun k => filler.maxY - (k : ℤ))
      filler

/-- The function `fillPolygon`, recording a `ScanRow` for every scanline
visited. -/
def fillPolygonTrace (ctx : SGLContext) : Option (List ScanRow) :=
  fillPolygonTraceWith F32.round ctx

/-- The advance of an edge to the next scanline, at the end of the inner loop
of `fillPolygon`. -/
def Edge.advance (fl : ℚ → ℚ) (e : Edge) : Edge :=
  { e with currentX := fl (e.currentX + e.stepX), currentZ := fl (e.currentZ + e.stepZ) }

/-- The change of an edge when `updateActiveEdgeList(filler, y)` moves it to
the active edge list. -/
def Edge.bump (fl : ℚ → ℚ) (y : ℤ) (e : Edge) : Edge :=
  let offset := fl (fl ((wrapInt32 (e.topY - y) : ℤ) : ℚ) * e.stepX)
  { e with currentX := fl (e.currentX + offset) }

/-- The edge `e`, as constructed, moved to the active edge list at its top row
and advanced from there to the scanline `y`. -/
def Edge.atRow (fl : ℚ → ℚ) (y : ℤ) (e : Edge) : Edge :=
  (Edge.advance fl)^[(e.topY - y).toNat] (e.bump fl e.topY)

/-- The scanlines on which an edge is in the active edge list. -/
def Edge.activeAt (y : ℤ) (e : Edge) : Prop := e.bottomY ≤ y ∧ y ≤ e.topY

instance (y : ℤ) (e : Edge) : Decidable (e.activeAt y) := by
  unfold Edge.activeAt
  infer_instance

/-- The edge that `initFillingStruct` appends for the vertices `top` and
`bottom`: `Edge(top, bottom)`, shortened at the bottom. -/
def shortEdge (fl : ℚ → ℚ) (top bottom : ScreenVertex) : Edge :=
  { Edge.new fl top bottom with bottomY := (Edge.new fl top bottom).bottomY + 1 }

/-- The submissions of the inner loop of `fillPolygon` for a list of edges
taken in pairs. -/
def pairPlots (plotFunction : ℤ → ℤ → ℤ → ℚ → ℚ → List Plot) (y : ℤ) : List Edge → List Plot
  | e1 :: e2 :: rest =>
    plotFunction y (roundToInt e1.currentX) (roundToInt e2.currentX) e1.currentZ e2.currentZ ++
      pairPlots plotFunction y rest
  | _ => []

/-- The state of the scanline loop at the start of row `y`, in terms of the
list `E` of all edges as constructed: the pending edges are those that start
below `y`, the active edge list holds the edges that cross row `y`, advanced
to that row, in some order. -/
def RowInv (fl : ℚ → ℚ) (E : List Edge) (y : ℤ) (filler : FillingStruct) : Prop :=
  filler.edges = E.filter (fun e => decide (e.topY < y)) ∧
  filler.activeEdgeList.Perm ((E.filter (fun e => decide (e.activeAt y))).map (Edge.atRow fl y))

/-- The body of `initFillingStruct` for an edge that is not horizontal, from
its upper vertex `top` to its lower vertex `bottom`. -/
def initEdge (fl : ℚ → ℚ) (st : FillingStruct × ℤ × ℤ) (top bottom : ScreenVertex) :
    FillingStruct × ℤ × ℤ :=
  let filler := st.1
  let maxX := st.2.1
  let minX := st.2.2
  let edge := Edge.new fl top bottom
  let edge := { edge with bottomY := edge.bottomY + 1 }
  let filler := { filler with edges := filler.edges ++ [edge] }
  let filler := if top.y > filler.maxY then { filler with maxY := top.y } else filler
  let filler := if bottom.y < filler.minY then { filler with minY := bottom.y } else filler
  let maxX := if top.x > maxX ∨ bottom.x > maxX then max top.x bottom.x else maxX
  let minX := if top.x < minX ∨ bottom.x < minX then min top.x bottom.x else minX
  (filler, maxX, minX)

/-- The state of the init phase of `fillPolygon` after the edges of the path
from the vertex `first` to the vertex `last` of the polygon `vs`, on a canvas
of `W` by `H` pixels. -/
structure InitInv (fl : ℚ → ℚ) (vs : List ScreenVertex) (W H : ℤ) (first last : ScreenVertex)
    (st : FillingStruct × ℤ × ℤ) : Prop where
  active : st.1.activeEdgeList = []
  edges : ∀ e ∈ st.1.edges, ∃ top ∈ vs, ∃ bottom ∈ vs,
    bottom.y < top.y ∧ e = shortEdge fl top bottom
  top : ∀ e ∈ st.1.edges, e.topY ≤ st.1.maxY
  maxY : st.1.maxY = 0 ∨ ∃ v ∈ vs, st.1.maxY = v.y
  minY : st.1.minY = H ∨ ∃ v ∈ vs, st.1.minY = v.y
  maxX : st.2.1 = 0 ∨ ∃ v ∈ vs, st.2.1 = v.x
  minX : st.2.2 = W ∨ ∃ v ∈ vs, st.2.2 = v.x
  parity : ∀ y : ℤ, Even (st.1.edges.filter (fun e => decide (e.activeAt y))).length ↔
    (decide (y ≤ first.y) = decide (y ≤ last.y))

/-- A 10 by 10 context that holds the screen vertices of the triangle
`(2, 2), (8, 2), (5, 8)`. -/
def fillDemoContext : SGLContext :=
  { viewportContext 10 10 ⟨1, 1, 1⟩ with
    screenVertices := [⟨2, 2, 1 / 2⟩, ⟨8, 2, 1 / 2⟩, ⟨5, 8, 1 / 2⟩] }

/-- A context of 2097152 by 16 pixels that holds the screen vertices of the
triangle `(2097150, 15), (2097151, 0), (2097140, 0)`. -/
def driftFillContext : SGLContext :=
  { viewportContext 2097152 16 ⟨1, 1, 1⟩ with
    screenVertices := [⟨2097150, 15, 1 / 2⟩, ⟨2097151, 0, 1 / 2⟩, ⟨2097140, 0, 1 / 2⟩] }

/-- A context of 16777220 by 2 pixels that holds the screen vertices of the
triangle `(16777219, 1), (16777219, 0), (16777218, 0)`. -/
def wideFillContext : SGLContext :=
  { viewportContext 16777220 2 ⟨1, 1, 1⟩ with
    screenVertices := [⟨16777219, 1, 1 / 2⟩, ⟨16777219, 0, 1 / 2⟩, ⟨16777218, 0, 1 / 2⟩] }

/-- Two contexts, the second one current, and the first one destroyed. -/
def destroyDemo : List Command :=
  [.CreateContext 2 2, .CreateContext 3 3, .SetContext 1, .DestroyContext 0]

/-- Three contexts of widths 2, 3 and 4, the second one current. -/
def destroySetup : List Command :=
  [.CreateContext 2 2, .CreateContext 3 3, .CreateContext 4 4, .SetContext 1]

/-- An empty `sglBegin(mode)` / `sglEnd()` block in area mode `area` on a fresh
2 by 2 context. -/
def emptyBlock (area : sglEAreaMode) (mode : sglEElementType) : List Command :=
  [.CreateContext 2 2, .SetContext 0, .AreaMode area, .Begin mode, .End]

/-- The material ids of a context's scene are in range or the `-1` that the
constructor `Primitive3D()` sets. -/
def SceneIds (ctx : SGLContext) : Prop :=
  ∀ p ∈ ctx.scene.primitivesList,
    -1 ≤ p.materialID ∧ p.materialID < (ctx.scene.materialsList.length : ℤ)

/-- Every context of the manager satisfies `SceneIds`. -/
def AllIds (s : SGLSceneManager) : Prop := ∀ ctx ∈ s.contexts, SceneIds ctx

/-- The commands that build a scene, and those that make a context current. -/
def Command.isSceneCommand : Command → Bool
  | .CreateContext .. | .SetContext .. | .BeginScene | .EndScene | .Material .. | .Sphere ..
  | .Begin .. | .Vertex3f .. | .End => true
  | _ => false

/-- A scene with a sphere and no material. -/
def sphereNoMaterial : List Command :=
  [.CreateContext 2 2, .SetContext 0, .BeginScene, .Sphere 0 0 0 1, .EndScene]

/-- A material defined before the scene block, which `sglBeginScene` clears. -/
def materialBeforeScene : List Command :=
  [.CreateContext 2 2, .SetContext 0, .Material 1 0 0 1 0 0 0 1, .BeginScene, .Sphere 0 0 0 1,
    .EndScene]

/-- The submissions of `drawBresenhamCircle` for the circle of centre `(5, 5)`
and radius 7 on the fresh 10 by 10 context that `CreateContext; SetContext`
leave, in area mode `area`. -/
def circleDemo (area : sglEAreaMode) : Option (List Plot) :=
  (finalContext demoEnv [.CreateContext 10 10, .SetContext 0, .AreaMode area]).bind fun ctx =>
    drawBresenhamCircle ctx 5 5 0 7

/-- The index `x + y * width` of a submission lies inside a buffer of `size`
entries. -/
def Plot.indexInside (width : ℤ) (size : ℕ) (pl : Plot) : Bool :=
  decide (0 ≤ coord2DTo1D pl.point.x pl.point.y width ∧
    coord2DTo1D pl.point.x pl.point.y width < (size : ℤ))

/-- A submission that goes through `boundsAndDepthCheck`. -/
def Plot.isChecked : Plot → Bool
  | .checked _ => true
  | .unchecked _ => false

/-- The span of the specification: the submissions of `plotLine` on the
unclamped span `x1 .. x2`, of which those in the columns `0 .. width - 1` are
kept, each with the depth `plotLine` computes for it. -/
def clippedSpan (width y x1 x2 : ℤ) (z1 z2 : ℚ) : List Plot :=
  (plotLine y x1 x2 z1 z2).filter fun pl => decide (0 ≤ pl.point.x ∧ pl.point.x ≤ width - 1)

/-- An open block on a 10 by 10 canvas with white as the current colour: area
mode `area`, then `Begin(SGL_LINES)` and one vertex, at the pixel `(2, 2)`. -/
def openBlock (area : sglEAreaMode) : List Command :=
  viewportSetup 10 10 1 1 1 ++ [.AreaMode area, .Begin SGL_LINES, .Vertex3f (-3 / 5) (-3 / 5) 0]

/-- What the claim compares of a context: the begin flag, the accumulated
vertices, the two buffers, the VPM matrix and the scale factor. -/
def blockView (ctx : SGLContext) :
    (Bool × List Vertex × List Pixel) × (List (WithTop ℚ) × Matrix × ℚ) :=
  ((ctx.insideBegin, ctx.verticesList, ctx.colorBuffer), (ctx.depthBuffer, ctx.VPMmatrix,
    ctx.scaleFactor))

/-- The plot function `drawBresenhamCircle` selects: `plotCirclePoints` in area
mode `SGL_LINE`, `plotCircleFilling` otherwise, about the transformed centre. -/
def circlePlotFunction (ctx : SGLContext) (cx cy cz : ℚ) : ℤ → ℤ → List Plot :=
  let transformedCenter := transformPoint ctx (Vertex.mk3 cx cy cz)
  let centerX := roundToInt transformedCenter.x
  let centerY := roundToInt transformedCenter.y
  let depth := transformedCenter.z
  if ctx.currentAreaMode = SGL_LINE then plotCirclePoints centerX centerY depth
  else plotCircleFilling ctx.width centerX centerY depth

/-- The loop invariant of `drawBresenhamCircle` for the pixel radius `R`: the
decision variable `d` as a function of the offset, and its bounds at an offset
the loop plots. -/
def CircleInv (R x y d : ℤ) : Prop :=
  0 ≤ x ∧ y ≤ R ∧ (x = 0 → 1 ≤ y) ∧
  d = 2 * (x + 1) ^ 2 + 2 * y ^ 2 - 6 * y + 1 - 2 * R ^ 2 + 4 * R ∧
  (x ≤ y → 4 * (x - y) + 5 ≤ d ∧ d ≤ 4 * x + 1 + (if y = x then 2 else 0))

/-- An offset within one pixel of the circle of radius `R`, in the octant
`0 ≤ x ≤ y`. -/
def NearCircle (R : ℤ) (o : ℤ × ℤ) : Prop :=
  0 ≤ o.1 ∧ o.1 ≤ o.2 ∧ o.2 ≤ R ∧ (R - 1) ^ 2 < o.1 ^ 2 + o.2 ^ 2 ∧
    o.1 ^ 2 + o.2 ^ 2 < (R + 1) ^ 2

/-- The rows `[startY, endY)` that `sglRayTraceScene` hands to worker `i` of
`numThreads` on an image of `height` rows. -/
def rowBand (height : ℤ) (numThreads i : ℕ) : ℤ × ℤ :=
  let rowsPerThread : ℤ := (height.toNat / numThreads : ℕ)
  let startY : ℤ := (i : ℤ) * rowsPerThread
  let endY : ℤ := if i = numThreads - 1 then height else ((i : ℤ) + 1) * rowsPerThread
  (startY, endY)

/-! ## `ray_tracing_utils.cpp`: `traceRay` -/

/-- The constant `MAX_RECURSION_DEPTH` of `ray_tracing_utils.h`. -/
def MAX_RECURSION_DEPTH : ℤ := 8

/-- The constant `INTERSECTION_BIAS` of `ray_tracing_utils.h`, 0.0001. -/
def INTERSECTION_BIAS : ℚ := 1 / 10000

/-- The functions of the C math library that the ray tracer calls: those of
`Libm`, `acos` and `std::pow`. -/
structure RayMath where
  libm : Libm
  acos : ℚ → ℚ
  pow : ℚ → ℚ → ℚ

/-- The operator `Pixel::operator*(float)`. -/
def Pixel.smul (p : Pixel) (f : ℚ) : Pixel := ⟨p.r * f, p.g * f, p.b * f⟩

/-- The operator `Pixel::operator+`. -/
def Pixel.add (p q : Pixel) : Pixel := ⟨p.r + q.r, p.g + q.g, p.b + q.b⟩

/-- The operator `Pixel::operator*(Pixel)`. -/
def Pixel.mul (p q : Pixel) : Pixel := ⟨p.r * q.r, p.g * q.g, p.b * q.b⟩

/-- The method `Ray::ComputeT`. -/
def Ray.ComputeT (ray : Ray) (point : Vertex) : ℚ :=
  if ray.direction.x ≠ 0 then (point.x - ray.center.x) / ray.direction.x
  else if ray.direction.y ≠ 0 then (point.y - ray.center.y) / ray.direction.y
  else if ray.direction.z ≠ 0 then (point.z - ray.center.z) / ray.direction.z
  else 0

/-- The function `lightingPhong` of `lightingModels.cpp`. -/
def lightingPhong (rm : RayMath) (light : PointLight) (intersectionPoint normal rayOrigin : Vertex)
    (hitMaterial : Material) : Pixel :=
  let lightDir := (light.center.sub intersectionPoint).Normalize rm.libm
  let viewDir := (rayOrigin.sub intersectionPoint).Normalize rm.libm
  let reflectedDir := (normal.smul (2 * DotProd normal lightDir)).sub lightDir
  let cosAlpha := max 0 (DotProd normal lightDir)
  let diffuseColor := light.color.mul (hitMaterial.color.smul (hitMaterial.KDiffuse * cosAlpha))
  let cosBeta := max 0 (DotProd reflectedDir viewDir)
  let specular := rm.pow cosBeta hitMaterial.shininess
  let specularColor := light.color.smul (hitMaterial.KSpecular * specular)
  diffuseColor.add specularColor

/-- The function `checkVisibility`: no primitive is hit by the shadow ray
before the light. -/
def checkVisibility (m : Libm) (scene : Scene) (intersectionPoint : Vertex) (light : PointLight) :
    Bool :=
  let lightDir := (light.center.sub intersectionPoint).Normalize m
  let shadowRay : Ray := ⟨intersectionPoint, lightDir⟩
  let lightHit := shadowRay.ComputeT light.center - EPSILON_T
  !scene.primitivesList.any fun primitive =>
    let hit := primitive.IntersectWithRay m shadowRay 0
    hit.1 && decide (hit.2 < lightHit)

/-- The function `RefractRay`; the reference parameter `refractedRay` is
passed in and returned next to the result. -/
def RefractRay (m : Libm) (normal : Vertex) (IOR : ℚ) (originalRay refractedRay : Ray) :
    Bool × Ray :=
  let dot := DotProd originalRay.direction normal
  let gamma := if dot < 0 then 1 / IOR else IOR
  let normal := if dot < 0 then normal else normal.smul (-1)
  let dot := if dot < 0 then dot else -dot
  let sqrterm := 1 - gamma * gamma * (1 - dot * dot)
  if sqrterm > 0 then
    let sqrterm := dot * gamma + m.sqrt sqrterm
    let dir := (normal.smul (-sqrterm)).add (originalRay.direction.smul gamma)
    (true, ⟨originalRay.center, dir⟩)
  else (false, refractedRay)

/-- The read `texels[id]` through the raw pointer of the environment map. -/
def texelAt (texels : List ℚ) (id : ℤ) : Option ℚ :=
  if 0 ≤ id then texels.get? id.toNat else none

/-- The colour `traceRay` returns for a ray that hits nothing: the texel of
the environment map in the ray's direction, or the clear colour.  A read
outside the texels has no defined result. -/
def backgroundColor (rm : RayMath) (ctx : SGLContext) (ray : Ray) : Option Pixel :=
  match ctx.scene.envMap with
  | some envMap =>
    let c := rm.libm.sqrt (ray.direction.x * ray.direction.x + ray.direction.y * ray.direction.y)
    let r := if c > 0 then rm.acos ray.direction.z / (2 * c * M_PI) else 0
    let u := truncToInt ((1 / 2 + r * ray.direction.x) * (envMap.width : ℚ))
    let v := truncToInt ((1 / 2 - r * ray.direction.y) * (envMap.height : ℚ))
    let id := 3 * (u + v * envMap.width)
    do
      let t0 ← texelAt envMap.texels id
      let t1 ← texelAt envMap.texels (id + 1)
      let t2 ← texelAt envMap.texels (id + 2)
      some ⟨t0, t1, t2⟩
  | none => some ctx.clearColor

/-- The outcome of a call of `traceRay`: the `depth` argument of every
invocation it made, itself first, in the order of the calls, and the colour
returned (`none` when a lookup threw or read outside its array). -/
structure Traced where
  calls : List ℤ
  color : Option Pixel
  deriving DecidableEq, Repr

/-- The block `reflected + refracted ray` of `traceRay`, entered when
`depth < MAX_RECURSION_DEPTH`, with the colour accumulated so far; `recurse r`
stands for the recursive call `traceRay(r, depth + 1)` and is `none` when that
call does not return. -/
def traceSecondary (rm : RayMath) (recurse : Ray → Option Traced) (ray : Ray) (depth : ℤ)
    (intersectionPoint normal biasedPoint : Vertex) (mat : Material) (color : Pixel) :
    Option Traced :=
  let reflected : Option Traced :=
    if mat.KSpecular > 0 then
      let reflectedDir :=
        (ray.direction.sub (normal.smul (2 * DotProd normal ray.direction))).Normalize rm.libm
      (recurse ⟨biasedPoint, reflectedDir⟩).map fun t =>
        ⟨t.calls, t.color.map fun reflectedColor => color.add (reflectedColor.smul mat.KSpecular)⟩
    else some ⟨[], some color⟩
  match reflected with
  | none => none
  | some ⟨calls, none⟩ => some ⟨depth :: calls, none⟩
  | some ⟨calls, some color⟩ =>
    if mat.T > 0 then
      let refracted := RefractRay rm.libm normal mat.IOR ray ray
      if refracted.1 then
        let direction := refracted.2.direction.Normalize rm.libm
        let refractedPoint := intersectionPoint.sub (normal.smul INTERSECTION_BIAS)
        (recurse ⟨refractedPoint, direction⟩).map fun t =>
          ⟨depth :: calls ++ t.calls, t.color.map fun refractedColor =>
            color.add (refractedColor.smul mat.T)⟩
      else some ⟨depth :: calls, some color⟩
    else some ⟨depth :: calls, some color⟩

/-- The body of `traceRay(ray, depth)`, with `recurse` for the recursive call
`traceRay(·, depth + 1)`. -/
def traceRayBody (rm : RayMath) (ctx : SGLContext) (recurse : Ray → Option Traced) (ray : Ray)
    (depth : ℤ) : Option Traced :=
  let scene := ctx.scene
  match FindClosestIntersection rm.libm scene ray with
  | none => some ⟨[depth], none⟩
  | some (none, _) => some ⟨[depth], backgroundColor rm ctx ray⟩
  | some (some index, closestT) =>
    match scene.primitivesList.get? index with
    | none => some ⟨[depth], none⟩
    | some closestPrimitive =>
      let intersectionPoint := ray.center.add (ray.direction.smul (closestT.untop' 0))
      let normal := closestPrimitive.ComputeNormal rm.libm intersectionPoint
      match materialAt scene.materialsList closestPrimitive.materialID with
      | none => some ⟨[depth], none⟩
      | some mat =>
        let biasedPoint := intersectionPoint.add (normal.smul INTERSECTION_BIAS)
        let color := scene.lightsList.foldl (fun color light =>
          if checkVisibility rm.libm scene biasedPoint light then
            color.add (lightingPhong rm light intersectionPoint normal ray.center mat)
          else color) ⟨0, 0, 0⟩
        if depth < MAX_RECURSION_DEPTH then
          traceSecondary rm recurse ray depth intersectionPoint normal biasedPoint mat color
        else some ⟨[depth], some color⟩

/-- The function `traceRay`, its recursion given `fuel` nested calls; `none`
when the fuel runs out. -/
def traceRay (rm : RayMath) (ctx : SGLContext) : ℕ → Ray → ℤ → Option Traced
  | 0, _, _ => none
  | fuel + 1, ray, depth =>
    traceRayBody rm ctx (fun r => traceRay rm ctx fuel r (depth + 1)) ray depth

/-- A transparent mirror: a triangle in the plane `z = j` around the `z` axis,
with material 0. -/
def mirrorPlane (j : ℤ) : Primitive3D :=
  .triangle [⟨-4, -4, j, 1⟩, ⟨4, -4, j, 1⟩, ⟨0, 4, j, 1⟩] 0 (-1)

/-- A context whose scene is a stack of six transparent mirrors, in the planes
`z = -2, ..., 3`, of one material with `KSpecular = 1/2`, `T = 1/2` and
`IOR = 1`, and no light. -/
def mirrorContext : SGLContext :=
  { demoContext ⟨0, 0, 0⟩ true false [] SGL_POINTS with
    scene := { Scene.new with
      materialsList := [Material.make 1 1 1 1 (1 / 2) 1 (1 / 2) 1]
      primitivesList := (intRange (-2) 4).map mirrorPlane } }

/-- The ray from `(0, 0, 1/2)` along the `z` axis. -/
def mirrorRay : Ray := ⟨⟨0, 0, 1 / 2, 1⟩, ⟨0, 0, 1, 0⟩⟩

/-- The math library of `squareEnv`, with constant `acos` and `pow`. -/
def squareMath : RayMath := ⟨squareEnv.libm, fun _ => 0, fun _ _ => 1⟩

/-- The index of the pixel of `p` lies inside the colour buffer, and inside
the depth buffer when the depth test reads it. -/
def indexInBuffers (ctx : SGLContext) (p : ScreenVertex) : Prop :=
  0 ≤ coord2DTo1D p.x p.y ctx.width ∧
    coord2DTo1D p.x p.y ctx.width < (ctx.colorBuffer.length : ℤ) ∧
    (ctx.enabledDepthTest = true →
      coord2DTo1D p.x p.y ctx.width < (ctx.depthBuffer.length : ℤ))

instance (ctx : SGLContext) (p : ScreenVertex) : Decidable (indexInBuffers ctx p) := by
  unfold indexInBuffers
  infer_instance

/-- The accesses of a submission are defined: the bounds-checked statement
indexes the buffers only for a point of the canvas, the statement of `plotLine`
indexes them with no test, and `operator[]` outside a vector is undefined. -/
def Plot.defined (ctx : SGLContext) : Plot → Prop
  | .checked p => inCanvas ctx p → indexInBuffers ctx p
  | .unchecked p => indexInBuffers ctx p

instance (ctx : SGLContext) (pl : Plot) : Decidable (pl.defined ctx) := by
  cases pl <;> unfold Plot.defined <;> infer_instance

/-- Perform a list of submissions in order as far as their accesses are
defined: `none` from the first submission that indexes a buffer outside its
range. -/
def runDefinedPlots (ctx : SGLContext) : List Plot → Option SGLContext
  | [] => some ctx
  | pl :: rest => if pl.defined ctx then runDefinedPlots (pl.apply ctx) rest else none

/-- The filled circle of centre `(5, 5)` and radius 7 on a fresh 10 by 10
context with the depth test disabled: the depth-test switch, whether the
submission at the pixel `(5, 12)` is among those of `drawBresenhamCircle`, and
whether every access of the run is defined. -/
def filledCircleDisabled : Option (Bool × Bool × Bool) :=
  (finalContext demoEnv
    [.CreateContext 10 10, .SetContext 0, .Disable SGL_DEPTH_TEST, .AreaMode SGL_FILL]).bind
    fun ctx => (drawBresenhamCircle ctx 5 5 0 7).map fun plots =>
      (ctx.enabledDepthTest, decide (Plot.unchecked ⟨5, 12, 1 / 2⟩ ∈ plots),
        (runDefinedPlots ctx plots).isSome)

/-! # Theorems

## Machine numbers -/

/-- An `int` result inside the range of `int` is not changed by the wrap. -/
theorem wrapInt32_of_range (n : ℤ) (h0 : -2 ^ 31 ≤ n) (h1 : n < 2 ^ 31) : wrapInt32 n = n := by
  unfold wrapInt32
  rw [Int.emod_eq_of_lt (by omega) (by omega)]
  ring

theorem truncToInt_pos (q : ℚ) (h : 0 < q) : truncToInt q = ⌊q⌋ := by
  unfold truncToInt
  rw [if_pos (le_of_lt h)]

theorem floatToInt_of_range (q : ℚ) (h0 : -2 ^ 31 ≤ truncToInt q) (h1 : truncToInt q < 2 ^ 31) :
    floatToInt q = truncToInt q := by
  unfold floatToInt
  rw [if_pos ⟨h0, h1⟩]

/-- Below `2 ^ 31` the conversion of a positive `float` is its integer part. -/
theorem floatToInt_pos (q : ℚ) (h0 : 0 < q) (h1 : q < 2 ^ 31) : floatToInt q = ⌊q⌋ := by
  have ht := truncToInt_pos q h0
  have hf0 : 0 ≤ ⌊q⌋ := Int.floor_nonneg.mpr (le_of_lt h0)
  have hf1 : ⌊q⌋ < 2 ^ 31 := by
    rw [Int.floor_lt]
    exact_mod_cast h1
  rw [floatToInt_of_range q (by rw [ht]; omega) (by rw [ht]; exact hf1), ht]

theorem floatToInt_nonneg (q : ℚ) (h0 : 0 ≤ q) (h1 : q < 2 ^ 31) : floatToInt q = ⌊q⌋ := by
  have ht : truncToInt q = ⌊q⌋ := by
    unfold truncToInt
    rw [if_pos h0]
  have hf0 : 0 ≤ ⌊q⌋ := Int.floor_nonneg.mpr h0
  have hf1 : ⌊q⌋ < 2 ^ 31 := by
    rw [Int.floor_lt]
    exact_mod_cast h1
  rw [floatToInt_of_range q (by rw [ht]; omega) (by rw [ht]; exact hf1), ht]

theorem floatToInt_neg (q : ℚ) (h0 : q < 0) (h1 : -2 ^ 31 ≤ q) : floatToInt q = ⌈q⌉ := by
  have ht : truncToInt q = ⌈q⌉ := by
    unfold truncToInt
    rw [if_neg (not_le.mpr h0)]
  have hf0 : ⌈q⌉ ≤ 0 := by
    rw [Int.ceil_le]
    exact_mod_cast le_of_lt h0
  have hf1 : -2 ^ 31 ≤ ⌈q⌉ := by
    have h2 : ((-2 ^ 31 : ℤ) : ℚ) ≤ ((⌈q⌉ : ℤ) : ℚ) := by
      refine le_trans ?_ (Int.le_ceil q)
      exact_mod_cast h1
    exact_mod_cast h2
  rw [floatToInt_of_range q (by rw [ht]; exact hf1) (by rw [ht]; omega), ht]

/-! ## The error register -/

theorem setErrCode_contexts (c : sglEErrorCode) (s : SGLSceneManager) :
    (setErrCode c s).contexts = s.contexts ∧
      (setErrCode c s).currentContextId = s.currentContextId := by
  unfold setErrCode
  split <;> simp

theorem setErrCode_eq (c : sglEErrorCode) (s : SGLSceneManager) :
    setErrCode c s = { s with errorCode := (setErrCode c s).errorCode } := by
  unfold setErrCode
  split <;> rfl

theorem setErrCode_of_held (c : sglEErrorCode) (s : SGLSceneManager)
    (h : s.errorCode ≠ SGL_NO_ERROR) : setErrCode c s = s := by
  unfold setErrCode
  rw [if_neg h]

theorem foldl_setErrCode_of_held (cs : List sglEErrorCode) (s : SGLSceneManager)
    (h : s.errorCode ≠ SGL_NO_ERROR) :
    cs.foldl (fun t c => setErrCode c t) s = s := by
  induction cs with
  | nil => rfl
  | cons c cs ih => simp only [List.foldl_cons, setErrCode_of_held c s h, ih]

/-- C1. The error register is sticky and first-wins: `setErrCode` leaves a
register that does not hold `SGL_NO_ERROR` as it is; so after a code `e` other
than `SGL_NO_ERROR` is written while `SGL_NO_ERROR` is held, and after any
further writes `cs`, `sglGetError` returns `e` and the next `sglGetError`
returns `SGL_NO_ERROR`. -/
theorem error_register_sticky (s : SGLSceneManager) (e : sglEErrorCode)
    (cs : List sglEErrorCode) (held : s.errorCode = SGL_NO_ERROR) (he : e ≠ SGL_NO_ERROR) :
    (∀ (t : SGLSceneManager) (c : sglEErrorCode),
        t.errorCode ≠ SGL_NO_ERROR → setErrCode c t = t) ∧
    (sglGetError (cs.foldl (fun t c => setErrCode c t) (setErrCode e s))).1 = e ∧
    (sglGetError (sglGetError
      (cs.foldl (fun t c => setErrCode c t) (setErrCode e s))).2).1 = SGL_NO_ERROR := by
  have h1 : (setErrCode e s).errorCode = e := by
    unfold setErrCode
    rw [if_pos held]
  have h2 : (setErrCode e s).errorCode ≠ SGL_NO_ERROR := by rw [h1]; exact he
  refine ⟨fun t c ht => setErrCode_of_held c t ht, ?_, ?_⟩
  · rw [foldl_setErrCode_of_held cs _ h2]
    exact h1
  · rfl

theorem error_register_sticky_witness :
    (sglGetError ([SGL_INVALID_ENUM, SGL_STACK_UNDERFLOW].foldl (fun t c => setErrCode c t)
      (setErrCode SGL_INVALID_VALUE sglInit))).1 = SGL_INVALID_VALUE :=
  (error_register_sticky sglInit SGL_INVALID_VALUE [SGL_INVALID_ENUM, SGL_STACK_UNDERFLOW]
    rfl (by decide)).2.1

/-! ## Guards and the begin/end block -/

theorem getCurrentContext_setErrCode (c : sglEErrorCode) (s : SGLSceneManager) :
    getCurrentContext (setErrCode c s) = getCurrentContext s := by
  unfold getCurrentContext
  rw [(setErrCode_contexts c s).1, (setErrCode_contexts c s).2]

theorem errOnly_refl (s : SGLSceneManager) : ErrOnly s s := ⟨rfl, rfl⟩

theorem errOnly_trans {s t u : SGLSceneManager} (h1 : ErrOnly s t) (h2 : ErrOnly t u) :
    ErrOnly s u := ⟨h2.1.trans h1.1, h2.2.trans h1.2⟩

theorem errOnly_setErrCode (c : sglEErrorCode) (s : SGLSceneManager) :
    ErrOnly s (setErrCode c s) := setErrCode_contexts c s

theorem errOnly_getCurrentContext {s s' : SGLSceneManager} (h : ErrOnly s s') :
    getCurrentContext s' = getCurrentContext s := by
  unfold SGL.getCurrentContext
  rw [h.1, h.2]

theorem errOnly_eq {s s' : SGLSceneManager} (h : ErrOnly s s') :
    s' = { s with errorCode := s'.errorCode } := by
  obtain ⟨h1, h2⟩ := h
  cases s
  cases s'
  simp_all

/-- The guard chain of the state commands fires inside a begin/end block. -/
theorem within_fires {s : SGLSceneManager} {ctx : SGLContext}
    (hc : getCurrentContext s = some ctx) (hb : ctx.insideBegin = true) :
    (contextNotInitialized.or calledWithinBeginEnd) s =
      some (true, setErrCode SGL_INVALID_OPERATION s) := by
  simp [Guard.or, contextNotInitialized, calledWithinBeginEnd, hc, hb]

theorem guarded_fired {g : Guard} {s s1 : SGLSceneManager}
    (body : SGLSceneManager → Option SGLSceneManager) (h : g s = some (true, s1)) :
    guarded g body s = some s1 := by
  simp [guarded, h]

theorem or_fired {g : Guard} {s s1 : SGLSceneManager} (g2 : Guard) (h : g s = some (true, s1)) :
    (g.or g2) s = some (true, s1) := by
  simp [Guard.or, h]

/-- A command behind the guard chain of the state commands only writes the
error register inside a begin/end block. -/
theorem guarded_inside {s : SGLSceneManager} {ctx : SGLContext}
    (body : SGLSceneManager → Option SGLSceneManager)
    (hc : getCurrentContext s = some ctx) (hb : ctx.insideBegin = true) :
    guarded (contextNotInitialized.or calledWithinBeginEnd) body s =
      some (setErrCode SGL_INVALID_OPERATION s) :=
  guarded_fired body (within_fires hc hb)

theorem guarded_enum_inside {s : SGLSceneManager} {ctx : SGLContext} (mode : ℤ)
    (body : SGLSceneManager → Option SGLSceneManager)
    (hc : getCurrentContext s = some ctx) (hb : ctx.insideBegin = true) :
    guarded ((contextNotInitialized.or calledWithinBeginEnd).or (isInvalidEnumValue mode))
      body s = some (setErrCode SGL_INVALID_OPERATION s) :=
  guarded_fired body (or_fired _ (within_fires hc hb))

theorem mult_inside {s : SGLSceneManager} {ctx : SGLContext} (other : Matrix)
    (hc : getCurrentContext s = some ctx) (hb : ctx.insideBegin = true) :
    multWithCurrentMatrix other s = some (setErrCode SGL_INVALID_OPERATION s) :=
  guarded_inside _ hc hb

/-- Inside a begin/end block every state command has a result, and the
result differs from the state before in the error register at most. -/
theorem state_command_inside (env : Env) (c : Command) {s : SGLSceneManager} {ctx : SGLContext}
    (hs : c.isStateCommand = true)
    (hc : getCurrentContext s = some ctx) (hb : ctx.insideBegin = true) :
    ∃ s', step env c s = some s' ∧ ErrOnly s s' := by
  have key : ∀ f : SGLSceneManager → Option SGLSceneManager,
      f s = some (setErrCode SGL_INVALID_OPERATION s) → ∃ s', f s = some s' ∧ ErrOnly s s' :=
    fun f hf => ⟨_, hf, errOnly_setErrCode _ _⟩
  cases c <;> simp only [Command.isStateCommand, Bool.false_eq_true] at hs <;>
    simp only [step]
  case ClearColor => exact key _ (guarded_inside _ hc hb)
  case Color3f => exact key _ (guarded_inside _ hc hb)
  case AreaMode => exact key _ (guarded_enum_inside _ _ hc hb)
  case PointSize => exact key _ (guarded_inside _ hc hb)
  case Enable => exact key _ (guarded_inside _ hc hb)
  case Disable => exact key _ (guarded_inside _ hc hb)
  case Clear => exact key _ (guarded_inside _ hc hb)
  case MatrixMode => exact key _ (guarded_enum_inside _ _ hc hb)
  case PushMatrix => exact key _ (guarded_inside _ hc hb)
  case PopMatrix => exact key _ (guarded_inside _ hc hb)
  case LoadIdentity => exact key _ (guarded_inside _ hc hb)
  case LoadMatrix => exact key _ (guarded_inside _ hc hb)
  case MultMatrix => exact key _ (mult_inside _ hc hb)
  case Translate => exact key _ (mult_inside _ hc hb)
  case Scale => exact key _ (mult_inside _ hc hb)
  case Rotate2D angle cx cy =>
    have hc1 : getCurrentContext (setErrCode SGL_INVALID_OPERATION s) = some ctx := by
      rw [getCurrentContext_setErrCode]; exact hc
    have hc2 : getCurrentContext
        (setErrCode SGL_INVALID_OPERATION (setErrCode SGL_INVALID_OPERATION s)) = some ctx := by
      rw [getCurrentContext_setErrCode]; exact hc1
    refine ⟨setErrCode SGL_INVALID_OPERATION (setErrCode SGL_INVALID_OPERATION
      (setErrCode SGL_INVALID_OPERATION s)), ?_, ?_⟩
    · simp only [sglRotate2D, sglTranslate, mult_inside _ hc hb, mult_inside _ hc1 hb,
        mult_inside _ hc2 hb, Option.bind_eq_bind, Option.some_bind]
    · exact errOnly_trans (errOnly_trans (errOnly_setErrCode _ _) (errOnly_setErrCode _ _))
        (errOnly_setErrCode _ _)
  case RotateY => exact key _ (mult_inside _ hc hb)
  case Ortho l r b t n f =>
    unfold sglOrtho
    split
    · exact ⟨_, rfl, errOnly_setErrCode _ _⟩
    · exact key _ (mult_inside _ hc hb)
  case Frustum l r b t n f =>
    unfold sglFrustum
    split
    · exact ⟨_, rfl, errOnly_setErrCode _ _⟩
    · exact key _ (mult_inside _ hc hb)
  case Viewport x y w h =>
    unfold sglViewport
    split
    · exact ⟨_, rfl, errOnly_setErrCode _ _⟩
    · exact key _ (guarded_inside _ hc hb)
  case Begin mode =>
    refine key _ (guarded_fired _ (or_fired _ ?_))
    simp [calledWithinBeginEnd, hc, hb]
  case BeginScene => exact key _ (guarded_inside _ hc hb)
  case EndScene => exact key _ (guarded_inside _ hc hb)
  case Material => exact key _ (guarded_inside _ hc hb)

/-- C2. Inside a begin/end block (`insideBegin = true`) each state command,
whatever its arguments, has a result that differs from the state before in
the error register at most: every field of every context is unchanged. -/
theorem state_commands_frame_inside_begin (env : Env) (c : Command) (s : SGLSceneManager)
    (ctx : SGLContext) (hs : c.isStateCommand = true)
    (hc : getCurrentContext s = some ctx) (hb : ctx.insideBegin = true) :
    ∃ e : sglEErrorCode, step env c s = some { s with errorCode := e } := by
  obtain ⟨s', h1, h2⟩ := state_command_inside env c hs hc hb
  exact ⟨s'.errorCode, by rw [h1, ← errOnly_eq h2]⟩

theorem state_commands_frame_inside_begin_witness :
    ∃ e : sglEErrorCode,
      step demoEnv (.ClearColor 1 1 1 1)
          (demoManager (demoContext ⟨1, 0, 0⟩ true true [] SGL_POINTS)) =
        some { demoManager (demoContext ⟨1, 0, 0⟩ true true [] SGL_POINTS) with errorCode := e } :=
  state_commands_frame_inside_begin demoEnv (.ClearColor 1 1 1 1)
    (demoManager (demoContext ⟨1, 0, 0⟩ true true [] SGL_POINTS))
    (demoContext ⟨1, 0, 0⟩ true true [] SGL_POINTS) rfl rfl rfl

/-! ## Fragments and the depth test -/

theorem sameButBuffers_refl (a : SGLContext) : SameButBuffers a a := rfl

theorem sameButBuffers_trans {a b c : SGLContext} (h1 : SameButBuffers a b)
    (h2 : SameButBuffers b c) : SameButBuffers a c := by
  unfold SameButBuffers at *
  rw [h2, h1]

theorem depthCheck_same (p : ScreenVertex) (w : ℤ) (ctx : SGLContext) :
    SameButBuffers ctx (depthCheck p w ctx).2 := by
  unfold depthCheck
  split
  · rfl
  · dsimp only
    split <;> rfl

theorem boundsAndDepthCheck_same (p : ScreenVertex) (w h : ℤ) (ctx : SGLContext) :
    SameButBuffers ctx (boundsAndDepthCheck p w h ctx).2 := by
  unfold boundsAndDepthCheck
  split
  · rfl
  · split
    · rfl
    · exact depthCheck_same p w ctx

/-- A submission changes the two buffers at most. -/
theorem Plot.apply_same (ctx : SGLContext) (pl : Plot) : SameButBuffers ctx (pl.apply ctx) := by
  have h : ∀ r : Bool × SGLContext, SameButBuffers ctx r.2 →
      SameButBuffers ctx
        (if r.1 = true then
          let index := coord2DTo1D pl.point.x pl.point.y ctx.width
          { r.2 with colorBuffer := bufSet r.2.colorBuffer index ctx.currentColor }
        else r.2) := by
    intro r hr
    split
    · unfold SameButBuffers at *
      rw [hr]
    · exact hr
  cases pl with
  | checked p => exact h _ (boundsAndDepthCheck_same p _ _ ctx)
  | unchecked p => exact h _ (depthCheck_same p _ ctx)

/-- A list of submissions changes the two buffers at most. -/
theorem runPlots_same (plots : List Plot) (ctx : SGLContext) :
    SameButBuffers ctx (runPlots ctx plots) := by
  induction plots generalizing ctx with
  | nil => rfl
  | cons pl rest ih => exact sameButBuffers_trans (Plot.apply_same ctx pl) (ih (pl.apply ctx))

theorem boundsAndDepthCheck_inCanvas {ctx : SGLContext} {p : ScreenVertex}
    (hd : ctx.enabledDepthTest = true) (hin : inCanvas ctx p) :
    boundsAndDepthCheck p ctx.width ctx.height ctx =
      if ((F32.sub p.z EPSILON : ℚ) : WithTop ℚ) <
          bufGet ctx.depthBuffer (coord2DTo1D p.x p.y ctx.width) 0 then
        (true, { ctx with
          depthBuffer := bufSet ctx.depthBuffer (coord2DTo1D p.x p.y ctx.width) (p.z : ℚ) })
      else (false, ctx) := by
  obtain ⟨h1, h2, h3, h4⟩ := hin
  have hb : ¬ (p.x < 0 ∨ p.x ≥ ctx.width ∨ p.y < 0 ∨ p.y ≥ ctx.height) := by omega
  simp only [boundsAndDepthCheck, if_neg hb, depthCheck, hd, Bool.not_true, Bool.false_eq_true,
    if_false]

/-- C3 (as amended). With depth testing enabled, an in-bounds fragment of
depth `z` at a pixel whose stored depth is `s` wins if and only if the
`float` difference `z - EPSILON`, rounded to binary32, is below `s`; a winning
fragment overwrites the pixel's colour with the current colour and its depth
with `z`, a losing fragment changes nothing. The rounding matters: at depth 1
the difference is `16777149 / 2 ^ 24`, below 1, and at depth 256 it is 256
again, so that a fragment of depth 256 loses against a stored 256. -/
theorem depth_test_wins_iff (ctx : SGLContext) (p : ScreenVertex)
    (hd : ctx.enabledDepthTest = true) (hin : inCanvas ctx p) :
    (F32.sub 1 EPSILON = 16777149 / 16777216 ∧ F32.sub 256 EPSILON = 256) ∧
    ((boundsAndDepthCheck p ctx.width ctx.height ctx).1 = true ↔
      ((F32.sub p.z EPSILON : ℚ) : WithTop ℚ) <
        bufGet ctx.depthBuffer (coord2DTo1D p.x p.y ctx.width) 0) ∧
    (((F32.sub p.z EPSILON : ℚ) : WithTop ℚ) <
        bufGet ctx.depthBuffer (coord2DTo1D p.x p.y ctx.width) 0 →
      Plot.apply ctx (.checked p) =
        { ctx with
          colorBuffer := bufSet ctx.colorBuffer (coord2DTo1D p.x p.y ctx.width) ctx.currentColor
          depthBuffer := bufSet ctx.depthBuffer (coord2DTo1D p.x p.y ctx.width) (p.z : ℚ) }) ∧
    (¬ ((F32.sub p.z EPSILON : ℚ) : WithTop ℚ) <
        bufGet ctx.depthBuffer (coord2DTo1D p.x p.y ctx.width) 0 →
      Plot.apply ctx (.checked p) = ctx) := by
  have key := boundsAndDepthCheck_inCanvas hd hin
  refine ⟨⟨by decide!, by decide!⟩, ?_, ?_, ?_⟩
  · rw [key]
    split <;> simp only [*, Bool.false_eq_true]
  · intro hw
    simp only [Plot.apply, key, if_pos hw, Plot.point, if_true]
  · intro hw
    simp only [Plot.apply, key, if_neg hw, Bool.false_eq_true, if_false]

theorem depth_test_wins_iff_witness :
    (boundsAndDepthCheck ⟨0, 0, 1 / 2⟩ 2 2 (demoContext ⟨1, 0, 0⟩ true false [] SGL_POINTS)).1
        = true ↔
      ((F32.sub (1 / 2 : ℚ) EPSILON : ℚ) : WithTop ℚ) <
        bufGet (demoContext ⟨1, 0, 0⟩ true false [] SGL_POINTS).depthBuffer
          (coord2DTo1D 0 0 2) 0 :=
  (depth_test_wins_iff (demoContext ⟨1, 0, 0⟩ true false [] SGL_POINTS) ⟨0, 0, 1 / 2⟩ rfl
    (by decide)).2.1

/-- C3 as stated fails: with stored depth 1 a fragment of depth 1 wins, though
`1 ≤ 1 - EPSILON` is false. -/
theorem depth_test_claim_fails :
    ¬ (∀ (ctx : SGLContext) (p : ScreenVertex) (s : ℚ), ctx.enabledDepthTest = true →
      inCanvas ctx p →
      bufGet ctx.depthBuffer (coord2DTo1D p.x p.y ctx.width) 0 = ((s : ℚ) : WithTop ℚ) →
      ((boundsAndDepthCheck p ctx.width ctx.height ctx).1 = true ↔ p.z ≤ s - EPSILON)) := by
  intro h
  have h1 := h (demoContext ⟨1, 0, 0⟩ true false [] SGL_POINTS) ⟨0, 0, 1⟩ 1 rfl (by decide) rfl
  have h2 : (boundsAndDepthCheck ⟨0, 0, 1⟩
      (demoContext ⟨1, 0, 0⟩ true false [] SGL_POINTS).width
      (demoContext ⟨1, 0, 0⟩ true false [] SGL_POINTS).height
      (demoContext ⟨1, 0, 0⟩ true false [] SGL_POINTS)).1 = true := by decide!
  have h3 := h1.mp h2
  norm_num [EPSILON] at h3

/-! ## Drawing with the depth test disabled -/

theorem cellAt_bufSet_self {α : Type} (buffer : List α) (i : ℤ) (a : α)
    (h0 : 0 ≤ i) (h1 : i < (buffer.length : ℤ)) : cellAt (bufSet buffer i a) i = some a := by
  have h2 : i.toNat < buffer.length := by omega
  simp [cellAt, bufSet, h0, h2]

theorem cellAt_bufSet_keep {α : Type} (buffer : List α) (i j : ℤ) (a : α)
    (h : cellAt buffer j = some a) : cellAt (bufSet buffer i a) j = some a := by
  unfold cellAt at *
  unfold bufSet
  split at h
  · rename_i hj
    rw [if_pos hj]
    split
    · rw [List.get?_eq_getElem?, List.getElem?_set]
      split
      · split
        · rfl
        · rename_i h1 h2
          rw [List.get?_eq_getElem?, ← h1] at h
          have := List.getElem?_eq_some_iff.mp h
          obtain ⟨hlt, _⟩ := this
          exact absurd hlt h2
      · rw [← List.get?_eq_getElem?]
        exact h
    · exact h
  · exact absurd h (by simp)

theorem bufSet_length {α : Type} (buffer : List α) (i : ℤ) (a : α) :
    (bufSet buffer i a).length = buffer.length := by
  unfold bufSet
  split <;> simp

theorem index_inCanvas {ctx : SGLContext} {p : ScreenVertex} (hin : inCanvas ctx p)
    (hlen : ctx.colorBuffer.length = (ctx.width * ctx.height).toNat) :
    0 ≤ coord2DTo1D p.x p.y ctx.width ∧
      coord2DTo1D p.x p.y ctx.width < (ctx.colorBuffer.length : ℤ) := by
  obtain ⟨h1, h2, h3, h4⟩ := hin
  unfold coord2DTo1D
  have hw : 0 ≤ ctx.width := by omega
  have e1 : 0 ≤ p.y * ctx.width := mul_nonneg h3 hw
  have e2 : (p.y + 1) * ctx.width ≤ ctx.height * ctx.width :=
    mul_le_mul_of_nonneg_right (by omega) hw
  have e3 : 0 ≤ ctx.width * ctx.height := mul_nonneg hw (by omega)
  rw [hlen, Int.toNat_of_nonneg e3]
  constructor
  · omega
  · nlinarith

/-- With the depth test disabled a submission writes the colour buffer only,
and it does write the pixel of a fragment inside the canvas. -/
theorem Plot.apply_disabled (ctx : SGLContext) (pl : Plot) (hd : ctx.enabledDepthTest = false) :
    (pl.apply ctx = ctx ∨ pl.apply ctx = writePixel ctx pl.point) ∧
    (inCanvas ctx pl.point → pl.apply ctx = writePixel ctx pl.point) := by
  cases pl with
  | checked p =>
    by_cases hb : p.x < 0 ∨ p.x ≥ ctx.width ∨ p.y < 0 ∨ p.y ≥ ctx.height
    · refine ⟨Or.inl ?_, ?_⟩
      · simp [Plot.apply, boundsAndDepthCheck, hb]
      · intro hin
        obtain ⟨h1, h2, h3, h4⟩ := hin
        simp only [Plot.point] at h1 h2 h3 h4
        omega
    · have : Plot.apply ctx (.checked p) = writePixel ctx p := by
        simp [Plot.apply, boundsAndDepthCheck, hb, hd, Plot.point, writePixel]
      exact ⟨Or.inr this, fun _ => this⟩
  | unchecked p =>
    have : Plot.apply ctx (.unchecked p) = writePixel ctx p := by
      simp [Plot.apply, depthCheck, hd, Plot.point, writePixel]
    exact ⟨Or.inr this, fun _ => this⟩

/-- What a list of submissions keeps when the depth test is disabled. -/
theorem runPlots_disabled (plots : List Plot) (ctx : SGLContext)
    (hd : ctx.enabledDepthTest = false)
    (hlen : ctx.colorBuffer.length = (ctx.width * ctx.height).toNat) :
    (runPlots ctx plots).depthBuffer = ctx.depthBuffer ∧
    (∀ q : ScreenVertex, pixelAt ctx q = some ctx.currentColor →
      pixelAt (runPlots ctx plots) q = some ctx.currentColor) ∧
    (∀ pl ∈ plots, inCanvas ctx pl.point →
      pixelAt (runPlots ctx plots) pl.point = some ctx.currentColor) := by
  induction plots generalizing ctx with
  | nil => exact ⟨rfl, fun _ h => h, fun _ h => absurd h (List.not_mem_nil _)⟩
  | cons pl rest ih =>
    obtain ⟨hcase, hcanvas⟩ := Plot.apply_disabled ctx pl hd
    have hstep : ∃ cb : List Pixel, pl.apply ctx = { ctx with colorBuffer := cb } ∧
        cb.length = ctx.colorBuffer.length ∧
        (∀ q : ScreenVertex, pixelAt ctx q = some ctx.currentColor →
          cellAt cb (coord2DTo1D q.x q.y ctx.width) = some ctx.currentColor) ∧
        (inCanvas ctx pl.point →
          cellAt cb (coord2DTo1D pl.point.x pl.point.y ctx.width) = some ctx.currentColor) := by
      cases hcase with
      | inl h =>
        refine ⟨ctx.colorBuffer, h, rfl, fun q hq => hq, fun hin => ?_⟩
        have h2 := hcanvas hin
        rw [h] at h2
        have h3 := congrArg SGLContext.colorBuffer h2
        simp only [writePixel] at h3
        rw [h3]
        exact cellAt_bufSet_self _ _ _ (index_inCanvas hin hlen).1 (index_inCanvas hin hlen).2
      | inr h =>
        refine ⟨_, h, bufSet_length _ _ _, fun q hq => cellAt_bufSet_keep _ _ _ _ hq,
          fun hin => ?_⟩
        exact cellAt_bufSet_self _ _ _ (index_inCanvas hin hlen).1 (index_inCanvas hin hlen).2
    obtain ⟨cb, hcb, hl, hkeep, hset⟩ := hstep
    have hd' : (pl.apply ctx).enabledDepthTest = false := by rw [hcb]; exact hd
    have hlen' : (pl.apply ctx).colorBuffer.length =
        ((pl.apply ctx).width * (pl.apply ctx).height).toNat := by
      rw [hcb]; exact hl.trans hlen
    obtain ⟨i1, i2, i3⟩ := ih (pl.apply ctx) hd' hlen'
    have hcol : (pl.apply ctx).currentColor = ctx.currentColor := by rw [hcb]
    have hpix : ∀ q : ScreenVertex, pixelAt (pl.apply ctx) q =
        cellAt cb (coord2DTo1D q.x q.y ctx.width) := by
      intro q
      rw [hcb]
      rfl
    have hcanv : ∀ q : ScreenVertex, inCanvas (pl.apply ctx) q ↔ inCanvas ctx q := by
      intro q
      rw [hcb]
      rfl
    rw [hcol] at i2 i3
    refine ⟨?_, ?_, ?_⟩
    · show (runPlots (pl.apply ctx) rest).depthBuffer = ctx.depthBuffer
      rw [i1, hcb]
    · intro q hq
      exact i2 q (by rw [hpix]; exact hkeep q hq)
    · intro pl' hmem hin
      rcases List.mem_cons.mp hmem with h | h
      · subst h
        exact i2 _ (by rw [hpix]; exact hset hin)
      · exact i3 pl' h ((hcanv _).mpr hin)

/-! ## Balanced pushes and pops -/

theorem run_append (env : Env) (cs ds : List Command) (s : SGLSceneManager) :
    run env (cs ++ ds) s = (run env cs s).bind (run env ds) := by
  induction cs generalizing s with
  | nil => rfl
  | cons c cs ih =>
    simp only [List.cons_append, run]
    cases step env c s with
    | none => rfl
    | some s1 => exact ih s1

theorem list_set_getElem {α : Type} (l : List α) (i : ℕ) (h : i < l.length) :
    l.set i l[i] = l := by
  apply List.ext_getElem (by simp)
  intro n h1 h2
  rw [List.getElem_set]
  split
  · rename_i hin
    subst hin
    rfl
  · rfl

theorem getCurrentContext_some {s : SGLSceneManager} {ctx : SGLContext}
    (h : getCurrentContext s = some ctx) :
    0 ≤ s.currentContextId ∧ ∃ hlt : s.currentContextId.toNat < s.contexts.length,
      s.contexts[s.currentContextId.toNat] = ctx := by
  unfold getCurrentContext at h
  split at h
  · rename_i h0
    rw [List.get?_eq_getElem?] at h
    obtain ⟨hlt, heq⟩ := List.getElem?_eq_some_iff.mp h
    exact ⟨h0, hlt, heq⟩
  · exact absurd h (by simp)

theorem stackAt_some {ctx : SGLContext} {mode : ℤ} {stack : List Matrix}
    (h : stackAt ctx mode = some stack) :
    0 ≤ mode ∧ ∃ hlt : mode.toNat < ctx.transformationStack.length,
      ctx.transformationStack[mode.toNat] = stack := by
  unfold stackAt at h
  split at h
  · rename_i h0
    rw [List.get?_eq_getElem?] at h
    obtain ⟨hlt, heq⟩ := List.getElem?_eq_some_iff.mp h
    exact ⟨h0, hlt, heq⟩
  · exact absurd h (by simp)

theorem getCurrentContext_withActiveStack {s : SGLSceneManager} {ctx : SGLContext}
    (h : ActiveStack s ctx) (stack : List Matrix) (e : sglEErrorCode) :
    getCurrentContext (withActiveStack s ctx stack e) =
      some (setStackAt ctx ctx.currentMatrixMode stack) := by
  obtain ⟨h0, hlt, _⟩ := getCurrentContext_some h.current
  simp [getCurrentContext, withActiveStack, h0, hlt]

theorem stackAt_setStackAt {ctx : SGLContext} {s : SGLSceneManager} (h : ActiveStack s ctx)
    (stack : List Matrix) :
    stackAt (setStackAt ctx ctx.currentMatrixMode stack) ctx.currentMatrixMode = some stack := by
  simp [stackAt, setStackAt, h.modeNonneg, h.modeValid]

theorem setCurrentContext_withActiveStack (s : SGLSceneManager) (ctx : SGLContext)
    (stack stack' : List Matrix) (e : sglEErrorCode) :
    setCurrentContext (withActiveStack s ctx stack e)
        (setStackAt (setStackAt ctx ctx.currentMatrixMode stack) ctx.currentMatrixMode stack') =
      withActiveStack s ctx stack' e := by
  simp [setCurrentContext, withActiveStack, setStackAt]

theorem setErrCode_withActiveStack (c : sglEErrorCode) (s : SGLSceneManager) (ctx : SGLContext)
    (stack : List Matrix) (e : sglEErrorCode) :
    ∃ e', setErrCode c (withActiveStack s ctx stack e) = withActiveStack s ctx stack e' := by
  unfold setErrCode
  split
  · exact ⟨c, rfl⟩
  · exact ⟨e, rfl⟩

theorem eq_withActiveStack {s : SGLSceneManager} {ctx : SGLContext} {stack : List Matrix}
    (h : getCurrentContext s = some ctx) (hs : stackAt ctx ctx.currentMatrixMode = some stack) :
    s = withActiveStack s ctx stack s.errorCode := by
  obtain ⟨_, hlt, heq⟩ := getCurrentContext_some h
  obtain ⟨_, hlt2, heq2⟩ := stackAt_some hs
  have e1 : setStackAt ctx ctx.currentMatrixMode stack = ctx := by
    unfold setStackAt
    rw [← heq2, list_set_getElem]
  unfold withActiveStack
  rw [e1, ← heq, list_set_getElem]

theorem guard_passes {s : SGLSceneManager} {ctx : SGLContext} (h : ActiveStack s ctx)
    (stack : List Matrix) (e : sglEErrorCode) :
    (contextNotInitialized.or calledWithinBeginEnd) (withActiveStack s ctx stack e) =
      some (false, withActiveStack s ctx stack e) := by
  have h1 := getCurrentContext_withActiveStack h stack e
  have h2 : (setStackAt ctx ctx.currentMatrixMode stack).insideBegin = false := h.outside
  simp [Guard.or, contextNotInitialized, calledWithinBeginEnd, h1, h2]

theorem guarded_passes {s : SGLSceneManager} {ctx : SGLContext} (h : ActiveStack s ctx)
    (stack : List Matrix) (e : sglEErrorCode)
    (body : SGLSceneManager → Option SGLSceneManager) :
    guarded (contextNotInitialized.or calledWithinBeginEnd) body (withActiveStack s ctx stack e) =
      body (withActiveStack s ctx stack e) := by
  simp [guarded, guard_passes h stack e]

/-- Outside begin/end `PushMatrix` appends a copy of the top. -/
theorem push_withActiveStack {s : SGLSceneManager} {ctx : SGLContext} (h : ActiveStack s ctx)
    (st : List Matrix) (top : Matrix) (e : sglEErrorCode) :
    sglPushMatrix (withActiveStack s ctx (st ++ [top]) e) =
      some (withActiveStack s ctx (st ++ [top] ++ [top]) e) := by
  unfold sglPushMatrix
  rw [guarded_passes h]
  simp only [modifyContext, getCurrentContext_withActiveStack h]
  have h2 := stackAt_setStackAt h (st ++ [top])
  have h3 : (setStackAt ctx ctx.currentMatrixMode (st ++ [top])).currentMatrixMode =
      ctx.currentMatrixMode := rfl
  simp only [h3, h2, Option.bind_eq_bind, Option.some_bind, List.getLast?_concat,
    setCurrentContext_withActiveStack]

/-- Outside begin/end `PopMatrix` removes the top of a stack of two or more. -/
theorem pop_withActiveStack {s : SGLSceneManager} {ctx : SGLContext} (h : ActiveStack s ctx)
    (st : List Matrix) (below top : Matrix) (e : sglEErrorCode) :
    sglPopMatrix (withActiveStack s ctx (st ++ [below] ++ [top]) e) =
      some (withActiveStack s ctx (st ++ [below]) e) := by
  unfold sglPopMatrix
  rw [guarded_passes h]
  simp only [getCurrentContext_withActiveStack h]
  have h2 := stackAt_setStackAt h (st ++ [below] ++ [top])
  have h3 : (setStackAt ctx ctx.currentMatrixMode (st ++ [below] ++ [top])).currentMatrixMode =
      ctx.currentMatrixMode := rfl
  have h4 : ¬ ((st ++ [below] ++ [top]).length = 1) := by simp
  have h5 : ¬ (st ++ [below] ++ [top] = []) := by simp
  simp only [h3, h2, h4, h5, if_false, List.dropLast_concat,
    setCurrentContext_withActiveStack]

/-- Outside begin/end a command that assigns to the top replaces the top. -/
theorem updateBack_withActiveStack {s : SGLSceneManager} {ctx : SGLContext} (h : ActiveStack s ctx)
    (f : Matrix → Matrix) (st : List Matrix) (top : Matrix) (e : sglEErrorCode) :
    guarded (contextNotInitialized.or calledWithinBeginEnd) (modifyContext (updateBack f))
        (withActiveStack s ctx (st ++ [top]) e) =
      some (withActiveStack s ctx (st ++ [f top]) e) := by
  rw [guarded_passes h]
  simp only [modifyContext, getCurrentContext_withActiveStack h, updateBack]
  have h2 := stackAt_setStackAt h (st ++ [top])
  have h3 : (setStackAt ctx ctx.currentMatrixMode (st ++ [top])).currentMatrixMode =
      ctx.currentMatrixMode := rfl
  have h5 : ¬ (st ++ [top] = []) := by simp
  simp only [h3, h2, Option.bind_eq_bind, Option.some_bind, List.getLast?_concat, setBack, h5,
    if_false, List.dropLast_concat, setCurrentContext_withActiveStack]

/-- Outside begin/end every command that assigns to the top keeps the stack
below the top. -/
theorem top_command_withActiveStack (env : Env) {s : SGLSceneManager} {ctx : SGLContext}
    (h : ActiveStack s ctx) (c : Command) (hc : c.isTopCommand = true)
    (st : List Matrix) (top : Matrix) (e : sglEErrorCode) :
    ∃ top' e', step env c (withActiveStack s ctx (st ++ [top]) e) =
      some (withActiveStack s ctx (st ++ [top']) e') := by
  cases c <;> simp only [Command.isTopCommand, Bool.false_eq_true] at hc <;> simp only [step]
  case LoadIdentity => exact ⟨_, e, updateBack_withActiveStack h _ st top e⟩
  case LoadMatrix => exact ⟨_, e, updateBack_withActiveStack h _ st top e⟩
  case MultMatrix => exact ⟨_, e, updateBack_withActiveStack h _ st top e⟩
  case Translate => exact ⟨_, e, updateBack_withActiveStack h _ st top e⟩
  case Scale => exact ⟨_, e, updateBack_withActiveStack h _ st top e⟩
  case Rotate2D angle cx cy =>
    refine ⟨((top.mul ⟨[1, 0, 0, cx, 0, 1, 0, cy, 0, 0, 1, 0, 0, 0, 0, 1]⟩).mul
      ⟨[env.libm.cos angle, -env.libm.sin angle, 0, 0, env.libm.sin angle, env.libm.cos angle,
        0, 0, 0, 0, 1, 0, 0, 0, 0, 1]⟩).mul
      ⟨[1, 0, 0, -cx, 0, 1, 0, -cy, 0, 0, 1, 0, 0, 0, 0, 1]⟩, e, ?_⟩
    simp only [sglRotate2D, sglTranslate, multWithCurrentMatrix, updateBack_withActiveStack h,
      Option.bind_eq_bind, Option.some_bind]
  case RotateY => exact ⟨_, e, updateBack_withActiveStack h _ st top e⟩
  case Ortho l r b t n f =>
    unfold sglOrtho
    split
    · obtain ⟨e', he⟩ := setErrCode_withActiveStack SGL_INVALID_VALUE s ctx (st ++ [top]) e
      exact ⟨top, e', by rw [he]⟩
    · exact ⟨_, e, updateBack_withActiveStack h _ st top e⟩
  case Frustum l r b t n f =>
    unfold sglFrustum
    split
    · obtain ⟨e', he⟩ := setErrCode_withActiveStack SGL_INVALID_VALUE s ctx (st ++ [top]) e
      exact ⟨top, e', by rw [he]⟩
    · exact ⟨_, e, updateBack_withActiveStack h _ st top e⟩

/-- A balanced sequence of matrix commands keeps the active stack below its
top and everything else but the error register. -/
theorem balanced_withActiveStack (env : Env) {s : SGLSceneManager} {ctx : SGLContext}
    (h : ActiveStack s ctx) {cs : List Command} (hbal : Balanced cs) :
    ∀ (st : List Matrix) (top : Matrix) (e : sglEErrorCode),
      ∃ top' e', run env cs (withActiveStack s ctx (st ++ [top]) e) =
        some (withActiveStack s ctx (st ++ [top']) e') := by
  induction hbal with
  | nil => exact fun st top e => ⟨top, e, rfl⟩
  | top c cs hc _ ih =>
    intro st top e
    obtain ⟨top1, e1, h1⟩ := top_command_withActiveStack env h c hc st top e
    obtain ⟨top2, e2, h2⟩ := ih st top1 e1
    exact ⟨top2, e2, by simp only [run, h1, Option.some_bind, h2]⟩
  | nest inner rest _ _ ih1 ih2 =>
    intro st top e
    obtain ⟨top1, e1, h1⟩ := ih1 (st ++ [top]) top e
    obtain ⟨top2, e2, h2⟩ := ih2 st top e1
    refine ⟨top2, e2, ?_⟩
    simp only [run, step, push_withActiveStack h, Option.some_bind, run_append, h1,
      pop_withActiveStack h, h2]

/-- C5. Outside begin/end, a sequence of matrix commands that starts with
`PushMatrix`, ends with its matching `PopMatrix` and is balanced in between
(any `LoadIdentity`, `LoadMatrix`, `MultMatrix`, `Translate`, `Scale`,
`Rotate2D`, `RotateY`, `Ortho`, `Frustum` and nested pairs, no `MatrixMode`)
leaves every context as it was, so both matrix stacks are unchanged element
for element; and the sequence does run to its end whenever the matrix mode
selects a non-empty stack. -/
theorem balanced_push_pop_restores (env : Env) (s : SGLSceneManager) (ctx : SGLContext)
    (inner : List Command) (hc : getCurrentContext s = some ctx)
    (hb : ctx.insideBegin = false) (hbal : Balanced inner) :
    (∀ s', run env (Command.PushMatrix :: (inner ++ [Command.PopMatrix])) s = some s' →
      s'.contexts = s.contexts ∧ s'.currentContextId = s.currentContextId ∧
        getCurrentContext s' = some ctx) ∧
    (∀ stack, stackAt ctx ctx.currentMatrixMode = some stack → stack ≠ [] →
      ∃ s', run env (Command.PushMatrix :: (inner ++ [Command.PopMatrix])) s = some s') := by
  have main : ∀ stack, stackAt ctx ctx.currentMatrixMode = some stack → stack ≠ [] →
      ∃ e, run env (Command.PushMatrix :: (inner ++ [Command.PopMatrix])) s =
        some { s with errorCode := e } := by
    intro stack hs hne
    obtain ⟨h0, hlt, _⟩ := stackAt_some hs
    have h : ActiveStack s ctx := ⟨hc, hb, h0, hlt⟩
    obtain ⟨st, top, rfl⟩ : ∃ st top, stack = st ++ [top] :=
      ⟨stack.dropLast, stack.getLast hne, (List.dropLast_append_getLast hne).symm⟩
    obtain ⟨top', e', hrun⟩ := balanced_withActiveStack env h
      (Balanced.nest inner [] hbal Balanced.nil) st top s.errorCode
    have hrun' : run env (Command.PushMatrix :: (inner ++ [Command.PopMatrix]))
        (withActiveStack s ctx (st ++ [top]) s.errorCode) =
          some (withActiveStack s ctx (st ++ [top]) e') := by
      simp only [run, step, push_withActiveStack h, Option.some_bind, run_append] at hrun ⊢
      obtain ⟨top1, e1, h1⟩ := balanced_withActiveStack env h hbal (st ++ [top]) top s.errorCode
      simp only [h1, Option.some_bind, run, step, pop_withActiveStack h]
      rw [h1] at hrun
      simp only [Option.some_bind, run, step, pop_withActiveStack h, Option.some.injEq] at hrun
      have := congrArg SGLSceneManager.errorCode hrun
      simp only [withActiveStack] at this
      rw [this]
    refine ⟨e', ?_⟩
    have hs0 := eq_withActiveStack hc hs
    rw [hs0] at hrun' ⊢
    simpa [withActiveStack] using hrun'
  constructor
  · intro s' hrun
    have hpush : ∃ s1, sglPushMatrix s = some s1 := by
      simp only [run, step] at hrun
      cases hp : sglPushMatrix s with
      | none => rw [hp] at hrun; exact absurd hrun (by simp)
      | some s1 => exact ⟨s1, rfl⟩
    obtain ⟨s1, hp⟩ := hpush
    have hstack : ∃ stack, stackAt ctx ctx.currentMatrixMode = some stack ∧ stack ≠ [] := by
      unfold sglPushMatrix guarded at hp
      have hg : (contextNotInitialized.or calledWithinBeginEnd) s = some (false, s) := by
        simp [Guard.or, contextNotInitialized, calledWithinBeginEnd, hc, hb]
      simp only [hg, modifyContext, hc] at hp
      cases hst : stackAt ctx ctx.currentMatrixMode with
      | none => simp [hst] at hp
      | some stack =>
        refine ⟨stack, rfl, ?_⟩
        rintro rfl
        simp [hst] at hp
    obtain ⟨stack, hs, hne⟩ := hstack
    obtain ⟨e, he⟩ := main stack hs hne
    rw [he] at hrun
    cases hrun
    exact ⟨rfl, rfl, hc⟩
  · intro stack hs hne
    obtain ⟨e, he⟩ := main stack hs hne
    exact ⟨_, he⟩

theorem balanced_push_pop_restores_witness :
    (∀ s', run demoEnv (Command.PushMatrix ::
        ([Command.Translate 1 2 3, Command.PushMatrix, Command.Scale 2 2 2, Command.PopMatrix,
          Command.LoadIdentity] ++ [Command.PopMatrix]))
        (demoManager (demoContext ⟨1, 0, 0⟩ true false [] SGL_POINTS)) = some s' →
      s'.contexts = (demoManager (demoContext ⟨1, 0, 0⟩ true false [] SGL_POINTS)).contexts ∧
      s'.currentContextId =
        (demoManager (demoContext ⟨1, 0, 0⟩ true false [] SGL_POINTS)).currentContextId ∧
      getCurrentContext s' = some (demoContext ⟨1, 0, 0⟩ true false [] SGL_POINTS)) ∧
    (∀ stack,
      stackAt (demoContext ⟨1, 0, 0⟩ true false [] SGL_POINTS)
        (demoContext ⟨1, 0, 0⟩ true false [] SGL_POINTS).currentMatrixMode = some stack →
      stack ≠ [] →
      ∃ s', run demoEnv (Command.PushMatrix ::
        ([Command.Translate 1 2 3, Command.PushMatrix, Command.Scale 2 2 2, Command.PopMatrix,
          Command.LoadIdentity] ++ [Command.PopMatrix]))
        (demoManager (demoContext ⟨1, 0, 0⟩ true false [] SGL_POINTS)) = some s') :=
  balanced_push_pop_restores demoEnv (demoManager (demoContext ⟨1, 0, 0⟩ true false [] SGL_POINTS))
    (demoContext ⟨1, 0, 0⟩ true false [] SGL_POINTS)
    [Command.Translate 1 2 3, Command.PushMatrix, Command.Scale 2 2 2, Command.PopMatrix,
      Command.LoadIdentity]
    rfl rfl
    (Balanced.top _ _ rfl
      (Balanced.nest [Command.Scale 2 2 2] [Command.LoadIdentity]
        (Balanced.top _ _ rfl Balanced.nil) (Balanced.top _ _ rfl Balanced.nil)))

/-! ## Well-formed contexts in every reachable state -/

theorem allWF_errOnly {s s' : SGLSceneManager} (h : ErrOnly s s') (hw : AllWF s) : AllWF s' := by
  intro ctx hmem
  rw [h.1] at hmem
  exact hw ctx hmem

theorem sameStacks_refl (a : SGLContext) : SameStacks a a := ⟨rfl, rfl⟩

theorem sameStacks_trans {a b c : SGLContext} (h1 : SameStacks a b) (h2 : SameStacks b c) :
    SameStacks a c := ⟨h2.1.trans h1.1, h2.2.trans h1.2⟩

theorem wellFormed_of_sameStacks {a b : SGLContext} (h : SameStacks a b) (hw : WellFormed a) :
    WellFormed b := by
  obtain ⟨h1, h2⟩ := h
  refine ⟨?_, ?_, ?_, ?_, ?_, ?_⟩
  · rw [h1]; exact hw.two
  · rw [h1]; exact hw.nonempty
  · rw [h2]; exact hw.row12
  · rw [h2]; exact hw.row13
  · rw [h2]; exact hw.row14
  · rw [h2]; exact hw.row15

theorem ctxKeepsWF_of_sameStacks {f : SGLContext → Option SGLContext}
    (h : ∀ ctx ctx', f ctx = some ctx' → SameStacks ctx ctx') : CtxKeepsWF f :=
  fun ctx ctx' he hw => wellFormed_of_sameStacks (h ctx ctx' he) hw

theorem sameStacks_of_sameButBuffers {a b : SGLContext} (h : SameButBuffers a b) :
    SameStacks a b := by
  unfold SameButBuffers at h
  rw [h]
  exact ⟨rfl, rfl⟩

theorem guardFrame_or {g1 g2 : Guard} (h1 : GuardFrame g1) (h2 : GuardFrame g2) :
    GuardFrame (g1.or g2) := by
  intro s b s1 h
  unfold Guard.or at h
  cases hg : g1 s with
  | none => rw [hg] at h; exact absurd h (by simp)
  | some r =>
    obtain ⟨b1, t⟩ := r
    rw [hg] at h
    cases b1 with
    | true =>
      simp only [Option.some.injEq, Prod.mk.injEq] at h
      rw [← h.2]
      exact h1 s true t hg
    | false => exact errOnly_trans (h1 s false t hg) (h2 t b s1 h)

theorem guardFrame_of_current {p : SGLContext → Bool} :
    GuardFrame (fun s =>
      match getCurrentContext s with
      | none => none
      | some ctx => if p ctx then some (true, setErrCode SGL_INVALID_OPERATION s)
        else some (false, s)) := by
  intro s b s1 h
  dsimp only at h
  cases hc : getCurrentContext s with
  | none => rw [hc] at h; exact absurd h (by simp)
  | some ctx =>
    rw [hc] at h
    dsimp only at h
    split at h
    · simp only [Option.some.injEq, Prod.mk.injEq] at h
      rw [← h.2]
      exact errOnly_setErrCode _ _
    · simp only [Option.some.injEq, Prod.mk.injEq] at h
      rw [← h.2]
      exact errOnly_refl _

theorem guardFrame_contextNotInitialized : GuardFrame contextNotInitialized := by
  intro s b s1 h
  unfold contextNotInitialized at h
  split at h
  · exact absurd h (by simp)
  · simp only [Option.some.injEq, Prod.mk.injEq] at h
    rw [← h.2]
    exact errOnly_refl _

theorem guardFrame_calledWithinBeginEnd : GuardFrame calledWithinBeginEnd :=
  guardFrame_of_current (p := fun ctx => ctx.insideBegin)

theorem guardFrame_calledOutsideBeginEnd : GuardFrame calledOutsideBeginEnd := by
  have h := guardFrame_of_current (p := fun ctx => decide (ctx.insideBegin = false))
  simpa [calledOutsideBeginEnd] using h

theorem guardFrame_calledWithinBeginSceneEndScene : GuardFrame calledWithinBeginSceneEndScene :=
  guardFrame_of_current (p := fun ctx => ctx.insideBeginScene)

theorem guardFrame_calledOutsideBeginSceneEndScene :
    GuardFrame calledOutsideBeginSceneEndScene := by
  have h := guardFrame_of_current (p := fun ctx => decide (ctx.insideBeginScene = false))
  simpa [calledOutsideBeginSceneEndScene] using h

theorem guardFrame_isInvalidEnumValue (v : ℤ) : GuardFrame (isInvalidEnumValue v) := by
  intro s b s1 h
  simp only [isInvalidEnumValue, Option.some.injEq, Prod.mk.injEq] at h
  rw [← h.2]
  exact errOnly_refl _

/-- The guard chain of the state commands. -/
theorem guardFrame_state : GuardFrame (contextNotInitialized.or calledWithinBeginEnd) :=
  guardFrame_or guardFrame_contextNotInitialized guardFrame_calledWithinBeginEnd

theorem keepsWF_guarded {g : Guard} {body : SGLSceneManager → Option SGLSceneManager}
    (hg : GuardFrame g) (hb : KeepsWF body) : KeepsWF (guarded g body) := by
  intro s s' h hw
  unfold guarded at h
  cases hgs : g s with
  | none => rw [hgs] at h; exact absurd h (by simp)
  | some r =>
    obtain ⟨b, t⟩ := r
    rw [hgs] at h
    have ht : AllWF t := allWF_errOnly (hg s b t hgs) hw
    cases b with
    | true =>
      simp only [Option.some.injEq] at h
      rw [← h]
      exact ht
    | false => exact hb t s' h ht

theorem getCurrentContext_mem {s : SGLSceneManager} {ctx : SGLContext}
    (h : getCurrentContext s = some ctx) : ctx ∈ s.contexts := by
  obtain ⟨_, hlt, heq⟩ := getCurrentContext_some h
  rw [← heq]
  exact List.getElem_mem hlt

theorem allWF_setCurrentContext {s : SGLSceneManager} {ctx : SGLContext} (hw : AllWF s)
    (hc : WellFormed ctx) : AllWF (setCurrentContext s ctx) := by
  intro c hmem
  rcases List.mem_or_eq_of_mem_set hmem with h | h
  · exact hw c h
  · rw [h]; exact hc

theorem keepsWF_modifyContext {f : SGLContext → Option SGLContext} (hf : CtxKeepsWF f) :
    KeepsWF (modifyContext f) := by
  intro s s' h hw
  unfold modifyContext at h
  cases hc : getCurrentContext s with
  | none => rw [hc] at h; exact absurd h (by simp)
  | some ctx =>
    rw [hc] at h
    dsimp only at h
    cases hfc : f ctx with
    | none => rw [hfc] at h; exact absurd h (by simp)
    | some ctx1 =>
      rw [hfc] at h
      simp only [Option.some.injEq] at h
      rw [← h]
      exact allWF_setCurrentContext hw (hf ctx ctx1 hfc (hw ctx (getCurrentContext_mem hc)))

theorem keepsWF_setErrCode (c : sglEErrorCode) : KeepsWF (fun s => some (setErrCode c s)) := by
  intro s s' h hw
  simp only [Option.some.injEq] at h
  rw [← h]
  exact allWF_errOnly (errOnly_setErrCode c s) hw

theorem keepsWF_bind {f g : SGLSceneManager → Option SGLSceneManager} (hf : KeepsWF f)
    (hg : KeepsWF g) : KeepsWF (fun s => (f s).bind g) := by
  intro s s' h hw
  cases hfs : f s with
  | none => simp [hfs] at h
  | some t =>
    simp only [hfs, Option.some_bind] at h
    exact hg t s' h (hf s t hfs hw)

theorem keepsWF_ite {p : Prop} [Decidable p] {f g : SGLSceneManager → Option SGLSceneManager}
    (hf : KeepsWF f) (hg : KeepsWF g) : KeepsWF (fun s => if p then f s else g s) := by
  intro s s' h hw
  dsimp only at h
  split at h
  · exact hf s s' h hw
  · exact hg s s' h hw

theorem wellFormed_setStackAt {ctx : SGLContext} (hw : WellFormed ctx) (mode : ℤ)
    {stack : List Matrix} (hne : stack ≠ []) : WellFormed (setStackAt ctx mode stack) := by
  refine ⟨?_, ?_, hw.row12, hw.row13, hw.row14, hw.row15⟩
  · simp [setStackAt, hw.two]
  · intro st hmem
    rcases List.mem_or_eq_of_mem_set hmem with h | h
    · exact hw.nonempty st h
    · rw [h]; exact hne

theorem ctxKeepsWF_updateBack (f : Matrix → Matrix) : CtxKeepsWF (updateBack f) := by
  intro ctx ctx' h hw
  unfold updateBack at h
  cases h1 : stackAt ctx ctx.currentMatrixMode with
  | none => simp [h1] at h
  | some stack =>
    cases h2 : stack.getLast? with
    | none => simp [h1, h2] at h
    | some back =>
      simp only [h1, h2, Option.bind_eq_bind, Option.some_bind, setBack] at h
      split at h
      · exact absurd h (by simp)
      · simp only [Option.some_bind, Option.some.injEq] at h
        rw [← h]
        exact wellFormed_setStackAt hw _ (by simp)

theorem keepsWF_mult (other : Matrix) : KeepsWF (multWithCurrentMatrix other) :=
  keepsWF_guarded guardFrame_state (keepsWF_modifyContext (ctxKeepsWF_updateBack _))

theorem keepsWF_push : KeepsWF sglPushMatrix := by
  refine keepsWF_guarded guardFrame_state (keepsWF_modifyContext ?_)
  intro ctx ctx' h hw
  cases h1 : stackAt ctx ctx.currentMatrixMode with
  | none => simp [h1] at h
  | some stack =>
    cases h2 : stack.getLast? with
    | none => simp [h1, h2] at h
    | some back =>
      simp only [h1, h2, Option.bind_eq_bind, Option.some_bind, Option.some.injEq] at h
      rw [← h]
      exact wellFormed_setStackAt hw _ (by simp)

theorem keepsWF_pop : KeepsWF sglPopMatrix := by
  refine keepsWF_guarded guardFrame_state ?_
  intro s s' h hw
  dsimp only at h
  cases hc : getCurrentContext s with
  | none => simp [hc] at h
  | some ctx =>
    cases h1 : stackAt ctx ctx.currentMatrixMode with
    | none => simp [hc, h1] at h
    | some stack =>
      simp only [hc, h1] at h
      split at h
      · simp only [Option.some.injEq] at h
        rw [← h]
        exact allWF_errOnly (errOnly_setErrCode _ _) hw
      · split at h
        · exact absurd h (by simp)
        · rename_i hl hne
          simp only [Option.some.injEq] at h
          rw [← h]
          refine allWF_setCurrentContext hw
            (wellFormed_setStackAt (hw ctx (getCurrentContext_mem hc)) _ ?_)
          intro hd
          have := congrArg List.length hd
          simp only [List.length_dropLast, List.length_nil] at this
          have hpos : 0 < stack.length := List.length_pos.mpr hne
          omega

theorem ctxKeepsWF_some {f : SGLContext → SGLContext} (h : ∀ ctx, SameStacks ctx (f ctx)) :
    CtxKeepsWF (fun ctx => some (f ctx)) := by
  intro ctx ctx' he hw
  simp only [Option.some.injEq] at he
  rw [← he]
  exact wellFormed_of_sameStacks (h ctx) hw

/-- A state command that assigns fields other than the stacks and the
viewport matrix keeps the contexts well formed. -/
theorem keepsWF_assign {g : Guard} (hg : GuardFrame g) {f : SGLContext → SGLContext}
    (h : ∀ ctx, SameStacks ctx (f ctx)) :
    KeepsWF (guarded g (modifyContext fun ctx => some (f ctx))) :=
  keepsWF_guarded hg (keepsWF_modifyContext (ctxKeepsWF_some h))

theorem keepsWF_rotate2D (m : Libm) (angle cx cy : ℚ) : KeepsWF (sglRotate2D m angle cx cy) := by
  intro s s' h hw
  unfold sglRotate2D at h
  cases h1 : sglTranslate cx cy 0 s with
  | none => simp [h1] at h
  | some s1 =>
    simp only [h1, Option.bind_eq_bind, Option.some_bind] at h
    have hw1 := keepsWF_mult _ s s1 h1 hw
    revert h
    generalize hm : multWithCurrentMatrix _ s1 = r
    cases r with
    | none => intro h; simp at h
    | some s2 =>
      intro h
      simp only [Option.some_bind] at h
      exact keepsWF_mult _ s2 s' h (keepsWF_mult _ s1 s2 hm hw1)

theorem sameStacks_recalculateVPMMatrix {ctx ctx' : SGLContext}
    (h : recalculateVPMMatrix ctx = some ctx') : SameStacks ctx ctx' := by
  unfold recalculateVPMMatrix at h
  simp only [Option.bind_eq_bind, Option.bind_eq_some] at h
  obtain ⟨_, _, _, _, _, _, _, _, _, _, _, _, h⟩ := h
  simp only [Option.some.injEq] at h
  rw [← h]
  exact ⟨rfl, rfl⟩

theorem sameStacks_setScaleFactor (m : Libm) (ctx : SGLContext) :
    SameStacks ctx (setScaleFactor m ctx) := ⟨rfl, rfl⟩

theorem sameStacks_runPlots (ctx : SGLContext) (plots : List Plot) :
    SameStacks ctx (runPlots ctx plots) :=
  sameStacks_of_sameButBuffers (runPlots_same plots ctx)

theorem sameStacks_map_runPlots {ctx ctx' : SGLContext}
    {o : Option (List Plot)} (h : o.map (runPlots ctx) = some ctx') : SameStacks ctx ctx' := by
  cases o with
  | none => simp at h
  | some plots =>
    simp only [Option.map_some', Option.some.injEq] at h
    rw [← h]
    exact sameStacks_runPlots ctx plots

theorem sameStacks_dispatchPrimitive (env : Env) {ctx ctx' : SGLContext}
    (h : dispatchPrimitive env ctx = some ctx') : SameStacks ctx ctx' := by
  unfold dispatchPrimitive at h
  split at h
  · simp only [Option.some.injEq] at h
    rw [← h]
    exact sameStacks_runPlots _ _
  · split at h
    · dsimp only at h
      have e := sameStacks_map_runPlots h
      exact ⟨e.1, e.2⟩
    · split at h
      · exact sameStacks_map_runPlots h
      · split at h
        · exact sameStacks_map_runPlots h
        · split at h
          · split at h
            · simp only [Option.some.injEq] at h
              rw [← h]
              exact sameStacks_runPlots _ _
            · split at h
              · exact sameStacks_map_runPlots h
              · split at h
                · exact sameStacks_map_runPlots h
                · simp only [Option.some.injEq] at h
                  rw [← h]
                  exact sameStacks_refl _
          · simp only [Option.some.injEq] at h
            rw [← h]
            exact sameStacks_refl _

theorem keepsWF_begin (env : Env) (mode : sglEElementType) : KeepsWF (sglBegin env mode) := by
  refine keepsWF_guarded (guardFrame_or guardFrame_calledWithinBeginEnd
    (guardFrame_isInvalidEnumValue mode)) (keepsWF_modifyContext (ctxKeepsWF_of_sameStacks ?_))
  intro ctx ctx' h
  dsimp only at h
  split at h
  · cases hr : recalculateVPMMatrix { ctx with
        currentPrimitiveMode := mode, insideBegin := true, screenVertices := [],
        verticesList := [] } with
    | none => simp [hr] at h
    | some c1 =>
      simp only [hr, Option.map_some', Option.some.injEq] at h
      rw [← h]
      have e := sameStacks_recalculateVPMMatrix hr
      exact ⟨e.1, e.2⟩
  · simp only [Option.some.injEq] at h
    rw [← h]
    exact ⟨rfl, rfl⟩

theorem keepsWF_end (env : Env) : KeepsWF (sglEnd env) := by
  refine keepsWF_guarded guardFrame_calledOutsideBeginEnd
    (keepsWF_modifyContext (ctxKeepsWF_of_sameStacks ?_))
  intro ctx ctx' h
  dsimp only at h
  split at h
  · split at h
    · simp only [Option.some.injEq] at h
      rw [← h]
      exact ⟨rfl, rfl⟩
    · simp only [Option.some.injEq] at h
      rw [← h]
      exact ⟨rfl, rfl⟩
  · have e := sameStacks_dispatchPrimitive env h
    exact ⟨e.1, e.2⟩

theorem keepsWF_vertex3f (x y z : ℚ) : KeepsWF (sglVertex3f x y z) := by
  intro s s' h hw
  unfold sglVertex3f at h
  cases hc : getCurrentContext s with
  | none => simp [hc] at h
  | some ctx =>
    simp only [hc] at h
    split at h
    · simp only [Option.some.injEq] at h
      rw [← h]
      exact allWF_errOnly (errOnly_setErrCode _ _) hw
    · simp only [Option.some.injEq] at h
      rw [← h]
      have hwc := hw ctx (getCurrentContext_mem hc)
      exact allWF_setCurrentContext hw
        ⟨hwc.two, hwc.nonempty, hwc.row12, hwc.row13, hwc.row14, hwc.row15⟩

theorem keepsWF_drawSinglePoint (env : Env) (x y z : ℚ) : KeepsWF (drawSinglePoint env x y z) := by
  intro s s' h hw
  unfold drawSinglePoint at h
  simp only [Option.bind_eq_bind, Option.bind_eq_some] at h
  obtain ⟨s1, h1, s2, h2, h3⟩ := h
  exact keepsWF_end env s2 s' h3
    (keepsWF_vertex3f x y z s1 s2 h2 (keepsWF_begin env _ s s1 h1 hw))

theorem keepsWF_emitVertices (vs : List Vertex) : KeepsWF (emitVertices vs) := by
  induction vs with
  | nil =>
    intro s s' h hw
    simp only [emitVertices, Option.some.injEq] at h
    rw [← h]
    exact hw
  | cons v rest ih =>
    intro s s' h hw
    simp only [emitVertices, Option.bind_eq_bind, Option.bind_eq_some] at h
    obtain ⟨s1, h1, h2⟩ := h
    exact ih s1 s' h2 (keepsWF_vertex3f _ _ _ s s1 h1 hw)

theorem keepsWF_circle (env : Env) (x y z radius : ℚ) : KeepsWF (sglCircle env x y z radius) := by
  refine keepsWF_guarded guardFrame_contextNotInitialized ?_
  intro s s' h hw
  dsimp only at h
  split at h
  · exact keepsWF_setErrCode _ s s' h hw
  · cases hc : getCurrentContext s with
    | none => simp [hc] at h
    | some ctx =>
      simp only [hc] at h
      split at h
      · exact keepsWF_drawSinglePoint env x y z s s' h hw
      · refine keepsWF_modifyContext (ctxKeepsWF_of_sameStacks ?_) s s' h hw
        intro c c' hb
        simp only [Option.bind_eq_bind, Option.bind_eq_some] at hb
        obtain ⟨c1, h1, plots, _, h3⟩ := hb
        simp only [Option.some.injEq] at h3
        rw [← h3]
        exact sameStacks_trans (sameStacks_trans (sameStacks_recalculateVPMMatrix h1)
          (sameStacks_setScaleFactor _ _)) (sameStacks_runPlots _ _)

theorem keepsWF_ellipse (env : Env) (cx cy cz a b : ℚ) : KeepsWF (sglEllipse env cx cy cz a b) := by
  intro s s' h hw
  unfold sglEllipse at h
  split at h
  · exact keepsWF_setErrCode _ s s' h hw
  · refine keepsWF_guarded guardFrame_state ?_ s s' h hw
    intro t t' ht htw
    dsimp only at ht
    cases hc : getCurrentContext t with
    | none => simp [hc] at ht
    | some ctx =>
      simp only [hc] at ht
      split at ht
      · exact keepsWF_drawSinglePoint env cx cy cz t t' ht htw
      · simp only [Option.bind_eq_bind, Option.bind_eq_some] at ht
        obtain ⟨s1, h1, s2, h2, h3⟩ := ht
        exact keepsWF_end env s2 t' h3
          (keepsWF_emitVertices _ s1 s2 h2 (keepsWF_begin env _ t s1 h1 htw))

theorem keepsWF_arc (env : Env) (cx cy cz r from_ to_ : ℚ) :
    KeepsWF (sglArc env cx cy cz r from_ to_) := by
  refine keepsWF_guarded guardFrame_contextNotInitialized ?_
  intro s s' h hw
  dsimp only at h
  split at h
  · exact keepsWF_setErrCode _ s s' h hw
  · cases hc : getCurrentContext s with
    | none => simp [hc] at h
    | some ctx =>
      simp only [hc] at h
      split at h
      · exact keepsWF_drawSinglePoint env cx cy cz s s' h hw
      · split at h
        · simp only [Option.bind_eq_bind, Option.bind_eq_some] at h
          obtain ⟨s1, ⟨t, ht1, ht2⟩, s2, h2, h3⟩ := h
          have hw1 : AllWF s1 :=
            keepsWF_vertex3f _ _ _ t s1 ht2 (keepsWF_begin env _ s t ht1 hw)
          exact keepsWF_end env s2 s' h3 (keepsWF_emitVertices _ s1 s2 h2 hw1)
        · simp only [Option.bind_eq_bind, Option.bind_eq_some] at h
          obtain ⟨s1, h1, s2, h2, h3⟩ := h
          exact keepsWF_end env s2 s' h3
            (keepsWF_emitVertices _ s1 s2 h2 (keepsWF_begin env _ s s1 h1 hw))

theorem wellFormed_new {width height : ℤ} {ctx : SGLContext}
    (h : SGLContext.new width height = some ctx) : WellFormed ctx := by
  unfold SGLContext.new at h
  split at h
  · exact absurd h (by simp)
  · simp only [Option.some.injEq] at h
    rw [← h]
    refine ⟨rfl, ?_, rfl, rfl, rfl, rfl⟩
    intro stack hmem
    simp only [List.mem_cons, List.mem_singleton, List.not_mem_nil, or_false, or_self] at hmem
    rw [hmem]
    simp

theorem keepsWF_createContext (width height : ℤ) :
    KeepsWF (fun s => (sglCreateContext width height s).map Prod.snd) := by
  intro s s' h hw
  unfold sglCreateContext at h
  cases hn : SGLContext.new width height with
  | none => simp [hn] at h
  | some ctx =>
    simp only [hn, Option.map_some', Option.some.injEq] at h
    rw [← h]
    intro c hmem
    simp only [List.mem_append, List.mem_singleton] at hmem
    rcases hmem with h1 | h1
    · exact hw c h1
    · rw [h1]; exact wellFormed_new hn

theorem keepsWF_destroyContext (id : ℤ) : KeepsWF (fun s => some (sglDestroyContext id s)) := by
  intro s s' h hw
  simp only [Option.some.injEq] at h
  rw [← h]
  unfold sglDestroyContext
  split
  · exact allWF_errOnly (errOnly_setErrCode _ _) hw
  · split
    · exact allWF_errOnly (errOnly_setErrCode _ _) hw
    · intro c hmem
      exact hw c (List.mem_of_mem_eraseIdx hmem)

theorem keepsWF_setContext (id : ℤ) : KeepsWF (fun s => some (sglSetContext id s)) := by
  intro s s' h hw
  simp only [Option.some.injEq] at h
  rw [← h]
  unfold sglSetContext
  split
  · exact allWF_errOnly (errOnly_setErrCode _ _) hw
  · exact hw

theorem keepsWF_getContext : KeepsWF (fun s => some (sglGetContext s).2) := by
  intro s s' h hw
  simp only [Option.some.injEq] at h
  rw [← h]
  unfold sglGetContext
  dsimp only
  split
  · exact allWF_errOnly (errOnly_setErrCode _ _) hw
  · exact hw

theorem keepsWF_clear (what : ℕ) : KeepsWF (sglClear what) := by
  refine keepsWF_guarded guardFrame_state ?_
  intro s s' h hw
  dsimp only at h
  split at h
  · exact keepsWF_setErrCode _ s s' h hw
  · refine keepsWF_modifyContext (ctxKeepsWF_of_sameStacks ?_) s s' h hw
    intro c c' hc
    simp only [Option.some.injEq] at hc
    rw [← hc]
    split <;> split <;> exact ⟨rfl, rfl⟩

theorem keepsWF_viewport (x y width height : ℤ) : KeepsWF (sglViewport x y width height) := by
  intro s s' h hw
  unfold sglViewport at h
  split at h
  · exact keepsWF_setErrCode _ s s' h hw
  · refine keepsWF_guarded guardFrame_state (keepsWF_modifyContext ?_) s s' h hw
    intro c c' hc hwc
    simp only [Option.some.injEq] at hc
    rw [← hc]
    exact ⟨hwc.two, hwc.nonempty, rfl, rfl, rfl, rfl⟩

theorem keepsWF_emissive (r g b c0 c1 c2 : ℚ) : KeepsWF (sglEmissiveMaterial r g b c0 c1 c2) := by
  refine keepsWF_guarded guardFrame_state (keepsWF_modifyContext (ctxKeepsWF_of_sameStacks ?_))
  intro c c' hc
  dsimp only at hc
  split at hc
  · exact absurd hc (by simp)
  · simp only [Option.some.injEq] at hc
    rw [← hc]
    exact ⟨rfl, rfl⟩

theorem keepsWF_environmentMap (width height : ℤ) (texels : Option (List ℚ)) :
    KeepsWF (sglEnvironmentMap width height texels) := by
  intro s s' h hw
  unfold sglEnvironmentMap at h
  cases texels with
  | none =>
    simp only [Option.some.injEq] at h
    rw [← h]
    exact hw
  | some t =>
    refine keepsWF_guarded guardFrame_state
      (keepsWF_modifyContext (ctxKeepsWF_of_sameStacks ?_)) s s' h hw
    intro c c' hc
    dsimp only at hc
    split at hc
    · exact absurd hc (by simp)
    · simp only [Option.some.injEq] at hc
      rw [← hc]
      exact ⟨rfl, rfl⟩

theorem foldlM_sameStacks {β : Type} (f : SGLContext → β → Option SGLContext)
    (hf : ∀ c b c', f c b = some c' → SameStacks c c') :
    ∀ (l : List β) (c c' : SGLContext), l.foldlM f c = some c' → SameStacks c c' := by
  intro l
  induction l with
  | nil =>
    intro c c' h
    simp only [List.foldlM_nil, Option.pure_def, Option.some.injEq] at h
    rw [← h]
    exact sameStacks_refl _
  | cons b rest ih =>
    intro c c' h
    simp only [List.foldlM_cons, Option.bind_eq_bind, Option.bind_eq_some] at h
    obtain ⟨c1, h1, h2⟩ := h
    exact sameStacks_trans (hf c b c1 h1) (ih c1 c' h2)

theorem sameStacks_castRay (env : Env) (x y w : ℤ) (invVPM : Matrix) {ctx ctx' : SGLContext}
    (h : castRay env x y w invVPM ctx = some ctx') : SameStacks ctx ctx' := by
  unfold castRay at h
  dsimp only at h
  split at h
  · simp only [Option.some.injEq] at h
    rw [← h]
    exact ⟨rfl, rfl⟩
  · exact absurd h (by simp)

theorem sameStacks_raycastSegment (env : Env) (startY endY w : ℤ) (invVPM : Matrix)
    {ctx ctx' : SGLContext} (h : raycastSegment env startY endY w invVPM ctx = some ctx') :
    SameStacks ctx ctx' := by
  unfold raycastSegment at h
  refine foldlM_sameStacks _ ?_ _ _ _ h
  intro c y c' hc
  refine foldlM_sameStacks _ ?_ _ _ _ hc
  intro c2 x c3 h3
  exact sameStacks_castRay env x y w invVPM h3

theorem keepsWF_rayTraceScene (env : Env) : KeepsWF (sglRayTraceScene env) := by
  refine keepsWF_guarded (guardFrame_or guardFrame_state guardFrame_calledWithinBeginSceneEndScene)
    (keepsWF_modifyContext (ctxKeepsWF_of_sameStacks ?_))
  intro c c' hc
  simp only [Option.bind_eq_bind, Option.bind_eq_some] at hc
  obtain ⟨c1, h1, h2⟩ := hc
  have e1 : SameStacks c c1 := by
    unfold recalculateRaytracingVPMMatrix at h1
    simp only [Option.bind_eq_bind, Option.bind_eq_some] at h1
    obtain ⟨_, _, _, _, _, _, _, _, h⟩ := h1
    simp only [Option.some.injEq] at h
    rw [← h]
    exact ⟨rfl, rfl⟩
  split at h2
  · simp only [Option.some.injEq] at h2
    rw [← h2]
    exact e1
  · split at h2
    · exact absurd h2 (by simp)
    · refine sameStacks_trans e1 (foldlM_sameStacks _ ?_ _ _ _ h2)
      intro c2 i c3 h3
      exact sameStacks_raycastSegment env _ _ _ _ h3

/-- Every command keeps every context well formed. -/
theorem step_keepsWF (env : Env) (c : Command) : KeepsWF (step env c) := by
  have trivial_frame : ∀ f : SGLSceneManager → SGLSceneManager, (∀ s, ErrOnly s (f s)) →
      KeepsWF (fun s => some (f s)) := by
    intro f hf s s' h hw
    simp only [Option.some.injEq] at h
    rw [← h]
    exact allWF_errOnly (hf s) hw
  cases c with
  | CreateContext width height => exact keepsWF_createContext width height
  | DestroyContext id => exact keepsWF_destroyContext id
  | SetContext id => exact keepsWF_setContext id
  | GetContext => exact keepsWF_getContext
  | GetError => exact trivial_frame _ (fun s => ⟨rfl, rfl⟩)
  | Finish => exact trivial_frame _ (fun s => ⟨rfl, rfl⟩)
  | ClearColor r g b alpha => exact keepsWF_assign guardFrame_state (fun _ => ⟨rfl, rfl⟩)
  | Color3f r g b => exact keepsWF_assign guardFrame_state (fun _ => ⟨rfl, rfl⟩)
  | AreaMode mode =>
    exact keepsWF_assign (guardFrame_or guardFrame_state (guardFrame_isInvalidEnumValue _))
      (fun _ => ⟨rfl, rfl⟩)
  | PointSize size =>
    refine keepsWF_guarded guardFrame_state (keepsWF_ite (keepsWF_setErrCode _)
      (keepsWF_modifyContext (ctxKeepsWF_some (fun _ => ⟨rfl, rfl⟩))))
  | Enable cap =>
    refine keepsWF_guarded guardFrame_state (keepsWF_ite (keepsWF_setErrCode _)
      (keepsWF_modifyContext (ctxKeepsWF_some (fun _ => ⟨rfl, rfl⟩))))
  | Disable cap =>
    refine keepsWF_guarded guardFrame_state (keepsWF_ite (keepsWF_setErrCode _)
      (keepsWF_modifyContext (ctxKeepsWF_some (fun _ => ⟨rfl, rfl⟩))))
  | Clear what => exact keepsWF_clear what
  | MatrixMode mode =>
    exact keepsWF_assign (guardFrame_or guardFrame_state (guardFrame_isInvalidEnumValue _))
      (fun _ => ⟨rfl, rfl⟩)
  | PushMatrix => exact keepsWF_push
  | PopMatrix => exact keepsWF_pop
  | LoadIdentity =>
    exact keepsWF_guarded guardFrame_state (keepsWF_modifyContext (ctxKeepsWF_updateBack _))
  | LoadMatrix matrix =>
    exact keepsWF_guarded guardFrame_state (keepsWF_modifyContext (ctxKeepsWF_updateBack _))
  | MultMatrix matrix => exact keepsWF_mult _
  | Translate x y z => exact keepsWF_mult _
  | Scale x y z => exact keepsWF_mult _
  | Rotate2D angle centerx centery => exact keepsWF_rotate2D _ _ _ _
  | RotateY angle => exact keepsWF_mult _
  | Ortho l r b t n f => exact keepsWF_ite (keepsWF_setErrCode _) (keepsWF_mult _)
  | Frustum l r b t n f => exact keepsWF_ite (keepsWF_setErrCode _) (keepsWF_mult _)
  | Viewport x y width height => exact keepsWF_viewport x y width height
  | Begin mode => exact keepsWF_begin env mode
  | End => exact keepsWF_end env
  | Vertex4f x y z w => exact trivial_frame _ (fun s => ⟨rfl, rfl⟩)
  | Vertex3f x y z => exact keepsWF_vertex3f x y z
  | Vertex2f x y => exact keepsWF_vertex3f x y 0
  | Circle x y z radius => exact keepsWF_circle env x y z radius
  | Ellipse x y z a b => exact keepsWF_ellipse env x y z a b
  | Arc x y z radius from_ to_ => exact keepsWF_arc env x y z radius from_ to_
  | BeginScene => exact keepsWF_assign guardFrame_state (fun _ => ⟨rfl, rfl⟩)
  | EndScene => exact keepsWF_assign guardFrame_state (fun _ => ⟨rfl, rfl⟩)
  | Sphere x y z radius =>
    exact keepsWF_assign
      (guardFrame_or guardFrame_state guardFrame_calledOutsideBeginSceneEndScene)
      (fun _ => ⟨rfl, rfl⟩)
  | Material r g b kd ks shine T ior =>
    exact keepsWF_assign guardFrame_state (fun _ => ⟨rfl, rfl⟩)
  | PointLight x y z r g b =>
    exact keepsWF_assign
      (guardFrame_or guardFrame_state guardFrame_calledOutsideBeginSceneEndScene)
      (fun _ => ⟨rfl, rfl⟩)
  | EmissiveMaterial r g b c0 c1 c2 => exact keepsWF_emissive r g b c0 c1 c2
  | EnvironmentMap width height texels => exact keepsWF_environmentMap width height texels
  | RayTraceScene => exact keepsWF_rayTraceScene env
  | RasterizeScene => exact trivial_frame _ (fun s => ⟨rfl, rfl⟩)

/-- In every state the library can reach, every context is well formed. -/
theorem reachable_allWF (env : Env) {s : SGLSceneManager} (h : Reachable env s) : AllWF s := by
  induction h with
  | init => exact fun ctx hmem => absurd hmem (List.not_mem_nil _)
  | step c _ hstep ih => exact step_keepsWF env c _ _ hstep ih

/-! ## The composite matrix -/

theorem divScalar_of_ne (m : Matrix) (w : ℚ) (h : w ≠ 0) :
    m.divScalar w = some ⟨m.data.map fun val => val / w⟩ := by
  unfold Matrix.divScalar
  rw [if_neg h]

theorem divScalar_zero (m : Matrix) : m.divScalar 0 = none := by
  unfold Matrix.divScalar
  rw [if_pos rfl]

theorem map_div_get (m : Matrix) (w : ℚ) (i : ℕ) :
    (⟨m.data.map fun val => val / w⟩ : Matrix).get i = m.get i / w := by
  unfold Matrix.get
  dsimp only
  have h := List.getD_map (f := fun val : ℚ => val / w) (l := m.data) (d := 0) (n := i)
  simp only [zero_div] at h
  exact h

theorem mul_data (a b : Matrix) :
    (a.mul b).data =
      [0 + a.get 0 * b.get 0 + a.get 1 * b.get 4 + a.get 2 * b.get 8 + a.get 3 * b.get 12,
       0 + a.get 0 * b.get 1 + a.get 1 * b.get 5 + a.get 2 * b.get 9 + a.get 3 * b.get 13,
       0 + a.get 0 * b.get 2 + a.get 1 * b.get 6 + a.get 2 * b.get 10 + a.get 3 * b.get 14,
       0 + a.get 0 * b.get 3 + a.get 1 * b.get 7 + a.get 2 * b.get 11 + a.get 3 * b.get 15,
       0 + a.get 4 * b.get 0 + a.get 5 * b.get 4 + a.get 6 * b.get 8 + a.get 7 * b.get 12,
       0 + a.get 4 * b.get 1 + a.get 5 * b.get 5 + a.get 6 * b.get 9 + a.get 7 * b.get 13,
       0 + a.get 4 * b.get 2 + a.get 5 * b.get 6 + a.get 6 * b.get 10 + a.get 7 * b.get 14,
       0 + a.get 4 * b.get 3 + a.get 5 * b.get 7 + a.get 6 * b.get 11 + a.get 7 * b.get 15,
       0 + a.get 8 * b.get 0 + a.get 9 * b.get 4 + a.get 10 * b.get 8 + a.get 11 * b.get 12,
       0 + a.get 8 * b.get 1 + a.get 9 * b.get 5 + a.get 10 * b.get 9 + a.get 11 * b.get 13,
       0 + a.get 8 * b.get 2 + a.get 9 * b.get 6 + a.get 10 * b.get 10 + a.get 11 * b.get 14,
       0 + a.get 8 * b.get 3 + a.get 9 * b.get 7 + a.get 10 * b.get 11 + a.get 11 * b.get 15,
       0 + a.get 12 * b.get 0 + a.get 13 * b.get 4 + a.get 14 * b.get 8 + a.get 15 * b.get 12,
       0 + a.get 12 * b.get 1 + a.get 13 * b.get 5 + a.get 14 * b.get 9 + a.get 15 * b.get 13,
       0 + a.get 12 * b.get 2 + a.get 13 * b.get 6 + a.get 14 * b.get 10 + a.get 15 * b.get 14,
       0 + a.get 12 * b.get 3 + a.get 13 * b.get 7 + a.get 14 * b.get 11 + a.get 15 * b.get 15] :=
  rfl

/-- A matrix whose last row is `(0, 0, 0, 1)` commutes with the division by
a scalar and keeps element 15 of its right factor. -/
theorem viewport_mul (v x : Matrix) (w : ℚ) (h12 : v.get 12 = 0) (h13 : v.get 13 = 0)
    (h14 : v.get 14 = 0) (h15 : v.get 15 = 1) :
    (v.mul x).get 15 = x.get 15 ∧
      v.mul ⟨x.data.map fun val => val / w⟩ = ⟨(v.mul x).data.map fun val => val / w⟩ := by
  constructor
  · show (v.mul x).data.getD 15 0 = x.get 15
    rw [mul_data]
    show 0 + v.get 12 * x.get 3 + v.get 13 * x.get 7 + v.get 14 * x.get 11 +
      v.get 15 * x.get 15 = x.get 15
    rw [h12, h13, h14, h15]
    ring
  · have e : ∀ a b : Matrix, a.data = b.data → a = b := by
      intro a b hab
      cases a
      cases b
      simp only at hab
      rw [hab]
    apply e
    show (v.mul ⟨x.data.map fun val => val / w⟩).data = (v.mul x).data.map (fun val => val / w)
    rw [mul_data, mul_data]
    simp only [map_div_get, List.map_cons, List.map_nil, List.cons.injEq, and_true]
    refine ⟨?_, ?_, ?_, ?_, ?_, ?_, ?_, ?_, ?_, ?_, ?_, ?_, ?_, ?_, ?_, ?_⟩ <;> ring

theorem mul_getLast (a b : Matrix) : (a.mul b).data.getLast? = some ((a.mul b).get 15) := by
  rw [mul_data]
  rfl

/-- In a well-formed context `recalculateVPMMatrix` computes the reference
composite, and has no result when element 15 of `p · mv` is 0. -/
theorem recalculateVPMMatrix_wellFormed {ctx : SGLContext} (hw : WellFormed ctx) :
    ∃ p mv, (stackAt ctx SGL_PROJECTION).bind List.getLast? = some p ∧
      (stackAt ctx SGL_MODELVIEW).bind List.getLast? = some mv ∧
      (ctx.viewportMatrix.mul (p.mul mv)).get 15 = (p.mul mv).get 15 ∧
      ((p.mul mv).get 15 = 1 →
        recalculateVPMMatrix ctx =
          some { ctx with VPMmatrix := ctx.viewportMatrix.mul (p.mul mv) } ∧
        referenceVPM ctx.viewportMatrix p mv = some (ctx.viewportMatrix.mul (p.mul mv))) ∧
      ((p.mul mv).get 15 ≠ 1 → (p.mul mv).get 15 ≠ 0 →
        recalculateVPMMatrix ctx =
          some { ctx with VPMmatrix :=
            ⟨(ctx.viewportMatrix.mul (p.mul mv)).data.map fun val => val / (p.mul mv).get 15⟩ } ∧
        referenceVPM ctx.viewportMatrix p mv =
          some ⟨(ctx.viewportMatrix.mul (p.mul mv)).data.map
            fun val => val / (p.mul mv).get 15⟩) ∧
      ((p.mul mv).get 15 = 0 →
        recalculateVPMMatrix ctx = none ∧ referenceVPM ctx.viewportMatrix p mv = none) := by
  obtain ⟨modelview, projection, hst⟩ : ∃ a b, ctx.transformationStack = [a, b] := by
    have h2 := hw.two
    match hts : ctx.transformationStack, h2 with
    | [a, b], _ => exact ⟨a, b, rfl⟩
  have hm : modelview ≠ [] := hw.nonempty modelview (by rw [hst]; simp)
  have hp : projection ≠ [] := hw.nonempty projection (by rw [hst]; simp)
  obtain ⟨mv, hmv⟩ : ∃ mv, modelview.getLast? = some mv :=
    ⟨modelview.getLast hm, List.getLast?_eq_getLast _ hm⟩
  obtain ⟨p, hpp⟩ : ∃ p, projection.getLast? = some p :=
    ⟨projection.getLast hp, List.getLast?_eq_getLast _ hp⟩
  have hsp : stackAt ctx SGL_PROJECTION = some projection := by
    simp [stackAt, SGL_PROJECTION, hst]
  have hsm : stackAt ctx SGL_MODELVIEW = some modelview := by
    simp [stackAt, SGL_MODELVIEW, hst]
  obtain ⟨e15, ediv⟩ := viewport_mul ctx.viewportMatrix (p.mul mv) ((p.mul mv).get 15)
    hw.row12 hw.row13 hw.row14 hw.row15
  have hcode : recalculateVPMMatrix ctx =
      (if (p.mul mv).get 15 ≠ 1 then (p.mul mv).divScalar ((p.mul mv).get 15)
        else some (p.mul mv)).bind fun PM =>
          some { ctx with VPMmatrix := ctx.viewportMatrix.mul PM } := by
    simp only [recalculateVPMMatrix, hsp, hsm, hpp, hmv, Option.bind_eq_bind, Option.some_bind,
      mul_getLast]
  refine ⟨p, mv, by rw [hsp]; exact hpp, by rw [hsm]; exact hmv, e15, ?_, ?_, ?_⟩
  · intro h1
    constructor
    · rw [hcode, if_neg (not_not.mpr h1)]
      rfl
    · unfold referenceVPM
      dsimp only
      rw [e15, if_neg (not_not.mpr h1)]
  · intro h1 h0
    constructor
    · rw [hcode, if_pos h1, divScalar_of_ne _ _ h0, Option.some_bind, ediv]
    · unfold referenceVPM
      dsimp only
      rw [e15, if_pos h1, divScalar_of_ne _ _ h0]
  · intro h0
    have h1 : (p.mul mv).get 15 ≠ 1 := by
      rw [h0]
      norm_num
    constructor
    · rw [hcode, if_pos h1, h0, divScalar_zero]
      rfl
    · unfold referenceVPM
      dsimp only
      rw [e15, if_pos h1, h0, divScalar_zero]

/-- The state after `sglInit`, `sglCreateContext(2, 2)` and `sglSetContext(0)`. -/
theorem demo_reachable :
    Reachable demoEnv (demoManager (demoContext ⟨0, 0, 0⟩ true false [] SGL_POINTS)) :=
  Reachable.step (Command.SetContext 0)
    (Reachable.step (Command.CreateContext 2 2) Reachable.init rfl) rfl

/-- C9. In every state the commands of the library lead to from `sglInit`,
and for every context of it, with `p`, `mv` the tops of the projection and
model-view stacks and `w` element 15 of `p · mv` (which is also element 15 of
`viewport · (p · mv)`): when `w = 1` the `VPMmatrix` that
`recalculateVPMMatrix` leaves is `viewport · (p · mv)`; when `w` is neither 1
nor 0 it is `viewport · (p · mv)` with every element divided by `w`; in both
cases this is the reference composite (exact arithmetic for the products and
the quotient).  When `w = 0` the code divides by zero and the composite holds
no numbers.  That case is reached by an ordinary perspective projection:
after `sglFrustum(-1, 1, -1, 1, 1, 10)` on a fresh context element 15 is 0, the
recalculation has no result, and neither has the `sglBegin` that runs it. -/
theorem recalculateVPM_matches_reference (env : Env) (s : SGLSceneManager)
    (hr : Reachable env s) (ctx : SGLContext) (hmem : ctx ∈ s.contexts) :
    (∃ p mv, (stackAt ctx SGL_PROJECTION).bind List.getLast? = some p ∧
      (stackAt ctx SGL_MODELVIEW).bind List.getLast? = some mv ∧
      (ctx.viewportMatrix.mul (p.mul mv)).get 15 = (p.mul mv).get 15 ∧
      ((p.mul mv).get 15 = 1 →
        recalculateVPMMatrix ctx =
          some { ctx with VPMmatrix := ctx.viewportMatrix.mul (p.mul mv) } ∧
        referenceVPM ctx.viewportMatrix p mv = some (ctx.viewportMatrix.mul (p.mul mv))) ∧
      ((p.mul mv).get 15 ≠ 1 → (p.mul mv).get 15 ≠ 0 →
        recalculateVPMMatrix ctx =
          some { ctx with VPMmatrix :=
            ⟨(ctx.viewportMatrix.mul (p.mul mv)).data.map fun val => val / (p.mul mv).get 15⟩ } ∧
        referenceVPM ctx.viewportMatrix p mv =
          some ⟨(ctx.viewportMatrix.mul (p.mul mv)).data.map
            fun val => val / (p.mul mv).get 15⟩) ∧
      ((p.mul mv).get 15 = 0 →
        recalculateVPMMatrix ctx = none ∧ referenceVPM ctx.viewportMatrix p mv = none)) ∧
    (finalContext demoEnv frustumDemo).map (fun c =>
      ((stackAt c SGL_PROJECTION).bind List.getLast?,
        ((stackAt c SGL_MODELVIEW).bind List.getLast?).map fun mv => mv.get 15)) =
      some (some Matrix.identity, some 0) ∧
    (finalContext demoEnv frustumDemo).map recalculateVPMMatrix = some none ∧
    run demoEnv (frustumDemo ++ [.Begin SGL_POINTS]) sglInit = none :=
  ⟨recalculateVPMMatrix_wellFormed (reachable_allWF env hr ctx hmem), by decide!, by decide!,
    by decide!⟩

theorem recalculateVPM_matches_reference_witness :
    recalculateVPMMatrix (demoContext ⟨0, 0, 0⟩ true false [] SGL_POINTS) =
      some { demoContext ⟨0, 0, 0⟩ true false [] SGL_POINTS with
        VPMmatrix := (demoContext ⟨0, 0, 0⟩ true false [] SGL_POINTS).viewportMatrix.mul
          (Matrix.identity.mul Matrix.identity) } := by
  obtain ⟨p, mv, hp, hmv, -, h1, -, -⟩ := (recalculateVPM_matches_reference demoEnv
    (demoManager (demoContext ⟨0, 0, 0⟩ true false [] SGL_POINTS)) demo_reachable
    (demoContext ⟨0, 0, 0⟩ true false [] SGL_POINTS) (List.mem_singleton.mpr rfl)).1
  have e1 : p = Matrix.identity := by
    have : (stackAt (demoContext ⟨0, 0, 0⟩ true false [] SGL_POINTS) SGL_PROJECTION).bind
        List.getLast? = some Matrix.identity := rfl
    rw [this] at hp
    exact (Option.some.inj hp).symm
  have e2 : mv = Matrix.identity := by
    have : (stackAt (demoContext ⟨0, 0, 0⟩ true false [] SGL_POINTS) SGL_MODELVIEW).bind
        List.getLast? = some Matrix.identity := rfl
    rw [this] at hmv
    exact (Option.some.inj hmv).symm
  subst e1 e2
  exact (h1 (by decide!)).1

/-- C6. Outside begin/end, `PopMatrix` on an active stack of size 1 only
writes `SGL_STACK_UNDERFLOW` to the error register (which then holds it if it
held `SGL_NO_ERROR`) and leaves every context as it was; on a stack of size
greater than 1 it removes exactly the top element.  Hence in every state
reachable from `sglInit` each context has two matrix stacks, each of them with
at least one matrix. -/
theorem pop_underflow_and_stacks_nonempty (env : Env) :
    (∀ (s : SGLSceneManager) (ctx : SGLContext) (stack : List Matrix),
      getCurrentContext s = some ctx → ctx.insideBegin = false →
      stackAt ctx ctx.currentMatrixMode = some stack → stack.length = 1 →
      sglPopMatrix s = some (setErrCode SGL_STACK_UNDERFLOW s) ∧
        (setErrCode SGL_STACK_UNDERFLOW s).contexts = s.contexts ∧
        (s.errorCode = SGL_NO_ERROR →
          (setErrCode SGL_STACK_UNDERFLOW s).errorCode = SGL_STACK_UNDERFLOW)) ∧
    (∀ (s : SGLSceneManager) (ctx : SGLContext) (stack : List Matrix),
      getCurrentContext s = some ctx → ctx.insideBegin = false →
      stackAt ctx ctx.currentMatrixMode = some stack → 1 < stack.length →
      sglPopMatrix s =
        some (setCurrentContext s (setStackAt ctx ctx.currentMatrixMode stack.dropLast))) ∧
    (∀ s : SGLSceneManager, Reachable env s →
      ∀ ctx ∈ s.contexts, ctx.transformationStack.length = 2 ∧
        ∀ stack ∈ ctx.transformationStack, 1 ≤ stack.length) := by
  have hg : ∀ (s : SGLSceneManager) (ctx : SGLContext), getCurrentContext s = some ctx →
      ctx.insideBegin = false →
      (contextNotInitialized.or calledWithinBeginEnd) s = some (false, s) := by
    intro s ctx hc hb
    simp [Guard.or, contextNotInitialized, calledWithinBeginEnd, hc, hb]
  refine ⟨?_, ?_, ?_⟩
  · intro s ctx stack hc hb hs hl
    refine ⟨?_, (setErrCode_contexts _ _).1, ?_⟩
    · simp only [sglPopMatrix, guarded, hg s ctx hc hb, hc, hs, hl, if_true]
    · intro he
      simp only [setErrCode, he, if_true]
  · intro s ctx stack hc hb hs hl
    have h1 : ¬ stack.length = 1 := by omega
    have h2 : ¬ stack = [] := by
      rintro rfl
      simp at hl
    simp only [sglPopMatrix, guarded, hg s ctx hc hb, hc, hs, h1, h2, if_false]
  · intro s hr ctx hmem
    have hw := reachable_allWF env hr ctx hmem
    refine ⟨hw.two, fun stack hst => ?_⟩
    exact List.length_pos.mpr (hw.nonempty stack hst)

theorem pop_underflow_and_stacks_nonempty_witness :
    sglPopMatrix (demoManager (demoContext ⟨0, 0, 0⟩ true false [] SGL_POINTS)) =
        some (setErrCode SGL_STACK_UNDERFLOW
          (demoManager (demoContext ⟨0, 0, 0⟩ true false [] SGL_POINTS))) ∧
      (setErrCode SGL_STACK_UNDERFLOW
          (demoManager (demoContext ⟨0, 0, 0⟩ true false [] SGL_POINTS))).contexts =
        (demoManager (demoContext ⟨0, 0, 0⟩ true false [] SGL_POINTS)).contexts ∧
      ((demoManager (demoContext ⟨0, 0, 0⟩ true false [] SGL_POINTS)).errorCode = SGL_NO_ERROR →
        (setErrCode SGL_STACK_UNDERFLOW
          (demoManager (demoContext ⟨0, 0, 0⟩ true false [] SGL_POINTS))).errorCode =
            SGL_STACK_UNDERFLOW) :=
  (pop_underflow_and_stacks_nonempty demoEnv).1
    (demoManager (demoContext ⟨0, 0, 0⟩ true false [] SGL_POINTS))
    (demoContext ⟨0, 0, 0⟩ true false [] SGL_POINTS) [Matrix.identity] rfl rfl rfl rfl

/-! ## Screen vertices -/

/-- The screen vertex of a vertex: the coordinates `transformPoint` returns,
`x` and `y` converted to `int`. -/
theorem toScreenVertex_formula (ctx : SGLContext) (v : Vertex) :
    toScreenVertex ctx v =
      ⟨floatToInt (transformPoint ctx v).x, floatToInt (transformPoint ctx v).y,
        (transformPoint ctx v).z⟩ := rfl

theorem modifyContext_eq {s : SGLSceneManager} {ctx : SGLContext}
    (f : SGLContext → Option SGLContext) (h : getCurrentContext s = some ctx) :
    modifyContext f s = (f ctx).map (setCurrentContext s) := by
  unfold modifyContext
  rw [h]
  dsimp only
  cases hf : f ctx <;> rfl

/-- C10. `sglEnd` outside a scene block hands the rasterisers the
screen-vertex list extended by one screen vertex per accumulated vertex `v`:
its `x` and `y` are the `float` coordinates that `transformPoint` returns
(the perspective-divided components of `VPM · v`, every operation rounded to
binary32), converted to `int` by `static_cast<int>`, which truncates toward
zero where the claim rounds to the nearest integer; its `z` is the depth
`transformPoint` returns. With the identity as composite matrix the vertex
`(3/4, 3/4, 0)` becomes the screen vertex `(0, 0, 1/2)` and not `(1, 1, 1/2)`;
under `Viewport(0, 0, 10, 10)` the `float` `13421772 / 2 ^ 26` just below
`1/5` lands in column 6, because the `float` sum `5 x + 5` is 6. -/
theorem end_screen_vertices (env : Env) (s : SGLSceneManager) (ctx : SGLContext)
    (hc : getCurrentContext s = some ctx) (hb : ctx.insideBegin = true)
    (hs : ctx.insideBeginScene = false) :
    sglEnd env s =
      (dispatchPrimitive env { ctx with
        insideBegin := false
        screenVertices := ctx.screenVertices ++ ctx.verticesList.map (toScreenVertex ctx) }).map
        (setCurrentContext s) ∧
    (∀ v : Vertex, toScreenVertex ctx v =
      ⟨floatToInt (transformPoint ctx v).x, floatToInt (transformPoint ctx v).y,
        (transformPoint ctx v).z⟩) ∧
    (∀ q : ℚ, 0 ≤ q → q < 2 ^ 31 → floatToInt q = ⌊q⌋) ∧
    (∀ q : ℚ, q < 0 → -2 ^ 31 ≤ q → floatToInt q = ⌈q⌉) ∧
    (sglEnd demoEnv (demoManager
      (demoContext ⟨1, 0, 0⟩ true true [⟨3 / 4, 3 / 4, 0, 1⟩] SGL_POINTS))).bind
        (fun t => (getCurrentContext t).map SGLContext.screenVertices) =
      some [⟨0, 0, 1 / 2⟩] ∧
    roundToInt (3 / 4) = 1 ∧
    viewportPixel 10 10 (13421772 / 67108864) 0 0 = ⟨6, 5, 1 / 2⟩ := by
  refine ⟨?_, toScreenVertex_formula ctx, floatToInt_nonneg, floatToInt_neg, by decide!,
    by decide!, by decide!⟩
  have hg : calledOutsideBeginEnd s = some (false, s) := by
    simp [calledOutsideBeginEnd, hc, hb]
  simp only [sglEnd, guarded, hg]
  rw [modifyContext_eq _ hc]
  simp only [hs, Bool.false_eq_true, if_false]
  rfl

theorem end_screen_vertices_witness :
    sglEnd demoEnv (demoManager
        (demoContext ⟨1, 0, 0⟩ true true [⟨3 / 4, 3 / 4, 0, 1⟩] SGL_POINTS)) =
      (dispatchPrimitive demoEnv
        { demoContext ⟨1, 0, 0⟩ true true [⟨3 / 4, 3 / 4, 0, 1⟩] SGL_POINTS with
          insideBegin := false
          screenVertices :=
            (demoContext ⟨1, 0, 0⟩ true true [⟨3 / 4, 3 / 4, 0, 1⟩] SGL_POINTS).screenVertices ++
              (demoContext ⟨1, 0, 0⟩ true true [⟨3 / 4, 3 / 4, 0, 1⟩] SGL_POINTS).verticesList.map
                (toScreenVertex
                  (demoContext ⟨1, 0, 0⟩ true true [⟨3 / 4, 3 / 4, 0, 1⟩] SGL_POINTS)) }).map
        (setCurrentContext (demoManager
          (demoContext ⟨1, 0, 0⟩ true true [⟨3 / 4, 3 / 4, 0, 1⟩] SGL_POINTS))) :=
  (end_screen_vertices demoEnv
    (demoManager (demoContext ⟨1, 0, 0⟩ true true [⟨3 / 4, 3 / 4, 0, 1⟩] SGL_POINTS))
    (demoContext ⟨1, 0, 0⟩ true true [⟨3 / 4, 3 / 4, 0, 1⟩] SGL_POINTS) rfl rfl rfl).1

/-! ## Gauss-Jordan elimination in place -/

theorem swapMat_mul (a b : Fin 4) (X : Mat4) : swapMat a b * X = rowSwap X a b := by
  ext i j
  simp [swapMat, rowSwap, Matrix.mul_apply]

theorem mul_swapMat (a b : Fin 4) (X : Mat4) : X * swapMat a b = colSwap X a b := by
  ext i j
  simp only [swapMat, colSwap, Matrix.mul_apply, Matrix.of_apply, mul_ite, mul_one, mul_zero]
  rw [Finset.sum_eq_single (Equiv.swap a b j)]
  · simp
  · intro k _ hk
    have : ¬ Equiv.swap a b k = j := by
      intro h
      apply hk
      rw [← h, Equiv.swap_apply_self]
    simp [this]
  · intro h
    exact absurd (Finset.mem_univ _) h

theorem swapMat_mul_self (a b : Fin 4) : swapMat a b * swapMat a b = 1 := by
  rw [swapMat_mul]
  ext i j
  simp only [rowSwap, swapMat, Matrix.of_apply, Equiv.swap_apply_self, Matrix.one_apply]

theorem gaussMat_mul (B : Mat4) (p : Fin 4) (X : Mat4) (i j : Fin 4) :
    (gaussMat B p * X) i j =
      if i = p then X p j * (1 / B p p) else X i j - X p j * (1 / B p p) * B i p := by
  simp only [gaussMat, Matrix.mul_apply, Matrix.of_apply]
  rw [Finset.sum_eq_add_sum_diff_singleton (Finset.mem_univ p)]
  simp only [if_true]
  by_cases hi : i = p
  · subst hi
    rw [Finset.sum_eq_zero]
    · simp only [if_true, add_zero]
      ring
    · intro k hk
      have hk' : k ≠ i := by
        intro h
        simp [h] at hk
      simp [hk', Ne.symm hk']
  · rw [Finset.sum_eq_single i]
    · simp only [hi, if_false, if_true, one_mul]
      ring
    · intro k hk hki
      have hk' : k ≠ p := by
        intro h
        simp [h] at hk
      simp [hk', Ne.symm hki]
    · intro h
      exfalso
      apply h
      simp [hi]

theorem gaussMat_mul_gaussInv (B : Mat4) (p : Fin 4) (hp : B p p ≠ 0) :
    gaussMat B p * gaussInv B p = 1 := by
  ext i j
  rw [gaussMat_mul]
  simp only [gaussInv, Matrix.of_apply, Matrix.one_apply]
  by_cases hi : i = p
  · subst hi
    by_cases hj : j = i
    · subst hj
      simp only [if_true]
      field_simp
    · have hij : ¬ i = j := fun h => hj h.symm
      simp [hj, hij]
  · by_cases hj : j = p
    · subst hj
      simp only [hi, if_false, if_true]
      field_simp
    · have hpj : ¬ p = j := fun h => hj h.symm
      simp [hi, hj, hpj]

theorem gaussInv_mul_gaussMat (B : Mat4) (p : Fin 4) (hp : B p p ≠ 0) :
    gaussInv B p * gaussMat B p = 1 :=
  (Matrix.mul_eq_one_comm).mp (gaussMat_mul_gaussInv B p hp)

/-- The pivot step on the left part: the pivot column becomes a unit column. -/
theorem leftPart_pivotOp (B : Mat4) (S : Finset (Fin 4)) (p : Fin 4) (hpS : p ∉ S)
    (hp : B p p ≠ 0) :
    leftPart (pivotOp B p) (insert p S) = gaussMat B p * leftPart B S := by
  ext i j
  rw [gaussMat_mul]
  simp only [leftPart, pivotOp, Matrix.of_apply, Finset.mem_insert]
  by_cases hj : j = p
  · subst hj
    simp only [true_or, if_true, hpS, if_false]
    by_cases hi : i = j
    · subst hi
      simp only [if_true]
      field_simp
    · simp only [hi, if_false]
      field_simp
  · by_cases hjS : j ∈ S
    · have hpj : ¬ p = j := fun h => hj h.symm
      simp only [hj, hjS, or_true, if_true, hpj, if_false, zero_mul, sub_zero]
      by_cases hi : i = p
      · subst hi
        simp [hpj]
      · simp [hi]
    · simp only [hj, hjS, or_false, if_false]

/-- The pivot step on the right part: the pivot column receives the column
of the row operation. -/
theorem rightPart_pivotOp (B : Mat4) (S : Finset (Fin 4)) (p : Fin 4) (hpS : p ∉ S) :
    rightPart (pivotOp B p) (insert p S) = gaussMat B p * rightPart B S := by
  ext i j
  rw [gaussMat_mul]
  simp only [rightPart, pivotOp, Matrix.of_apply, Finset.mem_insert]
  by_cases hj : j = p
  · subst hj
    simp only [true_or, if_true, hpS, if_false]
    by_cases hi : i = j
    · subst hi
      simp only [if_true]
    · simp only [hi, if_false]
  · by_cases hjS : j ∈ S
    · simp only [hj, hjS, or_true, if_true, if_false]
    · have hpj : ¬ p = j := fun h => hj h.symm
      simp only [hj, hjS, or_false, if_false, hpj, zero_mul, sub_zero]
      by_cases hi : i = p
      · subst hi
        simp [hpj]
      · simp [hi]

/-- A row exchange between two rows that are not pivoted yet, on the left
part. -/
theorem leftPart_rowSwap (B : Mat4) (S : Finset (Fin 4)) (a b : Fin 4) (ha : a ∉ S)
    (hb : b ∉ S) : leftPart (rowSwap B a b) S = swapMat a b * leftPart B S := by
  rw [swapMat_mul]
  ext i j
  simp only [leftPart, rowSwap, Matrix.of_apply]
  by_cases hjS : j ∈ S
  · simp only [hjS, if_true]
    have hja : j ≠ a := fun h => ha (h ▸ hjS)
    have hjb : j ≠ b := fun h => hb (h ▸ hjS)
    have hfix : Equiv.swap a b j = j := Equiv.swap_apply_of_ne_of_ne hja hjb
    have : (Equiv.swap a b i = j) ↔ (i = j) := by
      constructor
      · intro h
        rw [← hfix] at h
        exact (Equiv.swap a b).injective h
      · intro h
        rw [h, hfix]
    simp only [this]
  · simp only [hjS, if_false]

/-- A row exchange between two rows that are not pivoted yet, on the right
part: the two unit columns are exchanged as well. -/
theorem rightPart_rowSwap (B : Mat4) (S : Finset (Fin 4)) (a b : Fin 4) (ha : a ∉ S)
    (hb : b ∉ S) :
    rightPart (rowSwap B a b) S = swapMat a b * rightPart B S * swapMat a b := by
  rw [mul_swapMat, swapMat_mul]
  ext i j
  simp only [rightPart, rowSwap, colSwap, Matrix.of_apply]
  by_cases hjS : j ∈ S
  · have hja : j ≠ a := fun h => ha (h ▸ hjS)
    have hjb : j ≠ b := fun h => hb (h ▸ hjS)
    have hfix : Equiv.swap a b j = j := Equiv.swap_apply_of_ne_of_ne hja hjb
    simp only [hfix, hjS, if_true]
  · have hs : Equiv.swap a b j ∉ S := by
      by_cases h1 : j = a
      · rw [h1, Equiv.swap_apply_left]; exact hb
      · by_cases h2 : j = b
        · rw [h2, Equiv.swap_apply_right]; exact ha
        · rw [Equiv.swap_apply_of_ne_of_ne h1 h2]; exact hjS
    simp only [hjS, hs, if_false, (Equiv.swap a b).injective.eq_iff]

/-- The left part has a zero row when the unpivoted block vanishes. -/
theorem det_leftPart_eq_zero (B : Mat4) (S : Finset (Fin 4)) (r : Fin 4) (hr : r ∉ S)
    (hz : ∀ k, k ∉ S → B r k = 0) : (leftPart B S).det = 0 := by
  apply Matrix.det_eq_zero_of_row_eq_zero r
  intro j
  simp only [leftPart, Matrix.of_apply]
  by_cases hj : j ∈ S
  · have : ¬ r = j := fun h => hr (h ▸ hj)
    simp [hj, this]
  · simp [hj, hz j hj]

theorem leftPart_univ (B : Mat4) : leftPart B Finset.univ = 1 := by
  ext i j
  simp [leftPart, Matrix.one_apply]

theorem rightPart_univ (B : Mat4) : rightPart B Finset.univ = B := by
  ext i j
  simp [rightPart]

theorem leftPart_empty (B : Mat4) : leftPart B ∅ = B := by
  ext i j
  simp [leftPart]

theorem rightPart_empty (B : Mat4) : rightPart B ∅ = 1 := by
  ext i j
  simp [rightPart, Matrix.one_apply]

theorem gjInv_init (A : Mat4) : GJInv A A ∅ 1 := by
  refine ⟨?_, ⟨1, ?_⟩⟩
  · rw [leftPart_empty, rightPart_empty, one_mul, one_mul]
  · rw [leftPart_empty, one_mul]

/-- One iteration keeps the invariant: the rows `p` and `r` are exchanged and
the pivot is taken at `(p, p)`. -/
theorem gjInv_step {A B : Mat4} {S : Finset (Fin 4)} {P : Mat4} (h : GJInv A B S P)
    (r p : Fin 4) (hr : r ∉ S) (hp : p ∉ S) (hne : B r p ≠ 0) :
    GJInv A (pivotOp (rowSwap B p r) p) (insert p S) (swapMat p r * P) := by
  have hpiv : (rowSwap B p r) p p ≠ 0 := by
    simp only [rowSwap, Matrix.of_apply, Equiv.swap_apply_left]
    exact hne
  have hL := leftPart_pivotOp (rowSwap B p r) S p hp hpiv
  have hR := rightPart_pivotOp (rowSwap B p r) S p hp
  have hL1 := leftPart_rowSwap B S p r hp hr
  have hR1 := rightPart_rowSwap B S p r hp hr
  have hTT := swapMat_mul_self p r
  refine ⟨?_, ?_⟩
  · rw [hL, hR, hL1, hR1, h.left]
    calc gaussMat (rowSwap B p r) p * (swapMat p r * (rightPart B S * P * A))
        = gaussMat (rowSwap B p r) p * (swapMat p r * rightPart B S) *
            (1 : Mat4) * P * A := by
          simp only [Matrix.mul_assoc, Matrix.one_mul]
      _ = gaussMat (rowSwap B p r) p * (swapMat p r * rightPart B S) *
            (swapMat p r * swapMat p r) * P * A := by rw [hTT]
      _ = gaussMat (rowSwap B p r) p * (swapMat p r * rightPart B S * swapMat p r) *
            (swapMat p r * P) * A := by
          simp only [Matrix.mul_assoc]
  · obtain ⟨Q, hQ⟩ := h.back
    refine ⟨Q * swapMat p r * gaussInv (rowSwap B p r) p, ?_⟩
    rw [hL, hL1]
    calc A = Q * leftPart B S := hQ
      _ = Q * ((swapMat p r * swapMat p r) * leftPart B S) := by rw [hTT, Matrix.one_mul]
      _ = Q * (swapMat p r * ((1 : Mat4) * (swapMat p r * leftPart B S))) := by
          simp only [Matrix.mul_assoc, Matrix.one_mul]
      _ = Q * (swapMat p r * ((gaussInv (rowSwap B p r) p * gaussMat (rowSwap B p r) p) *
            (swapMat p r * leftPart B S))) := by
          rw [gaussInv_mul_gaussMat _ _ hpiv]
      _ = Q * swapMat p r * gaussInv (rowSwap B p r) p *
            (gaussMat (rowSwap B p r) p * (swapMat p r * leftPart B S)) := by
          simp only [Matrix.mul_assoc]

/-- When every pivot is taken the data times the exchanges is a left inverse. -/
theorem gjInv_final {A B P : Mat4} (h : GJInv A B Finset.univ P) : B * P * A = 1 := by
  have := h.left
  rw [leftPart_univ, rightPart_univ] at this
  exact this.symm

/-- A vanishing unpivoted row betrays a singular matrix. -/
theorem gjInv_singular {A B : Mat4} {S : Finset (Fin 4)} {P : Mat4} (h : GJInv A B S P)
    (r : Fin 4) (hr : r ∉ S) (hz : ∀ k, k ∉ S → B r k = 0) : A.det = 0 := by
  obtain ⟨Q, hQ⟩ := h.back
  rw [hQ, Matrix.det_mul, det_leftPart_eq_zero B S r hr hz, mul_zero]

theorem rowSwap_self (B : Mat4) (a : Fin 4) : rowSwap B a a = B := by
  ext i j
  simp [rowSwap]

theorem colSwap_self (B : Mat4) (a : Fin 4) : colSwap B a a = B := by
  ext i j
  simp [colSwap]

theorem swapMat_self (a : Fin 4) : swapMat a a = 1 := by
  ext i j
  simp [swapMat, Matrix.one_apply]

theorem swapMat_comm (a b : Fin 4) : swapMat a b = swapMat b a := by
  unfold swapMat
  rw [Equiv.swap_comm]

/-! ### The data in place -/

theorem exists_sixteen (l : List ℚ) (h : l.length = 16) :
    ∃ d0 d1 d2 d3 d4 d5 d6 d7 d8 d9 d10 d11 d12 d13 d14 d15 : ℚ,
      l = [d0, d1, d2, d3, d4, d5, d6, d7, d8, d9, d10, d11, d12, d13, d14, d15] := by
  match l, h with
  | [d0, d1, d2, d3, d4, d5, d6, d7, d8, d9, d10, d11, d12, d13, d14, d15], _ =>
    exact ⟨d0, d1, d2, d3, d4, d5, d6, d7, d8, d9, d10, d11, d12, d13, d14, d15, rfl⟩

set_option maxHeartbeats 2000000 in
theorem toMat4_swapRows (data : List ℚ) (h : data.length = 16) (a b : ℕ) (ha : a < 4)
    (hb : b < 4) :
    (Matrix.swapRows data a b).length = 16 ∧
    Matrix.toMat4 ⟨Matrix.swapRows data a b⟩ =
      rowSwap (Matrix.toMat4 ⟨data⟩) (toFin4 a) (toFin4 b) := by
  obtain ⟨d0, d1, d2, d3, d4, d5, d6, d7, d8, d9, d10, d11, d12, d13, d14, d15, rfl⟩ :=
    exists_sixteen data h
  interval_cases a <;> interval_cases b <;> refine ⟨rfl, ?_⟩ <;> ext i j <;>
    fin_cases i <;> fin_cases j <;> rfl

set_option maxHeartbeats 2000000 in
theorem toMat4_swapColumns (data : List ℚ) (h : data.length = 16) (a b : ℕ) (ha : a < 4)
    (hb : b < 4) :
    (Matrix.swapColumns data a b).length = 16 ∧
    Matrix.toMat4 ⟨Matrix.swapColumns data a b⟩ =
      colSwap (Matrix.toMat4 ⟨data⟩) (toFin4 a) (toFin4 b) := by
  obtain ⟨d0, d1, d2, d3, d4, d5, d6, d7, d8, d9, d10, d11, d12, d13, d14, d15, rfl⟩ :=
    exists_sixteen data h
  interval_cases a <;> interval_cases b <;> refine ⟨rfl, ?_⟩ <;> ext i j <;>
    fin_cases i <;> fin_cases j <;> rfl

set_option maxHeartbeats 2000000 in
theorem toMat4_eliminate (data : List ℚ) (h : data.length = 16) (p : ℕ) (hp : p < 4) :
    (Matrix.eliminate id data p).length = 16 ∧
    Matrix.toMat4 ⟨Matrix.eliminate id data p⟩ = pivotOp (Matrix.toMat4 ⟨data⟩) (toFin4 p) := by
  obtain ⟨d0, d1, d2, d3, d4, d5, d6, d7, d8, d9, d10, d11, d12, d13, d14, d15, rfl⟩ :=
    exists_sixteen data h
  interval_cases p
  all_goals
    simp only [Matrix.eliminate, Matrix.scaleRow, Matrix.reduceRows, Matrix.Convert2DTo1D,
      List.foldl_cons, List.foldl_nil, id_eq]
    simp only [List.set_cons_zero, List.set_cons_succ, List.getD_cons_zero, List.getD_cons_succ,
      Nat.reduceAdd, Nat.reduceMul, ne_eq, OfNat.ofNat_ne_zero, not_false_eq_true, if_true,
      OfNat.zero_ne_ofNat, OfNat.ofNat_ne_one, OfNat.one_ne_ofNat, Nat.reduceEqDiff,
      not_true_eq_false, if_false, one_ne_zero, zero_ne_one, List.length_cons, List.length_nil,
      true_and]
    ext i j
    fin_cases i <;> fin_cases j <;>
      simp [Matrix.toMat4, Matrix.get, pivotOp, toFin4] <;> rfl

theorem toMat4_apply (data : List ℚ) (j k : ℕ) (hj : j < 4) (hk : k < 4) :
    Matrix.toMat4 ⟨data⟩ (toFin4 j) (toFin4 k) = data.getD (Matrix.Convert2DTo1D k j) 0 := by
  simp only [Matrix.toMat4, Matrix.of_apply, Matrix.get, toFin4, Matrix.Convert2DTo1D,
    Nat.mod_eq_of_lt hj, Nat.mod_eq_of_lt hk]
  congr 1
  omega

/-! ### The pivot search -/

theorem searchCell_spec (data : List ℚ) (ipiv : List ℤ) (j k : ℕ) (ps : Matrix.PivotSearch)
    (hj : j < 4) (hk : k < 4) (hrow : ipiv.getD j 0 ≠ 1)
    (hbin : ipiv.getD k 0 = 0 ∨ ipiv.getD k 0 = 1)
    (hps : ps.big = 0 ∨ Found data ipiv ps) :
    ∃ ps', Matrix.searchCell data ipiv j (some ps) k = some ps' ∧ ps.big ≤ ps'.big ∧
      (ps' = ps ∨ Found data ipiv ps') ∧
      (ipiv.getD k 0 = 0 →
        Found data ipiv ps' ∧ |data.getD (Matrix.Convert2DTo1D k j) 0| ≤ ps'.big) := by
  unfold Matrix.searchCell
  dsimp only
  rcases hbin with h0 | h1
  · rw [if_pos h0]
    by_cases hge : |data.getD (Matrix.Convert2DTo1D k j) 0| ≥ ps.big
    · rw [if_pos hge]
      have hf : Found data ipiv ⟨|data.getD (Matrix.Convert2DTo1D k j) 0|, j, k⟩ :=
        ⟨⟨hj, hk, hrow, h0⟩, rfl⟩
      exact ⟨_, rfl, hge, Or.inr hf, fun _ => ⟨hf, le_refl _⟩⟩
    · rw [if_neg hge]
      have hlt : |data.getD (Matrix.Convert2DTo1D k j) 0| < ps.big := lt_of_not_ge hge
      have hf : Found data ipiv ps := by
        rcases hps with hz | hf
        · exfalso
          rw [hz] at hlt
          exact absurd (abs_nonneg _) (not_le.mpr hlt)
        · exact hf
      exact ⟨ps, rfl, le_refl _, Or.inl rfl, fun _ => ⟨hf, le_of_lt hlt⟩⟩
  · have hne : ¬ ipiv.getD k 0 = 0 := by rw [h1]; decide
    have hgt : ¬ ipiv.getD k 0 > 1 := by rw [h1]; decide
    rw [if_neg hne, if_neg hgt]
    exact ⟨ps, rfl, le_refl _, Or.inl rfl, fun h => absurd h hne⟩

theorem foldl_searchCell_spec (data : List ℚ) (ipiv : List ℤ) (j : ℕ) (hj : j < 4)
    (hrow : ipiv.getD j 0 ≠ 1)
    (hbin : ∀ k, k < 4 → ipiv.getD k 0 = 0 ∨ ipiv.getD k 0 = 1) :
    ∀ (ks : List ℕ), (∀ k ∈ ks, k < 4) → ∀ (ps : Matrix.PivotSearch),
      (ps.big = 0 ∨ Found data ipiv ps) →
      ∃ ps', ks.foldl (Matrix.searchCell data ipiv j) (some ps) = some ps' ∧
        ps.big ≤ ps'.big ∧ (ps' = ps ∨ Found data ipiv ps') ∧
        ∀ k ∈ ks, ipiv.getD k 0 = 0 →
          Found data ipiv ps' ∧ |data.getD (Matrix.Convert2DTo1D k j) 0| ≤ ps'.big := by
  intro ks
  induction ks with
  | nil =>
    intro _ ps _
    exact ⟨ps, rfl, le_refl _, Or.inl rfl, fun k hk => absurd hk (List.not_mem_nil _)⟩
  | cons k rest ih =>
    intro hks ps hps
    obtain ⟨ps1, e1, le1, keep1, cell1⟩ := searchCell_spec data ipiv j k ps hj
      (hks k (List.mem_cons_self _ _)) hrow (hbin k (hks k (List.mem_cons_self _ _))) hps
    have hps1 : ps1.big = 0 ∨ Found data ipiv ps1 := by
      rcases keep1 with h | h
      · rw [h]; exact hps
      · exact Or.inr h
    obtain ⟨ps2, e2, le2, keep2, cell2⟩ :=
      ih (fun k' hk' => hks k' (List.mem_cons_of_mem _ hk')) ps1 hps1
    have hfound : Found data ipiv ps1 → Found data ipiv ps2 := by
      intro hf
      rcases keep2 with h | h
      · rw [h]; exact hf
      · exact h
    refine ⟨ps2, ?_, le_trans le1 le2, ?_, ?_⟩
    · rw [List.foldl_cons, e1, e2]
    · rcases keep2 with h | h
      · rcases keep1 with h' | h'
        · exact Or.inl (h.trans h')
        · exact Or.inr (hfound h')
      · exact Or.inr h
    · intro k' hk' h0
      rcases List.mem_cons.mp hk' with h | h
      · subst h
        obtain ⟨f1, b1⟩ := cell1 h0
        exact ⟨hfound f1, le_trans b1 le2⟩
      · exact cell2 k' h h0

theorem foldl_searchRows_spec (data : List ℚ) (ipiv : List ℤ)
    (hbin : ∀ k, k < 4 → ipiv.getD k 0 = 0 ∨ ipiv.getD k 0 = 1) :
    ∀ (js : List ℕ), (∀ j ∈ js, j < 4) → ∀ (ps : Matrix.PivotSearch),
      (ps.big = 0 ∨ Found data ipiv ps) →
      ∃ ps', js.foldl (Matrix.searchRows data ipiv) (some ps) = some ps' ∧
        ps.big ≤ ps'.big ∧ (ps' = ps ∨ Found data ipiv ps') ∧
        ∀ j ∈ js, ∀ k, IsCandidate ipiv j k →
          Found data ipiv ps' ∧ |data.getD (Matrix.Convert2DTo1D k j) 0| ≤ ps'.big := by
  intro js
  induction js with
  | nil =>
    intro _ ps _
    exact ⟨ps, rfl, le_refl _, Or.inl rfl, fun j hj => absurd hj (List.not_mem_nil _)⟩
  | cons j rest ih =>
    intro hjs ps hps
    have hj : j < 4 := hjs j (List.mem_cons_self _ _)
    have hstep : ∃ ps1, Matrix.searchRows data ipiv (some ps) j = some ps1 ∧
        ps.big ≤ ps1.big ∧ (ps1 = ps ∨ Found data ipiv ps1) ∧
        ∀ k, IsCandidate ipiv j k →
          Found data ipiv ps1 ∧ |data.getD (Matrix.Convert2DTo1D k j) 0| ≤ ps1.big := by
      unfold Matrix.searchRows
      dsimp only
      by_cases hrow : ipiv.getD j 0 ≠ 1
      · rw [if_pos hrow]
        obtain ⟨ps1, e1, le1, keep1, cell1⟩ := foldl_searchCell_spec data ipiv j hj hrow hbin
          [0, 1, 2, 3] (by decide) ps hps
        refine ⟨ps1, e1, le1, keep1, ?_⟩
        intro k hc
        obtain ⟨_, hk, _, h0⟩ := hc
        have hmem : k ∈ [0, 1, 2, 3] := by
          interval_cases k <;> simp
        exact cell1 k hmem h0
      · rw [if_neg hrow]
        refine ⟨ps, rfl, le_refl _, Or.inl rfl, ?_⟩
        intro k hc
        exact absurd hc.2.2.1 hrow
    obtain ⟨ps1, e1, le1, keep1, cell1⟩ := hstep
    have hps1 : ps1.big = 0 ∨ Found data ipiv ps1 := by
      rcases keep1 with h | h
      · rw [h]; exact hps
      · exact Or.inr h
    obtain ⟨ps2, e2, le2, keep2, cell2⟩ :=
      ih (fun j' hj' => hjs j' (List.mem_cons_of_mem _ hj')) ps1 hps1
    have hfound : Found data ipiv ps1 → Found data ipiv ps2 := by
      intro hf
      rcases keep2 with h | h
      · rw [h]; exact hf
      · exact h
    refine ⟨ps2, ?_, le_trans le1 le2, ?_, ?_⟩
    · rw [List.foldl_cons, e1, e2]
    · rcases keep2 with h | h
      · rcases keep1 with h' | h'
        · exact Or.inl (h.trans h')
        · exact Or.inr (hfound h')
      · exact Or.inr h
    · intro j' hj' k hc
      rcases List.mem_cons.mp hj' with h | h
      · subst h
        obtain ⟨f1, b1⟩ := cell1 k hc
        exact ⟨hfound f1, le_trans b1 le2⟩
      · exact cell2 j' h k hc

/-- The pivot search ends on a candidate cell of greatest magnitude, provided
every `ipiv[k]` is 0 or 1 and some cell is a candidate. -/
theorem findPivot_spec (data : List ℚ) (ipiv : List ℤ) (irow icol : ℕ)
    (hbin : ∀ k, k < 4 → ipiv.getD k 0 = 0 ∨ ipiv.getD k 0 = 1) :
    ∃ ps, Matrix.findPivot data ipiv irow icol = some ps ∧
      ∀ j k, IsCandidate ipiv j k →
        Found data ipiv ps ∧ |data.getD (Matrix.Convert2DTo1D k j) 0| ≤ ps.big := by
  obtain ⟨ps, e, _, _, cell⟩ := foldl_searchRows_spec data ipiv hbin [0, 1, 2, 3] (by decide)
    ⟨0, irow, icol⟩ (Or.inl rfl)
  refine ⟨ps, e, ?_⟩
  intro j k hc
  have hmem : j ∈ [0, 1, 2, 3] := by
    have hj := hc.1
    interval_cases j <;> simp
  exact cell j hmem k hc

/-! ### The main loop -/

theorem mem_pivoted (ipiv : List ℤ) (k : Fin 4) :
    k ∈ pivoted ipiv ↔ ipiv.getD k.val 0 = 1 := by
  simp [pivoted]

theorem toFin4_val (n : ℕ) (h : n < 4) : (toFin4 n).val = n := Nat.mod_eq_of_lt h

theorem toFin4_of_val (k : Fin 4) : toFin4 k.val = k := by
  apply Fin.ext
  exact Nat.mod_eq_of_lt k.isLt

theorem getD_set_int (l : List ℤ) (i j : ℕ) (a : ℤ) (hi : i < l.length) :
    (l.set i a).getD j 0 = if i = j then a else l.getD j 0 := by
  rw [List.getD_eq_getElem?_getD, List.getD_eq_getElem?_getD]
  by_cases h : i = j
  · rw [if_pos h, ← h, List.getElem?_set_self hi]
    rfl
  · rw [if_neg h, List.getElem?_set_ne h]

theorem pivoted_set (ipiv : List ℤ) (p : ℕ) (hlen : ipiv.length = 4) (hp : p < 4)
    (h0 : ipiv.getD p 0 = 0) :
    pivoted (ipiv.set p (ipiv.getD p 0 + 1)) = insert (toFin4 p) (pivoted ipiv) := by
  ext k
  rw [mem_pivoted, Finset.mem_insert, mem_pivoted, getD_set_int _ _ _ _ (by omega), h0]
  by_cases h : p = k.val
  · simp only [h, if_true, zero_add, true_iff]
    left
    rw [toFin4_of_val]
  · simp only [h, if_false]
    constructor
    · exact Or.inr
    · rintro (h1 | h1)
      · exfalso
        apply h
        rw [h1, toFin4_val p hp]
      · exact h1

theorem exists_not_mem_of_card_lt (S : Finset (Fin 4)) (h : S.card < 4) : ∃ k, k ∉ S := by
  by_contra hall
  push_neg at hall
  have : S = Finset.univ := Finset.eq_univ_of_forall hall
  rw [this] at h
  simp at h

theorem permOf_append (indx : List (ℕ × ℕ)) (rc : ℕ × ℕ) :
    permOf (indx ++ [rc]) = swapMat (toFin4 rc.2) (toFin4 rc.1) * permOf indx := by
  simp [permOf]

/-- One iteration of the main loop either keeps the invariant or returns 1
on a singular matrix. -/
theorem invertStep_spec (A : Mat4) (st : Matrix.InvertState) (n : ℕ) (hn : n < 4)
    (inv : InvertInv A st n) :
    (∃ st', Matrix.invertStep id st = Sum.inr st' ∧ InvertInv A st' (n + 1)) ∨
    (∃ d, Matrix.invertStep id st = Sum.inl d ∧ A.det = 0) := by
  obtain ⟨k0, hk0⟩ := exists_not_mem_of_card_lt (pivoted st.ipiv) (by rw [inv.card]; exact hn)
  have hzero : ∀ k : Fin 4, k ∉ pivoted st.ipiv → st.ipiv.getD k.val 0 = 0 := by
    intro k hk
    rw [mem_pivoted] at hk
    rcases inv.binary k.val k.isLt with h | h
    · exact h
    · exact absurd h hk
  have hcand0 : IsCandidate st.ipiv k0.val k0.val := by
    have := hzero k0 hk0
    exact ⟨k0.isLt, k0.isLt, by rw [this]; decide, this⟩
  obtain ⟨ps, hfind, hbest⟩ := findPivot_spec st.data st.ipiv st.irow st.icol inv.binary
  obtain ⟨⟨⟨hr4, hp4, hrow, hcol⟩, hbig⟩, _⟩ := hbest _ _ hcand0
  have hrS : toFin4 ps.irow ∉ pivoted st.ipiv := by
    rw [mem_pivoted, toFin4_val _ hr4]
    exact hrow
  have hpS : toFin4 ps.icol ∉ pivoted st.ipiv := by
    rw [mem_pivoted, toFin4_val _ hp4, hcol]
    decide
  -- the data after the exchange of the rows
  have hswap : ∃ data1, (if ps.irow ≠ ps.icol then Matrix.swapRows st.data ps.icol ps.irow
      else st.data) = data1 ∧ data1.length = 16 ∧
      Matrix.toMat4 ⟨data1⟩ =
        rowSwap (Matrix.toMat4 ⟨st.data⟩) (toFin4 ps.icol) (toFin4 ps.irow) := by
    by_cases hne : ps.irow ≠ ps.icol
    · rw [if_pos hne]
      obtain ⟨h1, h2⟩ := toMat4_swapRows st.data inv.len ps.icol ps.irow hp4 hr4
      exact ⟨_, rfl, h1, h2⟩
    · rw [if_neg hne]
      have heq : ps.irow = ps.icol := not_not.mp hne
      refine ⟨_, rfl, inv.len, ?_⟩
      rw [heq, rowSwap_self]
  obtain ⟨data1, hdata1, hlen1, hmat1⟩ := hswap
  have hpivot : data1.getD (Matrix.Convert2DTo1D ps.icol ps.icol) 0 =
      st.data.getD (Matrix.Convert2DTo1D ps.icol ps.irow) 0 := by
    rw [← toMat4_apply data1 ps.icol ps.icol hp4 hp4, hmat1,
      ← toMat4_apply st.data ps.irow ps.icol hr4 hp4]
    simp only [rowSwap, Matrix.of_apply, Equiv.swap_apply_left]
  have hstep : Matrix.invertStep id st =
      if data1.getD (Matrix.Convert2DTo1D ps.icol ps.icol) 0 = 0 then Sum.inl data1
      else Sum.inr ⟨Matrix.eliminate id data1 ps.icol,
        st.ipiv.set ps.icol (st.ipiv.getD ps.icol 0 + 1), st.indx ++ [(ps.irow, ps.icol)],
        ps.irow, ps.icol⟩ := by
    unfold Matrix.invertStep
    rw [hfind]
    dsimp only
    rw [hdata1]
  rw [hstep]
  by_cases hz : data1.getD (Matrix.Convert2DTo1D ps.icol ps.icol) 0 = 0
  · right
    rw [if_pos hz]
    refine ⟨data1, rfl, ?_⟩
    have hbig0 : ps.big = 0 := by
      rw [hbig, ← hpivot, hz, abs_zero]
    refine gjInv_singular inv.gj (toFin4 ps.irow) hrS ?_
    intro k hk
    have hc : IsCandidate st.ipiv ps.irow k.val := ⟨hr4, k.isLt, hrow, hzero k hk⟩
    obtain ⟨_, hle⟩ := hbest _ _ hc
    rw [hbig0] at hle
    have := abs_nonpos_iff.mp hle
    rw [← toFin4_of_val k, toMat4_apply st.data ps.irow k.val hr4 k.isLt]
    exact this
  · left
    rw [if_neg hz]
    refine ⟨_, rfl, ?_⟩
    obtain ⟨hlen2, hmat2⟩ := toMat4_eliminate data1 hlen1 ps.icol hp4
    have hpiv := pivoted_set st.ipiv ps.icol inv.ipivLen hp4 hcol
    refine ⟨hlen2, by simp [inv.ipivLen], ?_, ?_, ?_, ?_⟩
    · intro k hk
      dsimp only
      rw [getD_set_int _ _ _ _ (by rw [inv.ipivLen]; exact hp4), hcol]
      by_cases h : ps.icol = k
      · simp [h]
      · simp only [h, if_false]
        exact inv.binary k hk
    · dsimp only
      rw [hpiv, Finset.card_insert_of_not_mem hpS, inv.card]
    · intro rc hrc
      dsimp only at hrc
      rcases List.mem_append.mp hrc with h | h
      · exact inv.bound rc h
      · rw [List.mem_singleton] at h
        rw [h]
        exact ⟨hr4, hp4⟩
    · dsimp only
      rw [hmat2, hmat1, hpiv, permOf_append]
      refine gjInv_step inv.gj (toFin4 ps.irow) (toFin4 ps.icol) hrS hpS ?_
      rw [toMat4_apply st.data ps.irow ps.icol hr4 hp4, ← hpivot]
      exact hz

/-- The main loop either ends with every pivot taken or returns 1 on a
singular matrix. -/
theorem invertLoop_spec (A : Mat4) :
    ∀ (m n : ℕ) (st : Matrix.InvertState), n + m = 4 → InvertInv A st n →
      (∃ st', Matrix.invertLoop id m st = Sum.inr st' ∧ InvertInv A st' 4) ∨
      (∃ d, Matrix.invertLoop id m st = Sum.inl d ∧ A.det = 0) := by
  intro m
  induction m with
  | zero =>
    intro n st hn inv
    have : n = 4 := by omega
    subst this
    exact Or.inl ⟨st, rfl, inv⟩
  | succ m ih =>
    intro n st hn inv
    rcases invertStep_spec A st n (by omega) inv with ⟨st1, h1, inv1⟩ | ⟨d, h1, hdet⟩
    · rcases ih (n + 1) st1 (by omega) inv1 with ⟨st2, h2, inv2⟩ | ⟨d, h2, hdet⟩
      · exact Or.inl ⟨st2, by simp only [Matrix.invertLoop, h1, h2], inv2⟩
      · exact Or.inr ⟨d, by simp only [Matrix.invertLoop, h1, h2], hdet⟩
    · exact Or.inr ⟨d, by simp only [Matrix.invertLoop, h1], hdet⟩

theorem foldl_swapColumns (l : List (ℕ × ℕ)) (hl : ∀ rc ∈ l, rc.1 < 4 ∧ rc.2 < 4) :
    ∀ data : List ℚ, data.length = 16 →
      (l.foldl (fun d rc => if rc.1 ≠ rc.2 then Matrix.swapColumns d rc.1 rc.2 else d)
        data).length = 16 ∧
      Matrix.toMat4 ⟨l.foldl
        (fun d rc => if rc.1 ≠ rc.2 then Matrix.swapColumns d rc.1 rc.2 else d) data⟩ =
        Matrix.toMat4 ⟨data⟩ * (l.map fun rc => swapMat (toFin4 rc.2) (toFin4 rc.1)).prod := by
  induction l with
  | nil =>
    intro data hlen
    exact ⟨hlen, by simp⟩
  | cons rc rest ih =>
    intro data hlen
    obtain ⟨h1, h2⟩ := hl rc (List.mem_cons_self _ _)
    have hstep : ∃ d1, (if rc.1 ≠ rc.2 then Matrix.swapColumns data rc.1 rc.2 else data) = d1 ∧
        d1.length = 16 ∧ Matrix.toMat4 ⟨d1⟩ =
          Matrix.toMat4 ⟨data⟩ * swapMat (toFin4 rc.2) (toFin4 rc.1) := by
      by_cases hne : rc.1 ≠ rc.2
      · rw [if_pos hne]
        obtain ⟨e1, e2⟩ := toMat4_swapColumns data hlen rc.1 rc.2 h1 h2
        refine ⟨_, rfl, e1, ?_⟩
        rw [e2, mul_swapMat]
        unfold colSwap
        rw [Equiv.swap_comm]
      · rw [if_neg hne]
        have heq : rc.1 = rc.2 := not_not.mp hne
        exact ⟨_, rfl, hlen, by rw [heq, swapMat_self, Matrix.mul_one]⟩
    obtain ⟨d1, hd1, hlen1, hmat1⟩ := hstep
    obtain ⟨i1, i2⟩ := ih (fun rc' hrc' => hl rc' (List.mem_cons_of_mem _ hrc')) d1 hlen1
    simp only [List.foldl_cons, List.map_cons, List.prod_cons]
    rw [hd1]
    exact ⟨i1, by rw [i2, hmat1, Matrix.mul_assoc]⟩

theorem toMat4_unscramble (data : List ℚ) (indx : List (ℕ × ℕ)) (hlen : data.length = 16)
    (hb : ∀ rc ∈ indx, rc.1 < 4 ∧ rc.2 < 4) :
    (Matrix.unscramble data indx).length = 16 ∧
    Matrix.toMat4 ⟨Matrix.unscramble data indx⟩ = Matrix.toMat4 ⟨data⟩ * permOf indx :=
  foldl_swapColumns indx.reverse (fun rc hrc => hb rc (List.mem_reverse.mp hrc)) data hlen

theorem invertInv_init (m : Matrix) (h : m.data.length = 16) :
    InvertInv m.toMat4 ⟨m.data, [0, 0, 0, 0], [], 0, 0⟩ 0 := by
  have hp : pivoted [0, 0, 0, 0] = ∅ := by decide
  refine ⟨h, rfl, ?_, ?_, ?_, ?_⟩
  · intro k hk
    left
    interval_cases k <;> rfl
  · dsimp only
    rw [hp]
    rfl
  · intro rc hrc
    exact absurd hrc (List.not_mem_nil _)
  · dsimp only
    rw [hp]
    have : permOf [] = 1 := by simp [permOf]
    rw [this]
    exact gjInv_init _

/-- The algorithm of `Invert` in exact arithmetic on a matrix of 16 entries:
either it returns 0 and leaves a left inverse in place, or it returns 1 and
the matrix is singular. -/
theorem invert_spec (m : Matrix) (h : m.data.length = 16) :
    ((Matrix.invertWith id m).1 = 0 ∧ (Matrix.invertWith id m).2.data.length = 16 ∧
      (Matrix.invertWith id m).2.toMat4 * m.toMat4 = 1) ∨
    ((Matrix.invertWith id m).1 = 1 ∧ m.toMat4.det = 0) := by
  rcases invertLoop_spec m.toMat4 4 0 _ rfl (invertInv_init m h) with ⟨st, hl, inv⟩ | ⟨d, hl, hdet⟩
  · left
    have huniv : pivoted st.ipiv = Finset.univ := by
      apply Finset.eq_univ_of_card
      rw [inv.card]
      rfl
    obtain ⟨e1, e2⟩ := toMat4_unscramble st.data st.indx inv.len inv.bound
    have hgj := inv.gj
    rw [huniv] at hgj
    have hfin := gjInv_final hgj
    have hinv : Matrix.invertWith id m = (0, ⟨Matrix.unscramble st.data st.indx⟩) := by
      unfold Matrix.invertWith
      rw [hl]
    rw [hinv]
    exact ⟨rfl, e1, by rw [e2]; exact hfin⟩
  · right
    have hinv : Matrix.invertWith id m = (1, ⟨d⟩) := by
      unfold Matrix.invertWith
      rw [hl]
    rw [hinv]
    exact ⟨rfl, hdet⟩

/-! ### `Invert` and the product -/

theorem fin4_val_three : ((3 : Fin 4) : ℕ) = 3 := rfl

theorem toMat4_mul (a b : Matrix) : (a.mul b).toMat4 = a.toMat4 * b.toMat4 := by
  ext i j
  simp only [Matrix.toMat4, Matrix.of_apply, Matrix.mul_apply, Fin.sum_univ_four]
  show (a.mul b).data.getD (i.val * 4 + j.val) 0 = _
  rw [mul_data]
  fin_cases i <;> fin_cases j <;> simp [Matrix.get, fin4_val_three]

theorem eq_identity_of_toMat4 (n : Matrix) (hlen : n.data.length = 16) (h : n.toMat4 = 1) :
    n = Matrix.identity := by
  obtain ⟨data⟩ := n
  obtain ⟨d0, d1, d2, d3, d4, d5, d6, d7, d8, d9, d10, d11, d12, d13, d14, d15, rfl⟩ :=
    exists_sixteen data hlen
  have e : ∀ i j : Fin 4, Matrix.toMat4
      ⟨[d0, d1, d2, d3, d4, d5, d6, d7, d8, d9, d10, d11, d12, d13, d14, d15]⟩ i j =
      (1 : Mat4) i j := fun i j => by rw [h]
  have e00 := e 0 0
  have e01 := e 0 1
  have e02 := e 0 2
  have e03 := e 0 3
  have e10 := e 1 0
  have e11 := e 1 1
  have e12 := e 1 2
  have e13 := e 1 3
  have e20 := e 2 0
  have e21 := e 2 1
  have e22 := e 2 2
  have e23 := e 2 3
  have e30 := e 3 0
  have e31 := e 3 1
  have e32 := e 3 2
  have e33 := e 3 3
  simp [Matrix.toMat4, Matrix.get, Matrix.one_apply, fin4_val_three] at e00 e01 e02 e03 e10 e11
  simp [Matrix.toMat4, Matrix.get, Matrix.one_apply, fin4_val_three] at e12 e13 e20 e21 e22 e23
  simp [Matrix.toMat4, Matrix.get, Matrix.one_apply, fin4_val_three] at e30 e31 e32 e33
  simp [Matrix.identity, *]

theorem mul_length (a b : Matrix) : (a.mul b).data.length = 16 := by
  rw [mul_data]
  rfl

theorem toMat4_identity : Matrix.identity.toMat4 = 1 := by
  ext i j
  fin_cases i <;> fin_cases j <;> simp [Matrix.toMat4, Matrix.get, Matrix.identity, fin4_val_three]

/-- A matrix with a left inverse for `operator*` is not singular. -/
theorem det_ne_zero_of_mul_eq_identity (n m : Matrix) (h : n.mul m = Matrix.identity) :
    m.toMat4.det ≠ 0 := by
  apply Matrix.det_ne_zero_of_left_inverse (B := n.toMat4)
  rw [← toMat4_mul, h, toMat4_identity]

/-- A matrix that `operator*` sends to the zero matrix from the left, without
being zero itself, is singular. -/
theorem det_eq_zero_of_mul_eq_zero (n m : Matrix) (h : (n.mul m).toMat4 = 0)
    (hn : n.toMat4 ≠ 0) : m.toMat4.det = 0 := by
  by_contra hd
  apply hn
  have hu : IsUnit m.toMat4.det := isUnit_iff_ne_zero.mpr hd
  rw [toMat4_mul] at h
  calc n.toMat4 = n.toMat4 * (m.toMat4 * m.toMat4⁻¹) := by
        rw [Matrix.mul_nonsing_inv _ hu, Matrix.mul_one]
    _ = (n.toMat4 * m.toMat4) * m.toMat4⁻¹ := by rw [Matrix.mul_assoc]
    _ = 0 := by rw [h, Matrix.zero_mul]

theorem nearSingularDemo_det : nearSingularDemo.toMat4.det ≠ 0 :=
  det_ne_zero_of_mul_eq_identity
    ⟨[11184811, -33554432, 0, 0, -33554432, 100663296, 0, 0, 0, 0, 1, 0, 0, 0, 0, 1]⟩ _
    (by decide!)

theorem illConditionedDemo_det : illConditionedDemo.toMat4.det ≠ 0 :=
  det_ne_zero_of_mul_eq_identity
    ⟨[-1048366 / 105, -2097257 / 105, 1048576 / 105, 0, 2097047 / 105, 4194409 / 105,
      -2097152 / 105, 0, -1048576 / 105, -2097152 / 105, 1048576 / 105, 0, 0, 0, 0, 1]⟩ _
    (by decide!)

theorem singularDemo_det : singularDemo.toMat4.det = 0 := by
  apply det_eq_zero_of_mul_eq_zero ⟨[1, 2, -1, 0, 0, 0, 0, 0, 0, 0, 0, 0, 0, 0, 0, 0]⟩
  · have e : Matrix.mul ⟨[1, 2, -1, 0, 0, 0, 0, 0, 0, 0, 0, 0, 0, 0, 0, 0]⟩ singularDemo =
        ⟨[0, 0, 0, 0, 0, 0, 0, 0, 0, 0, 0, 0, 0, 0, 0, 0]⟩ := by decide!
    rw [e]
    ext i j
    fin_cases i <;> fin_cases j <;> simp [Matrix.toMat4, Matrix.get, fin4_val_three]
  · intro h
    have h00 := congrFun (congrFun h 0) 0
    simp [Matrix.toMat4, Matrix.get] at h00

/-- C7. In exact arithmetic the algorithm of `Invert` returns 0 for every
non-singular 4x4 matrix `m` and leaves in place a matrix whose product with
the original `m` (by `operator*`, in either order) is the identity.  In
binary32, the arithmetic of the program, neither part holds of every
non-singular matrix.  On `[3, 1; 1, fl(1/3)]` (extended by the identity), of
determinant `2 ^ -25`, the second pivot rounds to 0 and `Invert` returns 1.  On
`[1, 1, 1; 1, 2, 3; 3, 5, fl(7.0001)]` (extended by the identity) `Invert`
returns 0 and leaves a matrix whose product with the original has `-1/256`
at element 4, where the identity has 0: far more than the `1e-5` the
specification allows. -/
theorem invert_roundtrip (m : Matrix) (hlen : m.data.length = 16) (hdet : m.toMat4.det ≠ 0) :
    ((Matrix.invertWith id m).1 = 0 ∧ (Matrix.invertWith id m).2.mul m = Matrix.identity ∧
      m.mul (Matrix.invertWith id m).2 = Matrix.identity) ∧
    (nearSingularDemo.toMat4.det ≠ 0 ∧ (Matrix.Invert nearSingularDemo).1 = 1) ∧
    (illConditionedDemo.toMat4.det ≠ 0 ∧
      Matrix.Invert illConditionedDemo =
        (0, ⟨[-5136365 / 512, -5137649 / 256, 321087 / 32, 0, 10274265 / 512, 10275041 / 256,
          -10274783 / 512, 0, -1284347 / 128, -321087 / 16, 5137391 / 512, 0, 0, 0, 0, 1]⟩) ∧
      (((Matrix.Invert illConditionedDemo).2.mul illConditionedDemo).get 4 = -1 / 256 ∧
        (1 : ℚ) / 100000 < |((Matrix.Invert illConditionedDemo).2.mul illConditionedDemo).get 4|)) := by
  refine ⟨?_, ⟨nearSingularDemo_det, by decide!⟩, illConditionedDemo_det, by decide!, by decide!,
    by decide!⟩
  rcases invert_spec m hlen with ⟨h0, _, hinv⟩ | ⟨_, hz⟩
  · refine ⟨h0, ?_, ?_⟩
    · exact eq_identity_of_toMat4 _ (mul_length _ _) (by rw [toMat4_mul]; exact hinv)
    · refine eq_identity_of_toMat4 _ (mul_length _ _) ?_
      rw [toMat4_mul]
      exact Matrix.mul_eq_one_comm.mp hinv
  · exact absurd hz hdet

theorem invert_roundtrip_witness :
    (Matrix.invertWith id ⟨[0, 2, 0, 0, 1, 0, 0, 0, 0, 0, 1, 3, 0, 0, 5, 1]⟩).1 = 0 ∧
      (Matrix.invertWith id ⟨[0, 2, 0, 0, 1, 0, 0, 0, 0, 0, 1, 3, 0, 0, 5, 1]⟩).2.mul
        ⟨[0, 2, 0, 0, 1, 0, 0, 0, 0, 0, 1, 3, 0, 0, 5, 1]⟩ = Matrix.identity ∧
      Matrix.mul ⟨[0, 2, 0, 0, 1, 0, 0, 0, 0, 0, 1, 3, 0, 0, 5, 1]⟩
        (Matrix.invertWith id ⟨[0, 2, 0, 0, 1, 0, 0, 0, 0, 0, 1, 3, 0, 0, 5, 1]⟩).2 =
          Matrix.identity :=
  (invert_roundtrip ⟨[0, 2, 0, 0, 1, 0, 0, 0, 0, 0, 1, 3, 0, 0, 5, 1]⟩ rfl
    (det_ne_zero_of_mul_eq_identity
      ⟨[0, 1, 0, 0, 1 / 2, 0, 0, 0, 0, 0, -1 / 14, 3 / 14, 0, 0, 5 / 14, -1 / 14]⟩ _
      (by decide!))).1

/-- C8. `Invert` returns 0 or 1 and no other value. In exact arithmetic its
algorithm returns 1 if and only if the matrix is singular (its determinant is
zero) and 0 if and only if it is not. In binary32, the arithmetic of the
program, neither direction holds: on the singular matrix
`[1, 1, 1; 1, 2, 3; 3, 5, 7]` (extended by the identity) the third pivot is a
rounding residue other than 0 and `Invert` returns 0, and on the non-singular
`[3, 1; 1, fl(1/3)]` the second pivot rounds to 0 and `Invert` returns 1. -/
theorem invert_flag (m : Matrix) :
    ((Matrix.Invert m).1 = 0 ∨ (Matrix.Invert m).1 = 1) ∧
    (m.data.length = 16 →
      ((Matrix.invertWith id m).1 = 1 ↔ m.toMat4.det = 0) ∧
      ((Matrix.invertWith id m).1 = 0 ↔ m.toMat4.det ≠ 0)) ∧
    (singularDemo.toMat4.det = 0 ∧ (Matrix.Invert singularDemo).1 = 0) ∧
    (nearSingularDemo.toMat4.det ≠ 0 ∧ (Matrix.Invert nearSingularDemo).1 = 1) := by
  refine ⟨?_, ?_, ⟨singularDemo_det, by decide!⟩, nearSingularDemo_det, by decide!⟩
  · unfold Matrix.Invert Matrix.invertWith
    split
    · exact Or.inr rfl
    · exact Or.inl rfl
  · intro hlen
    rcases invert_spec m hlen with ⟨h0, _, hinv⟩ | ⟨h1, hz⟩
    · have hne : m.toMat4.det ≠ 0 := by
        intro hd
        have := congrArg Matrix.det hinv
        rw [Matrix.det_mul, hd, mul_zero, Matrix.det_one] at this
        exact zero_ne_one this
      refine ⟨?_, ?_⟩
      · rw [h0]
        exact ⟨fun h => absurd h (by decide), fun h => absurd h hne⟩
      · exact ⟨fun _ => hne, fun _ => h0⟩
    · refine ⟨?_, ?_⟩
      · exact ⟨fun _ => hz, fun _ => h1⟩
      · rw [h1]
        exact ⟨fun h => absurd h (by decide), fun h => absurd hz h⟩

/-! ## Line segments of `SGL_LINES` -/

/-- The loop of `drawLines` runs `⌈n / 2⌉` times on `n` vertices. -/
theorem drawLines_length (vs : List ScreenVertex) :
    (drawLines vs).2.length = (vs.length + 1) / 2 := by
  simp [drawLines]

/-- C11. On the three screen vertices `(1,1)`, `(4,1)`, `(7,7)` the function
`drawLines` shortens the list to two vertices and then runs its loop to the
size before `pop_back`: it draws two segments, not `⌊3 / 2⌋ = 1`, the second of
them from the reads `screenVertices[2]` and `screenVertices[3]`, both at or
beyond the end of the shortened list (such a read yields a default value
here).  In general the loop runs `⌈n / 2⌉` times on `n` vertices. -/
theorem drawLines_odd_reads_past_end :
    drawLines [⟨1, 1, 0⟩, ⟨4, 1, 0⟩, ⟨7, 7, 0⟩] =
      ([⟨1, 1, 0⟩, ⟨4, 1, 0⟩], [(⟨1, 1, 0⟩, ⟨4, 1, 0⟩), (default, default)]) ∧
    (drawLines [⟨1, 1, 0⟩, ⟨4, 1, 0⟩, ⟨7, 7, 0⟩]).2.length = 2 ∧
    (drawLines [⟨1, 1, 0⟩, ⟨4, 1, 0⟩, ⟨7, 7, 0⟩]).1.length = 2 ∧
    ∀ vs : List ScreenVertex, (drawLines vs).2.length = (vs.length + 1) / 2 := by
  refine ⟨?_, ?_, ?_, drawLines_length⟩
  · decide
  · decide
  · decide

/-! ## The depth along a line -/

theorem lineStep_start_z (dX dY sX sY : ℤ) (invZStep : ℚ) (st : LineState) :
    (lineStep dX dY sX sY invZStep st).start.z = st.start.z := by
  unfold lineStep
  dsimp only
  split <;> split <;> rfl

theorem lineLoop_zero (dX dY sX sY : ℤ) (invZStep : ℚ) (finish : ScreenVertex) (st : LineState) :
    lineLoop dX dY sX sY invZStep finish 0 st =
      if st.start.x ≠ finish.x ∨ st.start.y ≠ finish.y then none
      else some [.checked ⟨st.start.x, st.start.y, invZ st.currentInvZ⟩] := by
  unfold lineLoop
  rfl

theorem lineLoop_succ (dX dY sX sY : ℤ) (invZStep : ℚ) (finish : ScreenVertex) (fuel : ℕ)
    (st : LineState) :
    lineLoop dX dY sX sY invZStep finish (fuel + 1) st =
      if st.start.x ≠ finish.x ∨ st.start.y ≠ finish.y then
        (lineLoop dX dY sX sY invZStep finish fuel (lineStep dX dY sX sY invZStep st)).map
          fun rest => .checked st.start :: rest
      else some [.checked ⟨st.start.x, st.start.y, invZ st.currentInvZ⟩] := by
  conv_lhs => unfold lineLoop

theorem lineLoop_ne_nil (dX dY sX sY : ℤ) (invZStep : ℚ) (finish : ScreenVertex) (fuel : ℕ)
    (st : LineState) : lineLoop dX dY sX sY invZStep finish fuel st ≠ some [] := by
  cases fuel with
  | zero =>
    rw [lineLoop_zero]
    split <;> simp
  | succ k =>
    rw [lineLoop_succ]
    split
    · cases lineLoop dX dY sX sY invZStep finish k (lineStep dX dY sX sY invZStep st) <;> simp
    · simp

/-- Every fragment the loop of `drawBresenhamLine` submits before the last one
carries the depth of the start vertex. -/
theorem lineLoop_depth (dX dY sX sY : ℤ) (invZStep : ℚ) (finish : ScreenVertex) (fuel : ℕ) :
    ∀ (st : LineState) (plots : List Plot),
      lineLoop dX dY sX sY invZStep finish fuel st = some plots →
      ∀ pl ∈ plots.dropLast, pl.point.z = st.start.z := by
  induction fuel with
  | zero =>
    intro st plots h pl hpl
    rw [lineLoop_zero] at h
    split at h
    · exact absurd h (by simp)
    · simp only [Option.some.injEq] at h
      subst h
      simp at hpl
  | succ fuel ih =>
    intro st plots h pl hpl
    rw [lineLoop_succ] at h
    split at h
    · cases hrest : lineLoop dX dY sX sY invZStep finish fuel
          (lineStep dX dY sX sY invZStep st) with
      | none => rw [hrest] at h; exact absurd h (by simp)
      | some rest =>
        rw [hrest] at h
        simp only [Option.map_some', Option.some.injEq] at h
        subst h
        have hne : rest ≠ [] := by
          intro he
          subst he
          exact lineLoop_ne_nil _ _ _ _ _ _ _ _ hrest
        rw [List.dropLast_cons_of_ne_nil hne] at hpl
        rcases List.mem_cons.mp hpl with h1 | h1
        · subst h1
          rfl
        · rw [ih _ _ hrest pl h1, lineStep_start_z]
    · simp only [Option.some.injEq] at h
      subst h
      simp at hpl

/-- C12. On the line from `(0, 0)` with depth 1 to `(2, 0)` with depth 1/2
the fragment `drawBresenhamLine` submits at the middle pixel `(1, 0)` carries
the depth 1 of the start vertex, not the interpolated `1 / currentInvZ = 2/3`;
on a fresh 3x1 context the depth buffer afterwards holds `1, 1, 1/2`. -/
theorem line_depth_not_interpolated :
    drawBresenhamLine squareEnv.libm ⟨0, 0, 1⟩ ⟨2, 0, 1 / 2⟩ =
      some [.checked ⟨0, 0, 1⟩, .checked ⟨1, 0, 1⟩, .checked ⟨2, 0, 1 / 2⟩] ∧
    invZ (invZ 1 + (invZ (1 / 2) - invZ 1) / 2) = 2 / 3 ∧
    ((drawBresenhamLine squareEnv.libm ⟨0, 0, 1⟩ ⟨2, 0, 1 / 2⟩).bind fun plots =>
      (SGLContext.new 3 1).map fun ctx => (runPlots ctx plots).depthBuffer) =
      some [((1 : ℚ) : WithTop ℚ), ((1 : ℚ) : WithTop ℚ), ((1 / 2 : ℚ) : WithTop ℚ)] := by
  decide!

/-! ## The filled triangle -/

/-- C13 (as amended). The fill of the triangle `(2,2)`, `(8,2)`, `(5,8)` on
a cleared 10x10 canvas writes the pixel `(5,5)`, does not write the pixel
`(0,0)`, and writes the apex pixel `(5,8)`; the scanline it leaves unwritten is
the lowest one, `y = 2`: the rows written are `y = 3, ..., 8`. -/
theorem triangle_fill_bottom_open :
    (finalContext demoEnv triangleDemo).map (fun ctx =>
      (pixelAt ctx ⟨5, 5, 0⟩, pixelAt ctx ⟨0, 0, 0⟩, pixelAt ctx ⟨5, 8, 0⟩)) =
      some (some ⟨1, 1, 1⟩, some ⟨0, 0, 0⟩, some ⟨1, 1, 1⟩) ∧
    (finalContext demoEnv triangleDemo).map (fun ctx => pixelsOf ctx ⟨1, 1, 1⟩) =
      some [(3, 3), (4, 3), (5, 3), (6, 3), (7, 3), (8, 3),
        (3, 4), (4, 4), (5, 4), (6, 4), (7, 4),
        (4, 5), (5, 5), (6, 5), (7, 5),
        (4, 6), (5, 6), (6, 6),
        (5, 7), (6, 7),
        (5, 8)] := by
  decide!

/-- C13 as stated fails: after the fill the apex pixel `(5,8)` holds the
current colour, not the clear colour. -/
theorem triangle_apex_claim_fails :
    ¬ ((finalContext demoEnv triangleDemo).map (fun ctx =>
      (pixelAt ctx ⟨5, 5, 0⟩, pixelAt ctx ⟨0, 0, 0⟩, pixelAt ctx ⟨5, 8, 0⟩)) =
      some (some ⟨1, 1, 1⟩, some ⟨0, 0, 0⟩, some ⟨0, 0, 0⟩)) := by
  decide!

/-! ## The size of a point -/

theorem flatMap_single {α β : Type} (f : α → β) (l : List α) :
    (l.flatMap fun x => [f x]) = l.map f := by
  induction l with
  | nil => rfl
  | cons x xs ih => simp [List.flatMap_cons, ih]

theorem intRange_eq (a b : ℤ) :
    intRange a b = (List.range (b - a).toNat).map fun i : ℕ => a + (i : ℤ) := by
  unfold intRange
  simp only [List.bind_eq_flatMap, List.pure_def]
  rw [flatMap_single, List.map_map]
  rfl

theorem mem_intRange (a b x : ℤ) : x ∈ intRange a b ↔ a ≤ x ∧ x < b := by
  rw [intRange_eq]
  simp only [List.mem_map, List.mem_range]
  constructor
  · rintro ⟨i, hi, rfl⟩
    omega
  · rintro ⟨h1, h2⟩
    exact ⟨(x - a).toNat, by omega, by omega⟩

theorem intRange_length (a b : ℤ) : (intRange a b).length = (b - a).toNat := by
  simp [intRange_eq]

theorem length_flatMap_map {α β γ : Type} (l1 : List α) (l2 : List β) (g : α → β → γ) :
    (l1.flatMap fun i => l2.map (g i)).length = l1.length * l2.length := by
  induction l1 with
  | nil => simp
  | cons i rest ih =>
    rw [List.flatMap_cons, List.length_append, ih, List.length_map, List.length_cons]
    ring

theorem pointSquare_length (n : ℤ) (v : ScreenVertex) :
    (pointSquare n v).length = n.toNat * n.toNat := by
  unfold pointSquare
  rw [length_flatMap_map (intRange 0 n) (intRange 0 n)
    (fun i j => Plot.checked ⟨v.x + j, v.y + i, v.z⟩), intRange_length]
  simp

/-- C16. `drawPoints` converts the point size `s` by the implicit conversion
`int size = pointSize`, which truncates where the claim rounds to the
nearest integer: for every `0 < s < 2 ^ 31` it stamps at every screen vertex
the `n` by `n` square of pixels with `n = ⌊s⌋`, each pixel submitted to the
bounds and depth tests, `n * n` fragments per vertex at the offsets
`0 ≤ i, j < n`. With `s = 1.5` and the depth test disabled the run of the
commands writes the one pixel `(1, 1)` and not the four of a 2 by 2 square
(`round(1.5) = 2`). The size `3e9`, which `sglPointSize` accepts, is beyond
the range of `int`: the conversion yields `INT_MIN` and nothing is drawn. -/
theorem drawPoints_square (ctx : SGLContext) (hs : 0 < ctx.pointSize)
    (hlt : ctx.pointSize < 2 ^ 31) :
    drawPoints ctx = ctx.screenVertices.flatMap (pointSquare ⌊ctx.pointSize⌋) ∧
    (∀ v : ScreenVertex, (pointSquare ⌊ctx.pointSize⌋ v).length =
      ⌊ctx.pointSize⌋.toNat * ⌊ctx.pointSize⌋.toNat) ∧
    (∀ (v : ScreenVertex) (pl : Plot), pl ∈ pointSquare ⌊ctx.pointSize⌋ v ↔
      ∃ i j : ℤ, 0 ≤ i ∧ i < ⌊ctx.pointSize⌋ ∧ 0 ≤ j ∧ j < ⌊ctx.pointSize⌋ ∧
        pl = .checked ⟨v.x + j, v.y + i, v.z⟩) ∧
    (finalContext demoEnv (pointSizeDemo (3 / 2))).map (fun c => pixelsOf c ⟨1, 1, 1⟩) =
      some [(1, 1)] ∧
    drawPoints pointSizeContext = [.checked ⟨0, 0, 1 / 2⟩] ∧
    roundToInt pointSizeContext.pointSize = 2 ∧
    (finalContext demoEnv (pointSizeDemo 3000000000)).map
      (fun c => (c.pointSize, pixelsOf c ⟨1, 1, 1⟩)) = some (3000000000, []) := by
  refine ⟨?_, fun v => pointSquare_length _ v, ?_, by decide!, by decide!, by decide!, by decide!⟩
  · unfold drawPoints
    rw [floatToInt_pos _ hs hlt]
    rfl
  · intro v pl
    unfold pointSquare
    simp only [List.mem_flatMap, List.mem_map, mem_intRange]
    constructor
    · rintro ⟨i, ⟨hi0, hi1⟩, j, ⟨hj0, hj1⟩, rfl⟩
      exact ⟨i, j, hi0, hi1, hj0, hj1, rfl⟩
    · rintro ⟨i, j, hi0, hi1, hj0, hj1, rfl⟩
      exact ⟨i, ⟨hi0, hi1⟩, j, ⟨hj0, hj1⟩, rfl⟩

theorem drawPoints_square_witness :
    drawPoints pointSizeContext =
      pointSizeContext.screenVertices.flatMap (pointSquare ⌊pointSizeContext.pointSize⌋) :=
  (drawPoints_square pointSizeContext (by decide!) (by decide!)).1

/-! ## The scale factor -/

theorem getCurrentContext_set {s : SGLSceneManager} {ctx : SGLContext}
    (h : getCurrentContext s = some ctx) (c : SGLContext) :
    getCurrentContext (setCurrentContext s c) = some c := by
  obtain ⟨h0, hlt, _⟩ := getCurrentContext_some h
  simp [getCurrentContext, setCurrentContext, h0, hlt]

/-- The scale factor `sglBegin` stores outside a scene block: the square root
of the determinant of the upper left 2x2 block of the recalculated composite. -/
theorem begin_scaleFactor (env : Env) (s : SGLSceneManager) (ctx : SGLContext)
    (mode : sglEElementType) (hc : getCurrentContext s = some ctx)
    (hb : ctx.insideBegin = false) (hs : ctx.insideBeginScene = false) :
    ((sglBegin env mode s).bind getCurrentContext).map (fun c => c.scaleFactor) =
      (recalculateVPMMatrix { ctx with
        currentPrimitiveMode := mode
        insideBegin := true
        screenVertices := []
        verticesList := [] }).map fun c =>
          env.libm.sqrt (c.VPMmatrix.get 0 * c.VPMmatrix.get 5 -
            c.VPMmatrix.get 1 * c.VPMmatrix.get 4) := by
  have hg : (calledWithinBeginEnd.or (isInvalidEnumValue mode)) s = some (false, s) := by
    simp [Guard.or, calledWithinBeginEnd, hc, hb, isInvalidEnumValue]
  simp only [sglBegin, guarded, hg]
  rw [modifyContext_eq _ hc]
  have hs1 : (!ctx.insideBeginScene) = true := by
    rw [hs]
    rfl
  dsimp only
  rw [if_pos hs1]
  generalize recalculateVPMMatrix _ = r
  cases r with
  | none => rfl
  | some c1 =>
    simp only [Option.map_some', Option.some_bind, getCurrentContext_set hc]
    rfl

/-- C17. After the mirror `sglScale(-1, 1, 1)` on a fresh context, `sglBegin`
stores as scale factor the square root of the determinant `-1` itself, not of
its absolute value: whatever the square root function, the stored value is
`sqrt(-1)`, which the C library answers with a NaN, while the unmirrored
`sglScale(1, 1, 1)` stores `sqrt(1)`. -/
theorem scale_factor_mirror (env : Env) :
    (finalContext env (mirrorDemo (-1))).map (fun ctx => ctx.scaleFactor) =
      some (env.libm.sqrt (-1)) ∧
    (finalContext env (mirrorDemo 1)).map (fun ctx => ctx.scaleFactor) =
      some (env.libm.sqrt 1) := by
  have key : ∀ x d : ℚ,
      ((run demoEnv [.CreateContext 2 2, .SetContext 0, .Scale x 1 1] sglInit).bind fun s =>
        (getCurrentContext s).bind fun ctx =>
          (recalculateVPMMatrix { ctx with
            currentPrimitiveMode := SGL_POINTS
            insideBegin := true
            screenVertices := []
            verticesList := [] }).map fun c =>
              (ctx.insideBegin, ctx.insideBeginScene,
                c.VPMmatrix.get 0 * c.VPMmatrix.get 5 - c.VPMmatrix.get 1 * c.VPMmatrix.get 4)) =
        some (false, false, d) →
      (finalContext env (mirrorDemo x)).map (fun ctx => ctx.scaleFactor) =
        some (env.libm.sqrt d) := by
    intro x d h
    have hrun : run env (mirrorDemo x) sglInit =
        (run demoEnv [.CreateContext 2 2, .SetContext 0, .Scale x 1 1] sglInit).bind
          (sglBegin env SGL_POINTS) := by
      show run env ([.CreateContext 2 2, .SetContext 0, .Scale x 1 1] ++ [.Begin SGL_POINTS])
        sglInit = _
      rw [run_append]
      have e : run env [.CreateContext 2 2, .SetContext 0, .Scale x 1 1] sglInit =
          run demoEnv [.CreateContext 2 2, .SetContext 0, .Scale x 1 1] sglInit := rfl
      rw [e]
      cases run demoEnv [.CreateContext 2 2, .SetContext 0, .Scale x 1 1] sglInit with
      | none => rfl
      | some s1 =>
        simp only [Option.some_bind, run, step]
        cases sglBegin env SGL_POINTS s1 <;> rfl
    unfold finalContext
    rw [hrun]
    cases hs1 : run demoEnv [.CreateContext 2 2, .SetContext 0, .Scale x 1 1] sglInit with
    | none => rw [hs1] at h; exact absurd h (by simp)
    | some s1 =>
      rw [hs1] at h
      simp only [Option.some_bind] at h ⊢
      cases hc : getCurrentContext s1 with
      | none => rw [hc] at h; exact absurd h (by simp)
      | some ctx =>
        rw [hc] at h
        simp only [Option.some_bind, Option.map_eq_some', Prod.mk.injEq] at h
        obtain ⟨c1, hr, hb, hsc, hd⟩ := h
        rw [begin_scaleFactor env s1 ctx SGL_POINTS hc hb hsc, hr, Option.map_some', hd]
  exact ⟨key (-1) (-1) (by decide!), key 1 1 (by decide!)⟩

/-! ## Arguments outside the enumeration -/

/-- The check `isInvalidEnumValue` lets every value through and writes nothing. -/
theorem isInvalidEnumValue_never (value : ℤ) (s : SGLSceneManager) :
    isInvalidEnumValue value s = some (false, s) := rfl

/-- Outside begin/end the three commands with an enumeration argument store
the argument, whatever its value. -/
theorem enum_commands_store (env : Env) (s : SGLSceneManager) (ctx : SGLContext) (mode : ℤ)
    (hc : getCurrentContext s = some ctx) (hb : ctx.insideBegin = false) :
    sglAreaMode mode s = some (setCurrentContext s { ctx with currentAreaMode := mode }) ∧
    sglMatrixMode mode s = some (setCurrentContext s { ctx with currentMatrixMode := mode }) ∧
    ∃ ctx' : Option SGLContext, sglBegin env mode s = ctx'.map (setCurrentContext s) ∧
      ∀ c ∈ ctx', c.currentPrimitiveMode = mode ∧ c.insideBegin = true := by
  have hg : ((contextNotInitialized.or calledWithinBeginEnd).or (isInvalidEnumValue mode)) s =
      some (false, s) := by
    simp [Guard.or, contextNotInitialized, calledWithinBeginEnd, hc, hb, isInvalidEnumValue]
  have hg2 : (calledWithinBeginEnd.or (isInvalidEnumValue mode)) s = some (false, s) := by
    simp [Guard.or, calledWithinBeginEnd, hc, hb, isInvalidEnumValue]
  refine ⟨?_, ?_, ?_⟩
  · simp only [sglAreaMode, guarded, hg]
    rw [modifyContext_eq _ hc]
    rfl
  · simp only [sglMatrixMode, guarded, hg]
    rw [modifyContext_eq _ hc]
    rfl
  · simp only [sglBegin, guarded, hg2]
    rw [modifyContext_eq _ hc]
    refine ⟨_, rfl, ?_⟩
    intro c hmem
    dsimp only at hmem
    split at hmem
    · simp only [Option.mem_def, Option.map_eq_some'] at hmem
      obtain ⟨c1, h1, rfl⟩ := hmem
      unfold recalculateVPMMatrix at h1
      simp only [Option.bind_eq_bind, Option.bind_eq_some] at h1
      obtain ⟨_, _, _, _, _, _, _, _, _, _, _, _, h2⟩ := h1
      simp only [Option.some.injEq] at h2
      subst h2
      exact ⟨rfl, rfl⟩
    · simp only [Option.mem_def, Option.some.injEq] at hmem
      subst hmem
      exact ⟨rfl, rfl⟩

/-- C18. On a fresh current context, outside begin/end, `sglAreaMode(3)`,
`sglMatrixMode(2)` and `sglBegin(0)` (arguments outside the domains `0..2`,
`0..1`, `1..6`) leave the error register at `SGL_NO_ERROR` and store the
argument as the area mode, the matrix mode and the primitive mode; `sglBegin`
also sets `insideBegin`. -/
theorem invalid_enum_stored :
    ((sglAreaMode 3 (demoManager (demoContext ⟨0, 0, 0⟩ true false [] SGL_POINTS))).bind
      fun s => (getCurrentContext s).map fun c => (s.errorCode, c.currentAreaMode)) =
      some (SGL_NO_ERROR, 3) ∧
    ((sglMatrixMode 2 (demoManager (demoContext ⟨0, 0, 0⟩ true false [] SGL_POINTS))).bind
      fun s => (getCurrentContext s).map fun c => (s.errorCode, c.currentMatrixMode)) =
      some (SGL_NO_ERROR, 2) ∧
    ((sglBegin demoEnv 0 (demoManager (demoContext ⟨0, 0, 0⟩ true false [] SGL_POINTS))).bind
      fun s => (getCurrentContext s).map fun c =>
        (s.errorCode, c.currentPrimitiveMode, c.insideBegin)) =
      some (SGL_NO_ERROR, 0, true) := by
  decide!

/-! ## The order of the checks -/

/-- C19. `sglOrtho`, `sglFrustum`, `sglViewport` and `sglEllipse` test their
arguments before they run any guard, where the other commands run the guards
first: called inside begin/end with an argument out of range (`l = r`,
`n ≤ 0`, `width ≤ 0`, `a ≤ 0`) while the register holds `SGL_NO_ERROR`, each of
them leaves `SGL_INVALID_VALUE` in the register, not the
`SGL_INVALID_OPERATION` of the guard chain, and changes nothing else; with
arguments in range the same call leaves `SGL_INVALID_OPERATION`. -/
theorem argument_check_precedes_guards (env : Env) (s : SGLSceneManager) (ctx : SGLContext)
    (hc : getCurrentContext s = some ctx) (hb : ctx.insideBegin = true)
    (he : s.errorCode = SGL_NO_ERROR) :
    (∀ l r b t n f : ℚ, l = r →
      sglOrtho l r b t n f s = some { s with errorCode := SGL_INVALID_VALUE }) ∧
    (∀ l r b t n f : ℚ, n ≤ 0 →
      sglFrustum l r b t n f s = some { s with errorCode := SGL_INVALID_VALUE }) ∧
    (∀ x y width height : ℤ, width ≤ 0 →
      sglViewport x y width height s = some { s with errorCode := SGL_INVALID_VALUE }) ∧
    (∀ cx cy cz a b : ℚ, a ≤ 0 →
      sglEllipse env cx cy cz a b s = some { s with errorCode := SGL_INVALID_VALUE }) ∧
    (∀ l r b t n f : ℚ, l ≠ r → b ≠ t → n ≠ f →
      sglOrtho l r b t n f s = some { s with errorCode := SGL_INVALID_OPERATION }) ∧
    (∀ l r b t n f : ℚ, l ≠ r → b ≠ t → 0 < n → 0 < f →
      sglFrustum l r b t n f s = some { s with errorCode := SGL_INVALID_OPERATION }) ∧
    (∀ x y width height : ℤ, 0 < width → 0 < height →
      sglViewport x y width height s = some { s with errorCode := SGL_INVALID_OPERATION }) ∧
    (∀ cx cy cz a b : ℚ, 0 < a → 0 < b →
      sglEllipse env cx cy cz a b s = some { s with errorCode := SGL_INVALID_OPERATION }) := by
  have hset : ∀ c : sglEErrorCode, setErrCode c s = { s with errorCode := c } := by
    intro c
    simp only [setErrCode, he, if_true]
  have hg : (contextNotInitialized.or calledWithinBeginEnd) s =
      some (true, { s with errorCode := SGL_INVALID_OPERATION }) := by
    simp [Guard.or, contextNotInitialized, calledWithinBeginEnd, hc, hb, hset]
  refine ⟨?_, ?_, ?_, ?_, ?_, ?_, ?_, ?_⟩
  · intro l r b t n f h
    simp only [sglOrtho, h, true_or, if_true, hset]
  · intro l r b t n f h
    simp only [sglFrustum, h, true_or, or_true, if_true, hset]
  · intro x y width height h
    simp only [sglViewport, h, true_or, if_true, hset]
  · intro cx cy cz a b h
    simp only [sglEllipse, h, true_or, if_true, hset]
  · intro l r b t n f h1 h2 h3
    simp only [sglOrtho, h1, h2, h3, or_self, if_false, multWithCurrentMatrix, guarded, hg]
  · intro l r b t n f h1 h2 h3 h4
    simp only [sglFrustum, h1, h2, not_le.mpr h3, not_le.mpr h4, or_self, if_false,
      multWithCurrentMatrix, guarded, hg]
  · intro x y width height h1 h2
    simp only [sglViewport, not_le.mpr h1, not_le.mpr h2, or_self, if_false, guarded, hg]
  · intro cx cy cz a b h1 h2
    simp only [sglEllipse, not_le.mpr h1, not_le.mpr h2, or_self, if_false, guarded, hg]

theorem argument_check_precedes_guards_witness :
    sglOrtho 0 0 0 1 0 1 (demoManager (demoContext ⟨0, 0, 0⟩ true true [] SGL_POINTS)) =
      some { demoManager (demoContext ⟨0, 0, 0⟩ true true [] SGL_POINTS) with
        errorCode := SGL_INVALID_VALUE } :=
  (argument_check_precedes_guards demoEnv
    (demoManager (demoContext ⟨0, 0, 0⟩ true true [] SGL_POINTS))
    (demoContext ⟨0, 0, 0⟩ true true [] SGL_POINTS) rfl rfl rfl).1 0 0 0 1 0 1 rfl

/-- The four calls at concrete arguments: inside begin/end, with the register
at `SGL_NO_ERROR`, the calls `sglOrtho(0, 0, ...)` (`l = r`),
`sglFrustum(.., n = 0, ..)`, `sglViewport(0, 0, 0, 1)` and
`sglEllipse(.., a = 0, ..)` leave `SGL_INVALID_VALUE` in the register, not
`SGL_INVALID_OPERATION`. -/
theorem guard_order_claim_fails :
    ([sglOrtho 0 0 0 1 0 1 (demoManager (demoContext ⟨0, 0, 0⟩ true true [] SGL_POINTS)),
      sglFrustum 0 1 0 1 0 1 (demoManager (demoContext ⟨0, 0, 0⟩ true true [] SGL_POINTS)),
      sglViewport 0 0 0 1 (demoManager (demoContext ⟨0, 0, 0⟩ true true [] SGL_POINTS)),
      sglEllipse demoEnv 0 0 0 0 1
        (demoManager (demoContext ⟨0, 0, 0⟩ true true [] SGL_POINTS))].map
      fun r => r.map fun s => s.errorCode) =
      [some SGL_INVALID_VALUE, some SGL_INVALID_VALUE, some SGL_INVALID_VALUE,
        some SGL_INVALID_VALUE] ∧
    ¬ (∀ (s : SGLSceneManager) (ctx : SGLContext) (l r b t n f : ℚ),
      getCurrentContext s = some ctx → ctx.insideBegin = true → s.errorCode = SGL_NO_ERROR →
      l = r → (sglOrtho l r b t n f s).map (fun s' => s'.errorCode) =
        some SGL_INVALID_OPERATION) := by
  refine ⟨by decide!, fun h => ?_⟩
  have h1 := h (demoManager (demoContext ⟨0, 0, 0⟩ true true [] SGL_POINTS))
    (demoContext ⟨0, 0, 0⟩ true true [] SGL_POINTS) 0 0 0 1 0 1 rfl rfl rfl rfl
  revert h1
  decide!

/-! ## Commands without a current context -/

theorem getCurrentContext_neg (s : SGLSceneManager) (h : s.currentContextId < 0) :
    getCurrentContext s = none := by
  unfold getCurrentContext
  rw [if_neg (by omega)]

/-- Without a current context every guard of `context.cpp` looks up
`contexts[-1]`: none of them has a result. -/
theorem guards_neg (s : SGLSceneManager) (h : s.currentContextId < 0) :
    contextNotInitialized s = none ∧ calledWithinBeginEnd s = none ∧
      calledOutsideBeginEnd s = none := by
  simp [contextNotInitialized, calledWithinBeginEnd, calledOutsideBeginEnd,
    getCurrentContext_neg s h]

/-- C20. With no current context (`currentContextId = -1`), directly after
`sglInit` and also after a `sglCreateContext` without `sglSetContext`, the
commands `sglBegin`, `sglVertex3f`, `sglEnd`, `sglClearColor` and
`sglPushMatrix` all start by reading `contexts[-1]`: the read has no result,
and none of them gets as far as recording `SGL_INVALID_OPERATION`. -/
theorem no_context_lookup (env : Env) :
    sglInit.currentContextId = -1 ∧ getCurrentContext sglInit = none ∧
    ([Command.Begin SGL_POINTS, Command.Vertex3f 0 0 0, Command.End,
      Command.ClearColor 0 0 0 0, Command.PushMatrix].map fun c => step env c sglInit) =
      [none, none, none, none, none] ∧
    ((step env (Command.CreateContext 10 10) sglInit).map fun s =>
      (s.currentContextId, s.contexts.length, getCurrentContext s,
        [Command.Begin SGL_POINTS, Command.Vertex3f 0 0 0, Command.End,
          Command.ClearColor 0 0 0 0, Command.PushMatrix].map fun c => step env c s)) =
      some (-1, 1, none, [none, none, none, none, none]) :=
  ⟨rfl, rfl, rfl, rfl⟩

/-! ## A single point -/

theorem viewportSetup_run (env : Env) (W H : ℤ) (r g b : ℚ) (hW : 0 < W) (hH : 0 < H)
    (hWH : W * H < 2 ^ 31) :
    run env (viewportSetup W H r g b) sglInit =
      some (demoManager (viewportContext W H ⟨r, g, b⟩)) := by
  have h0 : 0 < W * H := mul_pos hW hH
  have hw : wrapInt32 (W * H) = W * H := wrapInt32_of_range _ (by omega) hWH
  have h1 : ¬ W * H < 0 := not_lt.mpr (le_of_lt h0)
  have h2 : ¬ (W ≤ 0 ∨ H ≤ 0) := by omega
  simp only [viewportSetup, run, step, sglCreateContext, SGLContext.new, hw, if_neg h1, sglInit,
    Option.map_some', Option.some_bind, Option.bind_eq_bind, List.nil_append, List.length_nil,
    sglSetContext, isValidContextId, sglColor3f, sglViewport, if_neg h2, guarded, Guard.or,
    contextNotInitialized, calledWithinBeginEnd, getCurrentContext, modifyContext,
    setCurrentContext]
  simp
  rfl

theorem viewportOf_mul_identity (x y W H : ℤ) :
    (viewportOf x y W H).mul (Matrix.identity.mul Matrix.identity) = viewportOf x y W H := by
  have e : Matrix.identity.mul Matrix.identity = Matrix.identity := by decide!
  rw [e]
  have e2 : ∀ a b : Matrix, a.data = b.data → a = b := by
    intro a b hab
    cases a
    cases b
    simp only at hab
    rw [hab]
  apply e2
  rw [mul_data]
  simp [Matrix.get, viewportOf, Matrix.identity]

/-- With identity stacks `sglBegin` installs the viewport matrix as composite. -/
theorem begin_viewportContext (env : Env) (W H : ℤ) (color : Pixel) (mode : sglEElementType) :
    sglBegin env mode (demoManager (viewportContext W H color)) =
      some (demoManager (setScaleFactor env.libm { viewportContext W H color with
        currentPrimitiveMode := mode
        insideBegin := true
        VPMmatrix := viewportOf 0 0 W H })) := by
  have hg : (calledWithinBeginEnd.or (isInvalidEnumValue mode))
      (demoManager (viewportContext W H color)) =
      some (false, demoManager (viewportContext W H color)) := rfl
  simp only [sglBegin, guarded, hg]
  rw [modifyContext_eq _ (rfl : getCurrentContext (demoManager (viewportContext W H color)) =
    some (viewportContext W H color))]
  have hr : recalculateVPMMatrix { viewportContext W H color with
        currentPrimitiveMode := mode
        insideBegin := true
        screenVertices := []
        verticesList := [] } =
      some { viewportContext W H color with
        currentPrimitiveMode := mode
        insideBegin := true
        VPMmatrix := viewportOf 0 0 W H } := by
    have hl : (Matrix.identity.mul Matrix.identity).data.getLast? = some 1 := by decide!
    simp only [recalculateVPMMatrix, stackAt, viewportContext, SGL_PROJECTION, SGL_MODELVIEW]
    simp [hl, viewportOf_mul_identity]
  have hs : (!(viewportContext W H color).insideBeginScene) = true := rfl
  rw [if_pos hs]
  exact congrArg (fun o => Option.map (setCurrentContext (demoManager (viewportContext W H color)))
    (Option.map (setScaleFactor env.libm) o)) hr

theorem toScreenVertex_viewport (ctx : SGLContext) (W H : ℤ) (x y z : ℚ)
    (h : ctx.VPMmatrix = viewportOf 0 0 W H) :
    toScreenVertex ctx (Vertex.mk3 x y z) = viewportPixel W H x y z := by
  unfold viewportPixel toScreenVertex transformPoint
  rw [h]

theorem round_zero : F32.round 0 = 0 := by decide!

theorem round_one : F32.round 1 = 1 := by decide!

/-- The depth of the screen vertex of a vertex whose depth `z` is a `float`:
the `float` value of `(z + 1) * 0.5`. -/
theorem viewportPixel_z (W H : ℤ) (x y z : ℚ) (hz : F32.round z = z) :
    (viewportPixel W H x y z).z = F32.mul (F32.add z 1) (1 / 2) := by
  simp [viewportPixel, toScreenVertex, transformPoint, Matrix.mulVertex, Matrix.rowTimes,
    Matrix.get, viewportOf, Vertex.mk3, F32.mul, F32.add, F32.div, round_zero, round_one, hz]

theorem cellAt_bufSet_ne {α : Type} (buffer : List α) (i j : ℤ) (a : α) (h : i ≠ j) :
    cellAt (bufSet buffer i a) j = cellAt buffer j := by
  unfold cellAt bufSet
  by_cases hj : 0 ≤ j
  · rw [if_pos hj, if_pos hj]
    by_cases hi : 0 ≤ i
    · rw [if_pos hi, List.get?_eq_getElem?, List.get?_eq_getElem?, List.getElem?_set_ne]
      omega
    · rw [if_neg hi]
  · rw [if_neg hj, if_neg hj]

/-- Two points of the canvas with the same buffer index are the same pixel. -/
theorem index_injective {ctx : SGLContext} {p q : ScreenVertex} (hp : inCanvas ctx p)
    (hq : inCanvas ctx q)
    (h : coord2DTo1D p.x p.y ctx.width = coord2DTo1D q.x q.y ctx.width) :
    p.x = q.x ∧ p.y = q.y := by
  obtain ⟨p1, p2, p3, p4⟩ := hp
  obtain ⟨q1, q2, q3, q4⟩ := hq
  unfold coord2DTo1D at h
  have hy : p.y = q.y := by
    by_contra hne
    rcases lt_or_gt_of_ne hne with hlt | hgt
    · have : (p.y + 1) * ctx.width ≤ q.y * ctx.width :=
        mul_le_mul_of_nonneg_right (by omega) (by omega)
      nlinarith
    · have : (q.y + 1) * ctx.width ≤ p.y * ctx.width :=
        mul_le_mul_of_nonneg_right (by omega) (by omega)
      nlinarith
  rw [hy] at h
  exact ⟨by omega, hy⟩

theorem bufGet_replicate {α : Type} (n : ℕ) (a d : α) (i : ℤ) (h0 : 0 ≤ i) (h1 : i < (n : ℤ)) :
    bufGet (List.replicate n a) i d = a := by
  unfold bufGet
  rw [if_pos h0]
  have h2 : i.toNat < n := by omega
  simp [List.getD_eq_getElem?_getD, List.getElem?_replicate, h2]

theorem vertex3f_inside (ctx : SGLContext) (x y z : ℚ) (hb : ctx.insideBegin = true) :
    sglVertex3f x y z (demoManager ctx) =
      some (demoManager { ctx with verticesList := ctx.verticesList ++ [Vertex.mk3 x y z] }) := by
  have hc : getCurrentContext (demoManager ctx) = some ctx := rfl
  simp only [sglVertex3f, hc, hb, Bool.not_true, Bool.false_eq_true, if_false]
  rfl

/-- In `SGL_POINTS` mode `sglEnd` turns the accumulated vertices into screen
vertices and draws them as points. -/
theorem end_points (env : Env) (ctx : SGLContext) (hb : ctx.insideBegin = true)
    (hs : ctx.insideBeginScene = false) (hm : ctx.currentPrimitiveMode = SGL_POINTS) :
    sglEnd env (demoManager ctx) =
      some (demoManager (runPlots
        { ctx with
          insideBegin := false
          screenVertices := ctx.screenVertices ++ ctx.verticesList.map (toScreenVertex ctx) }
        (drawPoints { ctx with
          insideBegin := false
          screenVertices := ctx.screenVertices ++ ctx.verticesList.map (toScreenVertex ctx) }))) := by
  have hc : getCurrentContext (demoManager ctx) = some ctx := rfl
  have hg : calledOutsideBeginEnd (demoManager ctx) = some (false, demoManager ctx) := by
    simp [calledOutsideBeginEnd, hc, hb]
  simp only [sglEnd, guarded, hg]
  rw [modifyContext_eq _ hc]
  simp only [hs, Bool.false_eq_true, if_false, dispatchPrimitive, hm, if_true, Option.map_some']
  rfl

theorem drawPoints_single (ctx : SGLContext) (p : ScreenVertex) (hs : ctx.pointSize = 1)
    (hv : ctx.screenVertices = [p]) : drawPoints ctx = [.checked p] := by
  have h1 : floatToInt 1 = 1 := by decide!
  have h2 : intRange 0 1 = [0] := by decide
  unfold drawPoints
  rw [hs, hv, h1]
  show ([p].flatMap fun v => (intRange 0 1).flatMap fun i =>
    (intRange 0 1).map fun j => Plot.checked ⟨v.x + j, v.y + i, v.z⟩) = _
  rw [h2]
  simp

/-- The three commands `Begin(POINTS); Vertex3f(x, y, z); End` on the viewport
context submit the one fragment `viewportPixel W H x y z`. -/
theorem point_run (env : Env) (W H : ℤ) (color : Pixel) (x y z : ℚ) :
    ∃ ctxE : SGLContext,
      run env [.Begin SGL_POINTS, .Vertex3f x y z, .End]
          (demoManager (viewportContext W H color)) =
        some (demoManager (Plot.apply ctxE (.checked (viewportPixel W H x y z)))) ∧
      ctxE.width = W ∧ ctxE.height = H ∧
      ctxE.colorBuffer = (viewportContext W H color).colorBuffer ∧
      ctxE.depthBuffer = (viewportContext W H color).depthBuffer ∧
      ctxE.enabledDepthTest = true ∧ ctxE.currentColor = color ∧
      ctxE.screenVertices = [viewportPixel W H x y z] := by
  obtain ⟨ctxB, hB, b1, b2, b3, b4, b5, b6, b7, b8, b9, b10, b11, b12, b13⟩ :
      ∃ ctxB : SGLContext,
        sglBegin env SGL_POINTS (demoManager (viewportContext W H color)) =
          some (demoManager ctxB) ∧
        ctxB.insideBegin = true ∧ ctxB.insideBeginScene = false ∧
        ctxB.currentPrimitiveMode = SGL_POINTS ∧ ctxB.VPMmatrix = viewportOf 0 0 W H ∧
        ctxB.verticesList = [] ∧ ctxB.screenVertices = [] ∧ ctxB.pointSize = 1 ∧
        ctxB.width = W ∧ ctxB.height = H ∧
        ctxB.colorBuffer = (viewportContext W H color).colorBuffer ∧
        ctxB.depthBuffer = (viewportContext W H color).depthBuffer ∧
        ctxB.enabledDepthTest = true ∧ ctxB.currentColor = color :=
    ⟨_, begin_viewportContext env W H color SGL_POINTS, rfl, rfl, rfl, rfl, rfl, rfl, rfl, rfl,
      rfl, rfl, rfl, rfl, rfl⟩
  obtain ⟨ctxV, hVdef⟩ : ∃ c : SGLContext,
      c = { ctxB with verticesList := ctxB.verticesList ++ [Vertex.mk3 x y z] } := ⟨_, rfl⟩
  obtain ⟨ctxE, hEdef⟩ : ∃ c : SGLContext,
      c = { ctxV with
        insideBegin := false
        screenVertices := ctxV.screenVertices ++ ctxV.verticesList.map (toScreenVertex ctxV) } :=
    ⟨_, rfl⟩
  have hV : sglVertex3f x y z (demoManager ctxB) = some (demoManager ctxV) := by
    rw [hVdef]
    exact vertex3f_inside ctxB x y z b1
  have hE : sglEnd env (demoManager ctxV) =
      some (demoManager (runPlots ctxE (drawPoints ctxE))) := by
    rw [hEdef]
    exact end_points env ctxV (by rw [hVdef]; exact b1) (by rw [hVdef]; exact b2)
      (by rw [hVdef]; exact b3)
  have hsv : ctxE.screenVertices = [viewportPixel W H x y z] := by
    have hp : toScreenVertex ctxV (Vertex.mk3 x y z) = viewportPixel W H x y z :=
      toScreenVertex_viewport ctxV W H x y z (by rw [hVdef]; exact b4)
    have e1 : ctxV.screenVertices = [] := by rw [hVdef]; exact b6
    have e2 : ctxV.verticesList = [Vertex.mk3 x y z] := by
      rw [hVdef]
      show ctxB.verticesList ++ _ = _
      rw [b5]
      rfl
    rw [hEdef]
    show ctxV.screenVertices ++ ctxV.verticesList.map (toScreenVertex ctxV) = _
    rw [e1, e2, List.nil_append, List.map_singleton, hp]
  have hps : ctxE.pointSize = 1 := by rw [hEdef, hVdef]; exact b7
  have hD := drawPoints_single ctxE (viewportPixel W H x y z) hps hsv
  refine ⟨ctxE, ?_, ?_, ?_, ?_, ?_, ?_, ?_, hsv⟩
  · have hrun : run env [.Begin SGL_POINTS, .Vertex3f x y z, .End]
        (demoManager (viewportContext W H color)) =
      ((sglBegin env SGL_POINTS (demoManager (viewportContext W H color))).bind
        fun s1 => (sglVertex3f x y z s1).bind fun s2 => (sglEnd env s2).bind some) := rfl
    rw [hrun, hB, Option.some_bind, hV, Option.some_bind, hE, Option.some_bind, hD]
    rfl
  · rw [hEdef, hVdef]; exact b8
  · rw [hEdef, hVdef]; exact b9
  · rw [hEdef, hVdef]; exact b10
  · rw [hEdef, hVdef]; exact b11
  · rw [hEdef, hVdef]; exact b12
  · rw [hEdef, hVdef]; exact b13

/-- A fragment inside the canvas that passes the depth test overwrites the
colour and the depth of its pixel. -/
theorem apply_checked_pass {ctx : SGLContext} {p : ScreenVertex}
    (hd : ctx.enabledDepthTest = true) (hin : inCanvas ctx p)
    (hpass : ((F32.sub p.z EPSILON : ℚ) : WithTop ℚ) <
      bufGet ctx.depthBuffer (coord2DTo1D p.x p.y ctx.width) 0) :
    Plot.apply ctx (.checked p) =
      { ctx with
        colorBuffer := bufSet ctx.colorBuffer (coord2DTo1D p.x p.y ctx.width) ctx.currentColor
        depthBuffer := bufSet ctx.depthBuffer (coord2DTo1D p.x p.y ctx.width) (p.z : ℚ) } := by
  simp only [Plot.apply, boundsAndDepthCheck_inCanvas hd hin, if_pos hpass, Plot.point, if_true]

/-- C15. On a fresh `W` by `H` context whose size `W * H` is an `int`
(identity stacks, depth buffer all 1, depth test enabled, point size 1) with
the current colour `(r, g, b)`, after `Viewport(0, 0, W, H)`, the sequence
`Begin(POINTS); Vertex3f(x, y, z); End` whose vertex maps to a pixel `p`
inside the canvas and passes the depth test against the cleared depth 1 has a
result: the colour of `p` is the current colour, its depth is the `float`
`(z + 1) * 0.5`, and the two buffers are the old ones with that one entry
written, so no other pixel and no other depth entry has changed. The pixel
is the truncated `float` coordinate: on the 10x10 canvas the `float`
`13421772 / 2 ^ 26` just below `1/5` gives the pixel `(6, 5)`. When `W * H`
leaves the range of `int` the claim fails: `sglCreateContext(65536, 65536)`
succeeds with buffers of length 0, so the pixel `(32768, 32768)` of the vertex
`(0, 0, 0)` has no entry to receive the colour. -/
theorem single_point (env : Env) (W H : ℤ) (r g b x y z : ℚ) (hW : 0 < W) (hH : 0 < H)
    (hWH : W * H < 2 ^ 31)
    (hin : inCanvas (viewportContext W H ⟨r, g, b⟩) (viewportPixel W H x y z))
    (hz : F32.sub (viewportPixel W H x y z).z EPSILON < 1) :
    finalContext env (viewportSetup W H r g b) = some (viewportContext W H ⟨r, g, b⟩) ∧
    ∃ ctx1 : SGLContext,
      finalContext env
          (viewportSetup W H r g b ++ [.Begin SGL_POINTS, .Vertex3f x y z, .End]) =
        some ctx1 ∧
      ctx1.width = W ∧ ctx1.height = H ∧
      ctx1.screenVertices = [viewportPixel W H x y z] ∧
      pixelAt ctx1 (viewportPixel W H x y z) = some ⟨r, g, b⟩ ∧
      depthAt ctx1 (viewportPixel W H x y z) =
        some (((viewportPixel W H x y z).z : ℚ) : WithTop ℚ) ∧
      (F32.round z = z → (viewportPixel W H x y z).z = F32.mul (F32.add z 1) (1 / 2)) ∧
      ctx1.colorBuffer = bufSet (viewportContext W H ⟨r, g, b⟩).colorBuffer
        (coord2DTo1D (viewportPixel W H x y z).x (viewportPixel W H x y z).y W) ⟨r, g, b⟩ ∧
      ctx1.depthBuffer = bufSet (viewportContext W H ⟨r, g, b⟩).depthBuffer
        (coord2DTo1D (viewportPixel W H x y z).x (viewportPixel W H x y z).y W)
        (((viewportPixel W H x y z).z : ℚ) : WithTop ℚ) ∧
      (∀ q : ScreenVertex, inCanvas (viewportContext W H ⟨r, g, b⟩) q →
        q.x ≠ (viewportPixel W H x y z).x ∨ q.y ≠ (viewportPixel W H x y z).y →
        pixelAt ctx1 q = pixelAt (viewportContext W H ⟨r, g, b⟩) q ∧
          depthAt ctx1 q = depthAt (viewportContext W H ⟨r, g, b⟩) q) ∧
      viewportPixel 10 10 (13421772 / 67108864) 0 0 = ⟨6, 5, 1 / 2⟩ ∧
      (finalContext demoEnv (viewportSetup 65536 65536 1 1 1 ++
          [.Begin SGL_POINTS, .Vertex3f 0 0 0, .End])).map
        (fun c => (c.width, c.height, c.colorBuffer.length, c.depthBuffer.length)) =
          some (65536, 65536, 0, 0) ∧
      (finalContext demoEnv (viewportSetup 65536 65536 1 1 1 ++
          [.Begin SGL_POINTS, .Vertex3f 0 0 0, .End])).map
        (fun c => (c.screenVertices, pixelAt c ⟨32768, 32768, 1 / 2⟩)) =
          some ([⟨32768, 32768, 1 / 2⟩], none) := by
  have hsetup := viewportSetup_run env W H r g b hW hH hWH
  obtain ⟨ctxE, hrun, e1, e2, e3, e4, e5, e6, e7⟩ := point_run env W H ⟨r, g, b⟩ x y z
  have hinE : inCanvas ctxE (viewportPixel W H x y z) := by
    unfold inCanvas
    rw [e1, e2]
    exact hin
  have hlen : (viewportContext W H ⟨r, g, b⟩).colorBuffer.length =
      ((viewportContext W H ⟨r, g, b⟩).width * (viewportContext W H ⟨r, g, b⟩).height).toNat := by
    simp [viewportContext]
  obtain ⟨i0, i1⟩ := index_inCanvas hin hlen
  have hwidth : (viewportContext W H ⟨r, g, b⟩).width = W := rfl
  rw [hwidth] at i0 i1
  have hdl : (viewportContext W H ⟨r, g, b⟩).depthBuffer.length =
      (viewportContext W H ⟨r, g, b⟩).colorBuffer.length := by
    simp [viewportContext]
  have hpass : ((F32.sub (viewportPixel W H x y z).z EPSILON : ℚ) : WithTop ℚ) <
      bufGet ctxE.depthBuffer
        (coord2DTo1D (viewportPixel W H x y z).x (viewportPixel W H x y z).y ctxE.width) 0 := by
    rw [e4, e1]
    have hrep : (viewportContext W H ⟨r, g, b⟩).depthBuffer =
        List.replicate (W * H).toNat ((1 : ℚ) : WithTop ℚ) := rfl
    rw [hrep, bufGet_replicate _ _ _ _ i0 (by
      have : (viewportContext W H ⟨r, g, b⟩).colorBuffer.length = (W * H).toNat := by
        simp [viewportContext]
      rw [this] at i1
      exact i1)]
    rw [WithTop.coe_lt_coe]
    exact hz
  have happly := apply_checked_pass e5 hinE hpass
  rw [e1, e3, e4, e6] at happly
  have hfinal : finalContext env
      (viewportSetup W H r g b ++ [.Begin SGL_POINTS, .Vertex3f x y z, .End]) =
      some (Plot.apply ctxE (.checked (viewportPixel W H x y z))) := by
    unfold finalContext
    rw [run_append, hsetup, Option.some_bind, hrun]
    rfl
  refine ⟨?_, Plot.apply ctxE (.checked (viewportPixel W H x y z)), hfinal, ?_, ?_, ?_, ?_, ?_,
    viewportPixel_z W H x y z, ?_, ?_, ?_, by decide!, by decide!, by decide!⟩
  · unfold finalContext
    rw [hsetup]
    rfl
  · rw [happly]
  · rw [happly]; exact e2
  · rw [happly]; exact e7
  · unfold pixelAt
    rw [happly]
    exact cellAt_bufSet_self _ _ _ i0 i1
  · unfold depthAt
    rw [happly]
    exact cellAt_bufSet_self _ _ _ i0 (by rw [hdl]; exact i1)
  · rw [happly]
  · rw [happly]
  · intro q hq hne
    have hidx : coord2DTo1D (viewportPixel W H x y z).x (viewportPixel W H x y z).y W ≠
        coord2DTo1D q.x q.y W := by
      intro heq
      have := index_injective hin hq heq
      rcases hne with h | h
      · exact h this.1.symm
      · exact h this.2.symm
    unfold pixelAt depthAt
    rw [happly]
    exact ⟨cellAt_bufSet_ne _ _ _ _ hidx, cellAt_bufSet_ne _ _ _ _ hidx⟩

theorem single_point_witness :
    viewportPixel 10 10 0 0 0 = ⟨5, 5, 1 / 2⟩ ∧
    ∃ ctx1 : SGLContext,
      finalContext demoEnv
          (viewportSetup 10 10 1 1 1 ++ [.Begin SGL_POINTS, .Vertex3f 0 0 0, .End]) =
        some ctx1 ∧
      pixelAt ctx1 ⟨5, 5, 1 / 2⟩ = some ⟨1, 1, 1⟩ ∧
      depthAt ctx1 ⟨5, 5, 1 / 2⟩ = some ((1 / 2 : ℚ) : WithTop ℚ) ∧
      ∀ q : ScreenVertex, inCanvas (viewportContext 10 10 ⟨1, 1, 1⟩) q →
        q.x ≠ (⟨5, 5, 1 / 2⟩ : ScreenVertex).x ∨ q.y ≠ (⟨5, 5, 1 / 2⟩ : ScreenVertex).y →
        pixelAt ctx1 q = pixelAt (viewportContext 10 10 ⟨1, 1, 1⟩) q ∧
          depthAt ctx1 q = depthAt (viewportContext 10 10 ⟨1, 1, 1⟩) q := by
  have hp : viewportPixel 10 10 0 0 0 = ⟨5, 5, 1 / 2⟩ := by decide!
  obtain ⟨_, ctx1, h1, _, _, _, h5, h6, _, _, _, h9, _⟩ :=
    single_point demoEnv 10 10 1 1 1 0 0 0 (by decide) (by decide) (by decide) (by decide!)
      (by decide!)
  rw [hp] at h5 h6 h9
  exact ⟨hp, ctx1, h1, h5, h6, h9⟩

/-! ## The diagonal line -/

theorem lineLoop_done (dX dY sX sY : ℤ) (invZStep : ℚ) (finish : ScreenVertex) (fuel : ℕ)
    (st : LineState) (hx : st.start.x = finish.x) (hy : st.start.y = finish.y) :
    lineLoop dX dY sX sY invZStep finish fuel st =
      some [.checked ⟨st.start.x, st.start.y, invZ st.currentInvZ⟩] := by
  have hc : ¬ (st.start.x ≠ finish.x ∨ st.start.y ≠ finish.y) := by
    simp [hx, hy]
  cases fuel with
  | zero => rw [lineLoop_zero, if_neg hc]
  | succ k => rw [lineLoop_succ, if_neg hc]

/-- One iteration on a diagonal moves one pixel along both axes and keeps the
error term. -/
theorem lineStep_diagonal (n sX sY : ℤ) (invZStep : ℚ) (st : LineState)
    (h1 : -n < st.error) (h2 : st.error < n) :
    (lineStep n n sX sY invZStep st).start = ⟨st.start.x + sX, st.start.y + sY, st.start.z⟩ ∧
      (lineStep n n sX sY invZStep st).error = st.error := by
  unfold lineStep
  dsimp only
  rw [if_pos h2, if_pos (show st.error > -n by omega)]
  exact ⟨rfl, by dsimp only; omega⟩

/-- The fragments of the loop of `drawBresenhamLine` on a diagonal with `k`
steps to go. -/
theorem lineLoop_diagonal (n sX sY : ℤ) (invZStep : ℚ) (finish : ScreenVertex)
    (hsX : sX ≠ 0) (k : ℕ) :
    ∀ (fuel : ℕ) (st : LineState), k ≤ fuel → st.start.x + (k : ℤ) * sX = finish.x →
      st.start.y + (k : ℤ) * sY = finish.y → -n < st.error → st.error < n →
      ∃ zlast : ℚ, lineLoop n n sX sY invZStep finish fuel st =
        some ((List.range k).map (fun j : ℕ =>
            Plot.checked ⟨st.start.x + (j : ℤ) * sX, st.start.y + (j : ℤ) * sY, st.start.z⟩) ++
          [.checked ⟨finish.x, finish.y, zlast⟩]) := by
  induction k with
  | zero =>
    intro fuel st _ hx hy _ _
    simp only [Nat.cast_zero, zero_mul, add_zero] at hx hy
    refine ⟨invZ st.currentInvZ, ?_⟩
    rw [lineLoop_done _ _ _ _ _ _ _ _ hx hy, hx, hy]
    rfl
  | succ k ih =>
    intro fuel st hfuel hx hy h1 h2
    obtain ⟨f, rfl⟩ : ∃ f, fuel = f + 1 := ⟨fuel - 1, by omega⟩
    have hc : st.start.x ≠ finish.x ∨ st.start.y ≠ finish.y := by
      left
      intro he
      rw [he] at hx
      have : ((k + 1 : ℕ) : ℤ) * sX = 0 := by omega
      rcases mul_eq_zero.mp this with h | h
      · omega
      · exact hsX h
    obtain ⟨hs, he⟩ := lineStep_diagonal n sX sY invZStep st h1 h2
    obtain ⟨zlast, hrest⟩ := ih f (lineStep n n sX sY invZStep st) (by omega)
      (by rw [hs]; push_cast at hx ⊢; linarith) (by rw [hs]; push_cast at hy ⊢; linarith)
      (by rw [he]; exact h1) (by rw [he]; exact h2)
    refine ⟨zlast, ?_⟩
    rw [lineLoop_succ, if_pos hc, hrest, hs]
    simp only [Option.map_some', Option.some.injEq]
    rw [List.range_succ_eq_map, List.map_cons, List.map_map, List.cons_append]
    congr 1
    · simp
    · congr 1
      apply List.map_congr_left
      intro j _
      simp only [Function.comp_apply, Nat.cast_succ, Plot.checked.injEq, ScreenVertex.mk.injEq,
        and_true]
      constructor <;> ring

/-- The fragments of `drawBresenhamLine` on a diagonal of `n` steps: the pixels
`(a.x + j * sX, a.y + j * sY)` for `j < n` with the depth of `a`, then the end
pixel. -/
theorem drawBresenhamLine_diagonal (m : Libm) (a b : ScreenVertex) (n : ℤ) (hn : 0 < n)
    (hx : |b.x - a.x| = n) (hy : |b.y - a.y| = n) (hint : n * n + n * n < 2 ^ 31)
    (hsqrt : ¬ m.sqrt ((n * n + n * n : ℤ) : ℚ) < EPSILON) :
    ∃ zlast : ℚ, drawBresenhamLine m a b = some (diagonalPlots a b n zlast) := by
  unfold diagonalPlots
  have herr1 : -n < Int.tdiv (-n) 2 := by
    rw [Int.neg_tdiv, Int.tdiv_eq_ediv (le_of_lt hn) (by decide)]
    omega
  have herr2 : Int.tdiv (-n) 2 < n := by
    rw [Int.neg_tdiv, Int.tdiv_eq_ediv (le_of_lt hn) (by decide)]
    omega
  have hnn : (n.toNat : ℤ) = n := Int.toNat_of_nonneg (le_of_lt hn)
  have hsx : a.x + (n.toNat : ℤ) * (if a.x < b.x then 1 else -1) = b.x := by
    rw [hnn]
    split
    · rw [abs_of_pos (by omega)] at hx
      omega
    · rw [abs_of_nonpos (by omega)] at hx
      omega
  have hsy : a.y + (n.toNat : ℤ) * (if a.y < b.y then 1 else -1) = b.y := by
    rw [hnn]
    split
    · rw [abs_of_pos (by omega)] at hy
      omega
    · rw [abs_of_nonpos (by omega)] at hy
      omega
  have hne : (if a.x < b.x then (1 : ℤ) else -1) ≠ 0 := by
    split <;> decide
  have hwrap : wrapInt32 (n * n + n * n) = n * n + n * n :=
    wrapInt32_of_range _ (by nlinarith) hint
  unfold drawBresenhamLine drawBresenhamLineFuel
  simp only [hx, hy, hwrap, if_neg hsqrt, lt_irrefl, gt_iff_lt, if_false]
  exact lineLoop_diagonal n _ _ _ b hne n.toNat (n + n).toNat ⟨a, Int.tdiv (-n) 2, invZ a.z⟩
    (by omega) hsx hsy herr1 herr2

theorem bufGet_bufSet_ne {α : Type} (buffer : List α) (i j : ℤ) (a d : α) (h : i ≠ j) :
    bufGet (bufSet buffer i a) j d = bufGet buffer j d := by
  unfold bufGet bufSet
  by_cases hj : 0 ≤ j
  · rw [if_pos hj, if_pos hj]
    by_cases hi : 0 ≤ i
    · rw [if_pos hi, List.getD_eq_getElem?_getD, List.getD_eq_getElem?_getD,
        List.getElem?_set_ne]
      omega
    · rw [if_neg hi]
  · rw [if_neg hj, if_neg hj]

/-- What one bounds-checked submission does: nothing when the fragment lies
outside the canvas or fails the depth test; otherwise it writes the colour of
its pixel and, with the depth test enabled, the depth. -/
theorem apply_checked_spec (ctx : SGLContext) (p : ScreenVertex) :
    (¬ (inCanvas ctx p ∧ fragmentPasses ctx p) ∧ Plot.apply ctx (.checked p) = ctx) ∨
    (inCanvas ctx p ∧ fragmentPasses ctx p ∧ ∃ db : List (WithTop ℚ),
      Plot.apply ctx (.checked p) = { ctx with
        colorBuffer := bufSet ctx.colorBuffer (coord2DTo1D p.x p.y ctx.width) ctx.currentColor
        depthBuffer := db } ∧
      (db = ctx.depthBuffer ∨
        db = bufSet ctx.depthBuffer (coord2DTo1D p.x p.y ctx.width) (p.z : ℚ))) := by
  by_cases hin : inCanvas ctx p
  · by_cases hd : ctx.enabledDepthTest = true
    · by_cases hpass : ((F32.sub p.z EPSILON : ℚ) : WithTop ℚ) <
          bufGet ctx.depthBuffer (coord2DTo1D p.x p.y ctx.width) 0
      · right
        exact ⟨hin, Or.inr hpass, _, apply_checked_pass hd hin hpass, Or.inr rfl⟩
      · left
        refine ⟨?_, ?_⟩
        · rintro ⟨_, h | h⟩
          · rw [hd] at h
            exact absurd h (by simp)
          · exact hpass h
        · simp only [Plot.apply, boundsAndDepthCheck_inCanvas hd hin, if_neg hpass,
            Bool.false_eq_true, if_false]
    · have hd' : ctx.enabledDepthTest = false := Bool.eq_false_iff.mpr hd
      right
      refine ⟨hin, Or.inl hd', ctx.depthBuffer, ?_, Or.inl rfl⟩
      rw [(Plot.apply_disabled ctx (.checked p) hd').2 hin]
      rfl
  · left
    refine ⟨fun h => hin h.1, ?_⟩
    have hb : p.x < 0 ∨ p.x ≥ ctx.width ∨ p.y < 0 ∨ p.y ≥ ctx.height := by
      unfold inCanvas at hin
      omega
    simp [Plot.apply, boundsAndDepthCheck, hb]

theorem pixelAt_congr (ctx : SGLContext) {p q : ScreenVertex} (hx : p.x = q.x) (hy : p.y = q.y) :
    pixelAt ctx p = pixelAt ctx q := by
  unfold pixelAt
  rw [hx, hy]

/-- The effect of one bounds-checked submission on the colours, given that
its fragment passes the depth test unless its pixel has the colour already. -/
theorem apply_checked_step (ctx : SGLContext) (p : ScreenVertex)
    (hlen : ctx.colorBuffer.length = (ctx.width * ctx.height).toNat)
    (hp : inCanvas ctx p → fragmentPasses ctx p ∨ pixelAt ctx p = some ctx.currentColor) :
    (Plot.apply ctx (.checked p)).width = ctx.width ∧
    (Plot.apply ctx (.checked p)).height = ctx.height ∧
    (Plot.apply ctx (.checked p)).currentColor = ctx.currentColor ∧
    (Plot.apply ctx (.checked p)).colorBuffer.length = ctx.colorBuffer.length ∧
    (∀ q : ScreenVertex, inCanvas ctx q → p.x = q.x ∧ p.y = q.y →
      pixelAt (Plot.apply ctx (.checked p)) q = some ctx.currentColor) ∧
    (∀ q : ScreenVertex, inCanvas ctx q → ¬ (p.x = q.x ∧ p.y = q.y) →
      pixelAt (Plot.apply ctx (.checked p)) q = pixelAt ctx q ∧
        (fragmentPasses ctx q → fragmentPasses (Plot.apply ctx (.checked p)) q)) := by
  rcases apply_checked_spec ctx p with ⟨hno, heq⟩ | ⟨hin, _, db, heq, hdb⟩
  · rw [heq]
    refine ⟨rfl, rfl, rfl, rfl, ?_, fun q _ _ => ⟨rfl, fun h => h⟩⟩
    intro q hq hsame
    have hinp : inCanvas ctx p := by
      unfold inCanvas at hq ⊢
      rw [hsame.1, hsame.2]
      exact hq
    rcases hp hinp with h | h
    · exact absurd ⟨hinp, h⟩ hno
    · rw [← pixelAt_congr ctx hsame.1 hsame.2]
      exact h
  · rw [heq]
    refine ⟨rfl, rfl, rfl, bufSet_length _ _ _, ?_, ?_⟩
    · intro q _ hsame
      obtain ⟨i0, i1⟩ := index_inCanvas hin hlen
      show cellAt (bufSet _ _ _) (coord2DTo1D q.x q.y ctx.width) = _
      rw [← hsame.1, ← hsame.2]
      exact cellAt_bufSet_self _ _ _ i0 i1
    · intro q hq hdiff
      have hidx : coord2DTo1D p.x p.y ctx.width ≠ coord2DTo1D q.x q.y ctx.width :=
        fun h => hdiff (index_injective hin hq h)
      refine ⟨cellAt_bufSet_ne _ _ _ _ hidx, ?_⟩
      rintro (h | h)
      · exact Or.inl h
      · right
        show _ < bufGet db (coord2DTo1D q.x q.y ctx.width) 0
        rcases hdb with rfl | rfl
        · exact h
        · rw [bufGet_bufSet_ne _ _ _ _ _ hidx]
          exact h

/-- The colours after a list of bounds-checked submissions whose fragments
pass the depth test: the pixels of the fragments inside the canvas have the
current colour, every other pixel of the canvas keeps its colour. -/
theorem runPlots_checked (pts : List ScreenVertex) :
    ∀ ctx : SGLContext, ctx.colorBuffer.length = (ctx.width * ctx.height).toNat →
      (∀ p ∈ pts, inCanvas ctx p →
        fragmentPasses ctx p ∨ pixelAt ctx p = some ctx.currentColor) →
      ∀ q : ScreenVertex, inCanvas ctx q →
        ((∃ p ∈ pts, p.x = q.x ∧ p.y = q.y) →
          pixelAt (runPlots ctx (pts.map Plot.checked)) q = some ctx.currentColor) ∧
        ((¬ ∃ p ∈ pts, p.x = q.x ∧ p.y = q.y) →
          pixelAt (runPlots ctx (pts.map Plot.checked)) q = pixelAt ctx q) := by
  induction pts with
  | nil =>
    intro ctx _ _ q _
    exact ⟨fun ⟨p, hp, _⟩ => absurd hp (List.not_mem_nil _), fun _ => rfl⟩
  | cons p0 rest ih =>
    intro ctx hlen hpass q hq
    obtain ⟨s1, s2, s3, s4, s5, s6⟩ :=
      apply_checked_step ctx p0 hlen (hpass p0 (List.mem_cons_self _ _))
    have hcanvas : ∀ r : ScreenVertex,
        inCanvas (Plot.apply ctx (.checked p0)) r ↔ inCanvas ctx r := by
      intro r
      unfold inCanvas
      rw [s1, s2]
    have hlen' : (Plot.apply ctx (.checked p0)).colorBuffer.length =
        ((Plot.apply ctx (.checked p0)).width * (Plot.apply ctx (.checked p0)).height).toNat := by
      rw [s1, s2, s4]
      exact hlen
    have hpass' : ∀ p ∈ rest, inCanvas (Plot.apply ctx (.checked p0)) p →
        fragmentPasses (Plot.apply ctx (.checked p0)) p ∨
          pixelAt (Plot.apply ctx (.checked p0)) p =
            some (Plot.apply ctx (.checked p0)).currentColor := by
      intro p hp hin
      have hin' := (hcanvas p).mp hin
      rw [s3]
      by_cases hsame : p0.x = p.x ∧ p0.y = p.y
      · exact Or.inr (s5 p hin' hsame)
      · obtain ⟨k1, k2⟩ := s6 p hin' hsame
        rcases hpass p (List.mem_cons_of_mem _ hp) hin' with h | h
        · exact Or.inl (k2 h)
        · exact Or.inr (by rw [k1]; exact h)
    obtain ⟨i1, i2⟩ := ih (Plot.apply ctx (.checked p0)) hlen' hpass' q ((hcanvas q).mpr hq)
    rw [s3] at i1
    have hrun : runPlots ctx ((p0 :: rest).map Plot.checked) =
        runPlots (Plot.apply ctx (.checked p0)) (rest.map Plot.checked) := rfl
    rw [hrun]
    constructor
    · rintro ⟨p, hp, hsame⟩
      by_cases hr : ∃ p ∈ rest, p.x = q.x ∧ p.y = q.y
      · exact i1 hr
      · rw [i2 hr]
        rcases List.mem_cons.mp hp with h | h
        · subst h
          exact s5 q hq hsame
        · exact absurd ⟨p, h, hsame⟩ hr
    · intro hno
      have hr : ¬ ∃ p ∈ rest, p.x = q.x ∧ p.y = q.y :=
        fun ⟨p, hp, hs⟩ => hno ⟨p, List.mem_cons_of_mem _ hp, hs⟩
      have h0 : ¬ (p0.x = q.x ∧ p0.y = q.y) :=
        fun hs => hno ⟨p0, List.mem_cons_self _ _, hs⟩
      rw [i2 hr]
      exact (s6 q hq h0).1

/-- When the `int` sum `dX * dX + dY * dY` wraps to 0 and the square root of 0
is 0, `drawBresenhamLine` returns before its loop. -/
theorem wrapped_line_empty (m : Libm) (a b : ScreenVertex)
    (hw : wrapInt32 (|b.x - a.x| * |b.x - a.x| + |b.y - a.y| * |b.y - a.y|) = 0)
    (h0 : m.sqrt 0 < EPSILON) : drawBresenhamLine m a b = some [] := by
  unfold drawBresenhamLine drawBresenhamLineFuel
  simp only [hw, Int.cast_zero, if_pos h0]

theorem diagonal_end (a b : ℤ) (n : ℤ) (h : |b - a| = n) :
    a + n * (if a < b then 1 else -1) = b := by
  split
  · rw [abs_of_pos (by omega)] at h
    omega
  · rw [abs_of_nonpos (by omega)] at h
    omega

/-- C14. For every pair of screen vertices `a`, `b` with
`|b.x - a.x| = |b.y - a.y| = n > 0` whose squared length `2 n²` is an `int`
(and a square root that does not return less than `EPSILON` for it),
`drawBresenhamLine` has a result: the fragments at the pixels
`(a.x + i * sX, a.y + i * sY)`, `i < n`, with the depth of `a`, and the
fragment at the pixel of `b`.  Whatever depth the fragment at `b` carries
(the code interpolates it in `float`), when the fragments pass the depth test
the pixels of the canvas that have the current colour afterwards are exactly
the pixels `(a.x + i * sX, a.y + i * sY)`, `0 ≤ i ≤ n`, inside the canvas:
every other pixel of the canvas keeps its colour. Beyond the range of `int`
the claim fails: for `n = 65536` the `int` sum `dX * dX + dY * dY` wraps to 0,
the length is below `EPSILON` and the function returns before its loop; the
line from `(0, 0)` to `(65536, 65536)` on the 10x10 canvas lights no pixel. -/
theorem diagonal_line_pixels (m : Libm) (ctx : SGLContext) (a b : ScreenVertex) (n : ℤ)
    (hn : 0 < n) (hx : |b.x - a.x| = n) (hy : |b.y - a.y| = n)
    (hint : n * n + n * n < 2 ^ 31)
    (hsqrt : ¬ m.sqrt ((n * n + n * n : ℤ) : ℚ) < EPSILON)
    (hlen : ctx.colorBuffer.length = (ctx.width * ctx.height).toNat) :
    (∃ zlast : ℚ, drawBresenhamLine m a b = some (diagonalPlots a b n zlast)) ∧
    (∀ z1 : ℚ,
      (∀ pl ∈ diagonalPlots a b n z1, inCanvas ctx pl.point → fragmentPasses ctx pl.point) →
        ∀ q : ScreenVertex, inCanvas ctx q →
          ((∃ i : ℤ, 0 ≤ i ∧ i ≤ n ∧ q.x = a.x + i * (if a.x < b.x then 1 else -1) ∧
              q.y = a.y + i * (if a.y < b.y then 1 else -1)) →
            pixelAt (runPlots ctx (diagonalPlots a b n z1)) q = some ctx.currentColor) ∧
          ((¬ ∃ i : ℤ, 0 ≤ i ∧ i ≤ n ∧ q.x = a.x + i * (if a.x < b.x then 1 else -1) ∧
              q.y = a.y + i * (if a.y < b.y then 1 else -1)) →
            pixelAt (runPlots ctx (diagonalPlots a b n z1)) q = pixelAt ctx q)) ∧
    (∀ (m0 : Libm) (z : ℚ), m0.sqrt 0 < EPSILON →
      drawBresenhamLine m0 ⟨0, 0, z⟩ ⟨65536, 65536, z⟩ = some []) ∧
    (finalContext squareEnv (longLineDemo 65536 65536)).map (fun c =>
      (c.screenVertices, pixelsOf c ⟨1, 1, 1⟩)) =
        some ([⟨0, 0, 1 / 2⟩, ⟨65536, 65536, 1 / 2⟩], []) := by
  have hw : wrapInt32 (|(65536 : ℤ) - 0| * |(65536 : ℤ) - 0| +
      |(65536 : ℤ) - 0| * |(65536 : ℤ) - 0|) = 0 := by decide
  refine ⟨drawBresenhamLine_diagonal m a b n hn hx hy hint hsqrt, ?_,
    fun m0 z h0 => wrapped_line_empty m0 _ _ hw h0, by decide!⟩
  intro zlast
  obtain ⟨pts, hpts⟩ : ∃ pts : List ScreenVertex, pts =
      (List.range n.toNat).map (fun j : ℕ =>
        (⟨a.x + (j : ℤ) * (if a.x < b.x then 1 else -1),
          a.y + (j : ℤ) * (if a.y < b.y then 1 else -1), a.z⟩ : ScreenVertex)) ++
      [⟨b.x, b.y, zlast⟩] := ⟨_, rfl⟩
  have hplots : diagonalPlots a b n zlast = pts.map Plot.checked := by
    rw [hpts, List.map_append, List.map_map]
    rfl
  rw [hplots]
  have hnn : (n.toNat : ℤ) = n := Int.toNat_of_nonneg (le_of_lt hn)
  have hbx := diagonal_end a.x b.x n hx
  have hby := diagonal_end a.y b.y n hy
  have hiff : ∀ q : ScreenVertex,
      (∃ p ∈ pts, p.x = q.x ∧ p.y = q.y) ↔
      (∃ i : ℤ, 0 ≤ i ∧ i ≤ n ∧ q.x = a.x + i * (if a.x < b.x then 1 else -1) ∧
        q.y = a.y + i * (if a.y < b.y then 1 else -1)) := by
    intro q
    rw [hpts]
    constructor
    · rintro ⟨p, hp, h1, h2⟩
      rcases List.mem_append.mp hp with h | h
      · obtain ⟨j, hj, rfl⟩ := List.mem_map.mp h
        have hj' := List.mem_range.mp hj
        exact ⟨(j : ℤ), by omega, by omega, h1.symm, h2.symm⟩
      · rw [List.mem_singleton] at h
        subst h
        exact ⟨n, le_of_lt hn, le_refl n, by rw [hbx]; exact h1.symm, by rw [hby]; exact h2.symm⟩
    · rintro ⟨i, h0, h1, h2, h3⟩
      by_cases hi : i = n
      · refine ⟨⟨b.x, b.y, zlast⟩, List.mem_append_right _ (List.mem_singleton.mpr rfl), ?_, ?_⟩
        · rw [h2, hi, hbx]
        · rw [h3, hi, hby]
      · refine ⟨_, List.mem_append_left _ (List.mem_map.mpr ⟨i.toNat,
          List.mem_range.mpr (by omega), rfl⟩), ?_, ?_⟩
        · rw [h2, Int.toNat_of_nonneg h0]
        · rw [h3, Int.toNat_of_nonneg h0]
  intro hpass q hq
  have hpass' : ∀ p ∈ pts, inCanvas ctx p →
      fragmentPasses ctx p ∨ pixelAt ctx p = some ctx.currentColor :=
    fun p hp hin => Or.inl (hpass (.checked p) (List.mem_map.mpr ⟨p, hp, rfl⟩) hin)
  obtain ⟨r1, r2⟩ := runPlots_checked pts ctx hlen hpass' q hq
  exact ⟨fun h => r1 ((hiff q).mpr h), fun h => r2 (fun h' => h ((hiff q).mp h'))⟩

theorem diagonal_line_pixels_witness :
    (finalContext demoEnv diagonalDemo).map (fun ctx =>
      (ctx.screenVertices, pixelsOf ctx ⟨1, 1, 1⟩)) =
      some ([⟨0, 0, 1 / 2⟩, ⟨10, 10, 1 / 2⟩],
        [(0, 0), (1, 1), (2, 2), (3, 3), (4, 4), (5, 5), (6, 6), (7, 7), (8, 8), (9, 9)]) ∧
    ∃ zlast : ℚ,
      drawBresenhamLine demoEnv.libm ⟨0, 0, 1 / 2⟩ ⟨10, 10, 1 / 2⟩ =
        some (diagonalPlots ⟨0, 0, 1 / 2⟩ ⟨10, 10, 1 / 2⟩ 10 zlast) :=
  ⟨by decide!,
    (diagonal_line_pixels demoEnv.libm (viewportContext 10 10 ⟨1, 1, 1⟩) ⟨0, 0, 1 / 2⟩
      ⟨10, 10, 1 / 2⟩ 10 (by decide) (by decide) (by decide) (by decide) (by decide!)
      (by decide)).1⟩

/-! ## Multiplying the top of the active stack -/

theorem ofColumnMajor_data (a : List ℚ) :
    (Matrix.ofColumnMajor a).data =
      [a.getD 0 0, a.getD 4 0, a.getD 8 0, a.getD 12 0,
       a.getD 1 0, a.getD 5 0, a.getD 9 0, a.getD 13 0,
       a.getD 2 0, a.getD 6 0, a.getD 10 0, a.getD 14 0,
       a.getD 3 0, a.getD 7 0, a.getD 11 0, a.getD 15 0] := rfl

/-- The matrix `Matrix(const float*)` builds has the entry `a[4j + i]` in row
`i`, column `j`. -/
theorem ofColumnMajor_apply (a : List ℚ) (i j : Fin 4) :
    (Matrix.ofColumnMajor a).toMat4 i j = a.getD (4 * j.val + i.val) 0 := by
  show (Matrix.ofColumnMajor a).data.getD (i.val * 4 + j.val) 0 = _
  rw [ofColumnMajor_data]
  fin_cases i <;> fin_cases j <;> rfl

theorem identity_mul_ofColumnMajor (a : List ℚ) :
    Matrix.identity.mul (Matrix.ofColumnMajor a) = Matrix.ofColumnMajor a := by
  have e : ∀ x y : Matrix, x.data = y.data → x = y := by
    intro x y hxy
    cases x
    cases y
    simp only at hxy
    rw [hxy]
  apply e
  rw [mul_data, ofColumnMajor_data]
  simp [Matrix.get, Matrix.identity, ofColumnMajor_data]

theorem activeStack_of_stackAt {s : SGLSceneManager} {ctx : SGLContext} {stack : List Matrix}
    (hc : getCurrentContext s = some ctx) (hb : ctx.insideBegin = false)
    (hs : stackAt ctx ctx.currentMatrixMode = some stack) : ActiveStack s ctx := by
  obtain ⟨h0, hlt, _⟩ := stackAt_some hs
  exact ⟨hc, hb, h0, hlt⟩

theorem withActiveStack_eq (s : SGLSceneManager) (ctx : SGLContext) (stack : List Matrix) :
    withActiveStack s ctx stack s.errorCode =
      setCurrentContext s (setStackAt ctx ctx.currentMatrixMode stack) := rfl

/-- A mask with a bit set outside the two buffer bits fails the mask test. -/
theorem unknown_bits (what i : ℕ) (h2 : 2 ≤ i) (h32 : i < 32) (hbit : what.testBit i = true) :
    what &&& (4294967295 ^^^ (SGL_COLOR_BUFFER_BIT ||| SGL_DEPTH_BUFFER_BIT)) ≠ 0 := by
  intro h
  have h1 : (what &&& (4294967295 ^^^ (SGL_COLOR_BUFFER_BIT ||| SGL_DEPTH_BUFFER_BIT))).testBit i =
      true := by
    rw [Nat.testBit_and, hbit, Bool.true_and]
    interval_cases i <;> rfl
  rw [h, Nat.zero_testBit] at h1
  exact absurd h1 (by simp)

/-- C22. For every mask with a bit set outside `COLOR_BUFFER_BIT |
DEPTH_BUFFER_BIT` (bit `i`, `2 ≤ i < 32`), whatever its other bits,
`sglClear(mask)` on a current context has a result that leaves every context,
so both buffers, as it was; outside begin/end the result is the state with
`SGL_INVALID_VALUE` offered to the error register, which then holds it if it
held `SGL_NO_ERROR`. -/
theorem clear_unknown_bits (s : SGLSceneManager) (ctx : SGLContext) (what i : ℕ)
    (hc : getCurrentContext s = some ctx) (h2 : 2 ≤ i) (h32 : i < 32)
    (hbit : what.testBit i = true) :
    ∃ s' : SGLSceneManager, sglClear what s = some s' ∧ s'.contexts = s.contexts ∧
      getCurrentContext s' = some ctx ∧
      (ctx.insideBegin = false → s' = setErrCode SGL_INVALID_VALUE s) ∧
      (ctx.insideBegin = false → s.errorCode = SGL_NO_ERROR →
        s'.errorCode = SGL_INVALID_VALUE) := by
  have hmask := unknown_bits what i h2 h32 hbit
  by_cases hb : ctx.insideBegin = true
  · have hg : (contextNotInitialized.or calledWithinBeginEnd) s =
        some (true, setErrCode SGL_INVALID_OPERATION s) := by
      simp [Guard.or, contextNotInitialized, calledWithinBeginEnd, hc, hb]
    refine ⟨setErrCode SGL_INVALID_OPERATION s, ?_, (setErrCode_contexts _ _).1, ?_, ?_, ?_⟩
    · simp only [sglClear, guarded, hg]
    · rw [getCurrentContext_setErrCode, hc]
    · intro h
      rw [hb] at h
      exact absurd h (by simp)
    · intro h
      rw [hb] at h
      exact absurd h (by simp)
  · have hb' : ctx.insideBegin = false := Bool.eq_false_iff.mpr hb
    have hg : (contextNotInitialized.or calledWithinBeginEnd) s = some (false, s) := by
      simp [Guard.or, contextNotInitialized, calledWithinBeginEnd, hc, hb']
    refine ⟨setErrCode SGL_INVALID_VALUE s, ?_, (setErrCode_contexts _ _).1, ?_, fun _ => rfl,
      ?_⟩
    · simp only [sglClear, guarded, hg, if_pos hmask]
    · rw [getCurrentContext_setErrCode, hc]
    · intro _ he
      simp only [setErrCode, he, if_true]

theorem clear_unknown_bits_witness :
    ∃ s' : SGLSceneManager,
      sglClear 65535 (demoManager (demoContext ⟨1, 0, 0⟩ true false [] SGL_POINTS)) = some s' ∧
      s'.contexts = (demoManager (demoContext ⟨1, 0, 0⟩ true false [] SGL_POINTS)).contexts ∧
      getCurrentContext s' = some (demoContext ⟨1, 0, 0⟩ true false [] SGL_POINTS) ∧
      ((demoContext ⟨1, 0, 0⟩ true false [] SGL_POINTS).insideBegin = false →
        s' = setErrCode SGL_INVALID_VALUE
          (demoManager (demoContext ⟨1, 0, 0⟩ true false [] SGL_POINTS))) ∧
      ((demoContext ⟨1, 0, 0⟩ true false [] SGL_POINTS).insideBegin = false →
        (demoManager (demoContext ⟨1, 0, 0⟩ true false [] SGL_POINTS)).errorCode =
          SGL_NO_ERROR →
        s'.errorCode = SGL_INVALID_VALUE) :=
  clear_unknown_bits (demoManager (demoContext ⟨1, 0, 0⟩ true false [] SGL_POINTS))
    (demoContext ⟨1, 0, 0⟩ true false [] SGL_POINTS) 65535 2 rfl (by decide) (by decide) rfl

/-! ## `sglEnd` inside a scene block -/

/-- C23. `sglEnd` inside begin/end and inside a scene block has a result:
`insideBegin` becomes false; with three or more accumulated vertices exactly
one triangle is appended to the primitives, made of the first three vertices
in order and bound to the material `materialsList.size() - 1`, the further
vertices being ignored; with fewer than three nothing is appended; the colour
buffer, the depth buffer, the lights and the materials are as they were. -/
theorem end_in_scene (env : Env) (s : SGLSceneManager) (ctx : SGLContext)
    (hc : getCurrentContext s = some ctx) (hb : ctx.insideBegin = true)
    (hs : ctx.insideBeginScene = true) :
    ∃ ctx' : SGLContext, sglEnd env s = some (setCurrentContext s ctx') ∧
      ctx'.insideBegin = false ∧ ctx'.colorBuffer = ctx.colorBuffer ∧
      ctx'.depthBuffer = ctx.depthBuffer ∧ ctx'.scene.lightsList = ctx.scene.lightsList ∧
      ctx'.scene.materialsList = ctx.scene.materialsList ∧
      (∀ (v0 v1 v2 : Vertex) (rest : List Vertex), ctx.verticesList = v0 :: v1 :: v2 :: rest →
        ctx'.scene.primitivesList = ctx.scene.primitivesList ++
          [Primitive3D.triangle [v0, v1, v2] ((ctx.scene.materialsList.length : ℤ) - 1) (-1)]) ∧
      (ctx.verticesList.length < 3 → ctx'.scene.primitivesList = ctx.scene.primitivesList) ∧
      ctx' = { ctx with
        insideBegin := false
        scene := { ctx.scene with primitivesList := ctx'.scene.primitivesList } } := by
  have hg : calledOutsideBeginEnd s = some (false, s) := by
    simp [calledOutsideBeginEnd, hc, hb]
  by_cases hn : ctx.verticesList.length ≥ 3
  · refine ⟨{ ctx with
        insideBegin := false
        scene := { ctx.scene with primitivesList := ctx.scene.primitivesList ++
          [Primitive3D.triangle [ctx.verticesList.getD 0 default, ctx.verticesList.getD 1 default,
            ctx.verticesList.getD 2 default] ((ctx.scene.materialsList.length : ℤ) - 1) (-1)] } },
      ?_, rfl, rfl, rfl, rfl, rfl, ?_, ?_, rfl⟩
    · simp only [sglEnd, guarded, hg]
      rw [modifyContext_eq _ hc]
      simp only [hs, if_true, hn]
      rfl
    · intro v0 v1 v2 rest hv
      rw [hv]
      rfl
    · intro hlt
      omega
  · refine ⟨{ ctx with insideBegin := false }, ?_, rfl, rfl, rfl, rfl, rfl, ?_, fun _ => rfl, rfl⟩
    · simp only [sglEnd, guarded, hg]
      rw [modifyContext_eq _ hc]
      simp only [hs, if_true, hn, if_false]
      rfl
    · intro v0 v1 v2 rest hv
      rw [hv] at hn
      simp at hn

theorem end_in_scene_witness :
    ∃ ctx' : SGLContext,
      sglEnd demoEnv (demoManager
          { demoContext ⟨0, 0, 0⟩ true true [⟨0, 0, 0, 1⟩, ⟨1, 0, 0, 1⟩, ⟨0, 1, 0, 1⟩, ⟨5, 5, 5, 1⟩]
              SGL_POLYGON with insideBeginScene := true }) =
        some (setCurrentContext (demoManager
          { demoContext ⟨0, 0, 0⟩ true true [⟨0, 0, 0, 1⟩, ⟨1, 0, 0, 1⟩, ⟨0, 1, 0, 1⟩, ⟨5, 5, 5, 1⟩]
              SGL_POLYGON with insideBeginScene := true }) ctx') ∧
      ctx'.insideBegin = false ∧
      ctx'.scene.primitivesList =
        [Primitive3D.triangle [⟨0, 0, 0, 1⟩, ⟨1, 0, 0, 1⟩, ⟨0, 1, 0, 1⟩] (-1) (-1)] := by
  obtain ⟨ctx', h1, h2, _, _, _, _, h7, _, _⟩ := end_in_scene demoEnv
    (demoManager
      { demoContext ⟨0, 0, 0⟩ true true [⟨0, 0, 0, 1⟩, ⟨1, 0, 0, 1⟩, ⟨0, 1, 0, 1⟩, ⟨5, 5, 5, 1⟩]
          SGL_POLYGON with insideBeginScene := true })
    { demoContext ⟨0, 0, 0⟩ true true [⟨0, 0, 0, 1⟩, ⟨1, 0, 0, 1⟩, ⟨0, 1, 0, 1⟩, ⟨5, 5, 5, 1⟩]
        SGL_POLYGON with insideBeginScene := true } rfl rfl rfl
  exact ⟨ctx', h1, h2, h7 _ _ _ _ rfl⟩

/-! ## The scene lists -/

/-- Inside a scene block and outside begin/end, `sglSphere`, `sglPointLight`
and `sglMaterial` append one entry to their own list. -/
theorem scene_commands_append (s : SGLSceneManager) (ctx : SGLContext)
    (hc : getCurrentContext s = some ctx) (hb : ctx.insideBegin = false)
    (hs : ctx.insideBeginScene = true) :
    (∀ x y z radius : ℚ, sglSphere x y z radius s = some (setCurrentContext s { ctx with
      scene := { ctx.scene with primitivesList := ctx.scene.primitivesList ++
        [Primitive3D.sphere (Vertex.mk3 x y z) radius
          ((ctx.scene.materialsList.length : ℤ) - 1) (-1)] } })) ∧
    (∀ x y z r g b : ℚ, sglPointLight x y z r g b s = some (setCurrentContext s { ctx with
      scene := { ctx.scene with lightsList := ctx.scene.lightsList ++
        [⟨Vertex.mk3 x y z, ⟨r, g, b⟩⟩] } })) ∧
    (∀ r g b kd ks shine T ior : ℚ, sglMaterial r g b kd ks shine T ior s =
      some (setCurrentContext s { ctx with
        scene := { ctx.scene with materialsList := ctx.scene.materialsList ++
          [Material.make r g b kd ks shine T ior] } })) := by
  have hg : (contextNotInitialized.or calledWithinBeginEnd) s = some (false, s) := by
    simp [Guard.or, contextNotInitialized, calledWithinBeginEnd, hc, hb]
  have hg2 : ((contextNotInitialized.or calledWithinBeginEnd).or
      calledOutsideBeginSceneEndScene) s = some (false, s) := by
    simp [Guard.or, contextNotInitialized, calledWithinBeginEnd,
      calledOutsideBeginSceneEndScene, hc, hb, hs]
  refine ⟨?_, ?_, ?_⟩
  · intro x y z radius
    simp only [sglSphere, guarded, hg2]
    rw [modifyContext_eq _ hc]
    rfl
  · intro x y z r g b
    simp only [sglPointLight, guarded, hg2]
    rw [modifyContext_eq _ hc]
    rfl
  · intro r g b kd ks shine T ior
    simp only [sglMaterial, guarded, hg]
    rw [modifyContext_eq _ hc]
    rfl

/-- The list of emissive materials is never allocated: outside begin/end
`sglEmissiveMaterial` on a scene without it has no result. -/
theorem emissive_unallocated (s : SGLSceneManager) (ctx : SGLContext)
    (hc : getCurrentContext s = some ctx) (hb : ctx.insideBegin = false)
    (hn : ctx.scene.emissiveMaterialsList = none) (r g b c0 c1 c2 : ℚ) :
    sglEmissiveMaterial r g b c0 c1 c2 s = none := by
  have hg : (contextNotInitialized.or calledWithinBeginEnd) s = some (false, s) := by
    simp [Guard.or, contextNotInitialized, calledWithinBeginEnd, hc, hb]
  simp only [sglEmissiveMaterial, guarded, hg]
  rw [modifyContext_eq _ hc]
  simp only [hn, Option.map_none']

/-- C24. Inside the scene block of a fresh context, `sglMaterial`, `sglSphere`
and `sglPointLight` append one entry each to the materials, the primitives (the
sphere bound to material 0, the number of materials minus one) and the
lights; `sglEmissiveMaterial` in the same block has no result: it calls
`push_back` through `emissiveMaterialsList`, which no constructor allocates. -/
theorem emissive_material_unallocated (env : Env) :
    (finalContext env sceneDemo).map (fun ctx =>
      (ctx.scene.materialsList, ctx.scene.primitivesList, ctx.scene.lightsList,
        ctx.scene.emissiveMaterialsList)) =
      some ([Material.make 1 0 0 1 0 0 0 1], [Primitive3D.sphere (Vertex.mk3 0 0 0) 1 0 (-1)],
        [⟨Vertex.mk3 0 5 0, ⟨1, 1, 1⟩⟩], none) ∧
    run env (sceneDemo ++ [.EmissiveMaterial 1 1 1 1 0 0]) sglInit = none ∧
    run env [.CreateContext 2 2, .SetContext 0, .BeginScene, .EmissiveMaterial 1 1 1 1 0 0]
      sglInit = none :=
  ⟨rfl, rfl, rfl⟩

/-! ## The length of a line -/

theorem mul_eq_zero_of_small (r d c : ℤ) (hd : 0 < d) (h1 : -d < c) (h2 : c < d)
    (h : r * d = c) : r = 0 := by
  by_contra hr
  rcases lt_or_gt_of_ne hr with h3 | h3
  · have : r * d ≤ -1 * d := mul_le_mul_of_nonneg_right (by omega) (le_of_lt hd)
    omega
  · have : 1 * d ≤ r * d := mul_le_mul_of_nonneg_right (by omega) (le_of_lt hd)
    omega

theorem lineRun_cons (k : ℕ) (x y x' y' : ℤ) (z : ℚ) (finish : ScreenVertex)
    (plots : List Plot) (h : LineRun k x' y' finish plots)
    (hadj : lineAdjacent ⟨x, y, z⟩ ⟨x', y', 0⟩) :
    LineRun (k + 1) x y finish (Plot.checked ⟨x, y, z⟩ :: plots) := by
  obtain ⟨z', rest, hp⟩ := h.first
  refine ⟨by simp [h.length], ⟨z, plots, rfl⟩, ?_, ?_⟩
  · obtain ⟨zl, hl⟩ := h.last
    refine ⟨zl, ?_⟩
    rw [hp] at hl ⊢
    rw [List.getLast?_cons_cons]
    exact hl
  · have hc := h.chain
    rw [hp] at hc ⊢
    simp only [List.map_cons, List.chain'_cons] at hc ⊢
    exact ⟨hadj, hc⟩

theorem lineRun_single (x y : ℤ) (z : ℚ) (finish : ScreenVertex) (hx : x = finish.x)
    (hy : y = finish.y) : LineRun 0 x y finish [Plot.checked ⟨x, y, z⟩] := by
  refine ⟨rfl, ⟨z, [], rfl⟩, ⟨z, ?_⟩, ?_⟩
  · rw [hx, hy]
    rfl
  · simp

/-- The loop on a line with `dX > dY`: every iteration steps along `x`, and
after `k` more iterations the end is reached. -/
theorem lineLoop_xmajor (dX dY sX sY : ℤ) (invZStep : ℚ) (finish : ScreenVertex)
    (hsX : sX = 1 ∨ sX = -1) (hsY : sY = 1 ∨ sY = -1) (hdY : 0 ≤ dY) (hd : dY < dX)
    (err0 : ℤ) (h0 : 0 ≤ err0) (h0' : err0 < dX) (k : ℕ) :
    ∀ (st : LineState) (ry : ℤ), st.start.x + (k : ℤ) * sX = finish.x →
      st.start.y + ry * sY = finish.y → st.error + ry * dX - (k : ℤ) * dY = err0 →
      0 ≤ st.error → st.error < dX →
      ∃ plots : List Plot,
        (∀ fuel : ℕ, lineLoop dX dY sX sY invZStep finish fuel st =
          if k ≤ fuel then some plots else none) ∧
        LineRun k st.start.x st.start.y finish plots := by
  induction k with
  | zero =>
    intro st ry hx hy he e1 e2
    simp only [Nat.cast_zero, zero_mul, add_zero, sub_zero] at hx he
    have hr : ry = 0 := mul_eq_zero_of_small ry dX (err0 - st.error) (by omega) (by omega)
      (by omega) (by omega)
    rw [hr, zero_mul, add_zero] at hy
    refine ⟨[.checked ⟨st.start.x, st.start.y, invZ st.currentInvZ⟩], ?_,
      lineRun_single _ _ _ _ hx hy⟩
    intro fuel
    rw [lineLoop_done _ _ _ _ _ _ _ _ hx hy, if_pos (Nat.zero_le _)]
  | succ k ih =>
    intro st ry hx hy he e1 e2
    have hc : st.start.x ≠ finish.x ∨ st.start.y ≠ finish.y := by
      left
      intro heq
      rw [heq] at hx
      have : ((k + 1 : ℕ) : ℤ) * sX = 0 := by omega
      rcases mul_eq_zero.mp this with h | h
      · omega
      · rcases hsX with h1 | h1 <;> omega
    push_cast at hx he
    by_cases hy2 : st.error < dY
    · have hstep : lineStep dX dY sX sY invZStep st =
          ⟨⟨st.start.x + sX, st.start.y + sY, st.start.z⟩, st.error - dY + dX,
            st.currentInvZ + invZStep * ((|sX| : ℤ) : ℚ) + invZStep * ((|sY| : ℤ) : ℚ)⟩ := by
        unfold lineStep
        dsimp only
        rw [if_pos hy2, if_pos (show st.error > -dX by omega)]
      obtain ⟨plots, hp1, hp2⟩ := ih (lineStep dX dY sX sY invZStep st) (ry - 1)
        (by rw [hstep]; dsimp only; linarith) (by rw [hstep]; dsimp only; linarith)
        (by rw [hstep]; dsimp only; linarith) (by rw [hstep]; dsimp only; omega)
        (by rw [hstep]; dsimp only; omega)
      refine ⟨.checked st.start :: plots, ?_, ?_⟩
      · intro fuel
        cases fuel with
        | zero => rw [lineLoop_zero, if_pos hc, if_neg (by omega)]
        | succ f =>
          rw [lineLoop_succ, if_pos hc, hp1 f]
          by_cases hf : k ≤ f
          · rw [if_pos hf, if_pos (by omega)]
            rfl
          · rw [if_neg hf, if_neg (by omega)]
            rfl
      · rw [hstep] at hp2
        refine lineRun_cons k _ _ _ _ st.start.z finish plots hp2 ?_
        refine ⟨?_, ?_, ?_⟩
        · dsimp only
          rcases hsX with h1 | h1 <;> rw [h1] <;> simp
        · dsimp only
          rcases hsY with h1 | h1 <;> rw [h1] <;> simp
        · left
          dsimp only
          rcases hsX with h1 | h1 <;> omega
    · have hstep : lineStep dX dY sX sY invZStep st =
          ⟨⟨st.start.x + sX, st.start.y, st.start.z⟩, st.error - dY,
            st.currentInvZ + invZStep * ((|sX| : ℤ) : ℚ)⟩ := by
        unfold lineStep
        dsimp only
        rw [if_neg hy2, if_pos (show st.error > -dX by omega)]
      obtain ⟨plots, hp1, hp2⟩ := ih (lineStep dX dY sX sY invZStep st) ry
        (by rw [hstep]; dsimp only; linarith) (by rw [hstep]; dsimp only; linarith)
        (by rw [hstep]; dsimp only; linarith) (by rw [hstep]; dsimp only; omega)
        (by rw [hstep]; dsimp only; omega)
      refine ⟨.checked st.start :: plots, ?_, ?_⟩
      · intro fuel
        cases fuel with
        | zero => rw [lineLoop_zero, if_pos hc, if_neg (by omega)]
        | succ f =>
          rw [lineLoop_succ, if_pos hc, hp1 f]
          by_cases hf : k ≤ f
          · rw [if_pos hf, if_pos (by omega)]
            rfl
          · rw [if_neg hf, if_neg (by omega)]
            rfl
      · rw [hstep] at hp2
        refine lineRun_cons k _ _ _ _ st.start.z finish plots hp2 ?_
        refine ⟨?_, ?_, ?_⟩
        · dsimp only
          rcases hsX with h1 | h1 <;> rw [h1] <;> simp
        · dsimp only
          simp
        · left
          dsimp only
          rcases hsX with h1 | h1 <;> omega

/-- The loop on a line with `dX ≤ dY`: every iteration steps along `y`, and
after `k` more iterations the end is reached. -/
theorem lineLoop_ymajor (dX dY sX sY : ℤ) (invZStep : ℚ) (finish : ScreenVertex)
    (hsX : sX = 1 ∨ sX = -1) (hsY : sY = 1 ∨ sY = -1) (hdX : 0 ≤ dX) (hd : dX ≤ dY)
    (hdY : 0 < dY) (err0 : ℤ) (h0 : -dY < err0) (h0' : err0 ≤ 0) (k : ℕ) :
    ∀ (st : LineState) (rx : ℤ), st.start.y + (k : ℤ) * sY = finish.y →
      st.start.x + rx * sX = finish.x → st.error - rx * dY + (k : ℤ) * dX = err0 →
      -dY < st.error → st.error ≤ 0 →
      ∃ plots : List Plot,
        (∀ fuel : ℕ, lineLoop dX dY sX sY invZStep finish fuel st =
          if k ≤ fuel then some plots else none) ∧
        LineRun k st.start.x st.start.y finish plots := by
  induction k with
  | zero =>
    intro st rx hy hx he e1 e2
    simp only [Nat.cast_zero, zero_mul, add_zero] at hy he
    have hr : rx = 0 := mul_eq_zero_of_small rx dY (st.error - err0) hdY (by omega)
      (by omega) (by omega)
    rw [hr, zero_mul, add_zero] at hx
    refine ⟨[.checked ⟨st.start.x, st.start.y, invZ st.currentInvZ⟩], ?_,
      lineRun_single _ _ _ _ hx hy⟩
    intro fuel
    rw [lineLoop_done _ _ _ _ _ _ _ _ hx hy, if_pos (Nat.zero_le _)]
  | succ k ih =>
    intro st rx hy hx he e1 e2
    have hc : st.start.x ≠ finish.x ∨ st.start.y ≠ finish.y := by
      right
      intro heq
      rw [heq] at hy
      have : ((k + 1 : ℕ) : ℤ) * sY = 0 := by omega
      rcases mul_eq_zero.mp this with h | h
      · omega
      · rcases hsY with h1 | h1 <;> omega
    push_cast at hy he
    by_cases hx2 : st.error > -dX
    · have hstep : lineStep dX dY sX sY invZStep st =
          ⟨⟨st.start.x + sX, st.start.y + sY, st.start.z⟩, st.error - dY + dX,
            st.currentInvZ + invZStep * ((|sX| : ℤ) : ℚ) + invZStep * ((|sY| : ℤ) : ℚ)⟩ := by
        unfold lineStep
        dsimp only
        rw [if_pos (show st.error < dY by omega), if_pos hx2]
      obtain ⟨plots, hp1, hp2⟩ := ih (lineStep dX dY sX sY invZStep st) (rx - 1)
        (by rw [hstep]; dsimp only; linarith) (by rw [hstep]; dsimp only; linarith)
        (by rw [hstep]; dsimp only; linarith) (by rw [hstep]; dsimp only; omega)
        (by rw [hstep]; dsimp only; omega)
      refine ⟨.checked st.start :: plots, ?_, ?_⟩
      · intro fuel
        cases fuel with
        | zero => rw [lineLoop_zero, if_pos hc, if_neg (by omega)]
        | succ f =>
          rw [lineLoop_succ, if_pos hc, hp1 f]
          by_cases hf : k ≤ f
          · rw [if_pos hf, if_pos (by omega)]
            rfl
          · rw [if_neg hf, if_neg (by omega)]
            rfl
      · rw [hstep] at hp2
        refine lineRun_cons k _ _ _ _ st.start.z finish plots hp2 ?_
        refine ⟨?_, ?_, ?_⟩
        · dsimp only
          rcases hsX with h1 | h1 <;> rw [h1] <;> simp
        · dsimp only
          rcases hsY with h1 | h1 <;> rw [h1] <;> simp
        · right
          dsimp only
          rcases hsY with h1 | h1 <;> omega
    · have hstep : lineStep dX dY sX sY invZStep st =
          ⟨⟨st.start.x, st.start.y + sY, st.start.z⟩, st.error + dX,
            st.currentInvZ + invZStep * ((|sY| : ℤ) : ℚ)⟩ := by
        unfold lineStep
        dsimp only
        rw [if_pos (show st.error < dY by omega), if_neg hx2]
      obtain ⟨plots, hp1, hp2⟩ := ih (lineStep dX dY sX sY invZStep st) rx
        (by rw [hstep]; dsimp only; linarith) (by rw [hstep]; dsimp only; linarith)
        (by rw [hstep]; dsimp only; linarith) (by rw [hstep]; dsimp only; omega)
        (by rw [hstep]; dsimp only; omega)
      refine ⟨.checked st.start :: plots, ?_, ?_⟩
      · intro fuel
        cases fuel with
        | zero => rw [lineLoop_zero, if_pos hc, if_neg (by omega)]
        | succ f =>
          rw [lineLoop_succ, if_pos hc, hp1 f]
          by_cases hf : k ≤ f
          · rw [if_pos hf, if_pos (by omega)]
            rfl
          · rw [if_neg hf, if_neg (by omega)]
            rfl
      · rw [hstep] at hp2
        refine lineRun_cons k _ _ _ _ st.start.z finish plots hp2 ?_
        refine ⟨?_, ?_, ?_⟩
        · dsimp only
          simp
        · dsimp only
          rcases hsY with h1 | h1 <;> rw [h1] <;> simp
        · right
          dsimp only
          rcases hsY with h1 | h1 <;> omega

/-- C27. For every pair of screen vertices `a`, `b` at distinct pixels whose
squared distance `dX² + dY²` is an `int` (and a square root that does not
return less than `EPSILON` for it), the loop of `drawBresenhamLine` ends after
exactly `max(dX, dY)` iterations: with that many iterations or more it has a
result, with fewer it has none.  The `max(dX, dY) + 1` fragments submitted
start at the pixel of `a`, end at the pixel of `b`, and from one to the next
`x` and `y` change by at most one each, never both by zero. Beyond the range
of `int` the claim fails: for the distinct pixels `(0, 0)` and `(65536, 0)` the
`int` product `dX * dX` wraps to 0, the length is below `EPSILON`, and the
function returns before its loop with no fragment at all. -/
theorem line_terminates (m : Libm) (a b : ScreenVertex) (hne : a.x ≠ b.x ∨ a.y ≠ b.y)
    (hint : |b.x - a.x| * |b.x - a.x| + |b.y - a.y| * |b.y - a.y| < 2 ^ 31)
    (hsqrt : ¬ m.sqrt ((|b.x - a.x| * |b.x - a.x| + |b.y - a.y| * |b.y - a.y| : ℤ) : ℚ) <
      EPSILON) :
    (∃ plots : List Plot,
      (∀ fuel : ℕ, drawBresenhamLineFuel m fuel a b =
        if (max |b.x - a.x| |b.y - a.y|).toNat ≤ fuel then some plots else none) ∧
      drawBresenhamLine m a b = some plots ∧
      LineRun (max |b.x - a.x| |b.y - a.y|).toNat a.x a.y b plots) ∧
    (∀ (m0 : Libm) (z : ℚ), m0.sqrt 0 < EPSILON →
      drawBresenhamLine m0 ⟨0, 0, z⟩ ⟨65536, 0, z⟩ = some []) ∧
    (finalContext squareEnv (longLineDemo 65536 0)).map (fun c =>
      (c.screenVertices, pixelsOf c ⟨1, 1, 1⟩)) =
        some ([⟨0, 0, 1 / 2⟩, ⟨65536, 0, 1 / 2⟩], []) := by
  have hw : wrapInt32 (|(65536 : ℤ) - 0| * |(65536 : ℤ) - 0| +
      |(0 : ℤ) - 0| * |(0 : ℤ) - 0|) = 0 := by decide
  refine ⟨?_, fun m0 z h0 => wrapped_line_empty m0 _ _ hw h0, by decide!⟩
  have hX : 0 ≤ |b.x - a.x| := abs_nonneg _
  have hY : 0 ≤ |b.y - a.y| := abs_nonneg _
  have hsX : (if a.x < b.x then (1 : ℤ) else -1) = 1 ∨ (if a.x < b.x then (1 : ℤ) else -1) = -1 := by
    split
    · exact Or.inl rfl
    · exact Or.inr rfl
  have hsY : (if a.y < b.y then (1 : ℤ) else -1) = 1 ∨ (if a.y < b.y then (1 : ℤ) else -1) = -1 := by
    split
    · exact Or.inl rfl
    · exact Or.inr rfl
  have hbx := diagonal_end a.x b.x |b.x - a.x| rfl
  have hby := diagonal_end a.y b.y |b.y - a.y| rfl
  have hwrap : wrapInt32 (|b.x - a.x| * |b.x - a.x| + |b.y - a.y| * |b.y - a.y|) =
      |b.x - a.x| * |b.x - a.x| + |b.y - a.y| * |b.y - a.y| :=
    wrapInt32_of_range _ (by nlinarith) hint
  have hfuel : ∀ fuel : ℕ, drawBresenhamLineFuel m fuel a b =
      lineLoop |b.x - a.x| |b.y - a.y| (if a.x < b.x then 1 else -1)
        (if a.y < b.y then 1 else -1)
        ((invZ b.z - invZ a.z) /
          (if m.sqrt ((|b.x - a.x| * |b.x - a.x| + |b.y - a.y| * |b.y - a.y| : ℤ) : ℚ) > 0
            then m.sqrt ((|b.x - a.x| * |b.x - a.x| + |b.y - a.y| * |b.y - a.y| : ℤ) : ℚ)
            else 1)) b fuel
        ⟨a, Int.tdiv (if |b.x - a.x| > |b.y - a.y| then |b.x - a.x| else -|b.y - a.y|) 2,
          invZ a.z⟩ := by
    intro fuel
    unfold drawBresenhamLineFuel
    simp only [hwrap, if_neg hsqrt]
  by_cases hd : |b.x - a.x| > |b.y - a.y|
  · have hmax : max |b.x - a.x| |b.y - a.y| = |b.x - a.x| := max_eq_left (le_of_lt hd)
    have hk : (((|b.x - a.x|).toNat : ℕ) : ℤ) = |b.x - a.x| := Int.toNat_of_nonneg hX
    have herr : Int.tdiv |b.x - a.x| 2 = |b.x - a.x| / 2 :=
      Int.tdiv_eq_ediv hX (by decide)
    obtain ⟨plots, hp1, hp2⟩ := lineLoop_xmajor |b.x - a.x| |b.y - a.y| _ _
      ((invZ b.z - invZ a.z) /
        (if m.sqrt ((|b.x - a.x| * |b.x - a.x| + |b.y - a.y| * |b.y - a.y| : ℤ) : ℚ) > 0
          then m.sqrt ((|b.x - a.x| * |b.x - a.x| + |b.y - a.y| * |b.y - a.y| : ℤ) : ℚ)
          else 1)) b hsX hsY hY hd (|b.x - a.x| / 2) (by omega) (by omega) (|b.x - a.x|).toNat
      ⟨a, |b.x - a.x| / 2, invZ a.z⟩ |b.y - a.y| (by rw [hk]; exact hbx) hby
      (by rw [hk]; dsimp only; ring) (by dsimp only; omega) (by dsimp only; omega)
    rw [hmax]
    have hall : ∀ fuel : ℕ, drawBresenhamLineFuel m fuel a b =
        if (|b.x - a.x|).toNat ≤ fuel then some plots else none := by
      intro fuel
      rw [hfuel, if_pos hd, herr]
      exact hp1 fuel
    refine ⟨plots, hall, ?_, hp2⟩
    unfold drawBresenhamLine
    rw [hall, if_pos (by omega)]
  · have hd' : |b.x - a.x| ≤ |b.y - a.y| := not_lt.mp hd
    have hYpos : 0 < |b.y - a.y| := by
      rcases hne with h | h
      · have : 0 < |b.x - a.x| := abs_pos.mpr (by omega)
        omega
      · exact abs_pos.mpr (by omega)
    have hmax : max |b.x - a.x| |b.y - a.y| = |b.y - a.y| := max_eq_right hd'
    have hk : (((|b.y - a.y|).toNat : ℕ) : ℤ) = |b.y - a.y| := Int.toNat_of_nonneg hY
    have herr : Int.tdiv (-|b.y - a.y|) 2 = -(|b.y - a.y| / 2) := by
      rw [Int.neg_tdiv, Int.tdiv_eq_ediv hY (by decide)]
    obtain ⟨plots, hp1, hp2⟩ := lineLoop_ymajor |b.x - a.x| |b.y - a.y| _ _
      ((invZ b.z - invZ a.z) /
        (if m.sqrt ((|b.x - a.x| * |b.x - a.x| + |b.y - a.y| * |b.y - a.y| : ℤ) : ℚ) > 0
          then m.sqrt ((|b.x - a.x| * |b.x - a.x| + |b.y - a.y| * |b.y - a.y| : ℤ) : ℚ)
          else 1)) b hsX hsY hX hd' hYpos (-(|b.y - a.y| / 2)) (by omega) (by omega)
      (|b.y - a.y|).toNat ⟨a, -(|b.y - a.y| / 2), invZ a.z⟩ |b.x - a.x|
      (by rw [hk]; exact hby) hbx (by rw [hk]; dsimp only; ring) (by dsimp only; omega)
      (by dsimp only; omega)
    rw [hmax]
    have hall : ∀ fuel : ℕ, drawBresenhamLineFuel m fuel a b =
        if (|b.y - a.y|).toNat ≤ fuel then some plots else none := by
      intro fuel
      rw [hfuel, if_neg hd, herr]
      exact hp1 fuel
    refine ⟨plots, hall, ?_, hp2⟩
    unfold drawBresenhamLine
    rw [hall, if_pos (by omega)]

theorem line_terminates_witness :
    ∃ plots : List Plot,
      (∀ fuel : ℕ, drawBresenhamLineFuel squareEnv.libm fuel ⟨0, 0, 1⟩ ⟨3, 4, 1 / 2⟩ =
        if (max |(⟨3, 4, 1 / 2⟩ : ScreenVertex).x - (⟨0, 0, 1⟩ : ScreenVertex).x|
            |(⟨3, 4, 1 / 2⟩ : ScreenVertex).y - (⟨0, 0, 1⟩ : ScreenVertex).y|).toNat ≤ fuel
          then some plots else none) ∧
      drawBresenhamLine squareEnv.libm ⟨0, 0, 1⟩ ⟨3, 4, 1 / 2⟩ = some plots ∧
      LineRun (max |(⟨3, 4, 1 / 2⟩ : ScreenVertex).x - (⟨0, 0, 1⟩ : ScreenVertex).x|
          |(⟨3, 4, 1 / 2⟩ : ScreenVertex).y - (⟨0, 0, 1⟩ : ScreenVertex).y|).toNat
        (⟨0, 0, 1⟩ : ScreenVertex).x (⟨0, 0, 1⟩ : ScreenVertex).y ⟨3, 4, 1 / 2⟩ plots :=
  (line_terminates squareEnv.libm ⟨0, 0, 1⟩ ⟨3, 4, 1 / 2⟩ (by decide) (by decide) (by decide!)).1

/-! ## Ray and triangle -/

/-- Cramer: a solution of the triangle equation is given by the three
quotients the code computes. -/
theorem triangleSolution_cramer (p1 p2 p3 : Vertex) (ray : Ray) (t b1 b2 : ℚ)
    (h : triangleSolution p1 p2 p3 ray t b1 b2) :
    t * DotProd (CrossProd ray.direction (p3.sub p1)) (p2.sub p1) =
      DotProd (p3.sub p1) (CrossProd (ray.center.sub p1) (p2.sub p1)) ∧
    b1 * DotProd (CrossProd ray.direction (p3.sub p1)) (p2.sub p1) =
      DotProd (ray.center.sub p1) (CrossProd ray.direction (p3.sub p1)) ∧
    b2 * DotProd (CrossProd ray.direction (p3.sub p1)) (p2.sub p1) =
      DotProd ray.direction (CrossProd (ray.center.sub p1) (p2.sub p1)) := by
  obtain ⟨hx, hy, hz⟩ := h
  simp only [DotProd, CrossProd, Vertex.sub]
  refine ⟨?_, ?_, ?_⟩
  · linear_combination
      (-((p2.y - p1.y) * (p3.z - p1.z) - (p2.z - p1.z) * (p3.y - p1.y))) * hx +
      (-((p2.z - p1.z) * (p3.x - p1.x) - (p2.x - p1.x) * (p3.z - p1.z))) * hy +
      (-((p2.x - p1.x) * (p3.y - p1.y) - (p2.y - p1.y) * (p3.x - p1.x))) * hz
  · linear_combination
      (-(ray.direction.y * (p3.z - p1.z) - ray.direction.z * (p3.y - p1.y))) * hx +
      (-(ray.direction.z * (p3.x - p1.x) - ray.direction.x * (p3.z - p1.z))) * hy +
      (-(ray.direction.x * (p3.y - p1.y) - ray.direction.y * (p3.x - p1.x))) * hz
  · linear_combination
      ((ray.direction.y * (p2.z - p1.z) - ray.direction.z * (p2.y - p1.y))) * hx +
      ((ray.direction.z * (p2.x - p1.x) - ray.direction.x * (p2.z - p1.z))) * hy +
      ((ray.direction.x * (p2.y - p1.y) - ray.direction.y * (p2.x - p1.x))) * hz

/-- The three quotients the code computes solve the triangle equation when
the divisor is not zero. -/
theorem triangleSolution_code (p1 p2 p3 : Vertex) (ray : Ray)
    (hd : DotProd (CrossProd ray.direction (p3.sub p1)) (p2.sub p1) ≠ 0) :
    triangleSolution p1 p2 p3 ray
      (DotProd (p3.sub p1) (CrossProd (ray.center.sub p1) (p2.sub p1)) *
        (1 / DotProd (CrossProd ray.direction (p3.sub p1)) (p2.sub p1)))
      (DotProd (ray.center.sub p1) (CrossProd ray.direction (p3.sub p1)) *
        (1 / DotProd (CrossProd ray.direction (p3.sub p1)) (p2.sub p1)))
      (DotProd ray.direction (CrossProd (ray.center.sub p1) (p2.sub p1)) *
        (1 / DotProd (CrossProd ray.direction (p3.sub p1)) (p2.sub p1))) := by
  simp only [DotProd, CrossProd, Vertex.sub] at hd ⊢
  unfold triangleSolution
  refine ⟨?_, ?_, ?_⟩ <;> field_simp <;> ring

/-- With a divisor that is not zero, a solution of the triangle equation is
the triple of the code's quotients. -/
theorem triangleSolution_values (p1 p2 p3 : Vertex) (ray : Ray) (t b1 b2 : ℚ)
    (hd : DotProd (CrossProd ray.direction (p3.sub p1)) (p2.sub p1) ≠ 0)
    (h : triangleSolution p1 p2 p3 ray t b1 b2) :
    t = DotProd (p3.sub p1) (CrossProd (ray.center.sub p1) (p2.sub p1)) *
        (1 / DotProd (CrossProd ray.direction (p3.sub p1)) (p2.sub p1)) ∧
    b1 = DotProd (ray.center.sub p1) (CrossProd ray.direction (p3.sub p1)) *
        (1 / DotProd (CrossProd ray.direction (p3.sub p1)) (p2.sub p1)) ∧
    b2 = DotProd ray.direction (CrossProd (ray.center.sub p1) (p2.sub p1)) *
        (1 / DotProd (CrossProd ray.direction (p3.sub p1)) (p2.sub p1)) := by
  obtain ⟨h1, h2, h3⟩ := triangleSolution_cramer p1 p2 p3 ray t b1 b2 h
  refine ⟨?_, ?_, ?_⟩
  · rw [← h1]
    field_simp
  · rw [← h2]
    field_simp
  · rw [← h3]
    field_simp

/-- The body of `Triangle::IntersectWithRay` in exact arithmetic. -/
theorem Triangle.intersectWith_id (points : List Vertex) (ray : Ray) (tHit : ℚ) :
    Triangle.intersectWith id points ray tHit =
      if DotProd (CrossProd ray.direction ((points.getD 2 default).sub (points.getD 0 default)))
          ((points.getD 1 default).sub (points.getD 0 default)) = 0 then (false, tHit)
      else
        if DotProd (ray.center.sub (points.getD 0 default))
              (CrossProd ray.direction
                ((points.getD 2 default).sub (points.getD 0 default))) *
            (1 / DotProd (CrossProd ray.direction
                ((points.getD 2 default).sub (points.getD 0 default)))
              ((points.getD 1 default).sub (points.getD 0 default))) < 0 ∨
            DotProd (ray.center.sub (points.getD 0 default))
              (CrossProd ray.direction
                ((points.getD 2 default).sub (points.getD 0 default))) *
            (1 / DotProd (CrossProd ray.direction
                ((points.getD 2 default).sub (points.getD 0 default)))
              ((points.getD 1 default).sub (points.getD 0 default))) > 1 then (false, tHit)
        else
          if DotProd ray.direction (CrossProd (ray.center.sub (points.getD 0 default))
                ((points.getD 1 default).sub (points.getD 0 default))) *
              (1 / DotProd (CrossProd ray.direction
                  ((points.getD 2 default).sub (points.getD 0 default)))
                ((points.getD 1 default).sub (points.getD 0 default))) < 0 ∨
              DotProd (ray.center.sub (points.getD 0 default))
                (CrossProd ray.direction
                  ((points.getD 2 default).sub (points.getD 0 default))) *
              (1 / DotProd (CrossProd ray.direction
                  ((points.getD 2 default).sub (points.getD 0 default)))
                ((points.getD 1 default).sub (points.getD 0 default))) +
              DotProd ray.direction (CrossProd (ray.center.sub (points.getD 0 default))
                ((points.getD 1 default).sub (points.getD 0 default))) *
              (1 / DotProd (CrossProd ray.direction
                  ((points.getD 2 default).sub (points.getD 0 default)))
                ((points.getD 1 default).sub (points.getD 0 default))) > 1 then (false, tHit)
          else
            (decide (DotProd ((points.getD 2 default).sub (points.getD 0 default))
                (CrossProd (ray.center.sub (points.getD 0 default))
                  ((points.getD 1 default).sub (points.getD 0 default))) *
              (1 / DotProd (CrossProd ray.direction
                  ((points.getD 2 default).sub (points.getD 0 default)))
                ((points.getD 1 default).sub (points.getD 0 default))) > EPSILON_T),
              DotProd ((points.getD 2 default).sub (points.getD 0 default))
                (CrossProd (ray.center.sub (points.getD 0 default))
                  ((points.getD 1 default).sub (points.getD 0 default))) *
              (1 / DotProd (CrossProd ray.direction
                  ((points.getD 2 default).sub (points.getD 0 default)))
                ((points.getD 1 default).sub (points.getD 0 default)))) := rfl

/-- The result of `Triangle::IntersectWithRay` in exact arithmetic, path by
path. -/
theorem triangle_intersect_iff (p1 p2 p3 : Vertex) (ray : Ray) (t0 tHit : ℚ) :
    Triangle.intersectWith id [p1, p2, p3] ray t0 = (true, tHit) ↔
      DotProd (CrossProd ray.direction (p3.sub p1)) (p2.sub p1) ≠ 0 ∧
      ∃ b1 b2 : ℚ, triangleSolution p1 p2 p3 ray tHit b1 b2 ∧
        0 ≤ b1 ∧ 0 ≤ b2 ∧ b1 + b2 ≤ 1 ∧ tHit > EPSILON_T := by
  rw [Triangle.intersectWith_id]
  simp only [List.getD_cons_zero, List.getD_cons_succ]
  by_cases hd : DotProd (CrossProd ray.direction (p3.sub p1)) (p2.sub p1) = 0
  · rw [if_pos hd]
    constructor
    · intro h
      simp at h
    · intro h
      exact absurd hd h.1
  · rw [if_neg hd]
    have hcode := triangleSolution_code p1 p2 p3 ray hd
    by_cases hb1 : DotProd (ray.center.sub p1) (CrossProd ray.direction (p3.sub p1)) *
        (1 / DotProd (CrossProd ray.direction (p3.sub p1)) (p2.sub p1)) < 0 ∨
        DotProd (ray.center.sub p1) (CrossProd ray.direction (p3.sub p1)) *
        (1 / DotProd (CrossProd ray.direction (p3.sub p1)) (p2.sub p1)) > 1
    · rw [if_pos hb1]
      constructor
      · intro h
        simp at h
      · rintro ⟨-, b1, b2, hs, h1, h2, h3, -⟩
        obtain ⟨-, e1, -⟩ := triangleSolution_values p1 p2 p3 ray tHit b1 b2 hd hs
        rw [← e1] at hb1
        rcases hb1 with h | h <;> linarith
    · rw [if_neg hb1]
      by_cases hb2 : DotProd ray.direction (CrossProd (ray.center.sub p1) (p2.sub p1)) *
          (1 / DotProd (CrossProd ray.direction (p3.sub p1)) (p2.sub p1)) < 0 ∨
          DotProd (ray.center.sub p1) (CrossProd ray.direction (p3.sub p1)) *
          (1 / DotProd (CrossProd ray.direction (p3.sub p1)) (p2.sub p1)) +
          DotProd ray.direction (CrossProd (ray.center.sub p1) (p2.sub p1)) *
          (1 / DotProd (CrossProd ray.direction (p3.sub p1)) (p2.sub p1)) > 1
      · rw [if_pos hb2]
        constructor
        · intro h
          simp at h
        · rintro ⟨-, b1, b2, hs, h1, h2, h3, -⟩
          obtain ⟨-, e1, e2⟩ := triangleSolution_values p1 p2 p3 ray tHit b1 b2 hd hs
          rw [← e1, ← e2] at hb2
          rcases hb2 with h | h <;> linarith
      · rw [if_neg hb2]
        rw [not_or, not_lt, not_lt] at hb1 hb2
        constructor
        · intro h
          rw [Prod.mk.injEq, decide_eq_true_eq] at h
          obtain ⟨ht, he⟩ := h
          rw [he] at ht hcode
          exact ⟨hd, _, _, hcode, hb1.1, hb2.1, hb2.2, ht⟩
        · rintro ⟨-, b1, b2, hs, h1, h2, h3, h4⟩
          obtain ⟨e0, -, -⟩ := triangleSolution_values p1 p2 p3 ray tHit b1 b2 hd hs
          rw [Prod.mk.injEq, decide_eq_true_eq]
          refine ⟨?_, e0.symm⟩
          rw [e0] at h4
          exact h4

/-- C30. In exact arithmetic, for every triangle `(p1, p2, p3)` and ray
`(o, d)`: when the divisor `(d × (p3 - p1)) · (p2 - p1)` is not zero, the
equation `o + t·d = p1 + b1·(p2 - p1) + b2·(p3 - p1)` has exactly one solution
`(t, b1, b2)`; the body of `Triangle::IntersectWithRay` returns true with
`tHit` if and only if the divisor is not zero and there are `b1 ≥ 0`,
`b2 ≥ 0` with `b1 + b2 ≤ 1` such that `(tHit, b1, b2)` is that solution and
`tHit > EPSILON_T`; and it returns true at all exactly when such a solution
exists.  In binary32, the arithmetic of the program, the test
`divisor == 0` is made on a rounded value: for the triangle `inPlaneTriangle`
and the ray `inPlaneRay`, which lies in the plane of the triangle, the exact
divisor is 0 and the exact body returns false, but the `float` divisor is
`-2 ^ -21` and `Triangle::IntersectWithRay` returns true with `tHit = 1`. -/
theorem triangle_intersect (p1 p2 p3 : Vertex) (ray : Ray) (t0 : ℚ) :
    (DotProd (CrossProd ray.direction (p3.sub p1)) (p2.sub p1) ≠ 0 →
      ∃! s : ℚ × ℚ × ℚ, triangleSolution p1 p2 p3 ray s.1 s.2.1 s.2.2) ∧
    (∀ tHit : ℚ, Triangle.intersectWith id [p1, p2, p3] ray t0 = (true, tHit) ↔
      DotProd (CrossProd ray.direction (p3.sub p1)) (p2.sub p1) ≠ 0 ∧
      ∃ b1 b2 : ℚ, triangleSolution p1 p2 p3 ray tHit b1 b2 ∧
        0 ≤ b1 ∧ 0 ≤ b2 ∧ b1 + b2 ≤ 1 ∧ tHit > EPSILON_T) ∧
    ((Triangle.intersectWith id [p1, p2, p3] ray t0).1 = true ↔
      DotProd (CrossProd ray.direction (p3.sub p1)) (p2.sub p1) ≠ 0 ∧
      ∃ t b1 b2 : ℚ, triangleSolution p1 p2 p3 ray t b1 b2 ∧
        0 ≤ b1 ∧ 0 ≤ b2 ∧ b1 + b2 ≤ 1 ∧ t > EPSILON_T) ∧
    (DotProd (CrossProd inPlaneRay.direction
        ((inPlaneTriangle.getD 2 default).sub (inPlaneTriangle.getD 0 default)))
        ((inPlaneTriangle.getD 1 default).sub (inPlaneTriangle.getD 0 default)) = 0 ∧
      Triangle.intersectWith id inPlaneTriangle inPlaneRay 0 = (false, 0) ∧
      dotProdWith F32.round (crossProdWith F32.round inPlaneRay.direction
        ((inPlaneTriangle.getD 2 default).subWith F32.round (inPlaneTriangle.getD 0 default)))
        ((inPlaneTriangle.getD 1 default).subWith F32.round (inPlaneTriangle.getD 0 default)) =
          -1 / 2097152 ∧
      Triangle.IntersectWithRay inPlaneTriangle inPlaneRay 0 = (true, 1)) := by
  refine ⟨?_, triangle_intersect_iff p1 p2 p3 ray t0, ?_,
    by decide!, by decide!, by decide!, by decide!⟩
  · intro hd
    refine ⟨(_, _, _), triangleSolution_code p1 p2 p3 ray hd, ?_⟩
    rintro ⟨t, b1, b2⟩ h
    obtain ⟨e0, e1, e2⟩ := triangleSolution_values p1 p2 p3 ray t b1 b2 hd h
    rw [e0, e1, e2]
  · constructor
    · intro h
      obtain ⟨hd, b1, b2, hs⟩ := (triangle_intersect_iff p1 p2 p3 ray t0
        (Triangle.intersectWith id [p1, p2, p3] ray t0).2).mp (by rw [← h])
      exact ⟨hd, _, b1, b2, hs⟩
    · rintro ⟨hd, t, b1, b2, hs⟩
      rw [(triangle_intersect_iff p1 p2 p3 ray t0 t).mpr ⟨hd, b1, b2, hs⟩]

/-- The triangle `(0,0,0), (1,0,0), (0,1,0)` and the ray from `(1/4, 1/4, 1)`
straight down: the hit is at `t = 1`. -/
theorem triangle_intersect_witness :
    Triangle.intersectWith id [⟨0, 0, 0, 1⟩, ⟨1, 0, 0, 1⟩, ⟨0, 1, 0, 1⟩]
        ⟨⟨1 / 4, 1 / 4, 1, 1⟩, ⟨0, 0, -1, 0⟩⟩ 0 = (true, 1) ∧
      DotProd (CrossProd (⟨⟨1 / 4, 1 / 4, 1, 1⟩, ⟨0, 0, -1, 0⟩⟩ : Ray).direction
        ((⟨0, 1, 0, 1⟩ : Vertex).sub ⟨0, 0, 0, 1⟩)) ((⟨1, 0, 0, 1⟩ : Vertex).sub ⟨0, 0, 0, 1⟩) ≠ 0 ∧
      ∃ b1 b2 : ℚ, triangleSolution ⟨0, 0, 0, 1⟩ ⟨1, 0, 0, 1⟩ ⟨0, 1, 0, 1⟩
          ⟨⟨1 / 4, 1 / 4, 1, 1⟩, ⟨0, 0, -1, 0⟩⟩ 1 b1 b2 ∧
        0 ≤ b1 ∧ 0 ≤ b2 ∧ b1 + b2 ≤ 1 ∧ (1 : ℚ) > EPSILON_T :=
  ⟨by decide!, ((triangle_intersect ⟨0, 0, 0, 1⟩ ⟨1, 0, 0, 1⟩ ⟨0, 1, 0, 1⟩
    ⟨⟨1 / 4, 1 / 4, 1, 1⟩, ⟨0, 0, -1, 0⟩⟩ 0).2.1 1).mp (by decide!)⟩

/-! ## Ray and sphere -/

/-- For a unit direction the sphere equation is `(t + b)² = d`. -/
theorem onSphere_iff (center : Vertex) (radius : ℚ) (ray : Ray)
    (hunit : DotProd ray.direction ray.direction = 1) (t : ℝ) :
    onSphere center radius ray t ↔
      (t + ((DotProd (ray.center.sub center) ray.direction : ℚ) : ℝ)) ^ 2 =
        ((sphereDiscriminant center radius ray : ℚ) : ℝ) := by
  have hu : (ray.direction.x : ℝ) * ray.direction.x + ray.direction.y * ray.direction.y +
      ray.direction.z * ray.direction.z = 1 := by
    unfold DotProd at hunit
    exact_mod_cast hunit
  unfold onSphere sphereDiscriminant DotProd Vertex.sub
  push_cast
  constructor
  · intro h
    linear_combination h - t ^ 2 * hu
  · intro h
    linear_combination h + t ^ 2 * hu

/-- The roots among two candidates `lo ≤ hi` that are at least `e`: the least
is `lo` if `e ≤ lo`, else `hi` if `e ≤ hi`, else there is none. -/
theorem least_of_two (S : Set ℝ) (e lo hi : ℚ) (hle : lo ≤ hi)
    (hS : ∀ x : ℝ, x ∈ S ↔ (e : ℝ) ≤ x ∧ (x = (lo : ℝ) ∨ x = (hi : ℝ))) :
    (e ≤ lo → IsLeast S (lo : ℝ)) ∧ (¬ e ≤ lo → e ≤ hi → IsLeast S (hi : ℝ)) ∧
    (¬ e ≤ lo → ¬ e ≤ hi → ∀ x : ℝ, x ∉ S) := by
  have hle' : (lo : ℝ) ≤ (hi : ℝ) := by exact_mod_cast hle
  refine ⟨?_, ?_, ?_⟩
  · intro h
    have h' : (e : ℝ) ≤ (lo : ℝ) := by exact_mod_cast h
    refine ⟨(hS _).mpr ⟨h', Or.inl rfl⟩, ?_⟩
    intro x hx
    rcases ((hS x).mp hx).2 with h1 | h1 <;> rw [h1]
    exact hle'
  · intro h1 h2
    have h1' : (lo : ℝ) < (e : ℝ) := by exact_mod_cast not_le.mp h1
    have h2' : (e : ℝ) ≤ (hi : ℝ) := by exact_mod_cast h2
    refine ⟨(hS _).mpr ⟨h2', Or.inr rfl⟩, ?_⟩
    intro x hx
    obtain ⟨hx1, hx2⟩ := (hS x).mp hx
    rcases hx2 with h3 | h3
    · rw [h3] at hx1
      linarith
    · rw [h3]
  · intro h1 h2 x hx
    have h1' : (lo : ℝ) < (e : ℝ) := by exact_mod_cast not_le.mp h1
    have h2' : (hi : ℝ) < (e : ℝ) := by exact_mod_cast not_le.mp h2
    obtain ⟨hx1, hx2⟩ := (hS x).mp hx
    rcases hx2 with h3 | h3 <;> rw [h3] at hx1 <;> linarith

/-- For a unit direction the equation of the sphere of squared radius
`radius² + e` is `(t + b)² = d + e`. -/
theorem onSphereOff_iff (center : Vertex) (radius e : ℚ) (ray : Ray)
    (hunit : DotProd ray.direction ray.direction = 1) (t : ℝ) :
    onSphereOff center radius e ray t ↔
      (t + ((DotProd (ray.center.sub center) ray.direction : ℚ) : ℝ)) ^ 2 =
        ((sphereDiscriminant center radius ray : ℚ) : ℝ) + (e : ℝ) := by
  have hu : (ray.direction.x : ℝ) * ray.direction.x + ray.direction.y * ray.direction.y +
      ray.direction.z * ray.direction.z = 1 := by
    unfold DotProd at hunit
    exact_mod_cast hunit
  unfold onSphereOff sphereDiscriminant DotProd Vertex.sub
  push_cast
  constructor
  · intro h
    linear_combination h - t ^ 2 * hu
  · intro h
    linear_combination h + t ^ 2 * hu

theorem onSphereOff_zero (center : Vertex) (radius : ℚ) (ray : Ray) (t : ℝ) :
    onSphereOff center radius 0 ray t ↔ onSphere center radius ray t := by
  unfold onSphereOff onSphere
  rw [Rat.cast_zero, add_zero]

/-- The two outcomes of `Sphere::IntersectWithRay` in terms of a set `P` of
parameters that is empty when the discriminant is negative and holds the two
candidates `-b - sqrt(d)` and `-b + sqrt(d)` otherwise: false and no member at
or above `EPSILON_T`, or true with the least such member. -/
theorem sphere_cases_of (m : Libm) (center : Vertex) (radius : ℚ) (ray : Ray) (t0 : ℚ)
    (P : ℝ → Prop)
    (hN : sphereDiscriminant center radius ray < 0 → ∀ x : ℝ, ¬ P x)
    (hP : 0 ≤ sphereDiscriminant center radius ray → ∀ x : ℝ, P x ↔
      (x + ((DotProd (ray.center.sub center) ray.direction : ℚ) : ℝ)) ^ 2 =
        ((m.sqrt (sphereDiscriminant center radius ray) : ℚ) : ℝ) ^ 2) :
    (Sphere.intersectWith id m center radius ray t0 = (false, t0) ∧
      ∀ x : ℝ, x ∉ {x : ℝ | ((EPSILON_T : ℚ) : ℝ) ≤ x ∧ P x}) ∨
    (∃ t : ℚ, Sphere.intersectWith id m center radius ray t0 = (true, t) ∧
      IsLeast {x : ℝ | ((EPSILON_T : ℚ) : ℝ) ≤ x ∧ P x} (t : ℝ)) := by
  have hcode : Sphere.intersectWith id m center radius ray t0 =
      if sphereDiscriminant center radius ray < 0 then (false, t0)
      else
        if (if -DotProd (ray.center.sub center) ray.direction -
                m.sqrt (sphereDiscriminant center radius ray) >
              -DotProd (ray.center.sub center) ray.direction +
                m.sqrt (sphereDiscriminant center radius ray)
            then (-DotProd (ray.center.sub center) ray.direction +
                m.sqrt (sphereDiscriminant center radius ray),
              -DotProd (ray.center.sub center) ray.direction -
                m.sqrt (sphereDiscriminant center radius ray))
            else (-DotProd (ray.center.sub center) ray.direction -
                m.sqrt (sphereDiscriminant center radius ray),
              -DotProd (ray.center.sub center) ray.direction +
                m.sqrt (sphereDiscriminant center radius ray))).1 ≥ EPSILON_T
        then (true, (if -DotProd (ray.center.sub center) ray.direction -
                m.sqrt (sphereDiscriminant center radius ray) >
              -DotProd (ray.center.sub center) ray.direction +
                m.sqrt (sphereDiscriminant center radius ray)
            then (-DotProd (ray.center.sub center) ray.direction +
                m.sqrt (sphereDiscriminant center radius ray),
              -DotProd (ray.center.sub center) ray.direction -
                m.sqrt (sphereDiscriminant center radius ray))
            else (-DotProd (ray.center.sub center) ray.direction -
                m.sqrt (sphereDiscriminant center radius ray),
              -DotProd (ray.center.sub center) ray.direction +
                m.sqrt (sphereDiscriminant center radius ray))).1)
        else if (if -DotProd (ray.center.sub center) ray.direction -
                m.sqrt (sphereDiscriminant center radius ray) >
              -DotProd (ray.center.sub center) ray.direction +
                m.sqrt (sphereDiscriminant center radius ray)
            then (-DotProd (ray.center.sub center) ray.direction +
                m.sqrt (sphereDiscriminant center radius ray),
              -DotProd (ray.center.sub center) ray.direction -
                m.sqrt (sphereDiscriminant center radius ray))
            else (-DotProd (ray.center.sub center) ray.direction -
                m.sqrt (sphereDiscriminant center radius ray),
              -DotProd (ray.center.sub center) ray.direction +
                m.sqrt (sphereDiscriminant center radius ray))).2 ≥ EPSILON_T
        then (true, (if -DotProd (ray.center.sub center) ray.direction -
                m.sqrt (sphereDiscriminant center radius ray) >
              -DotProd (ray.center.sub center) ray.direction +
                m.sqrt (sphereDiscriminant center radius ray)
            then (-DotProd (ray.center.sub center) ray.direction +
                m.sqrt (sphereDiscriminant center radius ray),
              -DotProd (ray.center.sub center) ray.direction -
                m.sqrt (sphereDiscriminant center radius ray))
            else (-DotProd (ray.center.sub center) ray.direction -
                m.sqrt (sphereDiscriminant center radius ray),
              -DotProd (ray.center.sub center) ray.direction +
                m.sqrt (sphereDiscriminant center radius ray))).2)
        else (false, t0) := rfl
  rw [hcode]
  obtain ⟨b, hb⟩ : ∃ b, b = DotProd (ray.center.sub center) ray.direction := ⟨_, rfl⟩
  obtain ⟨d, hdd⟩ : ∃ d, d = sphereDiscriminant center radius ray := ⟨_, rfl⟩
  obtain ⟨s, hs⟩ : ∃ s, s = m.sqrt d := ⟨_, rfl⟩
  rw [← hdd] at hN hP ⊢
  rw [← hb] at hP ⊢
  rw [← hs] at hP ⊢
  by_cases hneg : d < 0
  · rw [if_pos hneg]
    left
    refine ⟨rfl, ?_⟩
    rintro x ⟨-, hx⟩
    exact hN hneg x hx
  · rw [if_neg hneg]
    have hroots : ∀ x : ℝ, P x ↔ x = ((-b - s : ℚ) : ℝ) ∨ x = ((-b + s : ℚ) : ℝ) := by
      intro x
      rw [hP (not_lt.mp hneg) x]
      push_cast
      constructor
      · intro h
        have h0 : (x - (-(b : ℝ) - (s : ℝ))) * (x - (-(b : ℝ) + (s : ℝ))) = 0 := by
          linear_combination h
        rcases mul_eq_zero.mp h0 with h1 | h1
        · left
          linarith
        · right
          linarith
      · rintro (h | h) <;> rw [h] <;> ring
    by_cases hsw : -b - s > -b + s
    · rw [if_pos hsw]
      dsimp only
      have hS : ∀ x : ℝ, x ∈ {x : ℝ | ((EPSILON_T : ℚ) : ℝ) ≤ x ∧ P x} ↔
          ((EPSILON_T : ℚ) : ℝ) ≤ x ∧ (x = ((-b + s : ℚ) : ℝ) ∨ x = ((-b - s : ℚ) : ℝ)) := by
        intro x
        rw [Set.mem_setOf_eq, hroots x, or_comm]
      obtain ⟨l1, l2, l3⟩ := least_of_two _ EPSILON_T (-b + s) (-b - s) (le_of_lt hsw) hS
      by_cases h1 : -b + s ≥ EPSILON_T
      · rw [if_pos h1]
        exact Or.inr ⟨_, rfl, l1 h1⟩
      · rw [if_neg h1]
        by_cases h2 : -b - s ≥ EPSILON_T
        · rw [if_pos h2]
          exact Or.inr ⟨_, rfl, l2 h1 h2⟩
        · rw [if_neg h2]
          exact Or.inl ⟨rfl, l3 h1 h2⟩
    · rw [if_neg hsw]
      dsimp only
      have hS : ∀ x : ℝ, x ∈ {x : ℝ | ((EPSILON_T : ℚ) : ℝ) ≤ x ∧ P x} ↔
          ((EPSILON_T : ℚ) : ℝ) ≤ x ∧ (x = ((-b - s : ℚ) : ℝ) ∨ x = ((-b + s : ℚ) : ℝ)) := by
        intro x
        rw [Set.mem_setOf_eq, hroots x]
      obtain ⟨l1, l2, l3⟩ := least_of_two _ EPSILON_T (-b - s) (-b + s) (not_lt.mp hsw) hS
      by_cases h1 : -b - s ≥ EPSILON_T
      · rw [if_pos h1]
        exact Or.inr ⟨_, rfl, l1 h1⟩
      · rw [if_neg h1]
        by_cases h2 : -b + s ≥ EPSILON_T
        · rw [if_pos h2]
          exact Or.inr ⟨_, rfl, l2 h1 h2⟩
        · rw [if_neg h2]
          exact Or.inl ⟨rfl, l3 h1 h2⟩

/-- What the two outcomes of `sphere_cases_of` say of the result: it is true
with `t` exactly when `t` is the least member at or above `EPSILON_T`, and
false exactly when there is no such member. -/
theorem sphere_iffs (m : Libm) (center : Vertex) (radius : ℚ) (ray : Ray) (t0 : ℚ)
    (P : ℝ → Prop)
    (h : (Sphere.intersectWith id m center radius ray t0 = (false, t0) ∧
        ∀ x : ℝ, x ∉ {x : ℝ | ((EPSILON_T : ℚ) : ℝ) ≤ x ∧ P x}) ∨
      (∃ t : ℚ, Sphere.intersectWith id m center radius ray t0 = (true, t) ∧
        IsLeast {x : ℝ | ((EPSILON_T : ℚ) : ℝ) ≤ x ∧ P x} (t : ℝ))) :
    (∀ t : ℚ, Sphere.intersectWith id m center radius ray t0 = (true, t) ↔
      IsLeast {x : ℝ | ((EPSILON_T : ℚ) : ℝ) ≤ x ∧ P x} (t : ℝ)) ∧
    ((Sphere.intersectWith id m center radius ray t0).1 = false ↔
      ¬ ∃ x : ℝ, ((EPSILON_T : ℚ) : ℝ) ≤ x ∧ P x) := by
  constructor
  · intro t
    rcases h with ⟨h1, h2⟩ | ⟨t1, h1, h2⟩
    · rw [h1]
      refine ⟨fun ht => ?_, fun ht => absurd ht.1 (h2 _)⟩
      simp at ht
    · rw [h1]
      constructor
      · intro ht
        rw [Prod.mk.injEq] at ht
        rw [← ht.2]
        exact h2
      · intro ht
        have h3 : (t1 : ℝ) = (t : ℝ) := h2.unique ht
        rw [Rat.cast_injective h3]
  · rcases h with ⟨h1, h2⟩ | ⟨t1, h1, h2⟩
    · rw [h1]
      refine ⟨fun _ => ?_, fun _ => rfl⟩
      rintro ⟨x, hx⟩
      exact h2 x hx
    · rw [h1]
      refine ⟨fun h => ?_, fun h => ?_⟩
      · simp at h
      · exact absurd ⟨_, h2.1⟩ h


/-- The result of `Sphere::IntersectWithRay` depends on the math library only
through the square root of the discriminant it computes. -/
theorem intersectWith_sqrt (fl : ℚ → ℚ) (m m1 : Libm) (center : Vertex) (radius : ℚ)
    (ray : Ray) (t : ℚ)
    (h : m.sqrt (sphereDiscriminantWith fl center radius ray) =
      m1.sqrt (sphereDiscriminantWith fl center radius ray)) :
    Sphere.intersectWith fl m center radius ray t =
      Sphere.intersectWith fl m1 center radius ray t := by
  unfold Sphere.intersectWith
  unfold sphereDiscriminantWith at h
  simp only [h]

theorem onSphere_neg (center : Vertex) (radius : ℚ) (ray : Ray)
    (hunit : DotProd ray.direction ray.direction = 1)
    (hd : sphereDiscriminant center radius ray < 0) : ∀ x : ℝ, ¬ onSphere center radius ray x := by
  intro x hx
  have h1 := (onSphere_iff center radius ray hunit x).mp hx
  have h3 : ((sphereDiscriminant center radius ray : ℚ) : ℝ) < 0 := by exact_mod_cast hd
  rw [← h1] at h3
  exact absurd h3 (not_lt.mpr (sq_nonneg _))

/-- The ray `grazingRay` does not meet the unit sphere about the origin. -/
theorem grazingRay_misses : ∀ x : ℝ, ¬ onSphere ⟨0, 0, 0, 1⟩ 1 grazingRay x :=
  onSphere_neg ⟨0, 0, 0, 1⟩ 1 grazingRay (by decide!) (by decide!)

/-- With a square root that has the value 0 at 0, binary32 arithmetic finds the
discriminant 0 for `grazingRay` and reports a hit. -/
theorem grazingRay_hit (m : Libm) (h : m.sqrt 0 = 0) :
    Sphere.IntersectWithRay m ⟨0, 0, 0, 1⟩ 1 grazingRay 0 = (true, 3) := by
  have h1 : Sphere.intersectWith F32.round (constLibm 0) ⟨0, 0, 0, 1⟩ 1 grazingRay 0 =
    (true, 3) := by decide!
  have h2 : sphereDiscriminantWith F32.round ⟨0, 0, 0, 1⟩ 1 grazingRay = 0 := by decide!
  rw [← h1]
  refine intersectWith_sqrt _ _ _ _ _ _ _ ?_
  rw [h2, h]
  rfl

/-- With the binary32 square root of `3 / 4`, binary32 arithmetic returns
`4475269 / 2097152` for `chordRay`. -/
theorem chordRay_hit (m : Libm) (h : m.sqrt (3 / 4) = F32.sqrt (3 / 4)) :
    Sphere.IntersectWithRay m ⟨0, 0, 0, 1⟩ 1 chordRay 0 = (true, 4475269 / 2097152) := by
  have h1 : Sphere.intersectWith F32.round (constLibm (14529495 / 16777216)) ⟨0, 0, 0, 1⟩ 1
    chordRay 0 = (true, 4475269 / 2097152) := by decide!
  have h2 : sphereDiscriminantWith F32.round ⟨0, 0, 0, 1⟩ 1 chordRay = 3 / 4 := by decide!
  have h3 : F32.sqrt (3 / 4) = 14529495 / 16777216 := by decide!
  rw [← h1]
  refine intersectWith_sqrt _ _ _ _ _ _ _ ?_
  rw [h2, h, h3]
  rfl

/-- C29. In exact arithmetic, for every sphere (centre `c`, radius `r`), every
ray with origin `o` and unit-length direction `d`, and every square root
function: when the discriminant `D` is negative the body of
`Sphere::IntersectWithRay` returns false and the equation
`|o + t·d - c|² = r²` has no real root; when `D ≥ 0` it returns true with `t`
exactly when `t` is the least real root at or above `EPSILON_T` of
`|o + t·d - c|² = r² + (sqrt(D)² - D)`, the equation of the sphere up to the
error of the square root, and false exactly when that equation has no real
root at or above `EPSILON_T`; and when the square root is exact at `D`, it
returns true with `t` exactly when `t` is the least real root of
`|o + t·d - c|² = r²` that is at least `EPSILON_T`, false exactly when there
is no such root, and on success the point `o + t·d`, as the code computes it,
is at squared distance `r²` from the centre.  In binary32, the arithmetic of
the program, it does not: the ray `grazingRay` passes the centre of the unit
sphere at the distance `1 + 2 ^ -23`, so the equation has no real root, but
the `float` discriminant is 0 and `Sphere::IntersectWithRay` returns true with
`t = 3` (for every `sqrtf` with `sqrtf(0) = 0`); and for the ray `chordRay`,
with the discriminant `3 / 4` and the correctly rounded `sqrtf`, it returns
`t = 4475269 / 2097152`, where the point of the ray is at the squared distance
`4398046846745 / 4398046511104` from the centre, not 1. -/
theorem sphere_intersect (m : Libm) (center : Vertex) (radius : ℚ) (ray : Ray) (t0 : ℚ)
    (hunit : DotProd ray.direction ray.direction = 1) :
    (sphereDiscriminant center radius ray < 0 →
      Sphere.intersectWith id m center radius ray t0 = (false, t0) ∧
        ∀ x : ℝ, ¬ onSphere center radius ray x) ∧
    (0 ≤ sphereDiscriminant center radius ray →
      (∀ t : ℚ, Sphere.intersectWith id m center radius ray t0 = (true, t) ↔
        IsLeast {x : ℝ | ((EPSILON_T : ℚ) : ℝ) ≤ x ∧
          onSphereOff center radius (sqrtError m center radius ray) ray x} (t : ℝ)) ∧
      ((Sphere.intersectWith id m center radius ray t0).1 = false ↔
        ¬ ∃ x : ℝ, ((EPSILON_T : ℚ) : ℝ) ≤ x ∧
          onSphereOff center radius (sqrtError m center radius ray) ray x)) ∧
    ((0 ≤ sphereDiscriminant center radius ray →
        m.sqrt (sphereDiscriminant center radius ray) *
          m.sqrt (sphereDiscriminant center radius ray) = sphereDiscriminant center radius ray) →
      (∀ t : ℚ, Sphere.intersectWith id m center radius ray t0 = (true, t) ↔
        IsLeast {x : ℝ | ((EPSILON_T : ℚ) : ℝ) ≤ x ∧ onSphere center radius ray x} (t : ℝ)) ∧
      ((Sphere.intersectWith id m center radius ray t0).1 = false ↔
        ¬ ∃ x : ℝ, ((EPSILON_T : ℚ) : ℝ) ≤ x ∧ onSphere center radius ray x) ∧
      (∀ t : ℚ, Sphere.intersectWith id m center radius ray t0 = (true, t) →
        DotProd ((ray.center.add (ray.direction.smul t)).sub center)
          ((ray.center.add (ray.direction.smul t)).sub center) = radius * radius)) ∧
    (DotProd grazingRay.direction grazingRay.direction = 1 ∧
      sphereDiscriminant ⟨0, 0, 0, 1⟩ 1 grazingRay < 0 ∧
      (∀ x : ℝ, ¬ onSphere ⟨0, 0, 0, 1⟩ 1 grazingRay x) ∧
      sphereDiscriminantWith F32.round ⟨0, 0, 0, 1⟩ 1 grazingRay = 0 ∧
      ∀ m0 : Libm, m0.sqrt 0 = 0 →
        Sphere.IntersectWithRay m0 ⟨0, 0, 0, 1⟩ 1 grazingRay 0 = (true, 3)) ∧
    (DotProd chordRay.direction chordRay.direction = 1 ∧
      sphereDiscriminantWith F32.round ⟨0, 0, 0, 1⟩ 1 chordRay = 3 / 4 ∧
      F32.sqrt (3 / 4) = 14529495 / 16777216 ∧
      (∀ m0 : Libm, m0.sqrt (3 / 4) = F32.sqrt (3 / 4) →
        Sphere.IntersectWithRay m0 ⟨0, 0, 0, 1⟩ 1 chordRay 0 = (true, 4475269 / 2097152)) ∧
      DotProd ((chordRay.center.add (chordRay.direction.smul (4475269 / 2097152))).sub
          ⟨0, 0, 0, 1⟩)
        ((chordRay.center.add (chordRay.direction.smul (4475269 / 2097152))).sub ⟨0, 0, 0, 1⟩) =
          4398046846745 / 4398046511104) := by
  have hexact : (0 ≤ sphereDiscriminant center radius ray →
        m.sqrt (sphereDiscriminant center radius ray) *
          m.sqrt (sphereDiscriminant center radius ray) = sphereDiscriminant center radius ray) →
      (Sphere.intersectWith id m center radius ray t0 = (false, t0) ∧
        ∀ x : ℝ, x ∉ {x : ℝ | ((EPSILON_T : ℚ) : ℝ) ≤ x ∧ onSphere center radius ray x}) ∨
      (∃ t : ℚ, Sphere.intersectWith id m center radius ray t0 = (true, t) ∧
        IsLeast {x : ℝ | ((EPSILON_T : ℚ) : ℝ) ≤ x ∧ onSphere center radius ray x} (t : ℝ)) := by
    intro hsqrt
    refine sphere_cases_of m center radius ray t0 _ (onSphere_neg center radius ray hunit) ?_
    intro hd x
    rw [onSphere_iff center radius ray hunit x, sq (Rat.cast (m.sqrt _)), ← Rat.cast_mul,
      hsqrt hd]
  refine ⟨?_, ?_, ?_, ⟨by decide!, by decide!, grazingRay_misses, by decide!, grazingRay_hit⟩,
    by decide!, by decide!, by decide!, chordRay_hit, by decide!⟩
  · intro hd
    refine ⟨?_, onSphere_neg center radius ray hunit hd⟩
    rcases hexact (fun h => absurd hd (not_lt.mpr h)) with ⟨h1, -⟩ | ⟨t, -, h2⟩
    · exact h1
    · exact absurd h2.1.2 (onSphere_neg center radius ray hunit hd _)
  · intro hd
    refine sphere_iffs m center radius ray t0 _
      (sphere_cases_of m center radius ray t0 _ (fun h => absurd hd (not_le.mpr h)) ?_)
    intro _ x
    rw [onSphereOff_iff center radius _ ray hunit x]
    unfold sqrtError
    push_cast
    constructor
    · intro h
      linear_combination h
    · intro h
      linear_combination h
  · intro hsqrt
    obtain ⟨k1, k2⟩ := sphere_iffs m center radius ray t0 _ (hexact hsqrt)
    refine ⟨k1, k2, ?_⟩
    intro t ht
    have h1 : onSphere center radius ray (t : ℝ) := ((k1 t).mp ht).1.2
    unfold onSphere at h1
    simp only [DotProd, Vertex.sub, Vertex.add, Vertex.smul]
    have h2 : (ray.center.x + t * ray.direction.x - center.x) ^ 2 +
        (ray.center.y + t * ray.direction.y - center.y) ^ 2 +
        (ray.center.z + t * ray.direction.z - center.z) ^ 2 = radius ^ 2 := by
      exact_mod_cast h1
    linear_combination h2

/-- The unit sphere at the origin and the ray from `(0, 0, 3)` towards it: the
discriminant is 1, the roots are 2 and 4, and the code returns 2. -/
theorem sphere_intersect_witness :
    Sphere.intersectWith id squareEnv.libm ⟨0, 0, 0, 1⟩ 1 ⟨⟨0, 0, 3, 1⟩, ⟨0, 0, -1, 0⟩⟩ 0 =
        (true, 2) ∧
      IsLeast {x : ℝ | ((EPSILON_T : ℚ) : ℝ) ≤ x ∧
        onSphere ⟨0, 0, 0, 1⟩ 1 ⟨⟨0, 0, 3, 1⟩, ⟨0, 0, -1, 0⟩⟩ x} ((2 : ℚ) : ℝ) :=
  ⟨by decide!, (((sphere_intersect squareEnv.libm ⟨0, 0, 0, 1⟩ 1 ⟨⟨0, 0, 3, 1⟩, ⟨0, 0, -1, 0⟩⟩ 0
    (by decide!)).2.2.1 (by decide!)).1 2).mp (by decide!)⟩

/-! ## The closest intersection -/

theorem materialAt_valid (materials : List Material) (id : ℤ) (h0 : 0 ≤ id)
    (h1 : id < materials.length) : ∃ mat : Material, materialAt materials id = some mat := by
  unfold materialAt
  rw [if_pos h0]
  have h2 : id.toNat < materials.length := by omega
  exact ⟨materials[id.toNat], by rw [List.get?_eq_getElem?, List.getElem?_eq_getElem h2]⟩

theorem closestLoop_cons (m : Libm) (materials : List Material) (ray : Ray)
    (primitive : Primitive3D) (rest : List Primitive3D) (i : ℕ) (st : Option ℕ × WithTop ℚ) :
    closestLoop m materials ray (primitive :: rest) i st =
      if (primitive.IntersectWithRay m ray 0).1 = true ∧
          ((primitive.IntersectWithRay m ray 0).2 : WithTop ℚ) < st.2 then
        match materialAt materials primitive.materialID with
        | none => none
        | some mat =>
          if mat.T ≤ 0 ∧ DotProd (primitive.ComputeNormal m
              (ray.center.add (ray.direction.smul (primitive.IntersectWithRay m ray 0).2)))
              ray.direction > 0 then closestLoop m materials ray rest (i + 1) st
          else closestLoop m materials ray rest (i + 1)
            (some i, ((primitive.IntersectWithRay m ray 0).2 : WithTop ℚ))
      else closestLoop m materials ray rest (i + 1) st := rfl

theorem acceptedHit_unique (m : Libm) (materials : List Material) (ray : Ray)
    (p : Primitive3D) (t u : ℚ) (ht : acceptedHit m materials ray p t)
    (hu : acceptedHit m materials ray p u) : t = u := by
  have h := ht.1.symm.trans hu.1
  rw [Prod.mk.injEq] at h
  exact h.2

/-- The loop passes over a primitive none of whose accepted hits is below the
current `closestT`. -/
theorem closestSpec_skip (m : Libm) (materials : List Material) (ray : Ray) (p : Primitive3D)
    (rest : List Primitive3D) (i : ℕ) (st res : Option ℕ × WithTop ℚ)
    (hp : ∀ t : ℚ, acceptedHit m materials ray p t → st.2 ≤ (t : WithTop ℚ))
    (h : ClosestSpec m materials ray rest (i + 1) st res) :
    ClosestSpec m materials ray (p :: rest) i st res := by
  rcases h with ⟨h1, h2⟩ | ⟨k, q, t, hq, ha, hr, hlt, hmin⟩
  · left
    refine ⟨h1, ?_⟩
    intro k q t hk ha
    cases k with
    | zero =>
      rw [List.getElem?_cons_zero, Option.some.injEq] at hk
      rw [← hk] at ha
      exact hp t ha
    | succ k =>
      rw [List.getElem?_cons_succ] at hk
      exact h2 k q t hk ha
  · right
    refine ⟨k + 1, q, t, by rw [List.getElem?_cons_succ]; exact hq, ha, ?_, hlt, ?_⟩
    · rw [hr, show i + 1 + k = i + (k + 1) by omega]
    · intro j q' u hj ha'
      cases j with
      | zero =>
        rw [List.getElem?_cons_zero, Option.some.injEq] at hj
        rw [← hj] at ha'
        have h1 : (t : WithTop ℚ) < (u : WithTop ℚ) := lt_of_lt_of_le hlt (hp u ha')
        have h2 : t < u := WithTop.coe_lt_coe.mp h1
        exact ⟨le_of_lt h2, fun _ => h2⟩
      | succ j =>
        rw [List.getElem?_cons_succ] at hj
        obtain ⟨h1, h2⟩ := hmin j q' u hj ha'
        exact ⟨h1, fun h => h2 (by omega)⟩

/-- The loop takes a primitive whose accepted hit is below the current
`closestT`. -/
theorem closestSpec_take (m : Libm) (materials : List Material) (ray : Ray) (p : Primitive3D)
    (rest : List Primitive3D) (i : ℕ) (st res : Option ℕ × WithTop ℚ) (t : ℚ)
    (hp : acceptedHit m materials ray p t) (hlt : (t : WithTop ℚ) < st.2)
    (h : ClosestSpec m materials ray rest (i + 1) (some i, (t : WithTop ℚ)) res) :
    ClosestSpec m materials ray (p :: rest) i st res := by
  rcases h with ⟨h1, h2⟩ | ⟨k, q, u, hq, ha, hr, hlt', hmin⟩
  · right
    refine ⟨0, p, t, List.getElem?_cons_zero, hp, by rw [h1, Nat.add_zero], hlt, ?_⟩
    intro j q' u hj ha'
    cases j with
    | zero =>
      rw [List.getElem?_cons_zero, Option.some.injEq] at hj
      rw [← hj] at ha'
      rw [acceptedHit_unique m materials ray p t u hp ha']
      exact ⟨le_refl _, fun h => absurd h (lt_irrefl _)⟩
    | succ j =>
      rw [List.getElem?_cons_succ] at hj
      exact ⟨WithTop.coe_le_coe.mp (h2 j q' u hj ha'), fun h => absurd h (Nat.not_lt_zero _)⟩
  · right
    have hut : u < t := WithTop.coe_lt_coe.mp hlt'
    refine ⟨k + 1, q, u, by rw [List.getElem?_cons_succ]; exact hq, ha, ?_,
      lt_trans hlt' hlt, ?_⟩
    · rw [hr, show i + 1 + k = i + (k + 1) by omega]
    · intro j q' v hj ha'
      cases j with
      | zero =>
        rw [List.getElem?_cons_zero, Option.some.injEq] at hj
        rw [← hj] at ha'
        rw [← acceptedHit_unique m materials ray p t v hp ha']
        exact ⟨le_of_lt hut, fun _ => hut⟩
      | succ j =>
        rw [List.getElem?_cons_succ] at hj
        obtain ⟨h1, h2⟩ := hmin j q' v hj ha'
        exact ⟨h1, fun h => h2 (by omega)⟩

/-- The loop of `FindClosestIntersection` returns, and its result meets
`ClosestSpec`, when every primitive has a valid material. -/
theorem closestLoop_spec (m : Libm) (materials : List Material) (ray : Ray) :
    ∀ (ps : List Primitive3D) (i : ℕ) (st : Option ℕ × WithTop ℚ),
      (∀ p ∈ ps, 0 ≤ p.materialID ∧ p.materialID < materials.length) →
      ∃ res : Option ℕ × WithTop ℚ, closestLoop m materials ray ps i st = some res ∧
        ClosestSpec m materials ray ps i st res := by
  intro ps
  induction ps with
  | nil =>
    intro i st _
    refine ⟨st, rfl, Or.inl ⟨rfl, ?_⟩⟩
    intro k p t hk
    simp at hk
  | cons p rest ih =>
    intro i st hv
    have hvr : ∀ q ∈ rest, 0 ≤ q.materialID ∧ q.materialID < materials.length :=
      fun q hq => hv q (List.mem_cons_of_mem _ hq)
    obtain ⟨mat, hmat⟩ := materialAt_valid materials p.materialID
      (hv p (List.mem_cons_self _ _)).1 (hv p (List.mem_cons_self _ _)).2
    rw [closestLoop_cons]
    by_cases hhit : (p.IntersectWithRay m ray 0).1 = true ∧
        ((p.IntersectWithRay m ray 0).2 : WithTop ℚ) < st.2
    · rw [if_pos hhit, hmat]
      dsimp only
      by_cases hrej : mat.T ≤ 0 ∧ DotProd (p.ComputeNormal m
          (ray.center.add (ray.direction.smul (p.IntersectWithRay m ray 0).2)))
          ray.direction > 0
      · rw [if_pos hrej]
        obtain ⟨res, hres, hspec⟩ := ih (i + 1) st hvr
        refine ⟨res, hres, closestSpec_skip m materials ray p rest i st res ?_ hspec⟩
        intro t ht
        exfalso
        obtain ⟨h1, mat', h2, h3⟩ := ht
        rw [hmat, Option.some.injEq] at h2
        rw [← h2] at h3
        rw [h1] at hrej
        exact h3 hrej
      · rw [if_neg hrej]
        obtain ⟨res, hres, hspec⟩ := ih (i + 1) (some i, ((p.IntersectWithRay m ray 0).2 : WithTop ℚ)) hvr
        refine ⟨res, hres, closestSpec_take m materials ray p rest i st res
          (p.IntersectWithRay m ray 0).2 ⟨?_, mat, hmat, hrej⟩ hhit.2 hspec⟩
        rw [← hhit.1]
    · rw [if_neg hhit]
      obtain ⟨res, hres, hspec⟩ := ih (i + 1) st hvr
      refine ⟨res, hres, closestSpec_skip m materials ray p rest i st res ?_ hspec⟩
      intro t ht
      rw [ht.1] at hhit
      exact not_lt.mp fun h => hhit ⟨rfl, h⟩

theorem intRange_nil (a b : ℤ) (h : b ≤ a) : intRange a b = [] := by
  rw [intRange_eq, show (b - a).toNat = 0 by omega]
  rfl

theorem intRange_cons (a b : ℤ) (h : a < b) : intRange a b = a :: intRange (a + 1) b := by
  rw [intRange_eq, intRange_eq]
  obtain ⟨n, hn⟩ : ∃ n : ℕ, (b - a).toNat = n + 1 := ⟨(b - a).toNat - 1, by omega⟩
  rw [hn, show (b - (a + 1)).toNat = n by omega, List.range_succ_eq_map, List.map_cons,
    List.map_map]
  refine congrArg₂ _ (by simp) (List.map_congr_left ?_)
  intro i _
  simp only [Function.comp, Nat.cast_succ]
  ring

theorem getD_append_first (post : List Edge) (a d : Edge) :
    ∀ pre : List Edge, (pre ++ a :: post).getD pre.length d = a := by
  intro pre
  induction pre with
  | nil => rfl
  | cons p pre ih => simpa using ih

theorem getD_append_second (post : List Edge) (a b d : Edge) :
    ∀ pre : List Edge, (pre ++ a :: b :: post).getD (pre.length + 1) d = b := by
  intro pre
  induction pre with
  | nil => rfl
  | cons p pre ih => simpa using ih

theorem set_set_append (post : List Edge) (a b : Edge) :
    ∀ pre : List Edge, ((pre ++ a :: b :: post).set pre.length b).set (pre.length + 1) a =
      pre ++ b :: a :: post := by
  intro pre
  induction pre with
  | nil => rfl
  | cons p pre ih => simp

theorem shakeSwap_at (pre post : List Edge) (a b : Edge) (f : Bool) :
    shakeSwap (pre ++ a :: b :: post, f) (pre.length : ℤ) =
      if a.currentX > b.currentX then (pre ++ b :: a :: post, true)
      else (pre ++ a :: b :: post, f) := by
  have h1 : bufGet (pre ++ a :: b :: post) (pre.length : ℤ) default = a := by
    unfold bufGet
    rw [if_pos (by omega), Int.toNat_ofNat]
    exact getD_append_first _ _ _ _
  have h2 : bufGet (pre ++ a :: b :: post) ((pre.length : ℤ) + 1) default = b := by
    unfold bufGet
    rw [if_pos (by omega), show ((pre.length : ℤ) + 1).toNat = pre.length + 1 by omega]
    exact getD_append_second _ _ _ _ _
  have h3 : bufSet (bufSet (pre ++ a :: b :: post) (pre.length : ℤ) b) ((pre.length : ℤ) + 1) a =
      pre ++ b :: a :: post := by
    unfold bufSet
    rw [if_pos (by omega), if_pos (by omega), Int.toNat_ofNat,
      show ((pre.length : ℤ) + 1).toNat = pre.length + 1 by omega]
    exact set_set_append _ _ _ _
  unfold shakeSwap
  dsimp only
  rw [h1, h2, h3]

theorem shakeSwap_flag (l : List Edge) (i : ℤ) : (shakeSwap (l, true) i).2 = true := by
  unfold shakeSwap
  dsimp only
  split <;> rfl

theorem foldl_shakeSwap_flag (is : List ℤ) :
    ∀ l : List Edge, (is.foldl shakeSwap (l, true)).2 = true := by
  induction is with
  | nil => intro l; rfl
  | cons i is ih =>
    intro l
    rw [List.foldl_cons]
    have h := shakeSwap_flag l i
    rcases hs : shakeSwap (l, true) i with ⟨l', f'⟩
    rw [hs] at h
    dsimp only at h
    rw [h]
    exact ih l'

/-- The forward loop of `shakeSort` over the indices of `x :: rest`, which
sits between `pre` and `suf`: the list function `bubbleUp`, and a flag that
stays false only if `x :: rest` was in order. -/
theorem forward_pass : ∀ (rest : List Edge) (x : Edge) (pre suf : List Edge) (f : Bool),
    ∃ f' : Bool,
      (intRange (pre.length : ℤ) ((pre.length : ℤ) + rest.length)).foldl shakeSwap
        (pre ++ (x :: rest ++ suf), f) = (pre ++ (bubbleUp x rest ++ suf), f') ∧
      (f' = false → List.Chain' edgeLe (x :: rest)) := by
  intro rest
  induction rest with
  | nil =>
    intro x pre suf f
    refine ⟨f, ?_, fun _ => List.chain'_singleton x⟩
    rw [intRange_nil _ _ (by simp)]
    rfl
  | cons y rest ih =>
    intro x pre suf f
    rw [intRange_cons _ _ (by simp), List.foldl_cons]
    have hsw := shakeSwap_at pre (rest ++ suf) x y f
    rw [show pre ++ (x :: y :: rest ++ suf) = pre ++ x :: y :: (rest ++ suf) by simp, hsw]
    by_cases hxy : x.currentX > y.currentX
    · rw [if_pos hxy]
      obtain ⟨f', h1, -⟩ := ih x (pre ++ [y]) suf true
      have hf : f' = true := by
        have := foldl_shakeSwap_flag
          (intRange ((pre ++ [y]).length : ℤ) (((pre ++ [y]).length : ℤ) + rest.length))
          (pre ++ [y] ++ (x :: rest ++ suf))
        rw [h1] at this
        exact this
      refine ⟨f', ?_, fun h => absurd (hf.symm.trans h) (by decide)⟩
      rw [show ((pre.length : ℤ) + 1) = ((pre ++ [y]).length : ℤ) by simp,
        show ((pre.length : ℤ) + ((y :: rest).length : ℤ)) =
          ((pre ++ [y]).length : ℤ) + (rest.length : ℤ) by simp; ring,
        show pre ++ y :: x :: (rest ++ suf) = pre ++ [y] ++ (x :: rest ++ suf) by simp, h1]
      simp [bubbleUp, hxy]
    · rw [if_neg hxy]
      obtain ⟨f', h1, h2⟩ := ih y (pre ++ [x]) suf f
      refine ⟨f', ?_, fun h => List.Chain'.cons (not_lt.mp hxy) (h2 h)⟩
      rw [show ((pre.length : ℤ) + 1) = ((pre ++ [x]).length : ℤ) by simp,
        show ((pre.length : ℤ) + ((y :: rest).length : ℤ)) =
          ((pre ++ [x]).length : ℤ) + (rest.length : ℤ) by simp; ring,
        show pre ++ x :: y :: (rest ++ suf) = pre ++ [x] ++ (y :: rest ++ suf) by simp, h1]
      simp [bubbleUp, hxy]

theorem sinkDown_length : ∀ l : List Edge, (sinkDown l).length = l.length := by
  intro l
  induction l with
  | nil => rfl
  | cons x rest ih =>
    unfold sinkDown
    rcases hs : sinkDown rest with _ | ⟨m, r⟩
    · rw [hs] at ih
      rw [List.length_singleton, List.length_cons, ← ih]
      rfl
    · rw [hs] at ih
      dsimp only
      split <;> simp only [List.length_cons] at ih ⊢ <;> omega

theorem sinkDown_chain : ∀ l : List Edge, List.Chain' edgeLe l → sinkDown l = l := by
  intro l
  induction l with
  | nil => intro _; rfl
  | cons x rest ih =>
    intro h
    have hr := ih (List.Chain'.tail h)
    unfold sinkDown
    rw [hr]
    cases rest with
    | nil => rfl
    | cons y rest =>
      dsimp only
      have hxy : x.currentX ≤ y.currentX := (List.chain'_cons.mp h).1
      rw [if_neg (not_lt.mpr hxy)]

/-- The backward loop of `shakeSort` over the indices of `mid`, which sits
between `pre` and `suf`: the list function `sinkDown`, and a flag that stays
false only if it was false and `mid` was in order. -/
theorem backward_pass : ∀ (mid pre suf : List Edge) (f : Bool),
    ∃ f' : Bool,
      ((intRange (pre.length : ℤ) ((pre.length : ℤ) + mid.length - 1)).reverse).foldl shakeSwap
        (pre ++ (mid ++ suf), f) = (pre ++ (sinkDown mid ++ suf), f') ∧
      (f' = false → f = false ∧ List.Chain' edgeLe mid) := by
  intro mid
  induction mid with
  | nil =>
    intro pre suf f
    refine ⟨f, ?_, fun h => ⟨h, List.chain'_nil⟩⟩
    rw [intRange_nil _ _ (by simp)]
    rfl
  | cons x rest ih =>
    intro pre suf f
    cases rest with
    | nil =>
      refine ⟨f, ?_, fun h => ⟨h, List.chain'_singleton x⟩⟩
      rw [intRange_nil _ _ (by simp)]
      rfl
    | cons y rest =>
      rw [intRange_cons _ _ (by simp; omega), List.reverse_cons, List.foldl_append]
      obtain ⟨f1, h1, h2⟩ := ih (pre ++ [x]) suf f
      rw [show ((pre.length : ℤ) + 1) = ((pre ++ [x]).length : ℤ) by simp,
        show ((pre.length : ℤ) + ((x :: y :: rest).length : ℤ) - 1) =
          ((pre ++ [x]).length : ℤ) + ((y :: rest).length : ℤ) - 1 by simp; ring,
        show pre ++ (x :: y :: rest ++ suf) = pre ++ [x] ++ (y :: rest ++ suf) by simp, h1]
      have hlen := sinkDown_length (y :: rest)
      rcases hs : sinkDown (y :: rest) with _ | ⟨m, r⟩
      · rw [hs] at hlen
        simp at hlen
      · rw [List.foldl_cons, List.foldl_nil]
        have hsw := shakeSwap_at pre (r ++ suf) x m f1
        rw [show pre ++ [x] ++ (m :: r ++ suf) = pre ++ x :: m :: (r ++ suf) by simp, hsw]
        have hsink : sinkDown (x :: y :: rest) =
            if x.currentX > m.currentX then m :: x :: r else x :: m :: r := by
          conv_lhs => unfold sinkDown
          rw [hs]
        rw [hsink]
        by_cases hxm : x.currentX > m.currentX
        · rw [if_pos hxm, if_pos hxm]
          exact ⟨true, by simp, fun h => absurd h (by decide)⟩
        · rw [if_neg hxm, if_neg hxm]
          refine ⟨f1, by simp, fun h => ?_⟩
          obtain ⟨h3, h4⟩ := h2 h
          refine ⟨h3, ?_⟩
          have h5 := sinkDown_chain (y :: rest) h4
          rw [hs] at h5
          rw [List.cons.injEq] at h5
          rw [h5.1] at hxm
          exact List.Chain'.cons (not_lt.mp hxm) h4

theorem Rearranged.refl (l : List Edge) : Rearranged l l := ⟨List.Perm.refl l, fun _ => rfl⟩

theorem Rearranged.trans {a b c : List Edge} (h1 : Rearranged a b) (h2 : Rearranged b c) :
    Rearranged a c := ⟨h1.1.trans h2.1, fun x => (h1.2 x).trans (h2.2 x)⟩

theorem Rearranged.cons (e : Edge) {a b : List Edge} (h : Rearranged a b) :
    Rearranged (e :: a) (e :: b) := by
  refine ⟨List.Perm.cons e h.1, fun x => ?_⟩
  rw [List.filter_cons, List.filter_cons, h.2 x]

theorem Rearranged.append_right (s : List Edge) {a b : List Edge} (h : Rearranged a b) :
    Rearranged (a ++ s) (b ++ s) := by
  refine ⟨List.Perm.append_right s h.1, fun x => ?_⟩
  rw [List.filter_append, List.filter_append, h.2 x]

theorem Rearranged.swap (a b : Edge) (l : List Edge) (h : a.currentX ≠ b.currentX) :
    Rearranged (b :: a :: l) (a :: b :: l) := by
  refine ⟨List.Perm.swap a b l, fun x => ?_⟩
  by_cases ha : a.currentX = x
  · have hb : b.currentX ≠ x := fun hb => h (ha.trans hb.symm)
    simp [List.filter_cons, ha, hb]
  · by_cases hb : b.currentX = x <;> simp [List.filter_cons, ha, hb]

theorem bubbleUp_rearranged : ∀ (rest : List Edge) (x : Edge),
    Rearranged (bubbleUp x rest) (x :: rest) := by
  intro rest
  induction rest with
  | nil => intro x; exact Rearranged.refl _
  | cons y rest ih =>
    intro x
    unfold bubbleUp
    by_cases hxy : x.currentX > y.currentX
    · rw [if_pos hxy]
      exact ((ih x).cons y).trans (Rearranged.swap x y rest (ne_of_gt hxy))
    · rw [if_neg hxy]
      exact (ih y).cons x

theorem bubbleUp_last : ∀ (rest : List Edge) (x : Edge),
    ∃ (init : List Edge) (mx : Edge), bubbleUp x rest = init ++ [mx] ∧
      init.length = rest.length ∧ x.currentX ≤ mx.currentX ∧
      ∀ e ∈ init, e.currentX ≤ mx.currentX := by
  intro rest
  induction rest with
  | nil =>
    intro x
    exact ⟨[], x, rfl, rfl, le_refl _, fun e he => absurd he (List.not_mem_nil e)⟩
  | cons y rest ih =>
    intro x
    unfold bubbleUp
    by_cases hxy : x.currentX > y.currentX
    · rw [if_pos hxy]
      obtain ⟨init, mx, h1, h2, h3, h4⟩ := ih x
      refine ⟨y :: init, mx, by rw [h1]; rfl, by simp [h2], h3, ?_⟩
      intro e he
      rcases List.mem_cons.mp he with h | h
      · rw [h]
        exact le_trans (le_of_lt hxy) h3
      · exact h4 e h
    · rw [if_neg hxy]
      obtain ⟨init, mx, h1, h2, h3, h4⟩ := ih y
      refine ⟨x :: init, mx, by rw [h1]; rfl, by simp [h2], le_trans (not_lt.mp hxy) h3, ?_⟩
      intro e he
      rcases List.mem_cons.mp he with h | h
      · rw [h]
        exact le_trans (not_lt.mp hxy) h3
      · exact h4 e h

theorem bubbleUp_chain : ∀ (rest : List Edge) (x : Edge),
    List.Chain' edgeLe (x :: rest) → bubbleUp x rest = x :: rest := by
  intro rest
  induction rest with
  | nil => intro x _; rfl
  | cons y rest ih =>
    intro x h
    unfold bubbleUp
    have hxy : x.currentX ≤ y.currentX := (List.chain'_cons.mp h).1
    rw [if_neg (not_lt.mpr hxy), ih y (List.Chain'.tail h)]

theorem sinkDown_rearranged : ∀ l : List Edge, Rearranged (sinkDown l) l := by
  intro l
  induction l with
  | nil => exact Rearranged.refl _
  | cons x rest ih =>
    unfold sinkDown
    rcases hs : sinkDown rest with _ | ⟨m, r⟩
    · rw [hs] at ih
      have h := ih.1.symm.eq_nil
      rw [h]
      exact Rearranged.refl _
    · rw [hs] at ih
      dsimp only
      by_cases hxm : x.currentX > m.currentX
      · rw [if_pos hxm]
        exact (Rearranged.swap x m r (ne_of_gt hxm)).trans (ih.cons x)
      · rw [if_neg hxm]
        exact ih.cons x

theorem sinkDown_head : ∀ (l : List Edge), l ≠ [] →
    ∃ (mn : Edge) (r : List Edge), sinkDown l = mn :: r ∧
      ∀ e ∈ r, mn.currentX ≤ e.currentX := by
  intro l
  induction l with
  | nil => intro h; exact absurd rfl h
  | cons x rest ih =>
    intro _
    unfold sinkDown
    rcases hs : sinkDown rest with _ | ⟨m, r⟩
    · exact ⟨x, [], rfl, fun e he => absurd he (List.not_mem_nil e)⟩
    · have hne : rest ≠ [] := by
        intro h
        rw [h] at hs
        simp [sinkDown] at hs
      obtain ⟨mn, r', h1, h2⟩ := ih hne
      rw [hs, List.cons.injEq] at h1
      rw [← h1.1, ← h1.2] at h2
      dsimp only
      by_cases hxm : x.currentX > m.currentX
      · rw [if_pos hxm]
        refine ⟨m, x :: r, rfl, ?_⟩
        intro e he
        rcases List.mem_cons.mp he with h | h
        · rw [h]
          exact le_of_lt hxm
        · exact h2 e h
      · rw [if_neg hxm]
        refine ⟨x, m :: r, rfl, ?_⟩
        intro e he
        rcases List.mem_cons.mp he with h | h
        · rw [h]
          exact not_lt.mp hxm
        · exact le_trans (not_lt.mp hxm) (h2 e h)

theorem stableSorted_of_chain (l : List Edge) (h : List.Chain' edgeLe l) : StableSorted l l :=
  ⟨List.chain'_iff_pairwise.mp h, Rearranged.refl l⟩

theorem shakeLoop_succ (fuel : ℕ) (edges : List Edge) (start finish : ℤ) :
    shakeLoop (fuel + 1) edges start finish =
      if ((intRange start finish).foldl shakeSwap (edges, false)).2 = false then
        some ((intRange start finish).foldl shakeSwap (edges, false)).1
      else
        if (((intRange start (finish - 1)).reverse).foldl shakeSwap
            (((intRange start finish).foldl shakeSwap (edges, false)).1, false)).2 = false then
          some (((intRange start (finish - 1)).reverse).foldl shakeSwap
            (((intRange start finish).foldl shakeSwap (edges, false)).1, false)).1
        else
          shakeLoop fuel (((intRange start (finish - 1)).reverse).foldl shakeSwap
            (((intRange start finish).foldl shakeSwap (edges, false)).1, false)).1
            (start + 1) (finish - 1) := rfl

/-- The loop of `shakeSort` on the part `mid` of the list still to sort, which
sits between `pre` and `suf`: it ends within `mid.length + 1` rounds and
replaces `mid` by its stable sort. -/
theorem shakeLoop_spec : ∀ (fuel : ℕ) (mid pre suf : List Edge), mid.length < fuel →
    ∃ mid' : List Edge,
      shakeLoop fuel (pre ++ (mid ++ suf)) (pre.length : ℤ)
        ((pre.length : ℤ) + mid.length - 1) = some (pre ++ (mid' ++ suf)) ∧
      StableSorted mid' mid := by
  intro fuel
  induction fuel with
  | zero => intro mid pre suf h; exact absurd h (Nat.not_lt_zero _)
  | succ fuel ih =>
    intro mid pre suf hlen
    rw [shakeLoop_succ]
    rcases mid with _ | ⟨x, rest⟩
    · refine ⟨[], ?_, stableSorted_of_chain [] List.chain'_nil⟩
      rw [intRange_nil _ _ (by simp)]
      rfl
    · rcases rest with _ | ⟨y, rest⟩
      · refine ⟨[x], ?_, stableSorted_of_chain [x] (List.chain'_singleton x)⟩
        rw [intRange_nil _ _ (by simp)]
        rfl
      · obtain ⟨f1, h1, h2⟩ := forward_pass (y :: rest) x pre suf false
        rw [show (pre.length : ℤ) + ((x :: y :: rest).length : ℤ) - 1 =
          (pre.length : ℤ) + ((y :: rest).length : ℤ) by
            simp only [List.length_cons]
            push_cast
            ring, h1]
        dsimp only
        by_cases hf1 : f1 = false
        · rw [if_pos hf1]
          exact ⟨x :: y :: rest, by rw [bubbleUp_chain _ _ (h2 hf1)],
            stableSorted_of_chain _ (h2 hf1)⟩
        · rw [if_neg hf1]
          obtain ⟨init, mx, e1, e2, e3, e4⟩ := bubbleUp_last (y :: rest) x
          have hre := bubbleUp_rearranged (y :: rest) x
          rw [e1] at hre ⊢
          obtain ⟨f2, g1, g2⟩ := backward_pass init pre (mx :: suf) false
          rw [show (pre.length : ℤ) + ((y :: rest).length : ℤ) - 1 =
              (pre.length : ℤ) + (init.length : ℤ) - 1 by rw [e2],
            show pre ++ (init ++ [mx] ++ suf) = pre ++ (init ++ mx :: suf) by simp, g1]
          dsimp only
          by_cases hf2 : f2 = false
          · rw [if_pos hf2]
            have hc := (g2 hf2).2
            refine ⟨init ++ [mx], by rw [sinkDown_chain _ hc]; simp, ?_, hre⟩
            rw [List.pairwise_append]
            refine ⟨List.chain'_iff_pairwise.mp hc, List.pairwise_singleton _ _, ?_⟩
            intro a ha b hb
            rw [List.mem_singleton.mp hb]
            exact e4 a ha
          · rw [if_neg hf2]
            have hne : init ≠ [] := by
              intro h
              rw [h] at e2
              simp at e2
            obtain ⟨mn, r, s1, s2⟩ := sinkDown_head init hne
            have hsl := sinkDown_length init
            have hsr := sinkDown_rearranged init
            rw [s1] at hsl hsr ⊢
            have hrl : r.length < fuel := by
              simp only [List.length_cons] at hsl e2 hlen
              omega
            obtain ⟨mid2, k1, k2, k3⟩ := ih r (pre ++ [mn]) (mx :: suf) hrl
            refine ⟨mn :: (mid2 ++ [mx]), ?_, ?_, ?_⟩
            · rw [show (pre.length : ℤ) + 1 = ((pre ++ [mn]).length : ℤ) by simp,
                show (pre.length : ℤ) + (init.length : ℤ) - 1 =
                  ((pre ++ [mn]).length : ℤ) + (r.length : ℤ) - 1 by
                    rw [← hsl]
                    simp only [List.length_cons, List.length_append, List.length_nil]
                    push_cast
                    ring,
                show pre ++ (mn :: r ++ mx :: suf) = pre ++ [mn] ++ (r ++ mx :: suf) by simp, k1]
              simp
            · have hmem : ∀ e ∈ mid2, e ∈ r := fun e he => k3.1.subset he
              have hinit : ∀ e ∈ mn :: r, e ∈ init := fun e he => hsr.1.subset he
              rw [List.pairwise_cons, List.pairwise_append]
              refine ⟨?_, k2, List.pairwise_singleton _ _, ?_⟩
              · intro e he
                rcases List.mem_append.mp he with h | h
                · exact s2 e (hmem e h)
                · rw [List.mem_singleton.mp h]
                  exact e4 mn (hinit mn (List.mem_cons_self _ _))
              · intro a ha b hb
                rw [List.mem_singleton.mp hb]
                exact e4 a (hinit a (List.mem_cons_of_mem _ (hmem a ha)))
            · exact (((k3.append_right [mx]).cons mn).trans (hsr.append_right [mx])).trans hre

/-- C25. For every list of edges, `shakeSort` terminates (its loop ends within
`size + 1` rounds), and its result is in ascending order of `currentX`, is a
permutation of the input, and for every value holds the edges with that
`currentX` in the order they had in the input; the empty list and a
one-element list are returned as they are. -/
theorem shakeSort_sorts (edges : List Edge) :
    ∃ out : List Edge, shakeSort edges = some out ∧
      List.Pairwise (fun a b : Edge => a.currentX ≤ b.currentX) out ∧
      out.Perm edges ∧
      (∀ x : ℚ, out.filter (fun e => decide (e.currentX = x)) =
        edges.filter (fun e => decide (e.currentX = x))) ∧
      (edges.length ≤ 1 → out = edges) := by
  obtain ⟨out, h1, h2, h3, h4⟩ := shakeLoop_spec (edges.length + 1) edges [] []
    (Nat.lt_succ_self _)
  refine ⟨out, ?_, h2, h3, h4, ?_⟩
  · unfold shakeSort
    simp only [List.nil_append, List.append_nil, List.length_nil, Nat.cast_zero, zero_add] at h1
    exact h1
  · intro hlen
    rcases edges with _ | ⟨e, rest⟩
    · exact h3.eq_nil
    · rcases rest with _ | ⟨e2, rest⟩
      · exact List.perm_singleton.mp h3
      · simp at hlen

/-- The list `shakeDemo` is sorted to `currentX` 1, 1, 3, the two edges with
`currentX = 1` in their order. -/
theorem shakeSort_sorts_witness :
    shakeSort shakeDemo =
        some [⟨0, 0, 1, 0, 1, 0⟩, ⟨0, 0, 1, 0, 2, 0⟩, ⟨0, 0, 3, 0, 0, 0⟩] ∧
      ∃ out : List Edge, shakeSort shakeDemo = some out ∧
        List.Pairwise (fun a b : Edge => a.currentX ≤ b.currentX) out ∧
        out.Perm shakeDemo ∧
        (∀ x : ℚ, out.filter (fun e => decide (e.currentX = x)) =
          shakeDemo.filter (fun e => decide (e.currentX = x))) ∧
        (shakeDemo.length ≤ 1 → out = shakeDemo) :=
  ⟨by decide!, shakeSort_sorts shakeDemo⟩

/-! ## Polygon fill inside the canvas -/

theorem scanLines_cons (fl : ℚ → ℚ) (plotFunction : ℤ → ℤ → ℤ → ℚ → ℚ → List Plot) (y : ℤ) (ys : List ℤ)
    (filler : FillingStruct) :
    scanLines fl plotFunction (y :: ys) filler =
      (shakeSort (rowNext fl plotFunction y filler).activeEdgeList).bind fun sorted =>
        (scanLines fl plotFunction ys
          { rowNext fl plotFunction y filler with activeEdgeList := sorted }).bind fun rest =>
          some ((rowPairs fl plotFunction y filler).1 ++ rest) := rfl

theorem scanLinesTrace_cons (fl : ℚ → ℚ) (plotFunction : ℤ → ℤ → ℤ → ℚ → ℚ → List Plot) (y : ℤ)
    (ys : List ℤ) (filler : FillingStruct) :
    scanLinesTrace fl plotFunction (y :: ys) filler =
      (shakeSort (rowNext fl plotFunction y filler).activeEdgeList).bind fun sorted =>
        (scanLinesTrace fl plotFunction ys
          { rowNext fl plotFunction y filler with activeEdgeList := sorted }).bind fun rest =>
          some (⟨y, filler.activeEdgeList, (rowPairs fl plotFunction y filler).1⟩ :: rest) := rfl

theorem scanLines_eq_trace (fl : ℚ → ℚ) (plotFunction : ℤ → ℤ → ℤ → ℚ → ℚ → List Plot) :
    ∀ (ys : List ℤ) (filler : FillingStruct),
      scanLines fl plotFunction ys filler =
        (scanLinesTrace fl plotFunction ys filler).map fun t => t.flatMap ScanRow.plots := by
  intro ys
  induction ys with
  | nil => intro filler; rfl
  | cons y ys ih =>
    intro filler
    rw [scanLines_cons, scanLinesTrace_cons]
    cases shakeSort (rowNext fl plotFunction y filler).activeEdgeList with
    | none => rfl
    | some sorted =>
      rw [Option.some_bind, Option.some_bind, ih]
      cases scanLinesTrace fl plotFunction ys
          { rowNext fl plotFunction y filler with activeEdgeList := sorted } with
      | none => rfl
      | some rest => rfl

theorem fillPolygon_eq_trace (fl : ℚ → ℚ) (ctx : SGLContext) :
    fillPolygonWith fl ctx = (fillPolygonTraceWith fl ctx).map fun t => t.flatMap ScanRow.plots := by
  unfold fillPolygonWith fillPolygonTraceWith
  by_cases h : ctx.screenVertices = []
  · rw [if_pos h, if_pos h]
    rfl
  · rw [if_neg h, if_neg h]
    exact scanLines_eq_trace fl _ _ _

theorem set_append_first (post : List Edge) (a c : Edge) :
    ∀ pre : List Edge, (pre ++ a :: post).set pre.length c = pre ++ c :: post := by
  intro pre
  induction pre with
  | nil => rfl
  | cons p pre ih => simp

theorem set_append_second (post : List Edge) (a b c : Edge) :
    ∀ pre : List Edge, (pre ++ a :: b :: post).set (pre.length + 1) c = pre ++ a :: c :: post := by
  intro pre
  induction pre with
  | nil => rfl
  | cons p pre ih => simp

/-- The inner loop of `fillPolygon` on a list of even length: the rows of the
pairs, and every edge advanced. -/
theorem scanPairs_even (fl : ℚ → ℚ) (plotFunction : ℤ → ℤ → ℤ → ℚ → ℚ → List Plot) (y : ℤ) :
    ∀ (m : ℕ) (done todo : List Edge), todo.length = 2 * m →
      scanPairs fl plotFunction y ((List.range m).map fun j => done.length + 2 * j) (done ++ todo) =
        (pairPlots plotFunction y todo, done ++ todo.map (Edge.advance fl)) := by
  intro m
  induction m with
  | zero =>
    intro done todo h
    have : todo = [] := List.length_eq_zero.mp (by omega)
    rw [this]
    rfl
  | succ m ih =>
    intro done todo h
    rcases todo with _ | ⟨e1, _ | ⟨e2, rest⟩⟩
    · simp at h
    · simp at h
      omega
    · have hrest : rest.length = 2 * m := by
        simp only [List.length_cons] at h
        omega
      rw [List.range_succ_eq_map, List.map_cons, List.map_map]
      unfold scanPairs
      simp only [Nat.mul_zero, Nat.add_zero]
      rw [getD_append_first, getD_append_second, set_append_first, getD_append_second,
        set_append_second]
      have h2 := ih (done ++ [e1.advance fl, e2.advance fl]) rest hrest
      rw [show (done ++ [e1.advance fl, e2.advance fl]) ++ rest =
          done ++ e1.advance fl :: e2.advance fl :: rest by simp,
        show ((List.range m).map fun j => (done ++ [e1.advance fl, e2.advance fl]).length + 2 * j) =
          (List.range m).map ((fun j => done.length + 2 * j) ∘ Nat.succ) by
            refine List.map_congr_left ?_
            intro j _
            simp only [List.length_append, List.length_cons, List.length_nil, Function.comp]
            omega] at h2
      have h3 : ∀ e : Edge,
          ({ e with currentX := fl (e.currentX + e.stepX),
                    currentZ := fl (e.currentZ + e.stepZ) } : Edge) =
            e.advance fl := fun _ => rfl
      rw [h3, h3, h2]
      simp [pairPlots]

theorem activate_eq (fl : ℚ → ℚ) (y : ℤ) : ∀ es : List Edge,
    activate fl y es = (es.filter (fun e => !decide (y ≤ e.topY)),
      (es.filter (fun e => decide (y ≤ e.topY))).map (Edge.bump fl y)) := by
  intro es
  induction es with
  | nil => rfl
  | cons e rest ih =>
    unfold activate
    rw [ih]
    by_cases h : y ≤ e.topY
    · simp [h, Edge.bump]
    · simp [h]

theorem filter_union_perm {α : Type} (p q r : α → Bool) : ∀ l : List α,
    (∀ a ∈ l, r a = (p a || q a)) → (∀ a ∈ l, ¬ (p a = true ∧ q a = true)) →
    (l.filter p ++ l.filter q).Perm (l.filter r) := by
  intro l
  induction l with
  | nil => intro _ _; exact List.Perm.refl _
  | cons a l ih =>
    intro h1 h2
    have ih2 := ih (fun b hb => h1 b (List.mem_cons_of_mem _ hb))
      (fun b hb => h2 b (List.mem_cons_of_mem _ hb))
    have hr := h1 a (List.mem_cons_self _ _)
    have hd := h2 a (List.mem_cons_self _ _)
    cases hp : p a <;> cases hq : q a
    · rw [hp, hq] at hr
      simp only [Bool.or_self] at hr
      rw [List.filter_cons_of_neg (by simp [hp]), List.filter_cons_of_neg (by simp [hq]),
        List.filter_cons_of_neg (by simp [hr])]
      exact ih2
    · rw [hp, hq] at hr
      simp only [Bool.false_or] at hr
      rw [List.filter_cons_of_neg (by simp [hp]), List.filter_cons_of_pos hq,
        List.filter_cons_of_pos hr]
      exact List.perm_middle.trans (List.Perm.cons a ih2)
    · rw [hp, hq] at hr
      simp only [Bool.or_false] at hr
      rw [List.filter_cons_of_pos hp, List.filter_cons_of_neg (by simp [hq]),
        List.filter_cons_of_pos hr]
      exact List.Perm.cons a ih2
    · exact absurd ⟨hp, hq⟩ hd

theorem iterate_advance_rows (fl : ℚ → ℚ) : ∀ (n : ℕ) (e : Edge),
    ((Edge.advance fl)^[n] e).topY = e.topY ∧ ((Edge.advance fl)^[n] e).bottomY = e.bottomY ∧
      ((Edge.advance fl)^[n] e).stepX = e.stepX := by
  intro n
  induction n with
  | zero => intro e; exact ⟨rfl, rfl, rfl⟩
  | succ n ih =>
    intro e
    rw [Function.iterate_succ_apply]
    exact ih (e.advance fl)

theorem atRow_topY (fl : ℚ → ℚ) (y : ℤ) (e : Edge) : (e.atRow fl y).topY = e.topY :=
  (iterate_advance_rows fl _ _).1

theorem atRow_bottomY (fl : ℚ → ℚ) (y : ℤ) (e : Edge) : (e.atRow fl y).bottomY = e.bottomY :=
  (iterate_advance_rows fl _ _).2.1

theorem atRow_advance (fl : ℚ → ℚ) (y : ℤ) (e : Edge) (h : y ≤ e.topY) :
    (e.atRow fl y).advance fl = e.atRow fl (y - 1) := by
  unfold Edge.atRow
  rw [show (e.topY - (y - 1)).toNat = (e.topY - y).toNat + 1 by omega,
    Function.iterate_succ_apply']

theorem bump_top (fl : ℚ → ℚ) (y : ℤ) (e : Edge) (h : e.topY = y) :
    e.bump fl y = e.atRow fl y := by
  unfold Edge.atRow
  rw [h, sub_self]
  rfl

theorem shakeSort_perm (l : List Edge) : ∃ out : List Edge, shakeSort l = some out ∧ out.Perm l := by
  obtain ⟨out, h1, -, h3, -⟩ := shakeLoop_spec (l.length + 1) l [] [] (Nat.lt_succ_self _)
  refine ⟨out, ?_, h3⟩
  unfold shakeSort
  simp only [List.nil_append, List.append_nil, List.length_nil, Nat.cast_zero, zero_add] at h1
  exact h1

/-- One row of the scanline loop keeps `RowInv`, when the number of edges that
cross the row is even: the inner loop takes the active edges in pairs and
advances each, and the sort returns. -/
theorem row_step (fl : ℚ → ℚ) (E : List Edge) (hE : ∀ e ∈ E, e.bottomY ≤ e.topY)
    (plotFunction : ℤ → ℤ → ℤ → ℚ → ℚ → List Plot) (y : ℤ) (filler : FillingStruct)
    (h : RowInv fl E y filler)
    (heven : Even (E.filter (fun e => decide (e.activeAt y))).length) :
    (rowPairs fl plotFunction y filler).1 = pairPlots plotFunction y filler.activeEdgeList ∧
    ∃ sorted : List Edge,
      shakeSort (rowNext fl plotFunction y filler).activeEdgeList = some sorted ∧
      RowInv fl E (y - 1) { rowNext fl plotFunction y filler with activeEdgeList := sorted } := by
  obtain ⟨hpend, hact⟩ := h
  have hlen : filler.activeEdgeList.length =
      (E.filter (fun e => decide (e.activeAt y))).length := by
    rw [hact.length_eq, List.length_map]
  obtain ⟨m, hm⟩ := heven
  have hm2 : filler.activeEdgeList.length = 2 * m := by omega
  have hpairs : rowPairs fl plotFunction y filler =
      (pairPlots plotFunction y filler.activeEdgeList,
        filler.activeEdgeList.map (Edge.advance fl)) := by
    unfold rowPairs
    have h1 := scanPairs_even fl plotFunction y m [] filler.activeEdgeList hm2
    rw [hm2, show (2 * m + 1) / 2 = m by omega]
    simp only [List.length_nil, Nat.zero_add, List.nil_append] at h1
    exact h1
  refine ⟨by rw [hpairs], ?_⟩
  obtain ⟨sorted, hs1, hs2⟩ := shakeSort_perm (rowNext fl plotFunction y filler).activeEdgeList
  refine ⟨sorted, hs1, ?_, ?_⟩
  · show (rowNext fl plotFunction y filler).edges = _
    unfold rowNext updateActiveEdgeList
    dsimp only
    rw [activate_eq, hpend, List.filter_filter]
    refine List.filter_congr (fun e _ => ?_)
    rw [Bool.eq_iff_iff]
    simp only [Bool.and_eq_true, Bool.not_eq_true', decide_eq_true_eq, decide_eq_false_iff_not]
    omega
  · show sorted.Perm _
    refine hs2.trans ?_
    unfold rowNext updateActiveEdgeList
    dsimp only
    rw [hpairs, activate_eq, hpend]
    dsimp only
    have hkept : ((filler.activeEdgeList.map (Edge.advance fl)).filter
        fun e => !decide (y - 1 < e.bottomY)).Perm
        ((E.filter fun e => decide (e.activeAt y) && decide (e.bottomY ≤ y - 1)).map
          (Edge.atRow fl (y - 1))) := by
      refine ((hact.map (Edge.advance fl)).filter _).trans ?_
      rw [List.map_map, List.filter_map, List.filter_filter]
      have e1 : ∀ e ∈ E.filter (fun e => decide (e.activeAt y) && decide (e.bottomY ≤ y - 1)),
          (Edge.advance fl ∘ Edge.atRow fl y) e = Edge.atRow fl (y - 1) e := by
        intro e he
        have h1 := (List.mem_filter.mp he).2
        simp only [Bool.and_eq_true, decide_eq_true_eq, Edge.activeAt] at h1
        exact atRow_advance fl y e h1.1.2
      rw [← List.map_congr_left e1]
      refine List.Perm.of_eq (congrArg _ (List.filter_congr (fun e _ => ?_)))
      rw [Bool.eq_iff_iff]
      have h2 : ((Edge.advance fl ∘ Edge.atRow fl y) e).bottomY = e.bottomY :=
        atRow_bottomY fl y e
      simp only [Bool.and_eq_true, Bool.not_eq_true', decide_eq_true_eq, decide_eq_false_iff_not,
        Function.comp, Edge.activeAt] at h2 ⊢
      rw [h2]
      omega
    have hnew : (((E.filter fun e => decide (e.topY < y)).filter
        fun e => decide (y - 1 ≤ e.topY)).map (Edge.bump fl (y - 1))) =
        ((E.filter fun e => decide (e.topY = y - 1)).map (Edge.atRow fl (y - 1))) := by
      rw [List.filter_filter]
      have e1 : (E.filter fun e => decide (y - 1 ≤ e.topY) && decide (e.topY < y)) =
          (E.filter fun e => decide (e.topY = y - 1)) := by
        refine List.filter_congr (fun e _ => ?_)
        rw [Bool.eq_iff_iff]
        simp only [Bool.and_eq_true, decide_eq_true_eq]
        omega
      rw [e1]
      refine List.map_congr_left (fun e he => ?_)
      have h2 := (List.mem_filter.mp he).2
      rw [decide_eq_true_eq] at h2
      exact bump_top fl (y - 1) e h2
    rw [hnew]
    refine (List.Perm.append_right _ hkept).trans ?_
    rw [← List.map_append]
    refine List.Perm.map _ (filter_union_perm _ _ _ E (fun e he => ?_) (fun e he => ?_))
    · have hb := hE e he
      rw [Bool.eq_iff_iff]
      simp only [Bool.and_eq_true, Bool.or_eq_true, decide_eq_true_eq, Edge.activeAt]
      omega
    · simp only [Bool.and_eq_true, decide_eq_true_eq, Edge.activeAt]
      omega

theorem descending_succ (m : ℕ) (Y : ℤ) :
    ((List.range (m + 1)).map fun k : ℕ => Y - (k : ℤ)) =
      Y :: (List.range m).map fun k : ℕ => Y - 1 - (k : ℤ) := by
  rw [List.range_succ_eq_map, List.map_cons, List.map_map]
  refine congrArg₂ _ (by simp) (List.map_congr_left ?_)
  intro k _
  simp only [Function.comp, Nat.cast_succ]
  ring

/-- The scanline loop from row `Y` down over `m` rows returns, and at every
row visited the active edge list holds the edges that cross the row, advanced
to it; the submissions of the row are those of its pairs. -/
theorem scanTrace_spec (fl : ℚ → ℚ) (E : List Edge) (hE : ∀ e ∈ E, e.bottomY ≤ e.topY)
    (heven : ∀ y : ℤ, Even (E.filter (fun e => decide (e.activeAt y))).length)
    (plotFunction : ℤ → ℤ → ℤ → ℚ → ℚ → List Plot) :
    ∀ (m : ℕ) (Y : ℤ) (filler : FillingStruct), RowInv fl E Y filler →
      ∃ trace : List ScanRow,
        scanLinesTrace fl plotFunction ((List.range m).map fun k : ℕ => Y - (k : ℤ)) filler =
          some trace ∧
        ∀ t ∈ trace, Y - (m : ℤ) < t.y ∧ t.y ≤ Y ∧
          t.activeEdgeList.Perm
            ((E.filter (fun e => decide (e.activeAt t.y))).map (Edge.atRow fl t.y)) ∧
          t.plots = pairPlots plotFunction t.y t.activeEdgeList := by
  intro m
  induction m with
  | zero =>
    intro Y filler _
    exact ⟨[], rfl, fun t ht => absurd ht (List.not_mem_nil t)⟩
  | succ m ih =>
    intro Y filler hinv
    obtain ⟨hplots, sorted, hs1, hs2⟩ := row_step fl E hE plotFunction Y filler hinv (heven Y)
    obtain ⟨trace, ht1, ht2⟩ := ih (Y - 1) _ hs2
    refine ⟨⟨Y, filler.activeEdgeList, (rowPairs fl plotFunction Y filler).1⟩ :: trace, ?_, ?_⟩
    · rw [descending_succ, scanLinesTrace_cons, hs1, Option.some_bind, ht1, Option.some_bind]
    · intro t ht
      rcases List.mem_cons.mp ht with h | h
      · rw [h]
        refine ⟨?_, le_refl _, hinv.2, hplots⟩
        push_cast
        omega
      · obtain ⟨h1, h2, h3, h4⟩ := ht2 t h
        refine ⟨?_, by omega, h3, h4⟩
        push_cast
        omega

theorem roundToInt_bounds (q : ℚ) (a b : ℤ) (ha : (a : ℚ) ≤ q) (hb : q ≤ (b : ℚ)) :
    a ≤ roundToInt q ∧ roundToInt q ≤ b := by
  unfold roundToInt
  split
  · constructor
    · exact Int.le_floor.mpr (by linarith)
    · have : ⌊q + 1 / 2⌋ < b + 1 := Int.floor_lt.mpr (by push_cast; linarith)
      omega
  · constructor
    · have : a - 1 < ⌈q - 1 / 2⌉ := Int.lt_ceil.mpr (by push_cast; linarith)
      omega
    · exact Int.ceil_le.mpr (by linarith)

theorem iterate_advance_exact : ∀ (n : ℕ) (e : Edge),
    ((Edge.advance id)^[n] e).currentX = e.currentX + (n : ℚ) * e.stepX := by
  intro n
  induction n with
  | zero => intro e; simp
  | succ n ih =>
    intro e
    rw [Function.iterate_succ_apply, ih]
    show e.currentX + e.stepX + (n : ℚ) * e.stepX = _
    push_cast
    ring

/-- In exact arithmetic an edge that crosses row `y` has, advanced to that
row, its `currentX` between the `x` of its two vertices, when the differences
of the coordinates are in the range of `int`. -/
theorem atRow_x_bounds (top bottom : ScreenVertex) (y xlo xhi : ℤ) (hlt : bottom.y < top.y)
    (hy : top.y - bottom.y < 2 ^ 31) (hx0 : -2 ^ 31 ≤ bottom.x - top.x)
    (hx1 : bottom.x - top.x < 2 ^ 31)
    (hact : (shortEdge id top bottom).activeAt y) (h1 : xlo ≤ top.x) (h2 : top.x ≤ xhi)
    (h3 : xlo ≤ bottom.x) (h4 : bottom.x ≤ xhi) :
    (xlo : ℚ) ≤ ((shortEdge id top bottom).atRow id y).currentX ∧
      ((shortEdge id top bottom).atRow id y).currentX ≤ (xhi : ℚ) := by
  obtain ⟨a1, a2⟩ := hact
  have b1 : bottom.y + 1 ≤ y := a1
  have b2 : y ≤ top.y := a2
  have hh : (0 : ℚ) < ((top.y - bottom.y : ℤ) : ℚ) := by
    have : (0 : ℤ) < top.y - bottom.y := by omega
    exact_mod_cast this
  have w0 : wrapInt32 0 = 0 := by decide
  have hx : ((shortEdge id top bottom).atRow id y).currentX =
      (top.x : ℚ) + ((top.y - y : ℤ) : ℚ) *
        (((bottom.x - top.x : ℤ) : ℚ) / ((top.y - bottom.y : ℤ) : ℚ)) := by
    unfold Edge.atRow
    rw [iterate_advance_exact]
    show id ((top.x : ℚ) + id (id ((wrapInt32 (top.y - top.y) : ℤ) : ℚ) * _)) +
      (((top.y - y).toNat : ℕ) : ℚ) *
      (if id ((wrapInt32 (top.y - bottom.y) : ℤ) : ℚ) ≠ 0 then
        id (id ((wrapInt32 (bottom.x - top.x) : ℤ) : ℚ) /
          id ((wrapInt32 (top.y - bottom.y) : ℤ) : ℚ)) else 0) = _
    rw [sub_self, w0, wrapInt32_of_range _ (by omega) hy, wrapInt32_of_range _ hx0 hx1]
    simp only [id]
    rw [if_pos (ne_of_gt hh)]
    have e1 : (((top.y - y).toNat : ℕ) : ℚ) = ((top.y - y : ℤ) : ℚ) := by
      have : (((top.y - y).toNat : ℕ) : ℤ) = top.y - y := Int.toNat_of_nonneg (by omega)
      exact_mod_cast this
    rw [e1]
    simp
  rw [hx]
  have hk0 : (0 : ℚ) ≤ ((top.y - y : ℤ) : ℚ) := by
    have : (0 : ℤ) ≤ top.y - y := by omega
    exact_mod_cast this
  have hk1 : ((top.y - y : ℤ) : ℚ) ≤ ((top.y - bottom.y : ℤ) : ℚ) := by
    have : top.y - y ≤ top.y - bottom.y := by omega
    exact_mod_cast this
  have c1 : (xlo : ℚ) ≤ top.x := by exact_mod_cast h1
  have c2 : (top.x : ℚ) ≤ xhi := by exact_mod_cast h2
  have c3 : (xlo : ℚ) ≤ bottom.x := by exact_mod_cast h3
  have c4 : (bottom.x : ℚ) ≤ xhi := by exact_mod_cast h4
  obtain ⟨k, hk⟩ : ∃ k : ℚ, k = ((top.y - y : ℤ) : ℚ) := ⟨_, rfl⟩
  obtain ⟨h, hh'⟩ : ∃ h : ℚ, h = ((top.y - bottom.y : ℤ) : ℚ) := ⟨_, rfl⟩
  rw [← hk] at hk0 hk1 ⊢
  rw [← hh'] at hh hk1 ⊢
  push_cast
  have e : (top.x : ℚ) + k * (((bottom.x : ℚ) - top.x) / h) =
      ((h - k) * top.x + k * bottom.x) / h := by
    field_simp
    ring
  rw [e]
  constructor
  · rw [le_div_iff₀ hh]
    nlinarith [mul_nonneg (sub_nonneg.mpr hk1) (sub_nonneg.mpr c1),
      mul_nonneg hk0 (sub_nonneg.mpr c3)]
  · rw [div_le_iff₀ hh]
    nlinarith [mul_nonneg (sub_nonneg.mpr hk1) (sub_nonneg.mpr c2),
      mul_nonneg hk0 (sub_nonneg.mpr c4)]

theorem plotLineLoop_points (y : ℤ) (invZStep : ℚ) : ∀ (xs : List ℤ) (currentInvZ : ℚ),
    ∀ pl ∈ plotLineLoop y invZStep xs currentInvZ,
      ∃ p : ScreenVertex, pl = Plot.unchecked p ∧ p.y = y ∧ p.x ∈ xs := by
  intro xs
  induction xs with
  | nil => intro _ pl h; exact absurd h (List.not_mem_nil pl)
  | cons x xs ih =>
    intro c pl h
    unfold plotLineLoop at h
    rcases List.mem_cons.mp h with h1 | h1
    · exact ⟨_, h1, rfl, List.mem_cons_self _ _⟩
    · obtain ⟨p, e1, e2, e3⟩ := ih _ pl h1
      exact ⟨p, e1, e2, List.mem_cons_of_mem _ e3⟩

/-- Every submission of `plotLine` is unchecked, on row `y`, in a column from
`x1` to `x2`. -/
theorem plotLine_points (y x1 x2 : ℤ) (z1 z2 : ℚ) :
    ∀ pl ∈ plotLine y x1 x2 z1 z2,
      ∃ p : ScreenVertex, pl = Plot.unchecked p ∧ p.y = y ∧ x1 ≤ p.x ∧ p.x ≤ x2 := by
  intro pl h
  unfold plotLine at h
  split at h
  · rename_i heq
    rw [List.mem_singleton] at h
    exact ⟨_, h, rfl, le_refl _, le_of_eq heq⟩
  · obtain ⟨p, e1, e2, e3⟩ := plotLineLoop_points y _ _ _ pl h
    rw [mem_intRange] at e3
    exact ⟨p, e1, e2, e3.1, by omega⟩

theorem pairPlots_mem (plotFunction : ℤ → ℤ → ℤ → ℚ → ℚ → List Plot) (y : ℤ) :
    ∀ (n : ℕ) (l : List Edge), l.length ≤ n → ∀ pl ∈ pairPlots plotFunction y l,
      ∃ e1 ∈ l, ∃ e2 ∈ l, pl ∈ plotFunction y (roundToInt e1.currentX)
        (roundToInt e2.currentX) e1.currentZ e2.currentZ := by
  intro n
  induction n with
  | zero =>
    intro l hl pl h
    have hnil : l = [] := List.length_eq_zero.mp (by omega)
    rw [hnil] at h
    exact absurd h (List.not_mem_nil pl)
  | succ n ih =>
    intro l hl pl h
    rcases l with _ | ⟨e1, _ | ⟨e2, rest⟩⟩
    · exact absurd h (List.not_mem_nil pl)
    · exact absurd h (List.not_mem_nil pl)
    · unfold pairPlots at h
      rcases List.mem_append.mp h with h1 | h1
      · exact ⟨e1, List.mem_cons_self _ _, e2,
          List.mem_cons_of_mem _ (List.mem_cons_self _ _), h1⟩
      · obtain ⟨a, ha, b, hb, hab⟩ := ih rest (by simp only [List.length_cons] at hl; omega) pl h1
        exact ⟨a, List.mem_cons_of_mem _ (List.mem_cons_of_mem _ ha), b,
          List.mem_cons_of_mem _ (List.mem_cons_of_mem _ hb), hab⟩

theorem initFillingStruct_eq (fl : ℚ → ℚ) (st : FillingStruct × ℤ × ℤ) (c1 c2 : ScreenVertex) :
    initFillingStruct fl st c1 c2 =
      if c1.y = c2.y then st
      else initEdge fl st (if c1.y > c2.y then c1 else c2) (if c1.y > c2.y then c2 else c1) := rfl

theorem initEdge_edges (fl : ℚ → ℚ) (st : FillingStruct × ℤ × ℤ) (top bottom : ScreenVertex) :
    (initEdge fl st top bottom).1.edges = st.1.edges ++ [shortEdge fl top bottom] := by
  unfold initEdge
  dsimp only
  split_ifs <;> rfl

theorem initEdge_active (fl : ℚ → ℚ) (st : FillingStruct × ℤ × ℤ) (top bottom : ScreenVertex) :
    (initEdge fl st top bottom).1.activeEdgeList = st.1.activeEdgeList := by
  unfold initEdge
  dsimp only
  split_ifs <;> rfl

theorem initEdge_maxY (fl : ℚ → ℚ) (st : FillingStruct × ℤ × ℤ) (top bottom : ScreenVertex) :
    (initEdge fl st top bottom).1.maxY = if top.y > st.1.maxY then top.y else st.1.maxY := by
  unfold initEdge
  dsimp only
  split_ifs <;> rfl

theorem initEdge_minY (fl : ℚ → ℚ) (st : FillingStruct × ℤ × ℤ) (top bottom : ScreenVertex) :
    (initEdge fl st top bottom).1.minY = if bottom.y < st.1.minY then bottom.y else st.1.minY := by
  unfold initEdge
  dsimp only
  split_ifs <;> rfl

theorem initEdge_maxX (fl : ℚ → ℚ) (st : FillingStruct × ℤ × ℤ) (top bottom : ScreenVertex) :
    (initEdge fl st top bottom).2.1 =
      if top.x > st.2.1 ∨ bottom.x > st.2.1 then max top.x bottom.x else st.2.1 := rfl

theorem initEdge_minX (fl : ℚ → ℚ) (st : FillingStruct × ℤ × ℤ) (top bottom : ScreenVertex) :
    (initEdge fl st top bottom).2.2 =
      if top.x < st.2.2 ∨ bottom.x < st.2.2 then min top.x bottom.x else st.2.2 := rfl

theorem shortEdge_activeAt (fl : ℚ → ℚ) (top bottom : ScreenVertex) (y : ℤ) :
    (shortEdge fl top bottom).activeAt y ↔ bottom.y + 1 ≤ y ∧ y ≤ top.y := Iff.rfl

theorem initInv_edge (fl : ℚ → ℚ) (vs : List ScreenVertex) (W H : ℤ) (first c1 c2 top bottom : ScreenVertex)
    (st : FillingStruct × ℤ × ℤ) (h : InitInv fl vs W H first c1 st) (htop : top ∈ vs)
    (hbottom : bottom ∈ vs) (hlt : bottom.y < top.y)
    (hc : (c1 = top ∧ c2 = bottom) ∨ (c1 = bottom ∧ c2 = top)) :
    InitInv fl vs W H first c2 (initEdge fl st top bottom) := by
  refine ⟨?_, ?_, ?_, ?_, ?_, ?_, ?_, ?_⟩
  · rw [initEdge_active]
    exact h.active
  · intro e he
    rw [initEdge_edges] at he
    rcases List.mem_append.mp he with h1 | h1
    · exact h.edges e h1
    · exact ⟨top, htop, bottom, hbottom, hlt, List.mem_singleton.mp h1⟩
  · intro e he
    rw [initEdge_edges] at he
    rw [initEdge_maxY]
    rcases List.mem_append.mp he with h1 | h1
    · have := h.top e h1
      split <;> omega
    · rw [List.mem_singleton.mp h1]
      show top.y ≤ _
      split <;> omega
  · rw [initEdge_maxY]
    split
    · exact Or.inr ⟨top, htop, rfl⟩
    · exact h.maxY
  · rw [initEdge_minY]
    split
    · exact Or.inr ⟨bottom, hbottom, rfl⟩
    · exact h.minY
  · rw [initEdge_maxX]
    split
    · rcases max_choice top.x bottom.x with h1 | h1
      · exact Or.inr ⟨top, htop, h1⟩
      · exact Or.inr ⟨bottom, hbottom, h1⟩
    · exact h.maxX
  · rw [initEdge_minX]
    split
    · rcases min_choice top.x bottom.x with h1 | h1
      · exact Or.inr ⟨top, htop, h1⟩
      · exact Or.inr ⟨bottom, hbottom, h1⟩
    · exact h.minX
  · intro y
    have hp := h.parity y
    rw [initEdge_edges, List.filter_append, List.length_append]
    by_cases hact : (shortEdge fl top bottom).activeAt y
    · rw [List.filter_cons_of_pos (by simpa using hact)]
      rw [shortEdge_activeAt] at hact
      simp only [List.filter_nil, List.length_singleton, Nat.even_add_one, hp]
      rcases hc with ⟨e1, e2⟩ | ⟨e1, e2⟩
      · rw [e1, e2]
        have a1 : decide (y ≤ top.y) = true := decide_eq_true (by omega)
        have a2 : decide (y ≤ bottom.y) = false := decide_eq_false (by omega)
        rw [a1, a2]
        cases decide (y ≤ first.y) <;> simp
      · rw [e1, e2]
        have a1 : decide (y ≤ top.y) = true := decide_eq_true (by omega)
        have a2 : decide (y ≤ bottom.y) = false := decide_eq_false (by omega)
        rw [a1, a2]
        cases decide (y ≤ first.y) <;> simp
    · rw [List.filter_cons_of_neg (by simpa using hact)]
      rw [shortEdge_activeAt] at hact
      simp only [List.filter_nil, List.length_nil, Nat.add_zero, hp]
      have a3 : decide (y ≤ top.y) = decide (y ≤ bottom.y) := by
        rw [Bool.eq_iff_iff, decide_eq_true_eq, decide_eq_true_eq]
        omega
      rcases hc with ⟨e1, e2⟩ | ⟨e1, e2⟩
      · rw [e1, e2, a3]
      · rw [e1, e2, a3]

/-- One call of `initFillingStruct` extends the path by the edge from `c1` to
`c2`. -/
theorem initInv_step (fl : ℚ → ℚ) (vs : List ScreenVertex) (W H : ℤ) (first c1 c2 : ScreenVertex)
    (st : FillingStruct × ℤ × ℤ) (h : InitInv fl vs W H first c1 st) (h1 : c1 ∈ vs)
    (h2 : c2 ∈ vs) : InitInv fl vs W H first c2 (initFillingStruct fl st c1 c2) := by
  rw [initFillingStruct_eq]
  by_cases heq : c1.y = c2.y
  · rw [if_pos heq]
    refine { h with parity := ?_ }
    intro y
    rw [h.parity y, heq]
  · rw [if_neg heq]
    by_cases hgt : c1.y > c2.y
    · rw [if_pos hgt, if_pos hgt]
      exact initInv_edge fl vs W H first c1 c2 c1 c2 st h h1 h2 hgt (Or.inl ⟨rfl, rfl⟩)
    · rw [if_neg hgt, if_neg hgt]
      exact initInv_edge fl vs W H first c1 c2 c2 c1 st h h2 h1 (by omega) (Or.inr ⟨rfl, rfl⟩)

theorem initInv_base (fl : ℚ → ℚ) (vs : List ScreenVertex) (W H : ℤ) (c : ScreenVertex) :
    InitInv fl vs W H c c (FillingStruct.new H, 0, W) :=
  { active := rfl
    edges := fun e he => absurd he (List.not_mem_nil e)
    top := fun e he => absurd he (List.not_mem_nil e)
    maxY := Or.inl rfl
    minY := Or.inl rfl
    maxX := Or.inl rfl
    minX := Or.inl rfl
    parity := fun y => by simp [FillingStruct.new] }

theorem getD_mem (vs : List ScreenVertex) (i : ℕ) (h : i < vs.length) :
    vs.getD i default ∈ vs := by
  rw [List.getD_eq_getElem _ _ h]
  exact List.getElem_mem h

theorem initInv_fold (fl : ℚ → ℚ) (vs : List ScreenVertex) (W H : ℤ) : ∀ k : ℕ, k < vs.length →
    InitInv fl vs W H (vs.getD 0 default) (vs.getD k default)
      ((List.range k).foldl (fun st i => initFillingStruct fl st (vs.getD i default)
        (vs.getD (i + 1) default)) (FillingStruct.new H, 0, W)) := by
  intro k
  induction k with
  | zero => intro _; exact initInv_base fl vs W H _
  | succ k ih =>
    intro hk
    rw [List.range_succ, List.foldl_append, List.foldl_cons, List.foldl_nil]
    exact initInv_step fl vs W H _ _ _ _ (ih (by omega)) (getD_mem vs k (by omega))
      (getD_mem vs (k + 1) hk)

/-- After the init phase of `fillPolygon` on a polygon with a vertex, the
edges are those of a closed path: every row is crossed by an even number. -/
theorem initInv_fillInit (fl : ℚ → ℚ) (ctx : SGLContext) (hne : ctx.screenVertices ≠ []) :
    InitInv fl ctx.screenVertices ctx.width ctx.height (ctx.screenVertices.getD 0 default)
      (ctx.screenVertices.getD 0 default) (fillInit fl ctx) := by
  have hlen : 0 < ctx.screenVertices.length := List.length_pos.mpr hne
  have hlast : ctx.screenVertices.getLastD default =
      ctx.screenVertices.getD (ctx.screenVertices.length - 1) default := by
    rw [List.getLastD_eq_getLast?, List.getLast?_eq_getElem?, List.getD_eq_getElem?_getD]
  unfold fillInit
  rw [hlast]
  exact initInv_step fl _ _ _ _ _ _ _ (initInv_fold fl _ _ _ _ (by omega))
    (getD_mem _ _ (by omega)) (getD_mem _ _ hlen)

/-- The state of `fillPolygon` before the scanline loop, for a polygon inside
the canvas: the unchecked plotter is chosen, no clipping of the rows takes
place, and the loop starts in `RowInv` at the highest row. -/
theorem fillPolygonTrace_start (fl : ℚ → ℚ) (ctx : SGLContext) (hne : ctx.screenVertices ≠ [])
    (hin : ∀ v ∈ ctx.screenVertices, inCanvas ctx v) :
    ∃ filler : FillingStruct,
      fillPolygonTraceWith fl ctx = scanLinesTrace fl plotLine
        ((List.range ((fillInit fl ctx).1.maxY - (fillInit fl ctx).1.minY).toNat).map
          fun k : ℕ => (fillInit fl ctx).1.maxY - (k : ℤ)) filler ∧
      RowInv fl (fillInit fl ctx).1.edges (fillInit fl ctx).1.maxY filler := by
  have I := initInv_fillInit fl ctx hne
  obtain ⟨v0, hv0⟩ := List.exists_mem_of_ne_nil _ hne
  obtain ⟨a1, a2, a3, a4⟩ := hin v0 hv0
  have hplot : (fillInit fl ctx).2.2 ≥ 0 ∧ (fillInit fl ctx).2.1 < ctx.width := by
    constructor
    · rcases I.minX with h | ⟨v, hv, h⟩
      · omega
      · have := (hin v hv).1
        omega
    · rcases I.maxX with h | ⟨v, hv, h⟩
      · omega
      · have := (hin v hv).2.1
        omega
  have hM : (fillInit fl ctx).1.maxY ≤ ctx.height - 1 := by
    rcases I.maxY with h | ⟨v, hv, h⟩
    · omega
    · have := (hin v hv).2.2.2
      omega
  have hmn : 0 ≤ (fillInit fl ctx).1.minY := by
    rcases I.minY with h | ⟨v, hv, h⟩
    · omega
    · have := (hin v hv).2.2.1
      omega
  have hE : ∀ e ∈ (fillInit fl ctx).1.edges, e.bottomY ≤ e.topY := by
    intro e he
    obtain ⟨top, -, bottom, -, hlt, rfl⟩ := I.edges e he
    show bottom.y + 1 ≤ top.y
    omega
  refine ⟨{ edges := (activate fl (fillInit fl ctx).1.maxY (fillInit fl ctx).1.edges).1
            activeEdgeList := ((updateActiveEdgeList fl (fillInit fl ctx).1
              (fillInit fl ctx).1.maxY).activeEdgeList).insertionSort
                fun e1 e2 => e1.currentX ≤ e2.currentX
            maxY := (fillInit fl ctx).1.maxY
            minY := (fillInit fl ctx).1.minY }, ?_, ?_, ?_⟩
  · unfold fillPolygonTraceWith
    rw [if_neg hne]
    dsimp only
    rw [if_pos hplot]
    have e1 : (updateActiveEdgeList fl (fillInit fl ctx).1 (fillInit fl ctx).1.maxY).maxY =
        (fillInit fl ctx).1.maxY := rfl
    have e2 : (updateActiveEdgeList fl (fillInit fl ctx).1 (fillInit fl ctx).1.maxY).minY =
        (fillInit fl ctx).1.minY := rfl
    have e3 : (updateActiveEdgeList fl (fillInit fl ctx).1 (fillInit fl ctx).1.maxY).edges =
        (activate fl (fillInit fl ctx).1.maxY (fillInit fl ctx).1.edges).1 := rfl
    rw [e1, e2, e3, min_eq_left hM, max_eq_left hmn]
    simp only [List.bind_eq_flatMap, List.pure_def]
    rw [flatMap_single, List.map_map]
    rfl
  · show (activate fl (fillInit fl ctx).1.maxY (fillInit fl ctx).1.edges).1 = _
    rw [activate_eq]
    refine List.filter_congr (fun e _ => ?_)
    rw [Bool.eq_iff_iff]
    simp only [Bool.not_eq_true', decide_eq_true_eq, decide_eq_false_iff_not]
    omega
  · show (((updateActiveEdgeList fl (fillInit fl ctx).1 (fillInit fl ctx).1.maxY).activeEdgeList).insertionSort
      fun e1 e2 => e1.currentX ≤ e2.currentX).Perm _
    refine (List.perm_insertionSort _ _).trans (List.Perm.of_eq ?_)
    unfold updateActiveEdgeList
    dsimp only
    rw [I.active, List.filter_nil, List.nil_append, activate_eq]
    dsimp only
    have e1 : ((fillInit fl ctx).1.edges.filter fun e => decide ((fillInit fl ctx).1.maxY ≤ e.topY)) =
        ((fillInit fl ctx).1.edges.filter fun e => decide (e.activeAt (fillInit fl ctx).1.maxY)) := by
      refine List.filter_congr (fun e he => ?_)
      have h1 := hE e he
      have h2 := I.top e he
      rw [Bool.eq_iff_iff]
      simp only [decide_eq_true_eq, Edge.activeAt]
      omega
    rw [e1]
    refine List.map_congr_left (fun e he => ?_)
    have h1 := (List.mem_filter.mp he).1
    have h2 := (List.mem_filter.mp he).2
    rw [decide_eq_true_eq] at h2
    have h3 := I.top e h1
    exact bump_top fl _ e (le_antisymm h3 h2.2)

/-- What `fillPolygon` does, for every rounding `fl`, on a polygon with a
vertex whose vertices all lie inside the canvas: it returns; on every row
visited the active edge list has an even number of entries, each the edge of
two vertices of the polygon, advanced to the row; and every submission is
unchecked, on the row, in a column between the rounded `currentX` of two
active edges, and the row is above the lowest and not above the highest row of
every box that holds the vertices. -/
theorem fillPolygon_rows (fl : ℚ → ℚ) (ctx : SGLContext) (hne : ctx.screenVertices ≠ [])
    (hin : ∀ v ∈ ctx.screenVertices, inCanvas ctx v) :
    ∃ trace : List ScanRow, fillPolygonTraceWith fl ctx = some trace ∧
      ∀ t ∈ trace, Even t.activeEdgeList.length ∧
        (∀ e ∈ t.activeEdgeList, ∃ top ∈ ctx.screenVertices, ∃ bottom ∈ ctx.screenVertices,
          bottom.y < top.y ∧ (shortEdge fl top bottom).activeAt t.y ∧
            e = (shortEdge fl top bottom).atRow fl t.y) ∧
        ∀ pl ∈ t.plots, ∃ p : ScreenVertex, pl = Plot.unchecked p ∧ p.y = t.y ∧
          (∃ e1 ∈ t.activeEdgeList, ∃ e2 ∈ t.activeEdgeList,
            roundToInt e1.currentX ≤ p.x ∧ p.x ≤ roundToInt e2.currentX) ∧
          ∀ ylo yhi : ℤ, (∀ v ∈ ctx.screenVertices, ylo ≤ v.y ∧ v.y ≤ yhi) →
            ylo < p.y ∧ p.y ≤ yhi := by
  have I := initInv_fillInit fl ctx hne
  obtain ⟨v0, hv0⟩ := List.exists_mem_of_ne_nil _ hne
  obtain ⟨a1, a2, a3, a4⟩ := hin v0 hv0
  have hE : ∀ e ∈ (fillInit fl ctx).1.edges, e.bottomY ≤ e.topY := by
    intro e he
    obtain ⟨top, -, bottom, -, hlt, rfl⟩ := I.edges e he
    show bottom.y + 1 ≤ top.y
    omega
  have heven : ∀ y : ℤ,
      Even ((fillInit fl ctx).1.edges.filter (fun e => decide (e.activeAt y))).length :=
    fun y => (I.parity y).mpr rfl
  obtain ⟨filler, hstart, hinv⟩ := fillPolygonTrace_start fl ctx hne hin
  obtain ⟨trace, ht1, ht2⟩ := scanTrace_spec fl _ hE heven plotLine
    ((fillInit fl ctx).1.maxY - (fillInit fl ctx).1.minY).toNat (fillInit fl ctx).1.maxY filler hinv
  refine ⟨trace, by rw [hstart, ht1], ?_⟩
  intro t ht
  obtain ⟨b1, b2, b3, b4⟩ := ht2 t ht
  refine ⟨?_, ?_, ?_⟩
  · rw [b3.length_eq, List.length_map]
    exact heven t.y
  · intro e he
    obtain ⟨e0, h0, rfl⟩ := List.mem_map.mp (b3.mem_iff.mp he)
    obtain ⟨h1, h2⟩ := List.mem_filter.mp h0
    rw [decide_eq_true_eq] at h2
    obtain ⟨top, htop, bottom, hbottom, hlt, rfl⟩ := I.edges e0 h1
    exact ⟨top, htop, bottom, hbottom, hlt, h2, rfl⟩
  · intro pl hpl
    rw [b4] at hpl
    obtain ⟨e1, he1, e2, he2, hmem⟩ := pairPlots_mem plotLine t.y _ _ (le_refl _) pl hpl
    obtain ⟨p, hp1, hp2, hp3, hp4⟩ := plotLine_points _ _ _ _ _ pl hmem
    refine ⟨p, hp1, hp2, ⟨e1, he1, e2, he2, hp3, hp4⟩, ?_⟩
    intro ylo yhi hbox
    constructor
    · rw [hp2]
      have hmin : ylo ≤ (fillInit fl ctx).1.minY := by
        rcases I.minY with h | ⟨v, hv, h⟩
        · have := (hbox v0 hv0).1
          omega
        · have := (hbox v hv).1
          omega
      omega
    · rw [hp2]
      have hmax : (fillInit fl ctx).1.maxY ≤ yhi := by
        rcases I.maxY with h | ⟨v, hv, h⟩
        · have := (hbox v0 hv0).2
          omega
        · have := (hbox v hv).2
          omega
      omega

theorem depthCheck_lengths (p : ScreenVertex) (w : ℤ) (ctx : SGLContext) :
    (depthCheck p w ctx).2.colorBuffer.length = ctx.colorBuffer.length ∧
    (depthCheck p w ctx).2.depthBuffer.length = ctx.depthBuffer.length ∧
    (depthCheck p w ctx).2.width = ctx.width := by
  unfold depthCheck
  split
  · exact ⟨rfl, rfl, rfl⟩
  · dsimp only
    split
    · exact ⟨rfl, bufSet_length _ _ _, rfl⟩
    · exact ⟨rfl, rfl, rfl⟩

theorem boundsAndDepthCheck_lengths (p : ScreenVertex) (w h : ℤ) (ctx : SGLContext) :
    (boundsAndDepthCheck p w h ctx).2.colorBuffer.length = ctx.colorBuffer.length ∧
    (boundsAndDepthCheck p w h ctx).2.depthBuffer.length = ctx.depthBuffer.length ∧
    (boundsAndDepthCheck p w h ctx).2.width = ctx.width := by
  unfold boundsAndDepthCheck
  split
  · exact ⟨rfl, rfl, rfl⟩
  · split
    · exact ⟨rfl, rfl, rfl⟩
    · exact depthCheck_lengths p w ctx

theorem apply_lengths (ctx : SGLContext) (pl : Plot) :
    (pl.apply ctx).colorBuffer.length = ctx.colorBuffer.length ∧
    (pl.apply ctx).depthBuffer.length = ctx.depthBuffer.length ∧
    (pl.apply ctx).width = ctx.width := by
  unfold Plot.apply
  cases pl with
  | checked p =>
    obtain ⟨a, b, c⟩ := boundsAndDepthCheck_lengths p ctx.width ctx.height ctx
    dsimp only
    split
    · exact ⟨(bufSet_length _ _ _).trans a, b, c⟩
    · exact ⟨a, b, c⟩
  | unchecked p =>
    obtain ⟨a, b, c⟩ := depthCheck_lengths p ctx.width ctx
    dsimp only
    split
    · exact ⟨(bufSet_length _ _ _).trans a, b, c⟩
    · exact ⟨a, b, c⟩

theorem runPlots_lengths (plots : List Plot) : ∀ ctx : SGLContext,
    (runPlots ctx plots).colorBuffer.length = ctx.colorBuffer.length ∧
    (runPlots ctx plots).depthBuffer.length = ctx.depthBuffer.length ∧
    (runPlots ctx plots).width = ctx.width := by
  induction plots with
  | nil => intro ctx; exact ⟨rfl, rfl, rfl⟩
  | cons pl rest ih =>
    intro ctx
    obtain ⟨h1, h2, h3⟩ := ih (pl.apply ctx)
    obtain ⟨g1, g2, g3⟩ := apply_lengths ctx pl
    exact ⟨h1.trans g1, h2.trans g2, h3.trans g3⟩


theorem reachable_run (env : Env) : ∀ (cs : List Command) (s s' : SGLSceneManager),
    Reachable env s → run env cs s = some s' → Reachable env s' := by
  intro cs
  induction cs with
  | nil =>
    intro s s' hs h
    rw [show run env [] s = some s from rfl, Option.some.injEq] at h
    rw [← h]
    exact hs
  | cons c cs ih =>
    intro s s' hs h
    rw [show run env (c :: cs) s = (step env c s).bind (run env cs) from rfl] at h
    cases hc : step env c s with
    | none =>
      rw [hc] at h
      exact absurd h (by simp)
    | some s1 =>
      rw [hc, Option.some_bind] at h
      exact ih s1 s' (Reachable.step c hs hc) h

theorem destroy_below (s : SGLSceneManager) (id : ℤ) (h0 : 0 ≤ id)
    (h1 : id < s.currentContextId) (h2 : s.currentContextId < (s.contexts.length : ℤ)) :
    (sglDestroyContext id s).currentContextId = s.currentContextId ∧
    (sglDestroyContext id s).contexts.length + 1 = s.contexts.length ∧
    getCurrentContext (sglDestroyContext id s) =
      s.contexts.get? (s.currentContextId.toNat + 1) := by
  have hv : isValidContextId s id = true := by
    unfold isValidContextId
    exact decide_eq_true ⟨h0, by omega⟩
  have hd : sglDestroyContext id s = { s with contexts := s.contexts.eraseIdx id.toNat } := by
    unfold sglDestroyContext
    rw [hv]
    simp only [Bool.not_true, Bool.false_eq_true, if_false]
    rw [if_neg (by omega)]
  rw [hd]
  refine ⟨rfl, ?_, ?_⟩
  · show (s.contexts.eraseIdx id.toNat).length + 1 = s.contexts.length
    rw [List.length_eraseIdx, if_pos (by omega)]
    omega
  · unfold getCurrentContext
    dsimp only
    rw [if_pos (by omega), List.get?_eq_getElem?, List.get?_eq_getElem?, List.getElem?_eraseIdx,
      if_neg (by omega)]

theorem destroy_above (s : SGLSceneManager) (id : ℤ) (h1 : s.currentContextId < id)
    (h2 : id < (s.contexts.length : ℤ)) :
    getCurrentContext (sglDestroyContext id s) = getCurrentContext s := by
  by_cases h0 : 0 ≤ id
  · have hv : isValidContextId s id = true := by
      unfold isValidContextId
      exact decide_eq_true ⟨h0, h2⟩
    have hd : sglDestroyContext id s = { s with contexts := s.contexts.eraseIdx id.toNat } := by
      unfold sglDestroyContext
      rw [hv]
      simp only [Bool.not_true, Bool.false_eq_true, if_false]
      rw [if_neg (by omega)]
    rw [hd]
    unfold getCurrentContext
    dsimp only
    by_cases hc : 0 ≤ s.currentContextId
    · rw [if_pos hc, if_pos hc, List.get?_eq_getElem?, List.get?_eq_getElem?,
        List.getElem?_eraseIdx, if_pos (by omega)]
    · rw [if_neg hc, if_neg hc]
  · have hv : isValidContextId s id = false := by
      unfold isValidContextId
      exact decide_eq_false fun h => h0 h.1
    unfold sglDestroyContext
    rw [hv]
    simp only [Bool.not_false, if_true]
    exact getCurrentContext_setErrCode _ _

/-- C33. Context handles do not stay valid across destruction.  After
`CreateContext; CreateContext; SetContext(1); DestroyContext(0)` the state is
reachable, no error is recorded, and `currentContextId` is still 1 while one
context is left: the handle is neither -1 nor a valid index, and the lookup of
the current context has no result.  With three contexts of widths 2, 3, 4 and
the second one current, `DestroyContext(0)` (a valid id different from the
current one) leaves as current context the one of width 4, not the one of
width 3 that was current before the call. -/
theorem destroy_invalidates_handle (env : Env) :
    (∃ s : SGLSceneManager, run env destroyDemo sglInit = some s ∧ Reachable env s ∧
      s.errorCode = SGL_NO_ERROR ∧ s.currentContextId = 1 ∧ s.contexts.length = 1 ∧
      isValidContextId s s.currentContextId = false ∧ getCurrentContext s = none) ∧
    (∃ s : SGLSceneManager, run env destroySetup sglInit = some s ∧ Reachable env s ∧
      isValidContextId s 0 = true ∧ s.currentContextId = 1 ∧
      (getCurrentContext s).map (fun ctx => ctx.width) = some 3 ∧
      (sglDestroyContext 0 s).errorCode = SGL_NO_ERROR ∧
      (getCurrentContext (sglDestroyContext 0 s)).map (fun ctx => ctx.width) = some 4) := by
  refine ⟨⟨_, rfl, reachable_run env destroyDemo sglInit _ Reachable.init rfl, rfl, rfl, rfl,
    rfl, rfl⟩,
    ⟨_, rfl, reachable_run env destroySetup sglInit _ Reachable.init rfl, rfl, rfl, rfl,
      rfl, rfl⟩⟩

/-! ## The empty begin/end block -/

theorem fillPolygon_no_vertex (ctx : SGLContext) (h : ctx.screenVertices = []) :
    fillPolygon ctx = none := by
  unfold fillPolygon fillPolygonWith
  dsimp only
  rw [if_pos h]

/-- With no vertex every primitive but the filled polygon submits nothing. -/
theorem dispatch_no_vertex (env : Env) (ctx : SGLContext) (h : ctx.screenVertices = [])
    (hne : ¬ (ctx.currentPrimitiveMode = SGL_POLYGON ∧ ctx.currentAreaMode = SGL_FILL)) :
    dispatchPrimitive env ctx = some ctx := by
  have hp : drawPoints ctx = [] := by
    unfold drawPoints
    rw [h]
    rfl
  have hl : drawLines ctx.screenVertices = ([], []) := by
    rw [h]
    rfl
  have hs : drawLineStrip ctx.screenVertices = [] := by
    rw [h]
    rfl
  have ho : drawLineLoop ctx.screenVertices = [] := by
    rw [h]
    rfl
  have hc : ({ ctx with screenVertices := [] } : SGLContext) = ctx := by
    rw [← h]
  unfold dispatchPrimitive
  split
  · rw [hp]
    rfl
  · split
    · rw [hl]
      dsimp only
      rw [hc]
      rfl
    · split
      · rw [hs]
        rfl
      · split
        · rw [ho]
          rfl
        · split
          · rename_i hpoly
            split
            · rw [hp]
              rfl
            · split
              · rw [ho]
                rfl
              · split
                · rename_i hfill
                  exact absurd ⟨hpoly, hfill⟩ hne
                · rfl
          · rfl

/-- C36. An empty block `Begin(mode); End` leaves both buffers as they were for
every primitive mode and area mode but one: for `SGL_POLYGON` in area mode
`SGL_FILL` the block has no result, because `fillPolygon` on an empty vertex
list runs its init loop to `size() - 1`, which wraps around, and reads
`screenVertices[0]`, `[1]`, ... and `back()` of the empty vector. -/
theorem empty_block_polygon_fill :
    run demoEnv (emptyBlock SGL_FILL SGL_POLYGON) sglInit = none ∧
    (run demoEnv [.CreateContext 2 2, .SetContext 0, .AreaMode SGL_FILL, .Begin SGL_POLYGON]
        sglInit).isSome = true ∧
    (∀ ctx : SGLContext, fillPolygon { ctx with screenVertices := [] } = none) ∧
    (∀ mode ∈ [SGL_POINTS, SGL_LINES, SGL_LINE_STRIP, SGL_LINE_LOOP, SGL_TRIANGLES, SGL_POLYGON],
      ∀ area ∈ [SGL_POINT, SGL_LINE, SGL_FILL], (mode, area) ≠ (SGL_POLYGON, SGL_FILL) →
        (finalContext demoEnv (emptyBlock area mode)).map
            (fun ctx => (ctx.colorBuffer, ctx.depthBuffer, ctx.insideBegin)) =
          (finalContext demoEnv [.CreateContext 2 2, .SetContext 0]).map
            (fun ctx => (ctx.colorBuffer, ctx.depthBuffer, false))) := by
  refine ⟨by decide!, by decide!, fun ctx => fillPolygon_no_vertex _ rfl, by decide!⟩

/-! ## Material ids of a scene -/

theorem allIds_errOnly {s s' : SGLSceneManager} (h : ErrOnly s s') (hw : AllIds s) :
    AllIds s' := by
  intro ctx hmem
  rw [h.1] at hmem
  exact hw ctx hmem

theorem allIds_setCurrentContext {s : SGLSceneManager} {ctx : SGLContext} (hw : AllIds s)
    (hc : SceneIds ctx) : AllIds (setCurrentContext s ctx) := by
  intro c hmem
  rcases List.mem_or_eq_of_mem_set hmem with h | h
  · exact hw c h
  · rw [h]
    exact hc

theorem allIds_guarded {g : Guard} {body : SGLSceneManager → Option SGLSceneManager}
    (hg : GuardFrame g) (hb : ∀ s s', body s = some s' → AllIds s → AllIds s')
    (s s' : SGLSceneManager) (h : guarded g body s = some s') (hw : AllIds s) : AllIds s' := by
  unfold guarded at h
  cases hgs : g s with
  | none => rw [hgs] at h; exact absurd h (by simp)
  | some r =>
    obtain ⟨b, t⟩ := r
    rw [hgs] at h
    have ht := allIds_errOnly (hg s b t hgs) hw
    cases b with
    | true =>
      simp only [Option.some.injEq] at h
      rw [← h]
      exact ht
    | false => exact hb t s' h ht

theorem allIds_modifyContext {f : SGLContext → Option SGLContext}
    (hf : ∀ ctx ctx', f ctx = some ctx' → SceneIds ctx → SceneIds ctx')
    (s s' : SGLSceneManager) (h : modifyContext f s = some s') (hw : AllIds s) : AllIds s' := by
  unfold modifyContext at h
  cases hc : getCurrentContext s with
  | none => rw [hc] at h; exact absurd h (by simp)
  | some ctx =>
    rw [hc] at h
    dsimp only at h
    cases hfc : f ctx with
    | none => rw [hfc] at h; exact absurd h (by simp)
    | some ctx1 =>
      rw [hfc] at h
      simp only [Option.some.injEq] at h
      rw [← h]
      exact allIds_setCurrentContext hw (hf ctx ctx1 hfc (hw ctx (getCurrentContext_mem hc)))

theorem sceneIds_of_scene {a b : SGLContext} (h : b.scene = a.scene) (ha : SceneIds a) :
    SceneIds b := by
  unfold SceneIds
  rw [h]
  exact ha

theorem sceneIds_append {ctx : SGLContext} (ha : SceneIds ctx) (p : Primitive3D)
    (hp : p.materialID = (ctx.scene.materialsList.length : ℤ) - 1) :
    SceneIds { ctx with scene :=
      { ctx.scene with primitivesList := ctx.scene.primitivesList ++ [p] } } := by
  intro q hq
  rcases List.mem_append.mp hq with h | h
  · exact ha q h
  · rw [List.mem_singleton.mp h, hp]
    show -1 ≤ (ctx.scene.materialsList.length : ℤ) - 1 ∧
      (ctx.scene.materialsList.length : ℤ) - 1 < (ctx.scene.materialsList.length : ℤ)
    omega

theorem recalculateVPMMatrix_scene {ctx ctx' : SGLContext}
    (h : recalculateVPMMatrix ctx = some ctx') : ctx'.scene = ctx.scene := by
  unfold recalculateVPMMatrix at h
  simp only [Option.bind_eq_bind, Option.bind_eq_some] at h
  obtain ⟨_, _, _, _, _, _, _, _, _, _, _, _, h⟩ := h
  simp only [Option.some.injEq] at h
  rw [← h]

theorem dispatchPrimitive_scene (env : Env) {ctx ctx' : SGLContext}
    (h : dispatchPrimitive env ctx = some ctx') : ctx'.scene = ctx.scene := by
  have hrun : ∀ (c : SGLContext) (o : Option (List Plot)),
      o.map (runPlots c) = some ctx' → ctx'.scene = c.scene := by
    intro c o ho
    cases o with
    | none => exact absurd ho (by simp)
    | some plots =>
      simp only [Option.map_some', Option.some.injEq] at ho
      have hs := runPlots_same plots c
      unfold SameButBuffers at hs
      rw [← ho, hs]
  unfold dispatchPrimitive at h
  split at h
  · exact hrun ctx (some _) h
  · split at h
    · dsimp only at h
      have h1 := hrun _ _ h
      exact h1
    · split at h
      · exact hrun _ _ h
      · split at h
        · exact hrun _ _ h
        · split at h
          · split at h
            · exact hrun ctx (some _) h
            · split at h
              · exact hrun _ _ h
              · split at h
                · exact hrun _ _ h
                · simp only [Option.some.injEq] at h
                  rw [← h]
          · simp only [Option.some.injEq] at h
            rw [← h]

theorem allIds_beginScene (s s' : SGLSceneManager) (h : sglBeginScene s = some s')
    (hw : AllIds s) : AllIds s' := by
  refine allIds_guarded guardFrame_state (allIds_modifyContext ?_) s s' h hw
  intro ctx ctx' hf _
  simp only [Option.some.injEq] at hf
  rw [← hf]
  intro p hp
  exact absurd hp (List.not_mem_nil p)

theorem allIds_endScene (s s' : SGLSceneManager) (h : sglEndScene s = some s')
    (hw : AllIds s) : AllIds s' := by
  refine allIds_guarded guardFrame_state (allIds_modifyContext ?_) s s' h hw
  intro ctx ctx' hf ha
  simp only [Option.some.injEq] at hf
  rw [← hf]
  exact ha

theorem allIds_material (r g b kd ks shine T ior : ℚ) (s s' : SGLSceneManager)
    (h : sglMaterial r g b kd ks shine T ior s = some s') (hw : AllIds s) : AllIds s' := by
  refine allIds_guarded guardFrame_state (allIds_modifyContext ?_) s s' h hw
  intro ctx ctx' hf ha
  simp only [Option.some.injEq] at hf
  rw [← hf]
  intro p hp
  obtain ⟨h1, h2⟩ := ha p hp
  refine ⟨h1, ?_⟩
  show p.materialID < ((ctx.scene.materialsList ++ [_]).length : ℤ)
  rw [List.length_append, List.length_singleton]
  push_cast
  omega

theorem allIds_sphere (x y z radius : ℚ) (s s' : SGLSceneManager)
    (h : sglSphere x y z radius s = some s') (hw : AllIds s) : AllIds s' := by
  refine allIds_guarded (guardFrame_or guardFrame_state
    guardFrame_calledOutsideBeginSceneEndScene) (allIds_modifyContext ?_) s s' h hw
  intro ctx ctx' hf ha
  simp only [Option.some.injEq] at hf
  rw [← hf]
  exact sceneIds_append ha _ rfl

theorem allIds_begin (env : Env) (mode : sglEElementType) (s s' : SGLSceneManager)
    (h : sglBegin env mode s = some s') (hw : AllIds s) : AllIds s' := by
  refine allIds_guarded (guardFrame_or guardFrame_calledWithinBeginEnd
    (guardFrame_isInvalidEnumValue mode)) (allIds_modifyContext ?_) s s' h hw
  intro ctx ctx' hf ha
  dsimp only at hf
  split at hf
  · cases hr : recalculateVPMMatrix { ctx with
        currentPrimitiveMode := mode, insideBegin := true, screenVertices := [],
        verticesList := [] } with
    | none => rw [hr] at hf; exact absurd hf (by simp)
    | some c1 =>
      rw [hr] at hf
      simp only [Option.map_some', Option.some.injEq] at hf
      have h1 := recalculateVPMMatrix_scene hr
      refine sceneIds_of_scene ?_ ha
      rw [← hf]
      exact h1
  · simp only [Option.some.injEq] at hf
    rw [← hf]
    exact ha

theorem allIds_vertex3f (x y z : ℚ) (s s' : SGLSceneManager)
    (h : sglVertex3f x y z s = some s') (hw : AllIds s) : AllIds s' := by
  unfold sglVertex3f at h
  cases hc : getCurrentContext s with
  | none => simp [hc] at h
  | some ctx =>
    simp only [hc] at h
    split at h
    · simp only [Option.some.injEq] at h
      rw [← h]
      exact allIds_errOnly (errOnly_setErrCode _ _) hw
    · simp only [Option.some.injEq] at h
      rw [← h]
      exact allIds_setCurrentContext hw (hw ctx (getCurrentContext_mem hc))

theorem allIds_end (env : Env) (s s' : SGLSceneManager) (h : sglEnd env s = some s')
    (hw : AllIds s) : AllIds s' := by
  refine allIds_guarded guardFrame_calledOutsideBeginEnd (allIds_modifyContext ?_) s s' h hw
  intro ctx ctx' hf ha
  dsimp only at hf
  split at hf
  · split at hf
    · simp only [Option.some.injEq] at hf
      rw [← hf]
      exact @sceneIds_append { ctx with insideBegin := false } ha _ rfl
    · simp only [Option.some.injEq] at hf
      rw [← hf]
      exact ha
  · exact sceneIds_of_scene (dispatchPrimitive_scene env hf) ha

theorem allIds_create (width height : ℤ) (s : SGLSceneManager) (r : ℤ × SGLSceneManager)
    (h : sglCreateContext width height s = some r) (hw : AllIds s) : AllIds r.2 := by
  unfold sglCreateContext at h
  cases hn : SGLContext.new width height with
  | none => rw [hn] at h; exact absurd h (by simp)
  | some context =>
    rw [hn] at h
    simp only [Option.map_some', Option.some.injEq] at h
    rw [← h]
    intro ctx hmem
    rcases List.mem_append.mp hmem with h1 | h1
    · exact hw ctx h1
    · rw [List.mem_singleton.mp h1]
      unfold SGLContext.new at hn
      split at hn
      · exact absurd hn (by simp)
      · simp only [Option.some.injEq] at hn
        rw [← hn]
        intro p hp
        exact absurd hp (List.not_mem_nil p)

theorem allIds_setContext (id : ℤ) (s : SGLSceneManager) (hw : AllIds s) :
    AllIds (sglSetContext id s) := by
  unfold sglSetContext
  split
  · exact allIds_errOnly (errOnly_setErrCode _ _) hw
  · exact hw

/-- Every scene command keeps the material ids between `-1` and the number of
materials. -/
theorem allIds_step (env : Env) (c : Command) (hc : c.isSceneCommand = true)
    (s s' : SGLSceneManager) (h : step env c s = some s') (hw : AllIds s) : AllIds s' := by
  cases c <;> first
    | exact absurd hc Bool.false_ne_true
    | skip
  case CreateContext width height =>
    simp only [step, Option.map_eq_some'] at h
    obtain ⟨r, h1, h2⟩ := h
    rw [← h2]
    exact allIds_create width height s r h1 hw
  case SetContext id =>
    simp only [step, Option.some.injEq] at h
    rw [← h]
    exact allIds_setContext id s hw
  case BeginScene => exact allIds_beginScene s s' h hw
  case EndScene => exact allIds_endScene s s' h hw
  case Material r g b kd ks shine T ior => exact allIds_material r g b kd ks shine T ior s s' h hw
  case Sphere x y z radius => exact allIds_sphere x y z radius s s' h hw
  case Begin mode => exact allIds_begin env mode s s' h hw
  case Vertex3f x y z => exact allIds_vertex3f x y z s s' h hw
  case End => exact allIds_end env s s' h hw

theorem allIds_run (env : Env) : ∀ (cs : List Command) (s s' : SGLSceneManager),
    (∀ c ∈ cs, c.isSceneCommand = true) → run env cs s = some s' → AllIds s → AllIds s' := by
  intro cs
  induction cs with
  | nil =>
    intro s s' _ h hw
    rw [show run env [] s = some s from rfl, Option.some.injEq] at h
    rw [← h]
    exact hw
  | cons c cs ih =>
    intro s s' hcs h hw
    rw [show run env (c :: cs) s = (step env c s).bind (run env cs) from rfl] at h
    cases hc : step env c s with
    | none =>
      rw [hc] at h
      exact absurd h (by simp)
    | some s1 =>
      rw [hc, Option.some_bind] at h
      exact ih s1 s' (fun d hd => hcs d (List.mem_cons_of_mem _ hd)) h
        (allIds_step env c (hcs c (List.mem_cons_self _ _)) s s1 hc hw)

/-- C37. A scene built through the API can hold a primitive whose material id
is out of range.  After `BeginScene; Sphere; EndScene` with no material the
sphere has `materialID = -1` and there are 0 materials, and
`FindClosestIntersection` for a ray that hits the sphere has no result: the
lookup `materialsList->at(-1)` throws.  The same holds when the material was
defined before `BeginScene`, which clears the materials.  What does hold for
every sequence of scene commands after `sglInit`: every material id is at
least `-1` and less than the number of materials. -/
theorem sphere_without_material :
    (finalContext demoEnv sphereNoMaterial).map (fun ctx =>
        (ctx.scene.primitivesList.map Primitive3D.materialID, ctx.scene.materialsList.length)) =
      some ([-1], 0) ∧
    (finalContext demoEnv sphereNoMaterial).map (fun ctx =>
        FindClosestIntersection squareEnv.libm ctx.scene ⟨⟨0, 0, 3, 1⟩, ⟨0, 0, -1, 0⟩⟩) =
      some none ∧
    (finalContext demoEnv materialBeforeScene).map (fun ctx =>
        (ctx.scene.primitivesList.map Primitive3D.materialID, ctx.scene.materialsList.length)) =
      some ([-1], 0) ∧
    (∀ (env : Env) (cs : List Command) (s : SGLSceneManager),
      (∀ c ∈ cs, c.isSceneCommand = true) → run env cs sglInit = some s →
      ∀ ctx ∈ s.contexts, ∀ p ∈ ctx.scene.primitivesList,
        -1 ≤ p.materialID ∧ p.materialID < (ctx.scene.materialsList.length : ℤ)) := by
  refine ⟨by decide!, by decide!, by decide!, ?_⟩
  intro env cs s hcs hrun
  exact allIds_run env cs sglInit s hcs hrun (fun ctx h => absurd h (List.not_mem_nil ctx))

/-! ## The filled circle beyond the canvas -/

/-- C35. The circle of centre `(5, 5)` and radius 7 on a 10 by 10 canvas in
area mode `SGL_FILL`: `drawBresenhamCircle` submits the unchecked fragments
`(5, 12)` and `(5, -2)`, whose rows lie outside the canvas and whose indices
125 and -15 lie outside the buffers of 100 entries; only the columns are
clipped (every submission has `0 ≤ x < 10`).  In area mode `SGL_LINE` every
submission of the same circle goes through the bounds check. -/
theorem filled_circle_rows_unchecked :
    (circleDemo SGL_FILL).map (fun plots =>
        (decide (Plot.unchecked ⟨5, 12, 1 / 2⟩ ∈ plots),
          decide (Plot.unchecked ⟨5, -2, 1 / 2⟩ ∈ plots),
          plots.all fun pl => decide (0 ≤ pl.point.x ∧ pl.point.x < 10),
          plots.all fun pl => !pl.isChecked)) = some (true, true, true, true) ∧
    (finalContext demoEnv [.CreateContext 10 10, .SetContext 0, .AreaMode SGL_FILL]).map
        (fun ctx => (ctx.width, ctx.height, ctx.colorBuffer.length, ctx.depthBuffer.length)) =
      some (10, 10, 100, 100) ∧
    coord2DTo1D 5 12 10 = 125 ∧ coord2DTo1D 5 (-2) 10 = -15 ∧
    (circleDemo SGL_FILL).map (fun plots => plots.any fun pl =>
        !pl.indexInside 10 100) = some true ∧
    (circleDemo SGL_LINE).map (fun plots => plots.all Plot.isChecked) = some true := by
  refine ⟨by decide!, by decide!, by decide!, by decide!, by decide!, by decide!⟩

/-! ## The depth at the end of a line -/

/-- The last fragment of the loop of `drawBresenhamLine` carries the inverse
depth accumulated over all steps: one `invZStep` for each step along `x` and
one for each step along `y`. -/
theorem lineLoop_last (dX dY sX sY : ℤ) (invZStep : ℚ) (finish : ScreenVertex)
    (hsX : |sX| = 1) (hsY : |sY| = 1) (fuel : ℕ) :
    ∀ (st : LineState) (plots : List Plot),
      lineLoop dX dY sX sY invZStep finish fuel st = some plots →
      ∃ nx ny : ℕ, plots.getLast? = some (Plot.checked ⟨finish.x, finish.y,
          invZ (st.currentInvZ + invZStep * ((nx : ℚ) + (ny : ℚ)))⟩) ∧
        st.start.x + (nx : ℤ) * sX = finish.x ∧ st.start.y + (ny : ℤ) * sY = finish.y := by
  induction fuel with
  | zero =>
    intro st plots h
    rw [lineLoop_zero] at h
    split at h
    · exact absurd h (by simp)
    · rename_i hc
      rw [not_or, not_not, not_not] at hc
      simp only [Option.some.injEq] at h
      refine ⟨0, 0, ?_, by simpa using hc.1, by simpa using hc.2⟩
      rw [← h, hc.1, hc.2]
      simp
  | succ fuel ih =>
    intro st plots h
    rw [lineLoop_succ] at h
    split at h
    · cases hr : lineLoop dX dY sX sY invZStep finish fuel (lineStep dX dY sX sY invZStep st) with
      | none => rw [hr] at h; exact absurd h (by simp)
      | some rest =>
        rw [hr] at h
        simp only [Option.map_some', Option.some.injEq] at h
        obtain ⟨nx, ny, h1, h2, h3⟩ := ih _ rest hr
        have hlast : plots.getLast? = rest.getLast? := by
          rw [← h]
          cases rest with
          | nil => exact absurd hr (lineLoop_ne_nil _ _ _ _ _ _ _ _)
          | cons r rs => rfl
        rw [hlast, h1]
        unfold lineStep at h1 h2 h3 ⊢
        dsimp only at h1 h2 h3 ⊢
        by_cases hx : st.error > -dX <;> by_cases hy : st.error < dY
        · simp only [if_pos hx, if_pos hy] at h2 h3 ⊢
          refine ⟨nx + 1, ny + 1, ?_, ?_, ?_⟩
          · rw [hsX, hsY]
            push_cast
            refine congrArg (fun z => some (Plot.checked ⟨finish.x, finish.y, invZ z⟩)) ?_
            ring
          · push_cast
            linarith
          · push_cast
            linarith
        · simp only [if_pos hx, if_neg hy] at h2 h3 ⊢
          refine ⟨nx + 1, ny, ?_, ?_, h3⟩
          · rw [hsX]
            push_cast
            refine congrArg (fun z => some (Plot.checked ⟨finish.x, finish.y, invZ z⟩)) ?_
            ring
          · push_cast
            linarith
        · simp only [if_neg hx, if_pos hy] at h2 h3 ⊢
          refine ⟨nx, ny + 1, ?_, h2, ?_⟩
          · rw [hsY]
            push_cast
            refine congrArg (fun z => some (Plot.checked ⟨finish.x, finish.y, invZ z⟩)) ?_
            ring
          · push_cast
            linarith
        · simp only [if_neg hx, if_neg hy] at h2 h3 ⊢
          exact ⟨nx, ny, rfl, h2, h3⟩
    · rename_i hc
      rw [not_or, not_not, not_not] at hc
      simp only [Option.some.injEq] at h
      refine ⟨0, 0, ?_, by simpa using hc.1, by simpa using hc.2⟩
      rw [← h, hc.1, hc.2]
      simp

/-- For two vertices at distinct pixels `drawBresenhamLine` returns what its
loop returns (given a square root that is not below `EPSILON`). -/
theorem drawBresenhamLine_loop (m : Libm) (a b : ScreenVertex) (hne : a.x ≠ b.x ∨ a.y ≠ b.y)
    (hsqrt : ¬ m.sqrt ((wrapInt32 (|b.x - a.x| * |b.x - a.x| + |b.y - a.y| * |b.y - a.y|) : ℤ) : ℚ) <
      EPSILON) :
    ∃ plots : List Plot, drawBresenhamLine m a b = some plots ∧
      lineLoop |b.x - a.x| |b.y - a.y| (if a.x < b.x then 1 else -1)
        (if a.y < b.y then 1 else -1)
        ((invZ b.z - invZ a.z) /
          (if m.sqrt ((wrapInt32 (|b.x - a.x| * |b.x - a.x| + |b.y - a.y| * |b.y - a.y|) : ℤ) : ℚ) > 0
            then m.sqrt ((wrapInt32 (|b.x - a.x| * |b.x - a.x| + |b.y - a.y| * |b.y - a.y|) : ℤ) : ℚ)
            else 1)) b (|b.x - a.x| + |b.y - a.y|).toNat
        ⟨a, Int.tdiv (if |b.x - a.x| > |b.y - a.y| then |b.x - a.x| else -|b.y - a.y|) 2,
          invZ a.z⟩ = some plots := by
  have hX : 0 ≤ |b.x - a.x| := abs_nonneg _
  have hY : 0 ≤ |b.y - a.y| := abs_nonneg _
  have hsX : (if a.x < b.x then (1 : ℤ) else -1) = 1 ∨ (if a.x < b.x then (1 : ℤ) else -1) = -1 := by
    split
    · exact Or.inl rfl
    · exact Or.inr rfl
  have hsY : (if a.y < b.y then (1 : ℤ) else -1) = 1 ∨ (if a.y < b.y then (1 : ℤ) else -1) = -1 := by
    split
    · exact Or.inl rfl
    · exact Or.inr rfl
  have hbx := diagonal_end a.x b.x |b.x - a.x| rfl
  have hby := diagonal_end a.y b.y |b.y - a.y| rfl
  have hfuel : drawBresenhamLine m a b =
      lineLoop |b.x - a.x| |b.y - a.y| (if a.x < b.x then 1 else -1)
        (if a.y < b.y then 1 else -1)
        ((invZ b.z - invZ a.z) /
          (if m.sqrt ((wrapInt32 (|b.x - a.x| * |b.x - a.x| + |b.y - a.y| * |b.y - a.y|) : ℤ) : ℚ) > 0
            then m.sqrt ((wrapInt32 (|b.x - a.x| * |b.x - a.x| + |b.y - a.y| * |b.y - a.y|) : ℤ) : ℚ)
            else 1)) b (|b.x - a.x| + |b.y - a.y|).toNat
        ⟨a, Int.tdiv (if |b.x - a.x| > |b.y - a.y| then |b.x - a.x| else -|b.y - a.y|) 2,
          invZ a.z⟩ := by
    unfold drawBresenhamLine drawBresenhamLineFuel
    simp only [if_neg hsqrt]
  rw [hfuel]
  by_cases hd : |b.x - a.x| > |b.y - a.y|
  · have hk : (((|b.x - a.x|).toNat : ℕ) : ℤ) = |b.x - a.x| := Int.toNat_of_nonneg hX
    have herr : Int.tdiv |b.x - a.x| 2 = |b.x - a.x| / 2 :=
      Int.tdiv_eq_ediv hX (by decide)
    obtain ⟨plots, hp1, -⟩ := lineLoop_xmajor |b.x - a.x| |b.y - a.y| _ _
      ((invZ b.z - invZ a.z) /
        (if m.sqrt ((wrapInt32 (|b.x - a.x| * |b.x - a.x| + |b.y - a.y| * |b.y - a.y|) : ℤ) : ℚ) > 0
          then m.sqrt ((wrapInt32 (|b.x - a.x| * |b.x - a.x| + |b.y - a.y| * |b.y - a.y|) : ℤ) : ℚ)
          else 1)) b hsX hsY hY hd (|b.x - a.x| / 2) (by omega) (by omega) (|b.x - a.x|).toNat
      ⟨a, |b.x - a.x| / 2, invZ a.z⟩ |b.y - a.y| (by rw [hk]; exact hbx) hby
      (by rw [hk]; dsimp only; ring) (by dsimp only; omega) (by dsimp only; omega)
    refine ⟨plots, ?_, ?_⟩ <;>
    · rw [if_pos hd, herr, hp1, if_pos (by omega)]
  · have hd' : |b.x - a.x| ≤ |b.y - a.y| := not_lt.mp hd
    have hYpos : 0 < |b.y - a.y| := by
      rcases hne with h | h
      · have : 0 < |b.x - a.x| := abs_pos.mpr (by omega)
        omega
      · exact abs_pos.mpr (by omega)
    have hk : (((|b.y - a.y|).toNat : ℕ) : ℤ) = |b.y - a.y| := Int.toNat_of_nonneg hY
    have herr : Int.tdiv (-|b.y - a.y|) 2 = -(|b.y - a.y| / 2) := by
      rw [Int.neg_tdiv, Int.tdiv_eq_ediv hY (by decide)]
    obtain ⟨plots, hp1, -⟩ := lineLoop_ymajor |b.x - a.x| |b.y - a.y| _ _
      ((invZ b.z - invZ a.z) /
        (if m.sqrt ((wrapInt32 (|b.x - a.x| * |b.x - a.x| + |b.y - a.y| * |b.y - a.y|) : ℤ) : ℚ) > 0
          then m.sqrt ((wrapInt32 (|b.x - a.x| * |b.x - a.x| + |b.y - a.y| * |b.y - a.y|) : ℤ) : ℚ)
          else 1)) b hsX hsY hX hd' hYpos (-(|b.y - a.y| / 2)) (by omega) (by omega)
      (|b.y - a.y|).toNat ⟨a, -(|b.y - a.y| / 2), invZ a.z⟩ |b.x - a.x|
      (by rw [hk]; exact hby) hbx (by rw [hk]; dsimp only; ring) (by dsimp only; omega)
      (by dsimp only; omega)
    refine ⟨plots, ?_, ?_⟩ <;>
    · rw [if_neg hd, herr, hp1, if_pos (by omega)]

/-- The depth of the last fragment of a line: the inverse of
`1 / a.z + (dX + dY) * invZStep`, where `invZStep` divides the difference of
the inverse depths by the Euclidean length. -/
theorem line_end_depth (m : Libm) (a b : ScreenVertex) (hne : a.x ≠ b.x ∨ a.y ≠ b.y)
    (hsqrt : ¬ m.sqrt ((wrapInt32 (|b.x - a.x| * |b.x - a.x| + |b.y - a.y| * |b.y - a.y|) : ℤ) : ℚ) <
      EPSILON) :
    ∃ plots : List Plot, drawBresenhamLine m a b = some plots ∧
      plots.getLast? = some (Plot.checked ⟨b.x, b.y,
        invZ (invZ a.z + (invZ b.z - invZ a.z) /
          (if m.sqrt ((wrapInt32 (|b.x - a.x| * |b.x - a.x| + |b.y - a.y| * |b.y - a.y|) : ℤ) : ℚ) > 0
            then m.sqrt ((wrapInt32 (|b.x - a.x| * |b.x - a.x| + |b.y - a.y| * |b.y - a.y|) : ℤ) : ℚ)
            else 1) * (((|b.x - a.x| + |b.y - a.y| : ℤ) : ℚ)))⟩) := by
  obtain ⟨plots, h1, h2⟩ := drawBresenhamLine_loop m a b hne hsqrt
  refine ⟨plots, h1, ?_⟩
  have hsX : |(if a.x < b.x then (1 : ℤ) else -1)| = 1 := by
    split <;> simp
  have hsY : |(if a.y < b.y then (1 : ℤ) else -1)| = 1 := by
    split <;> simp
  obtain ⟨nx, ny, e1, e2, e3⟩ := lineLoop_last _ _ _ _ _ b hsX hsY _ _ plots h2
  dsimp only at e1 e2 e3
  have hnx : (nx : ℤ) = |b.x - a.x| := by
    split at e2
    · rw [abs_of_pos (by omega)]
      omega
    · rw [abs_of_nonpos (by omega)]
      omega
  have hny : (ny : ℤ) = |b.y - a.y| := by
    split at e3
    · rw [abs_of_pos (by omega)]
      omega
    · rw [abs_of_nonpos (by omega)]
      omega
  rw [e1]
  have hsum : ((nx : ℚ) + (ny : ℚ)) = ((|b.x - a.x| + |b.y - a.y| : ℤ) : ℚ) := by
    rw [← hnx, ← hny]
    push_cast
    rfl
  rw [hsum]

/-- C39. The fragment `drawBresenhamLine` submits at the end pixel does not
carry the depth of the end vertex on an oblique line.  From `(0, 0)` with depth
1 to `(3, 4)` with depth 1/2 the last fragment has depth 5/12: the loop adds
`invZStep = (1/end.z - 1/start.z) / sqrt(dX² + dY²)` once per step along `x` and
once per step along `y`, `dX + dY = 7` times in all, while the length is 5.  On
the axis-aligned line from `(0, 0)` to `(4, 0)` the last fragment has the depth
1/2 of the end vertex.  In general the last fragment has the inverse depth
`1/start.z + (dX + dY) * invZStep`. -/
theorem line_end_depth_oblique :
    (drawBresenhamLine squareEnv.libm ⟨0, 0, 1⟩ ⟨3, 4, 1 / 2⟩).bind List.getLast? =
      some (Plot.checked ⟨3, 4, 5 / 12⟩) ∧
    (drawBresenhamLine squareEnv.libm ⟨0, 0, 1⟩ ⟨4, 0, 1 / 2⟩).bind List.getLast? =
      some (Plot.checked ⟨4, 0, 1 / 2⟩) ∧
    (∀ (m : Libm) (a b : ScreenVertex), (a.x ≠ b.x ∨ a.y ≠ b.y) →
      ¬ m.sqrt ((wrapInt32 (|b.x - a.x| * |b.x - a.x| + |b.y - a.y| * |b.y - a.y|) : ℤ) : ℚ) < EPSILON →
      ∃ plots : List Plot, drawBresenhamLine m a b = some plots ∧
        plots.getLast? = some (Plot.checked ⟨b.x, b.y,
          invZ (invZ a.z + (invZ b.z - invZ a.z) /
            (if m.sqrt ((wrapInt32 (|b.x - a.x| * |b.x - a.x| + |b.y - a.y| * |b.y - a.y|) : ℤ) : ℚ) > 0
              then m.sqrt ((wrapInt32 (|b.x - a.x| * |b.x - a.x| + |b.y - a.y| * |b.y - a.y|) : ℤ) : ℚ)
              else 1) * (((|b.x - a.x| + |b.y - a.y| : ℤ) : ℚ)))⟩)) :=
  ⟨by decide!, by decide!, line_end_depth⟩

/-! ## The clipped scanline span -/

theorem intRange_append (a c b : ℤ) (h1 : a ≤ c) (h2 : c ≤ b) :
    intRange a c ++ intRange c b = intRange a b := by
  obtain ⟨n, hn⟩ : ∃ n : ℕ, (c - a).toNat = n := ⟨_, rfl⟩
  induction n generalizing a with
  | zero =>
    have : a = c := by omega
    rw [this, intRange_nil c c (le_refl _)]
    rfl
  | succ n ih =>
    rw [intRange_cons a c (by omega), intRange_cons a b (by omega), List.cons_append,
      ih (a + 1) (by omega) (by omega)]

/-- The loop of `plotLine` in closed form: column `x` is tested with the
inverse of `currentInvZ + (x - a) * invZStep`. -/
theorem plotLineLoop_eq (y : ℤ) (invZStep : ℚ) (b : ℤ) : ∀ (n : ℕ) (a : ℤ) (c : ℚ),
    (b - a).toNat = n →
    plotLineLoop y invZStep (intRange a b) c =
      (intRange a b).map fun x => Plot.unchecked ⟨x, y, invZ (c + ((x - a : ℤ) : ℚ) * invZStep)⟩ := by
  intro n
  induction n with
  | zero =>
    intro a c h
    rw [intRange_nil a b (by omega)]
    rfl
  | succ n ih =>
    intro a c h
    rw [intRange_cons a b (by omega)]
    unfold plotLineLoop
    rw [ih (a + 1) (c + invZStep) (by omega), List.map_cons]
    refine congrArg₂ _ ?_ (List.map_congr_left ?_)
    · simp
    · intro x _
      refine congrArg (fun z => Plot.unchecked ⟨x, y, invZ z⟩) ?_
      push_cast
      ring

theorem filter_intRange (a b lo hi w : ℤ) (f : ℤ → Plot) (hf : ∀ x, (f x).point.x = x)
    (h1 : a ≤ lo) (h2 : lo ≤ hi) (h3 : hi ≤ b) (h4 : a < lo → lo ≤ 0) (h5 : 0 ≤ lo)
    (h6 : hi ≤ w) (h7 : hi < b → w ≤ hi) :
    ((intRange a b).map f).filter (fun pl => decide (0 ≤ pl.point.x ∧ pl.point.x ≤ w - 1)) =
      (intRange lo hi).map f := by
  rw [← intRange_append a lo b h1 (by omega), ← intRange_append lo hi b h2 h3, List.map_append,
    List.map_append, List.filter_append, List.filter_append]
  have e1 : ((intRange a lo).map f).filter
      (fun pl => decide (0 ≤ pl.point.x ∧ pl.point.x ≤ w - 1)) = [] := by
    rw [List.filter_eq_nil_iff]
    intro pl hpl
    obtain ⟨x, hx, rfl⟩ := List.mem_map.mp hpl
    rw [mem_intRange] at hx
    rw [hf x]
    simp only [decide_eq_true_eq, not_and]
    omega
  have e2 : ((intRange lo hi).map f).filter
      (fun pl => decide (0 ≤ pl.point.x ∧ pl.point.x ≤ w - 1)) = (intRange lo hi).map f := by
    rw [List.filter_eq_self]
    intro pl hpl
    obtain ⟨x, hx, rfl⟩ := List.mem_map.mp hpl
    rw [mem_intRange] at hx
    rw [hf x]
    simp only [decide_eq_true_eq]
    omega
  have e3 : ((intRange hi b).map f).filter
      (fun pl => decide (0 ≤ pl.point.x ∧ pl.point.x ≤ w - 1)) = [] := by
    rw [List.filter_eq_nil_iff]
    intro pl hpl
    obtain ⟨x, hx, rfl⟩ := List.mem_map.mp hpl
    rw [mem_intRange] at hx
    rw [hf x]
    simp only [decide_eq_true_eq, not_and]
    omega
  rw [e1, e2, e3, List.nil_append, List.append_nil]

theorem plotLine_ne (y x1 x2 : ℤ) (z1 z2 : ℚ) (h : x1 ≠ x2) :
    plotLine y x1 x2 z1 z2 = (intRange x1 (x2 + 1)).map fun x =>
      Plot.unchecked ⟨x, y, invZ (invZ z1 + ((x - x1 : ℤ) : ℚ) * calculateZStep z1 z2 x1 x2)⟩ := by
  unfold plotLine
  rw [if_neg h]
  exact plotLineLoop_eq y _ _ _ _ _ rfl

theorem invZ_invZ (z : ℚ) : invZ (invZ z) = z := by
  unfold invZ
  exact one_div_one_div z

/-- Where the span is not clipped on the right, or its two depths are equal,
`plotLineBoundsChecking` submits the columns `0 .. width - 1` of the span with
the depths of `plotLine` on the unclamped span. -/
theorem plotLineBoundsChecking_left (width y x1 x2 : ℤ) (z1 z2 : ℚ) (h : x1 ≤ x2)
    (hz : x2 < width ∨ z1 = z2) :
    plotLineBoundsChecking width y x1 x2 z1 z2 = clippedSpan width y x1 x2 z1 z2 := by
  obtain ⟨lo, hlo⟩ : ∃ lo, lo = if x1 < 0 then 0 else x1 := ⟨_, rfl⟩
  obtain ⟨hi, hhi⟩ : ∃ hi, hi = if x2 ≥ width then width - 1 else x2 := ⟨_, rfl⟩
  obtain ⟨z1', hz1'⟩ : ∃ z, z = if x1 < 0 then
      1 / (invZ z1 + calculateZStep z1 z2 x1 x2 * ((-x1 : ℤ) : ℚ)) else z1 := ⟨_, rfl⟩
  have hBC : plotLineBoundsChecking width y x1 x2 z1 z2 =
      if lo > hi then [] else plotLine y lo hi z1' z2 := by
    rw [hlo, hhi, hz1']
    rfl
  have hlo0 : 0 ≤ lo ∧ x1 ≤ lo ∧ (x1 < lo → lo = 0) ∧ (0 ≤ x1 → lo = x1) := by
    rw [hlo]
    split <;> omega
  have hhi0 : hi ≤ width - 1 ∧ hi ≤ x2 ∧ (hi < x2 → hi = width - 1) ∧ (x2 < width → hi = x2) := by
    rw [hhi]
    split <;> omega
  have hc0 : invZ z1' = invZ z1 + ((lo - x1 : ℤ) : ℚ) * calculateZStep z1 z2 x1 x2 := by
    rw [hz1', hlo]
    by_cases hx : x1 < 0
    · rw [if_pos hx, if_pos hx]
      show invZ (invZ _) = _
      rw [invZ_invZ]
      push_cast
      ring
    · rw [if_neg hx, if_neg hx]
      simp
  rw [hBC]
  unfold clippedSpan
  by_cases hgt : lo > hi
  · rw [if_pos hgt]
    symm
    rw [List.filter_eq_nil_iff]
    intro pl hpl
    obtain ⟨p, rfl, _, hp1, hp2⟩ := plotLine_points y x1 x2 z1 z2 pl hpl
    simp only [Plot.point, decide_eq_true_eq, not_and]
    omega
  · rw [if_neg hgt]
    by_cases hx12 : x1 = x2
    · have e1 : lo = x1 := by omega
      have e2 : hi = x1 := by omega
      have e3 : z1' = z1 := by
        rw [hz1', if_neg (by omega)]
      rw [e1, e2, e3, ← hx12]
      unfold plotLine
      rw [if_pos rfl]
      symm
      rw [List.filter_eq_self]
      intro pl hpl
      rw [List.mem_singleton] at hpl
      rw [hpl]
      simp only [Plot.point, decide_eq_true_eq]
      omega
    · have hfil := filter_intRange x1 (x2 + 1) lo (hi + 1) width
        (fun x => Plot.unchecked
          ⟨x, y, invZ (invZ z1 + ((x - x1 : ℤ) : ℚ) * calculateZStep z1 z2 x1 x2)⟩)
        (fun _ => rfl) (by omega) (by omega) (by omega) (by omega) (by omega) (by omega)
        (by omega)
      rw [plotLine_ne y x1 x2 z1 z2 hx12, hfil]
      by_cases hlh : lo = hi
      · rw [← hlh]
        unfold plotLine
        rw [if_pos rfl, intRange_cons lo (lo + 1) (by omega), intRange_nil _ _ (le_refl _)]
        simp only [List.map_cons, List.map_nil]
        rw [← hc0, invZ_invZ]
      · rw [plotLine_ne y lo hi z1' z2 hlh]
        have hs : calculateZStep z1' z2 lo hi = calculateZStep z1 z2 x1 x2 := by
          rcases hz with hw | hzz
          · have e2 : hi = x2 := hhi0.2.2.2 hw
            have hd : ((x2 - x1 : ℤ) : ℚ) ≠ 0 := by
              have : x2 - x1 ≠ 0 := by omega
              exact_mod_cast this
            have hd2 : ((x2 - lo : ℤ) : ℚ) ≠ 0 := by
              have : x2 - lo ≠ 0 := by omega
              exact_mod_cast this
            rw [e2]
            unfold calculateZStep
            rw [if_neg (by omega), if_neg (by omega), hc0]
            unfold calculateZStep
            rw [if_neg (by omega)]
            push_cast at hd hd2 ⊢
            field_simp
            ring
          · have e0 : calculateZStep z1 z2 x1 x2 = 0 := by
              unfold calculateZStep
              rw [hzz]
              simp
            unfold calculateZStep
            rw [if_neg (by omega), hc0, e0, hzz]
            simp
        refine List.map_congr_left ?_
        intro x _
        refine congrArg (fun z => Plot.unchecked ⟨x, y, invZ z⟩) ?_
        rw [hs, hc0]
        push_cast
        ring

/-- C38. `plotLineBoundsChecking` does not refine `plotLine` on a span clipped
on the right: on a canvas two columns wide the span from `(0, 1)` to `(3, 1/4)`
has the depths `1, 1/2, 1/3, 1/4` in `plotLine`, and the clipped span submits
column `1` with the depth `1/4` of the clamped end, not with `1/2`; the span
clipped on the left, from `(-1, 1)` to `(1, 1/3)`, submits columns `0` and `1`
with the depths `1/2` and `1/3` of the unclamped span, and so does every span
that is not clipped on the right or has equal depths at its two ends. -/
theorem right_clip_keeps_end_depth :
    plotLine 0 0 3 1 (1 / 4) =
      [.unchecked ⟨0, 0, 1⟩, .unchecked ⟨1, 0, 1 / 2⟩, .unchecked ⟨2, 0, 1 / 3⟩,
        .unchecked ⟨3, 0, 1 / 4⟩] ∧
    clippedSpan 2 0 0 3 1 (1 / 4) = [.unchecked ⟨0, 0, 1⟩, .unchecked ⟨1, 0, 1 / 2⟩] ∧
    plotLineBoundsChecking 2 0 0 3 1 (1 / 4) =
      [.unchecked ⟨0, 0, 1⟩, .unchecked ⟨1, 0, 1 / 4⟩] ∧
    plotLineBoundsChecking 2 0 (-1) 1 1 (1 / 3) = clippedSpan 2 0 (-1) 1 1 (1 / 3) ∧
    plotLineBoundsChecking 2 0 (-1) 1 1 (1 / 3) =
      [.unchecked ⟨0, 0, 1 / 2⟩, .unchecked ⟨1, 0, 1 / 3⟩] ∧
    (∀ (width y x1 x2 : ℤ) (z1 z2 : ℚ), x1 ≤ x2 → (x2 < width ∨ z1 = z2) →
      plotLineBoundsChecking width y x1 x2 z1 z2 = clippedSpan width y x1 x2 z1 z2) :=
  ⟨by decide!, by decide!, by decide!, by decide!, by decide!, plotLineBoundsChecking_left⟩

/-! ## Circle, ellipse and arc inside an open block -/

/-- Inside an open block `sglEllipse` touches the error register only. -/
theorem ellipse_inside_begin (env : Env) (cx cy cz a b : ℚ) (s : SGLSceneManager)
    (ctx : SGLContext) (h : getCurrentContext s = some ctx) (hb : ctx.insideBegin = true) :
    ∃ s', sglEllipse env cx cy cz a b s = some s' ∧ ErrOnly s s' := by
  unfold sglEllipse
  split
  · exact ⟨_, rfl, errOnly_setErrCode _ s⟩
  · refine ⟨setErrCode SGL_INVALID_OPERATION s, guarded_fired _ ?_, errOnly_setErrCode _ s⟩
    simp [Guard.or, contextNotInitialized, calledWithinBeginEnd, h, hb]

/-- C34. Inside an open block only `sglEllipse` is refused.  On a 10 by 10
canvas with the block `Begin(SGL_LINES); Vertex3f(-3/5, -3/5, 0)` open and white
as the current colour: the circle of radius `2/5` about the origin in area mode
`SGL_FILL` sets no error, leaves the begin flag, the vertices, the VPM matrix
and the scale factor, and writes the pixel `(5, 5)` of the colour buffer and its
depth; in area mode `SGL_POINT` the circle, and in area mode `SGL_LINE` the
arc, set `SGL_INVALID_OPERATION`, append to the block's vertices and close the
block, which draws (the circle's point ends a line from `(2, 2)` that writes
`(3, 3)`); `Ellipse` leaves everything but the error register as it was, in
every state with an open block. -/
theorem circle_arc_inside_block :
    (finalContext squareEnv (openBlock SGL_FILL)).map
        (fun ctx => (ctx.insideBegin, ctx.verticesList.length, depthAt ctx ⟨5, 5, 0⟩,
          (pixelsOf ctx ⟨1, 1, 1⟩).length)) =
      some (true, 1, some ((1 : ℚ) : WithTop ℚ), 0) ∧
    (finalContext squareEnv (openBlock SGL_FILL ++ [.Circle 0 0 0 (2 / 5)])).map
        (fun ctx => (ctx.insideBegin, pixelAt ctx ⟨5, 5, 0⟩, depthAt ctx ⟨5, 5, 0⟩,
          (pixelsOf ctx ⟨1, 1, 1⟩).length)) =
      some (true, some ⟨1, 1, 1⟩, some ((1 / 2 : ℚ) : WithTop ℚ), 21) ∧
    (run squareEnv (openBlock SGL_FILL ++ [.Circle 0 0 0 (2 / 5)]) sglInit).map
        (fun s => s.errorCode) = some SGL_NO_ERROR ∧
    (finalContext squareEnv (openBlock SGL_FILL ++ [.Circle 0 0 0 (2 / 5)])).map
        (fun ctx => (ctx.verticesList, ctx.VPMmatrix, ctx.scaleFactor)) =
      (finalContext squareEnv (openBlock SGL_FILL)).map
        (fun ctx => (ctx.verticesList, ctx.VPMmatrix, ctx.scaleFactor)) ∧
    (finalContext squareEnv (openBlock SGL_POINT ++ [.Circle 0 0 0 (2 / 5)])).map
        (fun ctx => (ctx.insideBegin, ctx.verticesList.length, pixelsOf ctx ⟨1, 1, 1⟩)) =
      some (false, 2, [(2, 2), (3, 3), (4, 4), (5, 5)]) ∧
    (run squareEnv (openBlock SGL_POINT ++ [.Circle 0 0 0 (2 / 5)]) sglInit).map
        (fun s => s.errorCode) = some SGL_INVALID_OPERATION ∧
    (finalContext squareEnv (openBlock SGL_LINE ++ [.Arc 0 0 0 (2 / 5) 0 1])).map
        (fun ctx => (ctx.insideBegin, ctx.verticesList.length, (pixelsOf ctx ⟨1, 1, 1⟩).length)) =
      some (false, 8, 6) ∧
    (∀ area ∈ [SGL_POINT, SGL_LINE, SGL_FILL],
      (finalContext squareEnv (openBlock area ++ [.Ellipse 0 0 0 (2 / 5) (1 / 5)])).map blockView =
        (finalContext squareEnv (openBlock area)).map blockView) ∧
    (∀ (env : Env) (cx cy cz a b : ℚ) (s : SGLSceneManager) (ctx : SGLContext),
      getCurrentContext s = some ctx → ctx.insideBegin = true →
      ∃ s', step env (.Ellipse cx cy cz a b) s = some s' ∧ s'.contexts = s.contexts ∧
        s'.currentContextId = s.currentContextId) := by
  refine ⟨by decide!, by decide!, by decide!, by decide!, by decide!, by decide!, by decide!,
    by decide!, ?_⟩
  intro env cx cy cz a b s ctx h hb
  exact ellipse_inside_begin env cx cy cz a b s ctx h hb

/-! ## The circle loop -/

theorem circleLoop_exit (plotFunction : ℤ → ℤ → List Plot) (fuel : ℕ) (x y d : ℤ)
    (h : ¬ y ≥ x) : circleLoop plotFunction fuel x y d = some [] := by
  unfold circleLoop
  rw [if_neg h]

theorem circleLoop_succ (plotFunction : ℤ → ℤ → List Plot) (fuel : ℕ) (x y d : ℤ)
    (h : y ≥ x) : circleLoop plotFunction (fuel + 1) x y d =
      (if d < 0 then circleLoop plotFunction fuel (x + 1) y (wrapInt32 (d + (4 * x + 6)))
        else circleLoop plotFunction fuel (x + 1) (y - 1)
          (wrapInt32 (d + (4 * (x - (y - 1)) + 10)))).map
        fun r => plotFunction x y ++ r := by
  rw [circleLoop]
  rw [if_pos h]

theorem circleInv_init (R : ℤ) (hR : 1 ≤ R) : CircleInv R 0 R (3 - 2 * R) := by
  refine ⟨le_refl _, le_refl _, fun _ => hR, by ring, fun _ => ⟨by omega, ?_⟩⟩
  split <;> omega

theorem circleInv_near (R x y d : ℤ) (h : CircleInv R x y d) (hxy : x ≤ y) :
    NearCircle R (x, y) := by
  obtain ⟨h0, hyR, hy1, hd, hb⟩ := h
  obtain ⟨hL, hU⟩ := hb hxy
  have hy : 1 ≤ y := by
    by_cases hx : x = 0
    · exact hy1 hx
    · omega
  have hU1 : d ≤ 4 * x + 3 := by
    split at hU <;> omega
  refine ⟨h0, hxy, hyR, ?_, ?_⟩
  · show (R - 1) ^ 2 < x ^ 2 + y ^ 2
    nlinarith
  · show x ^ 2 + y ^ 2 < (R + 1) ^ 2
    nlinarith

theorem circleInv_neg (R x y d : ℤ) (h : CircleInv R x y d) (hxy : x ≤ y) (hd : d < 0) :
    CircleInv R (x + 1) y (d + (4 * x + 6)) := by
  obtain ⟨h0, hyR, hy1, hdf, hb⟩ := h
  obtain ⟨hL, hU⟩ := hb hxy
  refine ⟨by omega, hyR, fun h => by omega, ?_, fun _ => ⟨by omega, ?_⟩⟩
  · rw [hdf]
    ring
  · split <;> omega

theorem circleInv_nonneg (R x y d : ℤ) (h : CircleInv R x y d) (hxy : x ≤ y) (hd : ¬ d < 0) :
    CircleInv R (x + 1) (y - 1) (d + (4 * (x - (y - 1)) + 10)) := by
  obtain ⟨h0, hyR, hy1, hdf, hb⟩ := h
  obtain ⟨hL, hU⟩ := hb hxy
  refine ⟨by omega, by omega, fun h => by omega, ?_, fun h2 => ⟨by omega, ?_⟩⟩
  · rw [hdf]
    ring
  · split at hU
    · omega
    · split <;> omega

/-- Under the invariant, with `4 R + 17` an `int`, the two updates of the
decision variable stay inside the range of `int`. -/
theorem circleInv_range (R x y d : ℤ) (hb : 4 * R + 17 < 2 ^ 31) (h : CircleInv R x y d)
    (hxy : x ≤ y) :
    (d < 0 → wrapInt32 (d + (4 * x + 6)) = d + (4 * x + 6)) ∧
      (¬ d < 0 →
        wrapInt32 (d + (4 * (x - (y - 1)) + 10)) = d + (4 * (x - (y - 1)) + 10)) := by
  obtain ⟨h0, hyR, hy1, -, hbd⟩ := h
  obtain ⟨hL, hU⟩ := hbd hxy
  have hU1 : d ≤ 4 * x + 3 := by
    split at hU <;> omega
  exact ⟨fun hd => wrapInt32_of_range _ (by omega) (by omega),
    fun hd => wrapInt32_of_range _ (by omega) (by omega)⟩

/-- The loop ends within `y + 1 - x` iterations whatever the decision variable
holds: `x` grows by one in every iteration and `y` never grows. -/
theorem circleLoop_ends : ∀ (n : ℕ) (x y d : ℤ), y + 1 - x ≤ n →
    ∃ offsets : List (ℤ × ℤ),
      ∀ (plotFunction : ℤ → ℤ → List Plot) (fuel : ℕ), n ≤ fuel →
        circleLoop plotFunction fuel x y d =
          some (offsets.flatMap fun o => plotFunction o.1 o.2) := by
  intro n
  induction n with
  | zero =>
    intro x y d hn
    exact ⟨[], fun pf fuel _ => circleLoop_exit pf fuel x y d (by omega)⟩
  | succ n ih =>
    intro x y d hn
    by_cases hxy : y ≥ x
    · by_cases hd : d < 0
      · obtain ⟨offsets, h1⟩ := ih (x + 1) y (wrapInt32 (d + (4 * x + 6))) (by omega)
        refine ⟨(x, y) :: offsets, ?_⟩
        intro pf fuel hf
        obtain ⟨k, rfl⟩ : ∃ k, fuel = k + 1 := ⟨fuel - 1, by omega⟩
        rw [circleLoop_succ pf k x y d hxy, if_pos hd, h1 pf k (by omega)]
        rfl
      · obtain ⟨offsets, h1⟩ := ih (x + 1) (y - 1)
          (wrapInt32 (d + (4 * (x - (y - 1)) + 10))) (by omega)
        refine ⟨(x, y) :: offsets, ?_⟩
        intro pf fuel hf
        obtain ⟨k, rfl⟩ : ∃ k, fuel = k + 1 := ⟨fuel - 1, by omega⟩
        rw [circleLoop_succ pf k x y d hxy, if_neg hd, h1 pf k (by omega)]
        rfl
    · exact ⟨[], fun pf fuel _ => circleLoop_exit pf fuel x y d hxy⟩

/-- The loop from an offset that satisfies the invariant: it ends within
`R + 1 - x` iterations, and every offset it plots is near the circle. -/
theorem circleLoop_spec (R : ℤ) (hb : 4 * R + 17 < 2 ^ 31) :
    ∀ (n : ℕ) (x y d : ℤ), CircleInv R x y d → R + 1 - x ≤ n →
    ∃ offsets : List (ℤ × ℤ),
      (∀ (plotFunction : ℤ → ℤ → List Plot) (fuel : ℕ), n ≤ fuel →
        circleLoop plotFunction fuel x y d =
          some (offsets.flatMap fun o => plotFunction o.1 o.2)) ∧
      (x ≤ y → offsets.head? = some (x, y)) ∧ ∀ o ∈ offsets, NearCircle R o := by
  intro n
  induction n with
  | zero =>
    intro x y d h hn
    have hlt : ¬ y ≥ x := by
      have := h.2.1
      omega
    exact ⟨[], fun pf fuel _ => circleLoop_exit pf fuel x y d hlt, fun hxy => absurd hxy (by omega),
      fun o ho => absurd ho (List.not_mem_nil o)⟩
  | succ n ih =>
    intro x y d h hn
    by_cases hxy : y ≥ x
    · obtain ⟨w1, w2⟩ := circleInv_range R x y d hb h hxy
      by_cases hd : d < 0
      · obtain ⟨offsets, h1, _, h3⟩ := ih (x + 1) y (d + (4 * x + 6))
          (circleInv_neg R x y d h hxy hd) (by omega)
        refine ⟨(x, y) :: offsets, ?_, fun _ => rfl, ?_⟩
        · intro pf fuel hf
          obtain ⟨k, rfl⟩ : ∃ k, fuel = k + 1 := ⟨fuel - 1, by omega⟩
          rw [circleLoop_succ pf k x y d hxy, if_pos hd, w1 hd, h1 pf k (by omega)]
          rfl
        · intro o ho
          rcases List.mem_cons.mp ho with rfl | ho
          · exact circleInv_near R x y d h hxy
          · exact h3 o ho
      · obtain ⟨offsets, h1, _, h3⟩ := ih (x + 1) (y - 1) (d + (4 * (x - (y - 1)) + 10))
          (circleInv_nonneg R x y d h hxy hd) (by omega)
        refine ⟨(x, y) :: offsets, ?_, fun _ => rfl, ?_⟩
        · intro pf fuel hf
          obtain ⟨k, rfl⟩ : ∃ k, fuel = k + 1 := ⟨fuel - 1, by omega⟩
          rw [circleLoop_succ pf k x y d hxy, if_neg hd, w2 hd, h1 pf k (by omega)]
          rfl
        · intro o ho
          rcases List.mem_cons.mp ho with rfl | ho
          · exact circleInv_near R x y d h hxy
          · exact h3 o ho
    · exact ⟨[], fun pf fuel _ => circleLoop_exit pf fuel x y d hxy,
        fun h2 => absurd h2 (by omega), fun o ho => absurd ho (List.not_mem_nil o)⟩

theorem drawBresenhamCircle_loop (ctx : SGLContext) (cx cy cz radius : ℚ)
    (h : roundToInt (F32.mul radius ctx.scaleFactor) ≠ 0) :
    drawBresenhamCircle ctx cx cy cz radius =
      circleLoop (circlePlotFunction ctx cx cy cz)
        (roundToInt (F32.mul radius ctx.scaleFactor) + 1).toNat 0
        (roundToInt (F32.mul radius ctx.scaleFactor))
        (wrapInt32 (3 - 2 * roundToInt (F32.mul radius ctx.scaleFactor))) := by
  unfold drawBresenhamCircle drawBresenhamCircleFuel
  simp only [if_neg h]
  rfl

/-- The first three offsets of the loop for the pixel radius `2 ^ 31 - 128`,
where `3 - 2 r` wraps to 259. -/
theorem circleLoop_wrapped (plotFunction : ℤ → ℤ → List Plot) (fuel : ℕ) :
    circleLoop plotFunction (fuel + 3) 0 2147483520 (wrapInt32 (3 - 2 * 2147483520)) =
      (circleLoop plotFunction fuel 3 2147483517 1861).map fun r =>
        plotFunction 0 2147483520 ++ (plotFunction 1 2147483519 ++
          (plotFunction 2 2147483518 ++ r)) := by
  have e0 : wrapInt32 (3 - 2 * 2147483520) = 259 := by decide
  have e1 : wrapInt32 (259 + (4 * (0 - (2147483520 - 1)) + 10)) = 785 := by decide
  have e2 : wrapInt32 (785 + (4 * (0 + 1 - (2147483520 - 1 - 1)) + 10)) = 1319 := by decide
  have e3 : wrapInt32 (1319 + (4 * (0 + 1 + 1 - (2147483520 - 1 - 1 - 1)) + 10)) = 1861 := by
    decide
  rw [e0, circleLoop_succ _ _ _ _ _ (by decide), if_neg (by decide), e1,
    circleLoop_succ _ _ _ _ _ (by decide), if_neg (by decide), e2,
    circleLoop_succ _ _ _ _ _ (by decide), if_neg (by decide), e3]
  simp only [Option.map_map]
  rfl

/-- C40. For every pixel radius `R ≥ 1` the loop of `drawBresenhamCircle` ends
within `R + 1` iterations: there is one list of offsets, the same for every
plot function and every larger bound on the iterations, which the loop hands
to the plot function in order. While the decision variable stays inside the
range of `int` (`4 R + 17 < 2 ^ 31`) the first offset is `(0, R)` and every
offset `(x, y)` has `0 ≤ x ≤ y ≤ R` and `(R - 1)² < x² + y² < (R + 1)²`, and
`drawBresenhamCircle` itself returns the submissions of its plot function at
these offsets whenever its rounded radius is `R`. For larger radii the claim
fails: with `R = 2 ^ 31 - 128` the `int` `3 - 2 R` wraps to 259, `y` drops in
each of the first iterations, and the third offset `(2, R - 2)` lies inside
the circle of radius `R - 1`. -/
theorem circle_offsets_near_circle (R : ℤ) (hR : 1 ≤ R) :
    (∃ offsets : List (ℤ × ℤ),
      ∀ (plotFunction : ℤ → ℤ → List Plot) (fuel : ℕ), (R + 1).toNat ≤ fuel →
        circleLoop plotFunction fuel 0 R (wrapInt32 (3 - 2 * R)) =
          some (offsets.flatMap fun o => plotFunction o.1 o.2)) ∧
    (4 * R + 17 < 2 ^ 31 → ∃ offsets : List (ℤ × ℤ),
      (∀ (plotFunction : ℤ → ℤ → List Plot) (fuel : ℕ), (R + 1).toNat ≤ fuel →
        circleLoop plotFunction fuel 0 R (wrapInt32 (3 - 2 * R)) =
          some (offsets.flatMap fun o => plotFunction o.1 o.2)) ∧
      (∀ (ctx : SGLContext) (cx cy cz radius : ℚ),
        roundToInt (F32.mul radius ctx.scaleFactor) = R →
        drawBresenhamCircle ctx cx cy cz radius =
          some (offsets.flatMap fun o => circlePlotFunction ctx cx cy cz o.1 o.2)) ∧
      offsets.head? = some (0, R) ∧
      ∀ o ∈ offsets, 0 ≤ o.1 ∧ o.1 ≤ o.2 ∧ o.2 ≤ R ∧ (R - 1) ^ 2 < o.1 ^ 2 + o.2 ^ 2 ∧
        o.1 ^ 2 + o.2 ^ 2 < (R + 1) ^ 2) ∧
    (∀ (plotFunction : ℤ → ℤ → List Plot) (fuel : ℕ), ∃ rest : Option (List Plot),
      circleLoop plotFunction (fuel + 3) 0 2147483520 (wrapInt32 (3 - 2 * 2147483520)) =
        rest.map fun r => plotFunction 0 2147483520 ++ (plotFunction 1 2147483519 ++
          (plotFunction 2 2147483518 ++ r))) ∧
    ¬ ((2147483520 - 1 : ℤ) ^ 2 < 2 ^ 2 + 2147483518 ^ 2) := by
  refine ⟨?_, ?_, fun pf fuel => ⟨_, circleLoop_wrapped pf fuel⟩, by decide⟩
  · exact circleLoop_ends (R + 1).toNat 0 R _ (by omega)
  · intro hb
    have hw : wrapInt32 (3 - 2 * R) = 3 - 2 * R := wrapInt32_of_range _ (by omega) (by omega)
    rw [hw]
    obtain ⟨offsets, h1, h2, h3⟩ := circleLoop_spec R hb (R + 1).toNat 0 R (3 - 2 * R)
      (circleInv_init R hR) (by omega)
    refine ⟨offsets, h1, ?_, h2 (by omega), h3⟩
    intro ctx cx cy cz radius hr
    rw [drawBresenhamCircle_loop ctx cx cy cz radius (by omega), hr, hw]
    exact h1 _ _ (le_refl _)

theorem circle_offsets_near_circle_witness :
    (1 : ℤ) ≤ 5 ∧ ∃ offsets : List (ℤ × ℤ),
      (∀ (plotFunction : ℤ → ℤ → List Plot) (fuel : ℕ), ((5 : ℤ) + 1).toNat ≤ fuel →
        circleLoop plotFunction fuel 0 5 (wrapInt32 (3 - 2 * 5)) =
          some (offsets.flatMap fun o => plotFunction o.1 o.2)) ∧
      (∀ (ctx : SGLContext) (cx cy cz radius : ℚ),
        roundToInt (F32.mul radius ctx.scaleFactor) = 5 →
        drawBresenhamCircle ctx cx cy cz radius =
          some (offsets.flatMap fun o => circlePlotFunction ctx cx cy cz o.1 o.2)) ∧
      offsets.head? = some (0, 5) ∧
      ∀ o ∈ offsets, 0 ≤ o.1 ∧ o.1 ≤ o.2 ∧ o.2 ≤ 5 ∧ ((5 : ℤ) - 1) ^ 2 < o.1 ^ 2 + o.2 ^ 2 ∧
        o.1 ^ 2 + o.2 ^ 2 < ((5 : ℤ) + 1) ^ 2 :=
  ⟨by decide, (circle_offsets_near_circle 5 (by decide)).2.1 (by decide)⟩

/-! ## The accesses of the drawing operations -/

/-- When every access is defined the run is the run of the submissions. -/
theorem runDefinedPlots_eq (plots : List Plot) : ∀ (ctx ctx1 : SGLContext),
    runDefinedPlots ctx plots = some ctx1 → ctx1 = runPlots ctx plots := by
  induction plots with
  | nil =>
    intro ctx ctx1 h
    simp only [runDefinedPlots, Option.some.injEq] at h
    exact h.symm
  | cons pl rest ih =>
    intro ctx ctx1 h
    unfold runDefinedPlots at h
    split at h
    · exact ih _ _ h
    · exact absurd h (by simp)

/-- With the depth test disabled every bounds-checked submission is defined
on a context whose colour buffer has `width * height` entries. -/
theorem runDefinedPlots_checked (plots : List Plot) (hall : ∀ pl ∈ plots, pl.isChecked = true) :
    ∀ ctx : SGLContext, ctx.enabledDepthTest = false →
      ctx.colorBuffer.length = (ctx.width * ctx.height).toNat →
      runDefinedPlots ctx plots = some (runPlots ctx plots) := by
  induction plots with
  | nil => intro ctx _ _; rfl
  | cons pl rest ih =>
    intro ctx hd hlen
    have hdef : pl.defined ctx := by
      cases pl with
      | checked p =>
        intro hin
        obtain ⟨i0, i1⟩ := index_inCanvas hin hlen
        exact ⟨i0, i1, fun h => absurd h (by rw [hd]; simp)⟩
      | unchecked p =>
        have := hall _ (List.mem_cons_self _ _)
        simp [Plot.isChecked] at this
    have hstep : (pl.apply ctx).enabledDepthTest = false ∧
        (pl.apply ctx).colorBuffer.length =
          ((pl.apply ctx).width * (pl.apply ctx).height).toNat := by
      rcases (Plot.apply_disabled ctx pl hd).1 with h | h
      · rw [h]
        exact ⟨hd, hlen⟩
      · rw [h]
        refine ⟨hd, ?_⟩
        show (bufSet _ _ _).length = _
        rw [bufSet_length]
        exact hlen
    unfold runDefinedPlots
    rw [if_pos hdef, ih (fun pl h => hall pl (List.mem_cons_of_mem _ h)) _ hstep.1 hstep.2]
    rfl

theorem drawPoints_checked (ctx : SGLContext) : ∀ pl ∈ drawPoints ctx, pl.isChecked = true := by
  intro pl h
  unfold drawPoints at h
  simp only [List.mem_flatMap, List.mem_map] at h
  obtain ⟨_, _, _, _, _, _, rfl⟩ := h
  rfl

theorem lineLoop_checked (dX dY sX sY : ℤ) (invZStep : ℚ) (finish : ScreenVertex) (fuel : ℕ) :
    ∀ (st : LineState) (plots : List Plot),
      lineLoop dX dY sX sY invZStep finish fuel st = some plots →
      ∀ pl ∈ plots, pl.isChecked = true := by
  induction fuel with
  | zero =>
    intro st plots h pl hpl
    rw [lineLoop_zero] at h
    split at h
    · exact absurd h (by simp)
    · simp only [Option.some.injEq] at h
      rw [← h, List.mem_singleton] at hpl
      rw [hpl]
      rfl
  | succ k ih =>
    intro st plots h pl hpl
    rw [lineLoop_succ] at h
    split at h
    · simp only [Option.map_eq_some'] at h
      obtain ⟨rest, hrest, rfl⟩ := h
      rcases List.mem_cons.mp hpl with rfl | hmem
      · rfl
      · exact ih _ _ hrest pl hmem
    · simp only [Option.some.injEq] at h
      rw [← h, List.mem_singleton] at hpl
      rw [hpl]
      rfl

theorem drawBresenhamLineFuel_checked (m : Libm) (fuel : ℕ) (a b : ScreenVertex)
    (plots : List Plot) (h : drawBresenhamLineFuel m fuel a b = some plots) :
    ∀ pl ∈ plots, pl.isChecked = true := by
  unfold drawBresenhamLineFuel at h
  dsimp only at h
  split at h
  · simp only [Option.some.injEq] at h
    rw [← h]
    intro pl hpl
    exact absurd hpl (List.not_mem_nil _)
  · exact lineLoop_checked _ _ _ _ _ _ _ _ _ h

/-- What every submission of the plot function satisfies, every submission of
the circle loop satisfies. -/
theorem circleLoop_all (P : Plot → Prop) (plotFunction : ℤ → ℤ → List Plot)
    (hP : ∀ x y : ℤ, ∀ pl ∈ plotFunction x y, P pl) (fuel : ℕ) :
    ∀ (x y d : ℤ) (plots : List Plot), circleLoop plotFunction fuel x y d = some plots →
      ∀ pl ∈ plots, P pl := by
  induction fuel with
  | zero =>
    intro x y d plots h pl hpl
    unfold circleLoop at h
    split at h
    · exact absurd h (by simp)
    · simp only [Option.some.injEq] at h
      rw [← h] at hpl
      exact absurd hpl (List.not_mem_nil _)
  | succ k ih =>
    intro x y d plots h pl hpl
    by_cases hxy : y ≥ x
    · rw [circleLoop_succ _ _ _ _ _ hxy] at h
      simp only [Option.map_eq_some'] at h
      obtain ⟨rest, hrest, rfl⟩ := h
      rcases List.mem_append.mp hpl with h1 | h1
      · exact hP x y pl h1
      · split at hrest
        · exact ih _ _ _ _ hrest pl h1
        · exact ih _ _ _ _ hrest pl h1
    · rw [circleLoop_exit _ _ _ _ _ hxy] at h
      simp only [Option.some.injEq] at h
      rw [← h] at hpl
      exact absurd hpl (List.not_mem_nil _)

theorem plotCirclePoints_checked (cx cy : ℤ) (depth : ℚ) (x y : ℤ) :
    ∀ pl ∈ plotCirclePoints cx cy depth x y, pl.isChecked = true := by
  intro pl h
  simp only [plotCirclePoints, plotTransformedPoint, List.mem_append, List.mem_singleton] at h
  rcases h with ((((((h | h) | h) | h) | h) | h) | h) | h <;> rw [h] <;> rfl

theorem circle_outline_checked (fuel : ℕ) (ctx : SGLContext) (cx cy cz radius : ℚ)
    (hm : ctx.currentAreaMode = SGL_LINE) (plots : List Plot)
    (h : drawBresenhamCircleFuel fuel ctx cx cy cz radius = some plots) :
    ∀ pl ∈ plots, pl.isChecked = true := by
  unfold drawBresenhamCircleFuel at h
  dsimp only at h
  split at h
  · simp only [plotTransformedPoint, Option.some.injEq] at h
    rw [← h]
    intro pl hpl
    rw [List.mem_singleton] at hpl
    rw [hpl]
    rfl
  · exact circleLoop_all _ _ (plotCirclePoints_checked _ _ _) _ _ _ _ _ h

/-- C4. With the depth test disabled, a drawing operation (points, a Bresenham
line, the circle as outline or filled, the polygon fill) whose accesses stay
inside the two buffers leaves the depth buffer as it was, and every fragment
it submits that lies inside the canvas has the current colour at its pixel
afterwards, whatever depth was stored there. The accesses do stay inside the
buffers for the points, the line and the circle outline, whose fragments all
go through the bounds check. They do not for the filled circle: its rows are
not tested, and the circle of centre `(5, 5)` and radius 7 on the 10 by 10
canvas executes `colorBuffer[125] = color` on a vector of 100 entries, an
undefined write, after which nothing is established about either buffer. -/
theorem depth_disabled_frame (m : Libm) (ctx : SGLContext) (op : DrawOp) (plots : List Plot)
    (hd : ctx.enabledDepthTest = false)
    (hlen : ctx.colorBuffer.length = (ctx.width * ctx.height).toNat)
    (hop : op.plots m ctx = some plots) :
    (∀ ctx1 : SGLContext, runDefinedPlots ctx plots = some ctx1 →
      ctx1.depthBuffer = ctx.depthBuffer ∧
      ∀ pl ∈ plots, inCanvas ctx pl.point → pixelAt ctx1 pl.point = some ctx.currentColor) ∧
    ((op = .points ∨ (∃ fuel a b, op = .line fuel a b) ∨
        (ctx.currentAreaMode = SGL_LINE ∧ ∃ fuel cx cy cz radius,
          op = .circle fuel cx cy cz radius)) →
      ∃ ctx1 : SGLContext, runDefinedPlots ctx plots = some ctx1) ∧
    filledCircleDisabled = some (false, true, false) ∧
    (coord2DTo1D 5 12 10 = 125 ∧ (circleDemo SGL_FILL).map (fun plots =>
      plots.all fun pl => !pl.isChecked) = some true) := by
  refine ⟨?_, ?_, by decide!, by decide!, by decide!⟩
  · intro ctx1 h1
    rw [runDefinedPlots_eq plots ctx ctx1 h1]
    have h := runPlots_disabled plots ctx hd hlen
    exact ⟨h.1, h.2.2⟩
  · intro hcase
    have hall : ∀ pl ∈ plots, pl.isChecked = true := by
      rcases hcase with rfl | ⟨fuel, a, b, rfl⟩ | ⟨hm, fuel, cx, cy, cz, radius, rfl⟩
      · simp only [DrawOp.plots, Option.some.injEq] at hop
        rw [← hop]
        exact drawPoints_checked ctx
      · exact drawBresenhamLineFuel_checked m fuel a b plots hop
      · exact circle_outline_checked fuel ctx cx cy cz radius hm plots hop
    exact ⟨_, runDefinedPlots_checked plots hall ctx hd hlen⟩

theorem depth_disabled_frame_witness :
    ∃ ctx1 : SGLContext,
      runDefinedPlots (demoContext ⟨1, 0, 0⟩ false false [] SGL_LINES)
        [.checked ⟨0, 0, 1 / 2⟩, .checked ⟨1, 1, 1 / 2⟩] = some ctx1 ∧
      ctx1.depthBuffer = (demoContext ⟨1, 0, 0⟩ false false [] SGL_LINES).depthBuffer ∧
      ∀ pl ∈ [Plot.checked ⟨0, 0, 1 / 2⟩, Plot.checked ⟨1, 1, 1 / 2⟩],
        inCanvas (demoContext ⟨1, 0, 0⟩ false false [] SGL_LINES) pl.point →
        pixelAt ctx1 pl.point =
          some (demoContext ⟨1, 0, 0⟩ false false [] SGL_LINES).currentColor := by
  have h := depth_disabled_frame demoEnv.libm (demoContext ⟨1, 0, 0⟩ false false [] SGL_LINES)
    (.line 2 ⟨0, 0, 1 / 2⟩ ⟨1, 1, 1 / 2⟩) [.checked ⟨0, 0, 1 / 2⟩, .checked ⟨1, 1, 1 / 2⟩]
    rfl (by decide) (by decide!)
  obtain ⟨ctx1, h1⟩ := h.2.1 (Or.inr (Or.inl ⟨_, _, _, rfl⟩))
  exact ⟨ctx1, h1, h.1 ctx1 h1⟩

/-! ## The row bands of the ray tracer -/

theorem range_cast (n : ℕ) :
    (do let a ← List.range n; pure (a : ℤ)) = (List.range n).map fun a : ℕ => (a : ℤ) := by
  simp only [List.bind_eq_flatMap, List.pure_def]
  induction List.range n with
  | nil => rfl
  | cons a l ih => rw [List.flatMap_cons, ih]; rfl

/-- The workers of `sglRayTraceScene` run `raycastSegment` on the bands
`rowBand`. -/
theorem sglRayTraceScene_bands (env : Env) :
    sglRayTraceScene env =
      guarded ((contextNotInitialized.or calledWithinBeginEnd).or calledWithinBeginSceneEndScene)
        (modifyContext fun ctx0 => do
          let ctx ← recalculateRaytracingVPMMatrix ctx0
          if (ctx.VPMmatrix.Invert).1 ≠ 0 then some ctx
          else if env.hardwareConcurrency = 0 then none
          else
            (List.range env.hardwareConcurrency).foldlM (fun c i =>
              raycastSegment env (rowBand ctx.height env.hardwareConcurrency i).1
                (rowBand ctx.height env.hardwareConcurrency i).2 ctx.width
                (ctx.VPMmatrix.Invert).2 c) ctx) := by
  unfold sglRayTraceScene
  refine congrArg _ ?_
  refine congrArg _ ?_
  funext ctx0
  cases recalculateRaytracingVPMMatrix ctx0 with
  | none => rfl
  | some ctx =>
    simp only [Option.bind_eq_bind, Option.some_bind]
    by_cases h1 : (ctx.VPMmatrix.Invert).1 ≠ 0
    · rw [if_pos h1, if_pos h1]
    · rw [if_neg h1, if_neg h1]
      by_cases h2 : env.hardwareConcurrency = 0
      · rw [if_pos h2, if_pos h2]
      · rw [if_neg h2, if_neg h2, range_cast, List.foldlM_map]
        refine congrArg (fun f => List.foldlM f ctx (List.range env.hardwareConcurrency)) ?_
        funext c i
        have e : ((i : ℤ) = (env.hardwareConcurrency : ℤ) - 1) ↔ i = env.hardwareConcurrency - 1 := by
          omega
        unfold rowBand
        simp only [e]
theorem rowBand_eq (h : ℤ) (n i : ℕ) (hh : 0 ≤ h) :
    rowBand h n i = ((i : ℤ) * (h / (n : ℤ)),
      if i = n - 1 then h else ((i : ℤ) + 1) * (h / (n : ℤ))) := by
  have e : (((h.toNat / n : ℕ)) : ℤ) = h / (n : ℤ) := by
    rw [Int.natCast_div, Int.toNat_of_nonneg hh]
  unfold rowBand
  simp only [e]

theorem rowBand_regular (h : ℤ) (n : ℕ) (hh : 0 ≤ h) : ∀ k : ℕ, k ≤ n - 1 →
    (List.range k).flatMap (fun i => intRange (rowBand h n i).1 (rowBand h n i).2) =
      intRange 0 ((k : ℤ) * (h / (n : ℤ))) := by
  have hq : 0 ≤ h / (n : ℤ) := Int.ediv_nonneg hh (Int.natCast_nonneg n)
  intro k
  induction k with
  | zero =>
    intro _
    simp [intRange]
  | succ k ih =>
    intro hk
    rw [List.range_succ, List.flatMap_append, ih (by omega)]
    simp only [List.flatMap_cons, List.flatMap_nil, List.append_nil]
    rw [rowBand_eq h n k hh]
    simp only
    rw [if_neg (by omega)]
    have e : ((k + 1 : ℕ) : ℤ) = (k : ℤ) + 1 := by push_cast; ring
    rw [e]
    exact intRange_append 0 _ _ (mul_nonneg (Int.natCast_nonneg k) hq)
      (mul_le_mul_of_nonneg_right (by omega) hq)

/-- The bands of the workers, one after the other, are the rows `0 .. h - 1`. -/
theorem rowBand_concat (h : ℤ) (n : ℕ) (hh : 0 ≤ h) (hn : 1 ≤ n) :
    (List.range n).flatMap (fun i => intRange (rowBand h n i).1 (rowBand h n i).2) =
      intRange 0 h := by
  have hq : 0 ≤ h / (n : ℤ) := Int.ediv_nonneg hh (Int.natCast_nonneg n)
  obtain ⟨m, rfl⟩ : ∃ m, n = m + 1 := ⟨n - 1, by omega⟩
  rw [List.range_succ, List.flatMap_append, rowBand_regular h (m + 1) hh m (by omega)]
  simp only [List.flatMap_cons, List.flatMap_nil, List.append_nil]
  rw [rowBand_eq h (m + 1) m hh]
  simp only
  rw [if_pos (by omega)]
  refine intRange_append 0 _ _ (mul_nonneg (Int.natCast_nonneg m) hq) ?_
  have h1 : ((m + 1 : ℕ) : ℤ) * (h / ((m + 1 : ℕ) : ℤ)) ≤ h :=
    Int.mul_ediv_self_le (by push_cast; omega)
  have h2 : (m : ℤ) * (h / ((m + 1 : ℕ) : ℤ)) ≤ ((m + 1 : ℕ) : ℤ) * (h / ((m + 1 : ℕ) : ℤ)) :=
    mul_le_mul_of_nonneg_right (by push_cast; omega) hq
  omega

theorem foldlM_flatMap {α β : Type} (f : α → List β) (g : SGLContext → β → Option SGLContext) :
    ∀ (l : List α) (ctx : SGLContext),
      (l.flatMap f).foldlM g ctx = l.foldlM (fun c a => (f a).foldlM g c) ctx := by
  intro l
  induction l with
  | nil => intro ctx; rfl
  | cons a l ih =>
    intro ctx
    rw [List.flatMap_cons, List.foldlM_append, List.foldlM_cons]
    cases (f a).foldlM g ctx with
    | none => rfl
    | some c => exact ih c

theorem rowBand_order (h : ℤ) (n i j : ℕ) (hh : 0 ≤ h) (hij : i < j) (hj : j < n) :
    (rowBand h n i).2 ≤ (rowBand h n j).1 := by
  have hq : 0 ≤ h / (n : ℤ) := Int.ediv_nonneg hh (Int.natCast_nonneg n)
  rw [rowBand_eq h n i hh, rowBand_eq h n j hh]
  simp only
  rw [if_neg (by omega)]
  exact mul_le_mul_of_nonneg_right (by omega) hq

/-- The calls a call at `depth` records, when the recursive calls return what
`T` says: itself alone, or itself and then one or two recursive calls. -/
theorem traceSecondary_spec (rm : RayMath) (ray : Ray) (depth : ℤ)
    (intersectionPoint normal biasedPoint : Vertex) (mat : Material) (color : Pixel)
    (T : Ray → Traced) :
    ∃ t : Traced,
      (∀ recurse : Ray → Option Traced, (∀ r, recurse r = some (T r)) →
        traceSecondary rm recurse ray depth intersectionPoint normal biasedPoint mat color =
          some t) ∧
      (t.calls = [depth] ∨ (∃ r, t.calls = depth :: (T r).calls) ∨
        ∃ r1 r2, t.calls = depth :: (T r1).calls ++ (T r2).calls) := by
  by_cases hK : mat.KSpecular > 0
  · obtain ⟨r1, hr1⟩ : ∃ r1 : Ray, r1 = ⟨biasedPoint,
      (ray.direction.sub (normal.smul (2 * DotProd normal ray.direction))).Normalize rm.libm⟩ :=
      ⟨_, rfl⟩
    cases hc : (T r1).color with
    | none =>
      refine ⟨⟨depth :: (T r1).calls, none⟩, fun recurse hr => ?_, Or.inr (Or.inl ⟨r1, rfl⟩)⟩
      unfold traceSecondary
      simp only [if_pos hK, ← hr1, hr r1, Option.map_some', hc, Option.map_none']
    | some c1 =>
      by_cases hT : mat.T > 0 ∧ (RefractRay rm.libm normal mat.IOR ray ray).1 = true
      · obtain ⟨r2, hr2⟩ : ∃ r2 : Ray, r2 = ⟨intersectionPoint.sub (normal.smul INTERSECTION_BIAS),
          (RefractRay rm.libm normal mat.IOR ray ray).2.direction.Normalize rm.libm⟩ := ⟨_, rfl⟩
        refine ⟨⟨depth :: (T r1).calls ++ (T r2).calls, (T r2).color.map fun refractedColor =>
          (color.add (c1.smul mat.KSpecular)).add (refractedColor.smul mat.T)⟩,
          fun recurse hr => ?_, Or.inr (Or.inr ⟨r1, r2, rfl⟩)⟩
        unfold traceSecondary
        simp only [if_pos hK, ← hr1, hr r1, Option.map_some', hc, if_pos hT.1, hT.2, if_true,
          ← hr2, hr r2]
      · refine ⟨⟨depth :: (T r1).calls, some (color.add (c1.smul mat.KSpecular))⟩,
          fun recurse hr => ?_, Or.inr (Or.inl ⟨r1, rfl⟩)⟩
        unfold traceSecondary
        simp only [if_pos hK, ← hr1, hr r1, Option.map_some', hc]
        by_cases h1 : mat.T > 0
        · have h2 : (RefractRay rm.libm normal mat.IOR ray ray).1 = false := by
            cases h : (RefractRay rm.libm normal mat.IOR ray ray).1
            · rfl
            · exact absurd ⟨h1, h⟩ hT
          simp only [if_pos h1, h2, Bool.false_eq_true, if_false]
        · simp only [if_neg h1]
  · by_cases hT : mat.T > 0 ∧ (RefractRay rm.libm normal mat.IOR ray ray).1 = true
    · obtain ⟨r2, hr2⟩ : ∃ r2 : Ray, r2 = ⟨intersectionPoint.sub (normal.smul INTERSECTION_BIAS),
        (RefractRay rm.libm normal mat.IOR ray ray).2.direction.Normalize rm.libm⟩ := ⟨_, rfl⟩
      refine ⟨⟨depth :: (T r2).calls, (T r2).color.map fun refractedColor =>
        color.add (refractedColor.smul mat.T)⟩,
        fun recurse hr => ?_, Or.inr (Or.inl ⟨r2, rfl⟩)⟩
      unfold traceSecondary
      simp only [if_neg hK, if_pos hT.1, hT.2, if_true, ← hr2, hr r2, Option.map_some']
      rfl
    · refine ⟨⟨[depth], some color⟩, fun recurse hr => ?_, Or.inl rfl⟩
      unfold traceSecondary
      simp only [if_neg hK]
      by_cases h1 : mat.T > 0
      · have h2 : (RefractRay rm.libm normal mat.IOR ray ray).1 = false := by
          cases h : (RefractRay rm.libm normal mat.IOR ray ray).1
          · rfl
          · exact absurd ⟨h1, h⟩ hT
        simp only [if_pos h1, h2, Bool.false_eq_true, if_false]
      · simp only [if_neg h1]

/-- At `MAX_RECURSION_DEPTH` and beyond the body makes no recursive call. -/
theorem traceRayBody_leaf (rm : RayMath) (ctx : SGLContext) (ray : Ray) (depth : ℤ)
    (hd : ¬ depth < MAX_RECURSION_DEPTH) :
    ∃ t : Traced, (∀ recurse : Ray → Option Traced,
      traceRayBody rm ctx recurse ray depth = some t) ∧ t.calls = [depth] := by
  unfold traceRayBody
  simp only [if_neg hd]
  split
  · exact ⟨_, fun _ => rfl, rfl⟩
  · exact ⟨_, fun _ => rfl, rfl⟩
  · split
    · exact ⟨_, fun _ => rfl, rfl⟩
    · split
      · exact ⟨_, fun _ => rfl, rfl⟩
      · exact ⟨_, fun _ => rfl, rfl⟩

/-- The body returns whenever the recursive calls do, and records itself and
then at most two recursive calls. -/
theorem traceRayBody_spec (rm : RayMath) (ctx : SGLContext) (ray : Ray) (depth : ℤ)
    (T : Ray → Traced) :
    ∃ t : Traced,
      (∀ recurse : Ray → Option Traced, (∀ r, recurse r = some (T r)) →
        traceRayBody rm ctx recurse ray depth = some t) ∧
      (t.calls = [depth] ∨ (∃ r, t.calls = depth :: (T r).calls) ∨
        ∃ r1 r2, t.calls = depth :: (T r1).calls ++ (T r2).calls) := by
  by_cases hd : depth < MAX_RECURSION_DEPTH
  · unfold traceRayBody
    simp only [if_pos hd]
    split
    · exact ⟨_, fun _ _ => rfl, Or.inl rfl⟩
    · exact ⟨_, fun _ _ => rfl, Or.inl rfl⟩
    · split
      · exact ⟨_, fun _ _ => rfl, Or.inl rfl⟩
      · split
        · exact ⟨_, fun _ _ => rfl, Or.inl rfl⟩
        · exact traceSecondary_spec rm ray depth _ _ _ _ _ T
  · obtain ⟨t, h1, h2⟩ := traceRayBody_leaf rm ctx ray depth hd
    exact ⟨t, fun recurse _ => h1 recurse, Or.inl h2⟩

theorem traceRay_succ (rm : RayMath) (ctx : SGLContext) (fuel : ℕ) (ray : Ray) (depth : ℤ) :
    traceRay rm ctx (fuel + 1) ray depth =
      traceRayBody rm ctx (fun r => traceRay rm ctx fuel r (depth + 1)) ray depth := rfl

/-- With `k + 1` nested calls allowed, where `k` is at least the distance of
`depth` from `MAX_RECURSION_DEPTH`, `traceRay` returns; the result is the
same for every larger allowance, every recorded call has a depth between
`depth` and `MAX_RECURSION_DEPTH` (or is the call itself), and fewer than
`2 ^ (k + 1)` calls are made. -/
theorem traceRay_spec (rm : RayMath) (ctx : SGLContext) : ∀ (k : ℕ) (ray : Ray) (depth : ℤ),
    (MAX_RECURSION_DEPTH - depth).toNat ≤ k →
    ∃ t : Traced, (∀ fuel : ℕ, k + 1 ≤ fuel → traceRay rm ctx fuel ray depth = some t) ∧
      t.calls.head? = some depth ∧
      (∀ d ∈ t.calls, depth ≤ d ∧ d ≤ max depth MAX_RECURSION_DEPTH) ∧
      t.calls.length + 1 ≤ 2 ^ (k + 1) := by
  intro k
  induction k with
  | zero =>
    intro ray depth hk
    have hd : ¬ depth < MAX_RECURSION_DEPTH := by omega
    obtain ⟨t, h1, h2⟩ := traceRayBody_leaf rm ctx ray depth hd
    refine ⟨t, ?_, ?_, ?_, ?_⟩
    · intro fuel hf
      obtain ⟨f, rfl⟩ : ∃ f, fuel = f + 1 := ⟨fuel - 1, by omega⟩
      rw [traceRay_succ]
      exact h1 _
    · rw [h2]
      rfl
    · intro d hdm
      rw [h2, List.mem_singleton] at hdm
      rw [hdm]
      exact ⟨le_refl _, le_max_left _ _⟩
    · rw [h2]
      simp only [List.length_singleton]
      norm_num
  | succ k ih =>
    intro ray depth hk
    by_cases hd : depth < MAX_RECURSION_DEPTH
    · have ih1 : ∀ r : Ray, ∃ t : Traced,
          (∀ fuel : ℕ, k + 1 ≤ fuel → traceRay rm ctx fuel r (depth + 1) = some t) ∧
          t.calls.head? = some (depth + 1) ∧
          (∀ d ∈ t.calls, depth + 1 ≤ d ∧ d ≤ max (depth + 1) MAX_RECURSION_DEPTH) ∧
          t.calls.length + 1 ≤ 2 ^ (k + 1) := fun r => ih r (depth + 1) (by omega)
      choose T hT using ih1
      obtain ⟨t, h1, h2⟩ := traceRayBody_spec rm ctx ray depth T
      have hmax : max (depth + 1) MAX_RECURSION_DEPTH = max depth MAX_RECURSION_DEPTH := by
        rw [max_eq_right (by omega), max_eq_right (by omega)]
      have hsub : ∀ r, ∀ d ∈ (T r).calls, depth ≤ d ∧ d ≤ max depth MAX_RECURSION_DEPTH := by
        intro r d hdm
        have := (hT r).2.2.1 d hdm
        rw [hmax] at this
        exact ⟨by omega, this.2⟩
      have hpow : 2 ^ (k + 1 + 1) = 2 * 2 ^ (k + 1) := by ring
      have hpos : 1 ≤ 2 ^ (k + 1) := Nat.one_le_two_pow
      refine ⟨t, ?_, ?_, ?_, ?_⟩
      · intro fuel hf
        obtain ⟨f, rfl⟩ : ∃ f, fuel = f + 1 := ⟨fuel - 1, by omega⟩
        rw [traceRay_succ]
        exact h1 _ (fun r => (hT r).1 f (by omega))
      · rcases h2 with h | ⟨r, h⟩ | ⟨r1, r2, h⟩ <;> rw [h] <;> rfl
      · intro d hdm
        rcases h2 with h | ⟨r, h⟩ | ⟨r1, r2, h⟩
        · rw [h, List.mem_singleton] at hdm
          rw [hdm]
          exact ⟨le_refl _, le_max_left _ _⟩
        · rw [h, List.mem_cons] at hdm
          rcases hdm with rfl | hdm
          · exact ⟨le_refl _, le_max_left _ _⟩
          · exact hsub r d hdm
        · rw [h, List.cons_append, List.mem_cons, List.mem_append] at hdm
          rcases hdm with rfl | hdm | hdm
          · exact ⟨le_refl _, le_max_left _ _⟩
          · exact hsub r1 d hdm
          · exact hsub r2 d hdm
      · rcases h2 with h | ⟨r, h⟩ | ⟨r1, r2, h⟩
        · rw [h, hpow]
          simp only [List.length_singleton]
          omega
        · have := (hT r).2.2.2
          rw [h, hpow, List.length_cons]
          omega
        · have e1 := (hT r1).2.2.2
          have e2 := (hT r2).2.2.2
          rw [h, hpow, List.cons_append, List.length_cons, List.length_append]
          omega
    · obtain ⟨t, h1, h2⟩ := traceRayBody_leaf rm ctx ray depth hd
      have hpos : 1 ≤ 2 ^ (k + 1) := Nat.one_le_two_pow
      have hpow : 2 ^ (k + 1 + 1) = 2 * 2 ^ (k + 1) := by ring
      refine ⟨t, ?_, ?_, ?_, ?_⟩
      · intro fuel hf
        obtain ⟨f, rfl⟩ : ∃ f, fuel = f + 1 := ⟨fuel - 1, by omega⟩
        rw [traceRay_succ]
        exact h1 _
      · rw [h2]
        rfl
      · intro d hdm
        rw [h2, List.mem_singleton] at hdm
        rw [hdm]
        exact ⟨le_refl _, le_max_left _ _⟩
      · rw [h2, hpow]
        simp only [List.length_singleton]
        omega

/-- C31. `traceRay(ray, depth)` returns for every scene, ray and depth: with
`(MAX_RECURSION_DEPTH - depth) + 1` nested calls allowed (at least one) it has
a result, the same for every larger allowance.  The calls it makes start with
itself, every one of them has a depth from `depth` up to
`MAX_RECURSION_DEPTH = 8` (a call at 8 or above makes no further call), and
there are at most `2 ^ ((8 - depth) + 1) - 1` of them: started at depth 0, no
call has a depth above 8 and at most `2 ^ 9 - 1 = 511` calls are made. -/
theorem traceRay_terminates (rm : RayMath) (ctx : SGLContext) (ray : Ray) :
    (∀ depth : ℤ, ∃ t : Traced,
      (∀ fuel : ℕ, (MAX_RECURSION_DEPTH - depth).toNat + 1 ≤ fuel →
        traceRay rm ctx fuel ray depth = some t) ∧
      t.calls.head? = some depth ∧
      (∀ d ∈ t.calls, depth ≤ d ∧ d ≤ max depth MAX_RECURSION_DEPTH) ∧
      (¬ depth < MAX_RECURSION_DEPTH → t.calls = [depth]) ∧
      t.calls.length ≤ 2 ^ ((MAX_RECURSION_DEPTH - depth).toNat + 1) - 1) ∧
    ∃ t : Traced, (∀ fuel : ℕ, 9 ≤ fuel → traceRay rm ctx fuel ray 0 = some t) ∧
      (∀ d ∈ t.calls, 0 ≤ d ∧ d ≤ 8) ∧ t.calls.length ≤ 511 := by
  have hgen : ∀ depth : ℤ, ∃ t : Traced,
      (∀ fuel : ℕ, (MAX_RECURSION_DEPTH - depth).toNat + 1 ≤ fuel →
        traceRay rm ctx fuel ray depth = some t) ∧
      t.calls.head? = some depth ∧
      (∀ d ∈ t.calls, depth ≤ d ∧ d ≤ max depth MAX_RECURSION_DEPTH) ∧
      (¬ depth < MAX_RECURSION_DEPTH → t.calls = [depth]) ∧
      t.calls.length ≤ 2 ^ ((MAX_RECURSION_DEPTH - depth).toNat + 1) - 1 := by
    intro depth
    obtain ⟨t, h1, h2, h3, h4⟩ :=
      traceRay_spec rm ctx (MAX_RECURSION_DEPTH - depth).toNat ray depth (le_refl _)
    refine ⟨t, h1, h2, h3, ?_, by omega⟩
    intro hd
    obtain ⟨t', h5, h6⟩ := traceRayBody_leaf rm ctx ray depth hd
    have h7 := h1 ((MAX_RECURSION_DEPTH - depth).toNat + 1) (le_refl _)
    rw [traceRay_succ, h5] at h7
    rw [← Option.some.inj h7]
    exact h6
  refine ⟨hgen, ?_⟩
  obtain ⟨t, h1, _, h3, _, h5⟩ := hgen 0
  exact ⟨t, h1, h3, h5⟩

theorem traceRay_terminates_witness :
    (∃ t : Traced, (∀ fuel : ℕ, 9 ≤ fuel → traceRay squareMath mirrorContext fuel mirrorRay 0 =
        some t) ∧ (∀ d ∈ t.calls, 0 ≤ d ∧ d ≤ 8) ∧ t.calls.length ≤ 511) ∧
    (traceRay squareMath mirrorContext 3 mirrorRay 6).map (fun t => t.calls) =
      some [6, 7, 8, 8, 7, 8, 8] ∧
    traceRay squareMath mirrorContext 2 mirrorRay 6 = none :=
  ⟨(traceRay_terminates squareMath mirrorContext mirrorRay).2, by decide!, by decide!⟩

end SGL
